import Mathlib

/-!
# Lithium compiler: parser and code generator

A shallow embedding of `tokenization.hpp`, `parser.hpp` and `generationWin.hpp`,
followed by the properties proved about them.

Conventions of the embedding.

* `std::optional<T>` is `Option T`; a `.value()` on an empty optional (which throws
  `std::bad_optional_access`) and a `vector::at` past the end (which throws
  `std::out_of_range`) end the run with the corresponding `Halt`.
* `error(...)` followed by `exit(EXIT_FAILURE)` ends the run with `Halt.diag`.
* The arena allocator only provides storage; nodes are values of inductive types.
* Every recursive parser function takes a `fuel` argument that is decremented at each
  call; running out of it is `Halt.out_of_fuel`, which is not a behaviour of the source.
-/

namespace Lithium

/-! ## tokenization.hpp -/

/-- The enumeration `TokenType`.  (`let_` stands for the enumerator `let`.) -/
inductive TokenType
  | _exit | int_lit | semi | open_paren | close_paren | ident | let_ | eq
  | plus | star | minus | fslash | pluseq | stareq | minuseq | fslasheq
  | open_curly | close_curly | if_ | else_
  deriving DecidableEq, Repr

/-- Binary operator precedence, `bin_prec`. -/
def bin_prec : TokenType → Option Int
  | .plus => some 0
  | .minus => some 0
  | .fslash => some 1
  | .star => some 1
  | _ => none

/-- The record `Token`. -/
structure Token where
  type : TokenType
  line : Int
  col : Int
  value : Option String
  deriving DecidableEq, Repr

/-! ## parser.hpp: the syntax tree -/

mutual
/-- The variant `NodeTerm` over `NodeTermIntLit`, `NodeTermIdent`, `NodeTermParen`. -/
inductive NodeTerm
  | int_lit (int_lit : Token)
  | ident (ident : Token)
  | paren (expr : NodeExpr)
/-- The variant `NodeBinExpr` over `NodeBinExprAdd`, `Sub`, `Multi`, `Div`. -/
inductive NodeBinExpr
  | add (lhs rhs : NodeExpr)
  | sub (lhs rhs : NodeExpr)
  | multi (lhs rhs : NodeExpr)
  | div (lhs rhs : NodeExpr)
/-- The variant `NodeExpr` over `NodeTerm` and `NodeBinExpr`. -/
inductive NodeExpr
  | term (t : NodeTerm)
  | bin_expr (b : NodeBinExpr)
end

/-- The variant `NodeStmtSet`; each alternative carries the target and the expression. -/
inductive NodeStmtSet
  | set_expr (ident : Token) (expr : NodeExpr)
  | set_add (ident : Token) (expr : NodeExpr)
  | set_multi (ident : Token) (expr : NodeExpr)
  | set_sub (ident : Token) (expr : NodeExpr)
  | set_div (ident : Token) (expr : NodeExpr)

mutual
/-- The variant `NodeStmt`; `if_` carries the fields of `NodeStmtIf`. -/
inductive NodeStmt
  | exit (expr : NodeExpr)
  | let_ (ident : Token) (expr : NodeExpr)
  | set (s : NodeStmtSet)
  | scope (s : NodeScope)
  | if_ (expr : NodeExpr) (scope : NodeScope) (pred : Option NodeIfPred)
/-- The record `NodeScope`. -/
inductive NodeScope
  | mk (stmts : List NodeStmt)
/-- The variant `NodeIfPred` over `NodeIfPredElseIf` and `NodeIfPredElse`. -/
inductive NodeIfPred
  | else_if (expr : NodeExpr) (scope : NodeScope) (pred : Option NodeIfPred)
  | else_ (scope : NodeScope)
end

/-- The statements of a scope. -/
def NodeScope.stmts : NodeScope → List NodeStmt
  | .mk stmts => stmts

/-- The record `NodeProg`. -/
structure NodeProg where
  stmts : List NodeStmt

/-! ## parser.hpp: the parser -/

/-- How a run of the parser ends when it does not return. -/
inductive Halt
  /-- `error` printed `<srcName>:<line>:<col>: parse_error: <msg>`, then `exit(EXIT_FAILURE)` -/
  | diag (srcName : String) (line col : Int) (msg : String)
  /-- `.value()` on an empty optional -/
  | bad_optional_access
  /-- `m_tokens.at(i)` with `i` past the end -/
  | out_of_range
  /-- `assert(false)` -/
  | assert_false
  /-- the model ran out of fuel -/
  | out_of_fuel
  deriving DecidableEq, Repr

/-- The mutable members of `Parser`, with the source name. -/
structure Parser where
  m_srcName : String
  m_tokens : List Token
  m_index : Nat
  deriving DecidableEq, Repr

/-- `peek(offset)`.  The sum `m_index + offset` is computed in `size_t`: for a negative
offset that exceeds `m_index` it wraps to a value near `2^64`, which is past the end. -/
def Parser.peek (p : Parser) : Int → Option Token
  | Int.ofNat k => p.m_tokens[p.m_index + k]?
  | Int.negSucc k => if k < p.m_index then p.m_tokens[p.m_index - (k + 1)]? else none

/-- `consume()`: `m_tokens.at(m_index++)`. -/
def Parser.consume (p : Parser) : Except Halt (Token × Parser) :=
  match p.m_tokens[p.m_index]? with
  | some t => .ok (t, { p with m_index := p.m_index + 1 })
  | none => .error .out_of_range

/-- `error(msg, line, col)` up to the point where the diagnostic is printed; every call
site exits right after it.  `-1` stands for an argument left at its default. -/
def Parser.error (p : Parser) (msg : String) (line col : Int) : Halt :=
  match (if line = -1 then (p.peek (-1)).map (fun t => t.line) else some line) with
  | none => .bad_optional_access
  | some l =>
    match (if col = -1 then (p.peek (-1)).map (fun t => t.col + 1) else some col) with
    | none => .bad_optional_access
    | some c => .diag p.m_srcName l c msg

/-- `error_expected(msg, line, col)`. -/
def Parser.error_expected (p : Parser) (msg : String) (line col : Int) : Halt :=
  p.error ("Expected " ++ msg) line col

/-- The overload `try_consume(type)` returning an optional. -/
def Parser.try_consume (p : Parser) (type : TokenType) : Except Halt (Option Token × Parser) :=
  match p.peek 0 with
  | some t =>
    if t.type = type then
      match p.consume with
      | .ok (t, p) => .ok (some t, p)
      | .error h => .error h
    else .ok (none, p)
  | none => .ok (none, p)

/-- The overload `try_consume(type, err_msg, line, col)` that exits on a mismatch. -/
def Parser.try_consume_err (p : Parser) (type : TokenType) (err_msg : String)
    (line col : Int) : Except Halt (Token × Parser) :=
  match p.peek 0 with
  | some t => if t.type = type then p.consume else .error (p.error err_msg line col)
  | none => .error (p.error err_msg line col)

/-- The node built in the loop of `parse_expr` from the operator token. -/
def mk_bin_expr (op : TokenType) (lhs rhs : NodeExpr) : Option NodeExpr :=
  if op = .plus then some (.bin_expr (.add lhs rhs))
  else if op = .minus then some (.bin_expr (.sub lhs rhs))
  else if op = .star then some (.bin_expr (.multi lhs rhs))
  else if op = .fslash then some (.bin_expr (.div lhs rhs))
  else none

mutual
/-- `parse_term()`. -/
def Parser.parse_term : Nat → Parser → Except Halt (Option NodeTerm × Parser)
  | 0, _ => .error .out_of_fuel
  | fuel + 1, p =>
    match p.try_consume .int_lit with
    | .error h => .error h
    | .ok (some int_lit, p) => .ok (some (.int_lit int_lit), p)
    | .ok (none, p) =>
      match p.try_consume .ident with
      | .error h => .error h
      | .ok (some ident, p) => .ok (some (.ident ident), p)
      | .ok (none, p) =>
        match p.try_consume .open_paren with
        | .error h => .error h
        | .ok (none, p) => .ok (none, p)
        | .ok (some open_paren, p) =>
          match Parser.parse_expr fuel 0 p with
          | .error h => .error h
          | .ok (none, p) => .error (p.error_expected "expr" open_paren.line (-1))
          | .ok (some expr, p) =>
            match p.try_consume_err .close_paren "Expected ')'" open_paren.line (-1) with
            | .error h => .error h
            | .ok (_, p) => .ok (some (.paren expr), p)
/-- `parse_expr(min_prec)`. -/
def Parser.parse_expr : Nat → Int → Parser → Except Halt (Option NodeExpr × Parser)
  | 0, _, _ => .error .out_of_fuel
  | fuel + 1, min_prec, p =>
    match Parser.parse_term fuel p with
    | .error h => .error h
    | .ok (none, p) => .ok (none, p)
    | .ok (some term_lhs, p) => Parser.parse_expr_loop fuel min_prec (.term term_lhs) p
/-- The `while (true)` loop of `parse_expr`, entered with the current `expr_lhs`. -/
def Parser.parse_expr_loop : Nat → Int → NodeExpr → Parser →
    Except Halt (Option NodeExpr × Parser)
  | 0, _, _, _ => .error .out_of_fuel
  | fuel + 1, min_prec, expr_lhs, p =>
    match p.peek 0 with
    | none => .ok (some expr_lhs, p)
    | some curr_tok =>
      match bin_prec curr_tok.type with
      | none => .ok (some expr_lhs, p)
      | some prec =>
        if prec < min_prec then .ok (some expr_lhs, p)
        else
          match p.consume with
          | .error h => .error h
          | .ok (op, p) =>
            match Parser.parse_expr fuel (prec + 1) p with
            | .error h => .error h
            | .ok (none, p) => .error (p.error "Unable to parse expression" op.line (-1))
            | .ok (some expr_rhs, p) =>
              match mk_bin_expr op.type expr_lhs expr_rhs with
              | none => .error .assert_false
              | some expr => Parser.parse_expr_loop fuel min_prec expr p
end

/-- `parse_stmt_set()`; `fuel` is handed to `parse_expr`. -/
def Parser.parse_stmt_set (fuel : Nat) (p : Parser) :
    Except Halt (Option NodeStmtSet × Parser) :=
  match p.consume with
  | .error h => .error h
  | .ok (ident, p) =>
    match p.peek 0 with
    | none => .error .bad_optional_access
    | some t =>
      if t.type = .eq ∨ t.type = .pluseq ∨ t.type = .stareq ∨ t.type = .minuseq
          ∨ t.type = .fslasheq then
        match p.consume with
        | .error h => .error h
        | .ok (_, p) =>
          match Parser.parse_expr fuel 0 p with
          | .error h => .error h
          | .ok (none, p) => .error (p.error "Invalid expression" ident.line (-1))
          | .ok (some expr, p) =>
            if t.type = .eq then .ok (some (.set_expr ident expr), p)
            else if t.type = .pluseq then .ok (some (.set_add ident expr), p)
            else if t.type = .stareq then .ok (some (.set_multi ident expr), p)
            else if t.type = .minuseq then .ok (some (.set_sub ident expr), p)
            else .ok (some (.set_div ident expr), p)
      else .ok (none, p)

mutual
/-- `parse_scope()`. -/
def Parser.parse_scope : Nat → Parser → Except Halt (Option NodeScope × Parser)
  | 0, _ => .error .out_of_fuel
  | fuel + 1, p =>
    match p.try_consume .open_curly with
    | .error h => .error h
    | .ok (none, p) => .ok (none, p)
    | .ok (some _, p) =>
      match Parser.parse_scope_loop fuel [] p with
      | .error h => .error h
      | .ok (stmts, p) =>
        match p.try_consume_err .close_curly "Expected '\x7d'" (-1) (-1) with
        | .error h => .error h
        | .ok (_, p) => .ok (some (.mk stmts), p)
/-- The loop `while (auto stmt = parse_stmt())` of `parse_scope`. -/
def Parser.parse_scope_loop : Nat → List NodeStmt → Parser →
    Except Halt (List NodeStmt × Parser)
  | 0, _, _ => .error .out_of_fuel
  | fuel + 1, stmts, p =>
    match Parser.parse_stmt fuel p with
    | .error h => .error h
    | .ok (none, p) => .ok (stmts, p)
    | .ok (some stmt, p) => Parser.parse_scope_loop fuel (stmts ++ [stmt]) p
/-- `parse_if_pred()`. -/
def Parser.parse_if_pred : Nat → Parser → Except Halt (Option NodeIfPred × Parser)
  | 0, _ => .error .out_of_fuel
  | fuel + 1, p =>
    match p.try_consume .else_ with
    | .error h => .error h
    | .ok (none, p) => .ok (none, p)
    | .ok (some _, p) =>
      match p.try_consume .if_ with
      | .error h => .error h
      | .ok (some _, p) =>
        match p.try_consume_err .open_paren "Expected '('" (-1) (-1) with
        | .error h => .error h
        | .ok (_, p) =>
          match Parser.parse_expr fuel 0 p with
          | .error h => .error h
          | .ok (none, p) => .error (p.error "Expected expression" (-1) (-1))
          | .ok (some expr, p) =>
            match p.try_consume_err .close_paren "Expected ')'" (-1) (-1) with
            | .error h => .error h
            | .ok (_, p) =>
              match Parser.parse_scope fuel p with
              | .error h => .error h
              | .ok (none, p) => .error (p.error "Invalid scope" (-1) (-1))
              | .ok (some scope, p) =>
                match Parser.parse_if_pred fuel p with
                | .error h => .error h
                | .ok (pred, p) => .ok (some (.else_if expr scope pred), p)
      | .ok (none, p) =>
        match Parser.parse_scope fuel p with
        | .error h => .error h
        | .ok (none, p) => .error (p.error "Invalid scope" (-1) (-1))
        | .ok (some scope, p) => .ok (some (.else_ scope), p)
/-- `parse_stmt()`. -/
def Parser.parse_stmt : Nat → Parser → Except Halt (Option NodeStmt × Parser)
  | 0, _ => .error .out_of_fuel
  | fuel + 1, p =>
    match p.peek 0 with
    | none => .error .bad_optional_access
    | some t0 =>
      if t0.type = ._exit ∧ (p.peek 1).map (fun t => t.type) = some .open_paren then
        match p.consume with
        | .error h => .error h
        | .ok (_, p) =>
          match p.consume with
          | .error h => .error h
          | .ok (_, p) =>
            match Parser.parse_expr fuel 0 p with
            | .error h => .error h
            | .ok (none, p) => .error (p.error "Invalid expression" (-1) (-1))
            | .ok (some node_expr, p) =>
              match p.try_consume_err .close_paren "Expected ')'" (-1) (-1) with
              | .error h => .error h
              | .ok (_, p) =>
                match p.try_consume_err .semi "Expected ';'" (-1) (-1) with
                | .error h => .error h
                | .ok (_, p) => .ok (some (.exit node_expr), p)
      else if t0.type = .let_ ∧ (p.peek 1).map (fun t => t.type) = some .ident
          ∧ (p.peek 2).map (fun t => t.type) = some .eq then
        match p.consume with
        | .error h => .error h
        | .ok (_, p) =>
          match p.consume with
          | .error h => .error h
          | .ok (ident, p) =>
            match p.consume with
            | .error h => .error h
            | .ok (_, p) =>
              match Parser.parse_expr fuel 0 p with
              | .error h => .error h
              | .ok (none, p) => .error (p.error "Invalid expression" ident.line (-1))
              | .ok (some expr, p) =>
                match p.try_consume_err .semi "Expected ';'" ident.line (-1) with
                | .error h => .error h
                | .ok (_, p) => .ok (some (.let_ ident expr), p)
      else if t0.type = .ident ∧ (p.peek 1).isSome then
        match Parser.parse_stmt_set fuel p with
        | .error h => .error h
        | .ok (none, p) => .error (p.error "Invalid set statement" (-1) (-1))
        | .ok (some stmt_set, p) =>
          match p.try_consume_err .semi "Expected ';'" (-1) (-1) with
          | .error h => .error h
          | .ok (_, p) => .ok (some (.set stmt_set), p)
      else if t0.type = .open_curly then
        match Parser.parse_scope fuel p with
        | .error h => .error h
        | .ok (none, p) => .error (p.error "Invalid scope" (-1) (-1))
        | .ok (some scope, p) => .ok (some (.scope scope), p)
      else
        match p.try_consume .if_ with
        | .error h => .error h
        | .ok (none, p) => .ok (none, p)
        | .ok (some if_, p) =>
          match p.try_consume_err .open_paren "Expected '('" if_.line (-1) with
          | .error h => .error h
          | .ok (_, p) =>
            match Parser.parse_expr fuel 0 p with
            | .error h => .error h
            | .ok (none, p) => .error (p.error "Invalid expression" if_.line (-1))
            | .ok (some expr, p) =>
              match p.try_consume_err .close_paren "Expected ')'" if_.line (-1) with
              | .error h => .error h
              | .ok (_, p) =>
                match Parser.parse_scope fuel p with
                | .error h => .error h
                | .ok (none, p) => .error (p.error "Invalid scope" (-1) (-1))
                | .ok (some scope, p) =>
                  match Parser.parse_if_pred fuel p with
                  | .error h => .error h
                  | .ok (pred, p) => .ok (some (.if_ expr scope pred), p)
end

/-- The loop `while (peek().has_value())` of `parse_prog`, entered with the current `prog`. -/
def Parser.parse_prog_loop : Nat → List NodeStmt → Parser → Except Halt (NodeProg × Parser)
  | 0, _, _ => .error .out_of_fuel
  | fuel + 1, stmts, p =>
    match p.peek 0 with
    | none => .ok ({ stmts := stmts }, p)
    | some _ =>
      match Parser.parse_stmt fuel p with
      | .error h => .error h
      | .ok (none, p) => .error (p.error "Invalid statement" (-1) (-1))
      | .ok (some stmt, p) => Parser.parse_prog_loop fuel (stmts ++ [stmt]) p

/-- `parse_prog()`. -/
def Parser.parse_prog (fuel : Nat) (p : Parser) : Except Halt (NodeProg × Parser) :=
  Parser.parse_prog_loop fuel [] p

/-! ## generationWin.hpp: the code generator -/

/-- The modulus of `size_t` arithmetic. -/
def SIZE_MOD : Nat := 18446744073709551616

/-- Subtraction of two `size_t` values; it wraps below zero. -/
def size_sub (a b : Nat) : Nat := if b ≤ a then a - b else a + SIZE_MOD - b

/-- Multiplication of two `size_t` values. -/
def size_mul (a b : Nat) : Nat := (a * b) % SIZE_MOD

/-- Addition of two `size_t` values. -/
def size_add (a b : Nat) : Nat := (a + b) % SIZE_MOD

/-- The operand text handed to `push` and `pop`: a register name or `QWORD [rsp+<offset>]`. -/
inductive Operand
  | rax | rbx | rcx | rdx
  | qword_rsp (offset : Nat)
  deriving DecidableEq, Repr

/-- One piece of text written to `m_output`; `Instr.render` gives the text. -/
inductive Instr
  | header
  | mov_rax (imm : String)
  | push (reg : Operand)
  | pop (reg : Operand)
  | add_rax_rbx
  | sub_rax_rbx
  | mul_rbx
  | xor_rdx_rdx
  | div_rbx
  | add_rsp (n : Nat)
  | sub_rsp (n : Nat)
  | add_qword_rax (offset : Nat)
  | sub_qword_rax (offset : Nat)
  | mov_rax_qword (offset : Nat)
  | mov_qword_rax (offset : Nat)
  | test_rax_rax
  | jz (label : String)
  | label (label : String)
  | sub_rsp_28h
  | call_ExitProcess
  | mov_ecx_0
  deriving DecidableEq, Repr

/-- The text of an operand. -/
def Operand.render : Operand → String
  | .rax => "rax"
  | .rbx => "rbx"
  | .rcx => "rcx"
  | .rdx => "rdx"
  | .qword_rsp offset => "QWORD [rsp+" ++ toString offset ++ "]"

/-- The text written to `m_output` for each piece. -/
def Instr.render : Instr → String
  | .header => "extern ExitProcess\n\nglobal _start\nsection .text\n_start:\n"
  | .mov_rax imm => "    mov rax, " ++ imm ++ "\n"
  | .push reg => "    push " ++ reg.render ++ "\n"
  | .pop reg => "    pop " ++ reg.render ++ "\n"
  | .add_rax_rbx => "    add rax, rbx\n"
  | .sub_rax_rbx => "    sub rax, rbx\n"
  | .mul_rbx => "    mul rbx\n"
  | .xor_rdx_rdx => "    xor rdx, rdx\n"
  | .div_rbx => "    div rbx\n"
  | .add_rsp n => "    add rsp, " ++ toString n ++ "\n"
  | .sub_rsp n => "    sub rsp, " ++ toString n ++ "\n"
  | .add_qword_rax offset => "    add QWORD [rsp+" ++ toString offset ++ "], rax\n"
  | .sub_qword_rax offset => "    sub QWORD [rsp+" ++ toString offset ++ "], rax\n"
  | .mov_rax_qword offset => "    mov rax, QWORD [rsp+" ++ toString offset ++ "]\n"
  | .mov_qword_rax offset => "    mov QWORD [rsp+" ++ toString offset ++ "], rax\n"
  | .test_rax_rax => "    test rax, rax\n"
  | .jz name => "    jz " ++ name ++ "\n"
  | .label name => name ++ ":\n"
  | .sub_rsp_28h => "    sub rsp, 28h\n"
  | .call_ExitProcess => "    call ExitProcess\n"
  | .mov_ecx_0 => "    mov ecx, 0\n"

/-- The record `GeneratorWin::Var`. -/
structure Var where
  name : String
  stack_loc : Nat
  deriving DecidableEq, Repr

/-- The mutable members of `GeneratorWin`; `m_output` is kept as the list of pieces written. -/
structure GeneratorWin where
  m_output : List Instr
  m_stack_size : Nat
  m_vars : List Var
  m_scopes : List Nat
  m_label_count : Nat
  deriving DecidableEq, Repr

/-- How a run of the generator ends when it does not return. -/
inductive GenHalt
  /-- text written to `std::cerr`, then `exit(EXIT_FAILURE)` -/
  | exit_failure (stderr : String)
  /-- `.value()` on a token without payload -/
  | bad_optional_access
  /-- `back()` or `pop_back()` on an empty vector -/
  | empty_vector
  deriving DecidableEq, Repr

/-- The result of a generator function: the new state, or the halt together with the state
in which it happened. -/
abbrev GenResult := Except (GenHalt × GeneratorWin) GeneratorWin

/-- The members as initialised in the class. -/
def GeneratorWin.init : GeneratorWin :=
  { m_output := [], m_stack_size := 0, m_vars := [], m_scopes := [], m_label_count := 0 }

/-- The text of `m_output`. -/
def GeneratorWin.output_text (gen : GeneratorWin) : String :=
  String.join (gen.m_output.map Instr.render)

/-- One `m_output << ...` statement. -/
def GeneratorWin.emit (gen : GeneratorWin) (i : Instr) : GeneratorWin :=
  { gen with m_output := gen.m_output ++ [i] }

/-- `push(reg)`.  The counter is incremented without wrap: it would take `2^64` emitted
pushes to reach the modulus. -/
def GeneratorWin.push (gen : GeneratorWin) (reg : Operand) : GeneratorWin :=
  let gen := gen.emit (.push reg)
  { gen with m_stack_size := gen.m_stack_size + 1 }

/-- `pop(reg)`. -/
def GeneratorWin.pop (gen : GeneratorWin) (reg : Operand) : GeneratorWin :=
  let gen := gen.emit (.pop reg)
  { gen with m_stack_size := size_sub gen.m_stack_size 1 }

/-- `begin_scope()`. -/
def GeneratorWin.begin_scope (gen : GeneratorWin) : GeneratorWin :=
  { gen with m_scopes := gen.m_scopes ++ [gen.m_vars.length] }

/-- `end_scope()`. -/
def GeneratorWin.end_scope (gen : GeneratorWin) : GenResult :=
  match gen.m_scopes.getLast? with
  | none => .error (.empty_vector, gen)
  | some back =>
    let pop_count := size_sub gen.m_vars.length back
    let gen := gen.emit (.add_rsp (size_mul pop_count 8))
    let gen := { gen with m_stack_size := size_sub gen.m_stack_size pop_count }
    if pop_count ≤ gen.m_vars.length then
      .ok { gen with m_vars := gen.m_vars.take (gen.m_vars.length - pop_count),
                     m_scopes := gen.m_scopes.dropLast }
    else .error (.empty_vector, gen)

/-- `create_label()`. -/
def GeneratorWin.create_label (gen : GeneratorWin) : String × GeneratorWin :=
  ("label" ++ toString gen.m_label_count, { gen with m_label_count := gen.m_label_count + 1 })

/-- The `std::find_if` over `m_vars` by name. -/
def GeneratorWin.find_var (gen : GeneratorWin) (name : String) : Option Var :=
  gen.m_vars.find? (fun var => decide (var.name = name))

/-- The value `(m_stack_size - stack_loc - 1) * 8` as computed in `size_t`. -/
def GeneratorWin.offset (gen : GeneratorWin) (it : Var) : Nat :=
  size_mul (size_sub (size_sub gen.m_stack_size it.stack_loc) 1) 8

mutual
/-- `gen_term`. -/
def GeneratorWin.gen_term : NodeTerm → GeneratorWin → GenResult
  | .int_lit int_lit, gen =>
    match int_lit.value with
    | none => .error (.bad_optional_access, gen)
    | some value => .ok ((gen.emit (.mov_rax value)).push .rax)
  | .ident ident, gen =>
    match ident.value with
    | none => .error (.bad_optional_access, gen)
    | some name =>
      match gen.find_var name with
      | none => .error (.exit_failure ("Undeclared identifier used '" ++ name ++ "'\n"), gen)
      | some it => .ok (gen.push (.qword_rsp (gen.offset it)))
  | .paren expr, gen => GeneratorWin.gen_expr expr gen
/-- `gen_bin_expr`. -/
def GeneratorWin.gen_bin_expr : NodeBinExpr → GeneratorWin → GenResult
  | .add lhs rhs, gen =>
    match GeneratorWin.gen_expr rhs gen with
    | .error e => .error e
    | .ok gen =>
      match GeneratorWin.gen_expr lhs gen with
      | .error e => .error e
      | .ok gen => .ok ((((gen.pop .rax).pop .rbx).emit .add_rax_rbx).push .rax)
  | .sub lhs rhs, gen =>
    match GeneratorWin.gen_expr rhs gen with
    | .error e => .error e
    | .ok gen =>
      match GeneratorWin.gen_expr lhs gen with
      | .error e => .error e
      | .ok gen => .ok ((((gen.pop .rax).pop .rbx).emit .sub_rax_rbx).push .rax)
  | .multi lhs rhs, gen =>
    match GeneratorWin.gen_expr rhs gen with
    | .error e => .error e
    | .ok gen =>
      match GeneratorWin.gen_expr lhs gen with
      | .error e => .error e
      | .ok gen => .ok ((((gen.pop .rax).pop .rbx).emit .mul_rbx).push .rax)
  | .div lhs rhs, gen =>
    match GeneratorWin.gen_expr rhs gen with
    | .error e => .error e
    | .ok gen =>
      match GeneratorWin.gen_expr lhs gen with
      | .error e => .error e
      | .ok gen =>
        .ok (((((gen.pop .rax).pop .rbx).emit .xor_rdx_rdx).emit .div_rbx).push .rax)
/-- `gen_expr`. -/
def GeneratorWin.gen_expr : NodeExpr → GeneratorWin → GenResult
  | .term term, gen => GeneratorWin.gen_term term gen
  | .bin_expr bin_expr, gen => GeneratorWin.gen_bin_expr bin_expr gen
end

/-- `gen_stmt_set`. -/
def GeneratorWin.gen_stmt_set : NodeStmtSet → GeneratorWin → GenResult
  | .set_expr ident expr, gen =>
    match ident.value with
    | none => .error (.bad_optional_access, gen)
    | some name =>
      match gen.find_var name with
      | none => .error (.exit_failure ("Undeclared identifier used '" ++ name ++ "'\n"), gen)
      | some it =>
        match gen.gen_expr expr with
        | .error e => .error e
        | .ok gen =>
          let gen := gen.pop .rax
          let gen := gen.emit (.add_rsp (size_add (gen.offset it) 8))
          let gen := gen.emit (.push .rax)
          .ok (gen.emit (.sub_rsp (gen.offset it)))
  | .set_add ident expr, gen =>
    match ident.value with
    | none => .error (.bad_optional_access, gen)
    | some name =>
      match gen.find_var name with
      | none => .error (.exit_failure ("Undeclared identifier used '" ++ name ++ "'\n"), gen)
      | some it =>
        match gen.gen_expr expr with
        | .error e => .error e
        | .ok gen =>
          let gen := gen.pop .rax
          .ok (gen.emit (.add_qword_rax (gen.offset it)))
  | .set_multi ident expr, gen =>
    match ident.value with
    | none => .error (.bad_optional_access, gen)
    | some name =>
      match gen.find_var name with
      | none => .error (.exit_failure ("Undeclared identifier used '" ++ name ++ "'\n"), gen)
      | some it =>
        match gen.gen_expr expr with
        | .error e => .error e
        | .ok gen =>
          let gen := gen.pop .rbx
          let gen := gen.emit (.mov_rax_qword (gen.offset it))
          let gen := gen.emit .mul_rbx
          .ok (gen.emit (.mov_qword_rax (gen.offset it)))
  | .set_sub ident expr, gen =>
    match ident.value with
    | none => .error (.bad_optional_access, gen)
    | some name =>
      match gen.find_var name with
      | none => .error (.exit_failure ("Undeclared identifier used '" ++ name ++ "'\n"), gen)
      | some it =>
        match gen.gen_expr expr with
        | .error e => .error e
        | .ok gen =>
          let gen := gen.pop .rax
          .ok (gen.emit (.sub_qword_rax (gen.offset it)))
  | .set_div ident expr, gen =>
    match ident.value with
    | none => .error (.bad_optional_access, gen)
    | some name =>
      match gen.find_var name with
      | none => .error (.exit_failure ("Undeclared identifier used '" ++ name ++ "'\n"), gen)
      | some it =>
        match gen.gen_expr expr with
        | .error e => .error e
        | .ok gen =>
          let gen := gen.pop .rbx
          let gen := gen.emit (.mov_rax_qword (gen.offset it))
          let gen := gen.emit .xor_rdx_rdx
          let gen := gen.emit .div_rbx
          .ok (gen.emit (.mov_qword_rax (gen.offset it)))

mutual
/-- `gen_stmt`. -/
def GeneratorWin.gen_stmt : NodeStmt → GeneratorWin → GenResult
  | .exit expr, gen =>
    match gen.gen_expr expr with
    | .error e => .error e
    | .ok gen => .ok (((gen.pop .rcx).emit .sub_rsp_28h).emit .call_ExitProcess)
  | .let_ ident expr, gen =>
    match ident.value with
    | none => .error (.bad_optional_access, gen)
    | some name =>
      match gen.find_var name with
      | some _ => .error (.exit_failure ("Identifier already used: " ++ name ++ "\n"), gen)
      | none =>
        let gen := { gen with m_vars := gen.m_vars ++ [Var.mk name gen.m_stack_size] }
        gen.gen_expr expr
  | .set stmt_set, gen => gen.gen_stmt_set stmt_set
  | .scope scope, gen => GeneratorWin.gen_scope scope gen
  | .if_ expr scope _, gen =>
    match gen.gen_expr expr with
    | .error e => .error e
    | .ok gen =>
      let gen := gen.pop .rax
      let (label, gen) := gen.create_label
      let gen := gen.emit .test_rax_rax
      let gen := gen.emit (.jz label)
      match GeneratorWin.gen_scope scope gen with
      | .error e => .error e
      | .ok gen => .ok (gen.emit (.label label))
/-- `gen_scope`. -/
def GeneratorWin.gen_scope : NodeScope → GeneratorWin → GenResult
  | .mk stmts, gen =>
    match GeneratorWin.gen_stmts stmts gen.begin_scope with
    | .error e => .error e
    | .ok gen => gen.end_scope
/-- The loop `for (const NodeStmt* stmt : stmts) gen_stmt(stmt)`. -/
def GeneratorWin.gen_stmts : List NodeStmt → GeneratorWin → GenResult
  | [], gen => .ok gen
  | stmt :: rest, gen =>
    match GeneratorWin.gen_stmt stmt gen with
    | .error e => .error e
    | .ok gen => GeneratorWin.gen_stmts rest gen
end

/-- `gen_prog()` on a freshly constructed generator for `m_prog`. -/
def GeneratorWin.gen_prog (m_prog : NodeProg) : GenResult :=
  let gen := GeneratorWin.init.emit .header
  match gen.gen_stmts m_prog.stmts with
  | .error e => .error e
  | .ok gen => .ok (((gen.emit .sub_rsp_28h).emit .mov_ecx_0).emit .call_ExitProcess)

/-! ## Auxiliary definitions used in the statements -/

/-- The left operand of a binary node. -/
def NodeBinExpr.lhs : NodeBinExpr → NodeExpr
  | .add lhs _ => lhs
  | .sub lhs _ => lhs
  | .multi lhs _ => lhs
  | .div lhs _ => lhs

/-- The right operand of a binary node. -/
def NodeBinExpr.rhs : NodeBinExpr → NodeExpr
  | .add _ rhs => rhs
  | .sub _ rhs => rhs
  | .multi _ rhs => rhs
  | .div _ rhs => rhs

/-- The instructions `gen_bin_expr` writes between the two pops and the final push. -/
def NodeBinExpr.op_code : NodeBinExpr → List Instr
  | .add _ _ => [.add_rax_rbx]
  | .sub _ _ => [.sub_rax_rbx]
  | .multi _ _ => [.mul_rbx]
  | .div _ _ => [.xor_rdx_rdx, .div_rbx]

/-- Several `m_output << ...` statements in a row. -/
def GeneratorWin.emit_all (gen : GeneratorWin) (is : List Instr) : GeneratorWin :=
  { gen with m_output := gen.m_output ++ is }

/-- The variables that the `Let` statements directly in a statement list add to `m_vars`,
when the list is lowered from stack size `stack_size`. -/
def decls : List NodeStmt → Nat → List Var
  | [], _ => []
  | .let_ ident _ :: rest, stack_size =>
    Var.mk (ident.value.getD "") stack_size :: decls rest (stack_size + 1)
  | .exit _ :: rest, stack_size => decls rest stack_size
  | .set _ :: rest, stack_size => decls rest stack_size
  | .scope _ :: rest, stack_size => decls rest stack_size
  | .if_ _ _ _ :: rest, stack_size => decls rest stack_size

/-- The number of `Let` statements directly in a statement list. -/
def count_lets : List NodeStmt → Nat
  | [] => 0
  | .let_ _ _ :: rest => count_lets rest + 1
  | .exit _ :: rest => count_lets rest
  | .set _ :: rest => count_lets rest
  | .scope _ :: rest => count_lets rest
  | .if_ _ _ _ :: rest => count_lets rest

/-! ## Sample inputs -/

/-- A payload-free token of the given kind at line 1, column 1. -/
def tok (type : TokenType) : Token := ⟨type, 1, 1, none⟩

/-- An integer-literal token at line 1, column 1. -/
def tok_int (digits : String) : Token := ⟨.int_lit, 1, 1, some digits⟩

/-- An identifier token at line 1, column 1. -/
def tok_ident (name : String) : Token := ⟨.ident, 1, 1, some name⟩

/-- The expression consisting of one integer literal. -/
def e_int (digits : String) : NodeExpr := .term (.int_lit (tok_int digits))

/-- The expression consisting of one identifier. -/
def e_var (name : String) : NodeExpr := .term (.ident (tok_ident name))

/-- A generator state in which `x` is the only variable, at stack location 0. -/
def gen_with_x : GeneratorWin :=
  { m_output := [], m_stack_size := 1, m_vars := [Var.mk "x" 0], m_scopes := [],
    m_label_count := 0 }

/-- The expression `(x + 1) * 2`. -/
def sample_expr : NodeExpr :=
  .bin_expr (.multi (.term (.paren (.bin_expr (.add (e_var "x") (e_int "1"))))) (e_int "2"))

/-- The generator state after lowering `sample_expr` from `gen_with_x`. -/
def sample_expr_done : GeneratorWin :=
  { m_output := [.mov_rax "2", .push .rax, .mov_rax "1", .push .rax, .push (.qword_rsp 16),
      .pop .rax, .pop .rbx, .add_rax_rbx, .push .rax, .pop .rax, .pop .rbx, .mul_rbx,
      .push .rax],
    m_stack_size := 2, m_vars := [Var.mk "x" 0], m_scopes := [], m_label_count := 0 }

/-- The scope `{ let y = 1; x = y; if (x) { let z = 2; } { } }`. -/
def sample_scope : NodeScope :=
  .mk [.let_ (tok_ident "y") (e_int "1"), .set (.set_expr (tok_ident "x") (e_var "y")),
    .if_ (e_var "x") (.mk [.let_ (tok_ident "z") (e_int "2")]) none, .scope (.mk [])]

/-- The generator state after lowering `sample_scope` from `gen_with_x`. -/
def sample_scope_done : GeneratorWin :=
  { m_output := [.mov_rax "1", .push .rax, .push (.qword_rsp 0), .pop .rax, .add_rsp 16,
      .push .rax, .sub_rsp 8, .push (.qword_rsp 8), .pop .rax, .test_rax_rax, .jz "label0",
      .mov_rax "2", .push .rax, .add_rsp 8, .label "label0", .add_rsp 0, .add_rsp 8],
    m_stack_size := 1, m_vars := [Var.mk "x" 0], m_scopes := [], m_label_count := 1 }

/-- The program `let x = 1;`. -/
def prog_let : NodeProg := ⟨[.let_ (tok_ident "x") (e_int "1")]⟩

/-- The generator state when `gen_prog` returns for `prog_let`. -/
def prog_let_done : GeneratorWin :=
  { m_output := [.header, .mov_rax "1", .push .rax, .sub_rsp_28h, .mov_ecx_0,
      .call_ExitProcess],
    m_stack_size := 1, m_vars := [Var.mk "x" 0], m_scopes := [], m_label_count := 0 }

/-- The program `let x = 1; exit(x); let y = 2;`. -/
def prog_two_lets : NodeProg :=
  ⟨[.let_ (tok_ident "x") (e_int "1"), .exit (e_var "x"), .let_ (tok_ident "y") (e_int "2")]⟩

/-- The generator state when `gen_prog` returns for `prog_two_lets`. -/
def prog_two_lets_done : GeneratorWin :=
  { m_output := [.header, .mov_rax "1", .push .rax, .push (.qword_rsp 0), .pop .rcx,
      .sub_rsp_28h, .call_ExitProcess, .mov_rax "2", .push .rax, .sub_rsp_28h, .mov_ecx_0,
      .call_ExitProcess],
    m_stack_size := 2, m_vars := [Var.mk "x" 0, Var.mk "y" 1], m_scopes := [],
    m_label_count := 0 }

/-- The generator state after `let x = 1;` at the top level of a program. -/
def after_let_x : GeneratorWin :=
  { m_output := [.header, .mov_rax "1", .push .rax], m_stack_size := 1,
    m_vars := [Var.mk "x" 0], m_scopes := [], m_label_count := 0 }

/-- The program `let x = 1; let x = 2;`. -/
def prog_redeclare : NodeProg :=
  ⟨[.let_ (tok_ident "x") (e_int "1"), .let_ (tok_ident "x") (e_int "2")]⟩

/-- The program `let x = 1; { let x = 2; }`. -/
def prog_redeclare_nested : NodeProg :=
  ⟨[.let_ (tok_ident "x") (e_int "1"), .scope (.mk [.let_ (tok_ident "x") (e_int "2")])]⟩

/-- The generator state after `let x = 1; {` at the top level of a program. -/
def after_let_x_open : GeneratorWin :=
  { m_output := [.header, .mov_rax "1", .push .rax], m_stack_size := 1,
    m_vars := [Var.mk "x" 0], m_scopes := [1], m_label_count := 0 }

/-! ## The reference grammar for operator chains

A chain is a first term followed by `(operator, term)` pairs.  The reference grammar is
`expr := mul (('+'|'-') mul)*`, `mul := term (('*'|'/') term)*`, both repetitions folded to
the left. -/

/-- The binary node for an operator token. -/
def ref_node (op : Token) (lhs rhs : NodeExpr) : NodeExpr :=
  match op.type with
  | .plus => .bin_expr (.add lhs rhs)
  | .minus => .bin_expr (.sub lhs rhs)
  | .star => .bin_expr (.multi lhs rhs)
  | _ => .bin_expr (.div lhs rhs)

/-- Splits the pairs after the first term at the additive operators: the multiplicative pairs
that continue the first `mul`, then one group per `('+'|'-') mul`. -/
def ref_split : List (Token × NodeTerm) →
    List (Token × NodeTerm) × List ((Token × NodeTerm) × List (Token × NodeTerm))
  | [] => ([], [])
  | x :: rest =>
    if x.1.type = .star ∨ x.1.type = .fslash then (x :: (ref_split rest).1, (ref_split rest).2)
    else ([], (x, (ref_split rest).1) :: (ref_split rest).2)

/-- The tree of `mul := term (('*'|'/') term)*`, continued from `acc`. -/
def ref_mul_from (acc : NodeExpr) (pairs : List (Token × NodeTerm)) : NodeExpr :=
  pairs.foldl (fun acc x => ref_node x.1 acc (.term x.2)) acc

/-- The tree of `(('+'|'-') mul)*`, continued from `acc`. -/
def ref_sum_from (acc : NodeExpr)
    (groups : List ((Token × NodeTerm) × List (Token × NodeTerm))) : NodeExpr :=
  groups.foldl (fun acc x => ref_node x.1.1 acc (ref_mul_from (.term x.1.2) x.2)) acc

/-- The tree the reference grammar assigns to a chain. -/
def ref_expr (first : NodeTerm) (pairs : List (Token × NodeTerm)) : NodeExpr :=
  ref_sum_from (ref_mul_from (.term first) (ref_split pairs).1) (ref_split pairs).2

/-- The tokens of an alternation `int_lit (op int_lit)*`. -/
def chain_tokens (first : Token) (pairs : List (Token × Token)) : List Token :=
  first :: pairs.flatMap (fun x => [x.1, x.2])

/-- The terms of an alternation of integer literals. -/
def lit_pairs (pairs : List (Token × Token)) : List (Token × NodeTerm) :=
  pairs.map (fun x => (x.1, NodeTerm.int_lit x.2))

/-! ## Parser positions -/

/-- The tokens not yet consumed. -/
def Parser.rest (p : Parser) : List Token := p.m_tokens.drop p.m_index

/-- The parser after consuming `n` more tokens. -/
def Parser.advance (p : Parser) (n : Nat) : Parser := { p with m_index := p.m_index + n }

/-- A token list at whose head a binary-operator loop stops. -/
def StopTail (tail : List Token) : Prop :=
  ∀ t r, tail = t :: r → bin_prec t.type = none

/-- The token list `T` is parsed by `parse_term` as `t`, whatever follows it. -/
def TermParses (T : List Token) (t : NodeTerm) : Prop :=
  ∀ (p : Parser) (tail : List Token) (f : Nat), p.rest = T ++ tail →
    2 * p.rest.length + 1 ≤ f → Parser.parse_term f p = .ok (some t, p.advance T.length)

/-- The tokens of the `(operator, term)` pairs of a chain. -/
inductive ChainToks : List (Token × NodeTerm) → List Token → Prop
  | nil : ChainToks [] []
  | cons (op : Token) (t : NodeTerm) (T : List Token) (items : List (Token × NodeTerm))
      (toks : List Token) :
      (bin_prec op.type).isSome → T ≠ [] → TermParses T t → ChainToks items toks →
      ChainToks ((op, t) :: items) (op :: T ++ toks)

/-- The pairs of a split, put back in order. -/
def unsplit (groups : List ((Token × NodeTerm) × List (Token × NodeTerm))) :
    List (Token × NodeTerm) :=
  groups.flatMap (fun x => x.1 :: x.2)

/-- The tokens of `2 + 3 * 4`. -/
def toks_2_plus_3_star_4 : List Token :=
  chain_tokens (tok_int "2") [(tok .plus, tok_int "3"), (tok .star, tok_int "4")]

/-- The tokens of `2 * 3 + 4`. -/
def toks_2_star_3_plus_4 : List Token :=
  chain_tokens (tok_int "2") [(tok .star, tok_int "3"), (tok .plus, tok_int "4")]

/-- The tokens of `1 - 2 - 3`. -/
def toks_1_minus_2_minus_3 : List Token :=
  chain_tokens (tok_int "1") [(tok .minus, tok_int "2"), (tok .minus, tok_int "3")]

/-! ## The grammar of the source language (specification, section 6) -/

/-- The nonterminals; `stmts` is `{ stmt }`, `expr_tail` is `{ op expr }` and `if_pred_opt`
is `[ if_pred ]`. -/
inductive NT
  | stmt | stmts | scope | if_pred_opt | expr | expr_tail | term

/-- The token lists derivable from each nonterminal. -/
inductive Derives : NT → List Token → Prop
  /-- `term = int_lit` -/
  | term_int_lit (t : Token) : t.type = .int_lit → Derives .term [t]
  /-- `term = ident` -/
  | term_ident (t : Token) : t.type = .ident → Derives .term [t]
  /-- `term = "(" expr ")"` -/
  | term_paren (o c : Token) (e : List Token) : o.type = .open_paren →
      c.type = .close_paren → Derives .expr e → Derives .term (o :: e ++ [c])
  /-- `expr = term { op expr }` -/
  | expr (t r : List Token) : Derives .term t → Derives .expr_tail r → Derives .expr (t ++ r)
  /-- `{ op expr }`, no repetition -/
  | expr_tail_nil : Derives .expr_tail []
  /-- `{ op expr }`, one more repetition -/
  | expr_tail_cons (op : Token) (e r : List Token) :
      (op.type = .plus ∨ op.type = .minus ∨ op.type = .star ∨ op.type = .fslash) →
      Derives .expr e → Derives .expr_tail r → Derives .expr_tail (op :: e ++ r)
  /-- `scope = "{" { stmt } "}"` -/
  | scope (o c : Token) (ss : List Token) : o.type = .open_curly → c.type = .close_curly →
      Derives .stmts ss → Derives .scope (o :: ss ++ [c])
  /-- `{ stmt }`, no repetition -/
  | stmts_nil : Derives .stmts []
  /-- `{ stmt }`, one more repetition -/
  | stmts_cons (s r : List Token) : Derives .stmt s → Derives .stmts r →
      Derives .stmts (s ++ r)
  /-- `exit_stmt = "exit" "(" expr ")" ";"` -/
  | exit_stmt (k o c s : Token) (e : List Token) : k.type = ._exit → o.type = .open_paren →
      c.type = .close_paren → s.type = .semi → Derives .expr e →
      Derives .stmt (k :: o :: e ++ [c, s])
  /-- `let_stmt = "let" ident "=" expr ";"` -/
  | let_stmt (k i q s : Token) (e : List Token) : k.type = .let_ → i.type = .ident →
      q.type = .eq → s.type = .semi → Derives .expr e → Derives .stmt (k :: i :: q :: e ++ [s])
  /-- `set_stmt = ident ( "=" | "+=" | "-=" | "*=" | "/=" ) expr ";"` -/
  | set_stmt (i op s : Token) (e : List Token) : i.type = .ident →
      (op.type = .eq ∨ op.type = .pluseq ∨ op.type = .minuseq ∨ op.type = .stareq
        ∨ op.type = .fslasheq) →
      s.type = .semi → Derives .expr e → Derives .stmt (i :: op :: e ++ [s])
  /-- `if_stmt = "if" "(" expr ")" scope [ if_pred ]` -/
  | if_stmt (k o c : Token) (e sc pr : List Token) : k.type = .if_ → o.type = .open_paren →
      c.type = .close_paren → Derives .expr e → Derives .scope sc →
      Derives .if_pred_opt pr → Derives .stmt (k :: o :: e ++ c :: sc ++ pr)
  /-- `stmt = scope` -/
  | scope_stmt (sc : List Token) : Derives .scope sc → Derives .stmt sc
  /-- `[ if_pred ]`, absent -/
  | if_pred_none : Derives .if_pred_opt []
  /-- `if_pred = "else" "if" "(" expr ")" scope [ if_pred ]` -/
  | if_pred_else_if (el k o c : Token) (e sc pr : List Token) : el.type = .else_ →
      k.type = .if_ → o.type = .open_paren → c.type = .close_paren → Derives .expr e →
      Derives .scope sc → Derives .if_pred_opt pr →
      Derives .if_pred_opt (el :: k :: o :: e ++ c :: sc ++ pr)
  /-- `if_pred = "else" scope` -/
  | if_pred_else (el : Token) (sc : List Token) : el.type = .else_ → Derives .scope sc →
      Derives .if_pred_opt (el :: sc)

/-- A token list that does not start with `else`. -/
def NoElse (tail : List Token) : Prop :=
  ∀ t r, tail = t :: r → t.type ≠ .else_

/-- The first token of a statement. -/
def stmt_start (ty : TokenType) : Prop :=
  ty = ._exit ∨ ty = .let_ ∨ ty = .ident ∨ ty = .open_curly ∨ ty = .if_

/-- The token list `E` is parsed by `parse_expr(0)` as `e` in front of anything at which the
operator loop stops. -/
def ExprParses (E : List Token) (e : NodeExpr) : Prop :=
  ∀ (p : Parser) (tail : List Token) (f : Nat), StopTail tail → p.rest = E ++ tail →
    2 * p.rest.length + 2 ≤ f → Parser.parse_expr f 0 p = .ok (some e, p.advance E.length)

/-- The token list `S` is parsed by `parse_scope` as `sc`, whatever follows. -/
def ScopeParses (S : List Token) (sc : NodeScope) : Prop :=
  ∀ (p : Parser) (tail : List Token) (f : Nat), p.rest = S ++ tail →
    3 * p.rest.length + 1 ≤ f → Parser.parse_scope f p = .ok (some sc, p.advance S.length)

/-- The token list `S` is parsed by `parse_stmt` as `st` in front of anything but `else`. -/
def StmtParses (S : List Token) (st : NodeStmt) : Prop :=
  ∀ (p : Parser) (tail : List Token) (f : Nat), NoElse tail → p.rest = S ++ tail →
    3 * p.rest.length + 2 ≤ f → Parser.parse_stmt f p = .ok (some st, p.advance S.length)

/-- The token list `P` is parsed by `parse_if_pred` as `pr` in front of anything but `else`. -/
def PredParses (P : List Token) (pr : Option NodeIfPred) : Prop :=
  ∀ (p : Parser) (tail : List Token) (f : Nat), NoElse tail → p.rest = P ++ tail →
    3 * p.rest.length + 1 ≤ f → Parser.parse_if_pred f p = .ok (pr, p.advance P.length)

/-- A statement chunk: a non-empty token list that starts like a statement and is parsed by
`parse_stmt` as `st`. -/
def StmtChunk (S : List Token) (st : NodeStmt) : Prop :=
  (∃ t r, S = t :: r ∧ stmt_start t.type) ∧ StmtParses S st

/-- What the parser does on the token lists derivable from each nonterminal. -/
def Parsed : NT → List Token → Prop
  | .term, T => T ≠ [] ∧ ∃ t, TermParses T t
  | .expr, E => ∃ T t items toks, E = T ++ toks ∧ T ≠ [] ∧ TermParses T t ∧ ChainToks items toks
  | .expr_tail, R => ∃ items, ChainToks items R
  | .scope, S => (∃ t r, S = t :: r ∧ t.type = .open_curly) ∧ ∃ sc, ScopeParses S sc
  | .stmts, SS => ∃ chunks sts, SS = chunks.flatten ∧ List.Forall₂ StmtChunk chunks sts
  | .stmt, S => ∃ st, StmtChunk S st
  | .if_pred_opt, P => ∃ pr, PredParses P pr

/-- The `Set` node that `parse_stmt_set` builds for an assignment operator. -/
def set_node (op : TokenType) (ident : Token) (expr : NodeExpr) : NodeStmtSet :=
  if op = .eq then .set_expr ident expr
  else if op = .pluseq then .set_add ident expr
  else if op = .stareq then .set_multi ident expr
  else if op = .minuseq then .set_sub ident expr
  else .set_div ident expr

/-- The tokens of `let x = 5;`. -/
def toks_let_x_5 : List Token :=
  [tok .let_, tok_ident "x", tok .eq, tok_int "5", tok .semi]

/-- The tokens of `if (x) { exit(x + 1); } else { x += 2; }`. -/
def toks_if_else : List Token :=
  [tok .if_, tok .open_paren, tok_ident "x", tok .close_paren, tok .open_curly, tok ._exit,
    tok .open_paren, tok_ident "x", tok .plus, tok_int "1", tok .close_paren, tok .semi,
    tok .close_curly, tok .else_, tok .open_curly, tok_ident "x", tok .pluseq, tok_int "2",
    tok .semi, tok .close_curly]

/-! ## A machine for the emitted instructions

Registers hold 64-bit words.  Memory maps a byte address to the quadword stored there; all
accesses of the generated code go through `rsp` with offsets that are multiples of 8.
Addresses are computed modulo `2^64`. -/

/-- The number of 64-bit words, `2^64`. -/
@[irreducible] def WORD : Nat := 18446744073709551616

/-- The machine state. -/
structure Machine where
  rax : Nat
  rbx : Nat
  rcx : Nat
  rdx : Nat
  rsp : Nat
  zf : Bool
  mem : Nat → Nat

/-- The value of a decimal immediate, as the assembler loads it into a 64-bit register. -/
def imm_value (imm : String) : Option Nat :=
  if imm.toList ≠ [] ∧ imm.toList.all Char.isDigit = true then
    some (imm.toList.foldl (fun n c => 10 * n + (c.toNat - 48)) 0 % WORD)
  else none

/-- The address `rsp + offset`. -/
def Machine.addr (m : Machine) (offset : Nat) : Nat := (m.rsp + offset) % WORD

/-- The value of an operand. -/
def Machine.read (m : Machine) : Operand → Nat
  | .rax => m.rax
  | .rbx => m.rbx
  | .rcx => m.rcx
  | .rdx => m.rdx
  | .qword_rsp offset => m.mem (m.addr offset)

/-- Storing a quadword. -/
def Machine.store (m : Machine) (a v : Nat) : Machine :=
  { m with mem := fun b => if b = a then v else m.mem b }

/-- The machine after pushing the word `v`. -/
def Machine.pushed (m : Machine) (v : Nat) : Machine :=
  { m with rsp := (m.rsp + WORD - 8) % WORD }.store ((m.rsp + WORD - 8) % WORD) v

/-- One instruction other than a jump or the call that ends the process; `none` is a fault
(division error, or text the assembler rejects). -/
def Machine.step (m : Machine) : Instr → Option Machine
  | .header => some m
  | .label _ => some m
  | .mov_rax imm => (imm_value imm).map (fun v => { m with rax := v })
  | .push reg => some (m.pushed (m.read reg))
  | .pop reg =>
    let v := m.mem m.rsp
    let m := { m with rsp := (m.rsp + 8) % WORD }
    match reg with
    | .rax => some { m with rax := v }
    | .rbx => some { m with rbx := v }
    | .rcx => some { m with rcx := v }
    | .rdx => some { m with rdx := v }
    | .qword_rsp offset => some (m.store (m.addr offset) v)
  | .add_rax_rbx =>
    let v := (m.rax + m.rbx) % WORD
    some { m with rax := v, zf := decide (v = 0) }
  | .sub_rax_rbx =>
    let v := (m.rax + WORD - m.rbx) % WORD
    some { m with rax := v, zf := decide (v = 0) }
  | .mul_rbx => some { m with rax := (m.rax * m.rbx) % WORD, rdx := (m.rax * m.rbx) / WORD }
  | .xor_rdx_rdx => some { m with rdx := 0, zf := true }
  | .div_rbx =>
    if m.rbx = 0 then none
    else if (m.rdx * WORD + m.rax) / m.rbx < WORD then
      some { m with rax := (m.rdx * WORD + m.rax) / m.rbx,
                    rdx := (m.rdx * WORD + m.rax) % m.rbx }
    else none
  | .add_rsp n =>
    let v := (m.rsp + n) % WORD
    some { m with rsp := v, zf := decide (v = 0) }
  | .sub_rsp n =>
    let v := (m.rsp + WORD - n % WORD) % WORD
    some { m with rsp := v, zf := decide (v = 0) }
  | .add_qword_rax offset =>
    let v := (m.mem (m.addr offset) + m.rax) % WORD
    some { m.store (m.addr offset) v with zf := decide (v = 0) }
  | .sub_qword_rax offset =>
    let v := (m.mem (m.addr offset) + WORD - m.rax) % WORD
    some { m.store (m.addr offset) v with zf := decide (v = 0) }
  | .mov_rax_qword offset => some { m with rax := m.mem (m.addr offset) }
  | .mov_qword_rax offset => some (m.store (m.addr offset) m.rax)
  | .test_rax_rax => some { m with zf := decide (m.rax = 0) }
  | .sub_rsp_28h =>
    let v := (m.rsp + WORD - 40) % WORD
    some { m with rsp := v, zf := decide (v = 0) }
  | .mov_ecx_0 => some { m with rcx := 0 }
  | .jz _ => none
  | .call_ExitProcess => none

/-- Straight-line execution of a list of instructions. -/
def Machine.exec : List Instr → Machine → Option Machine
  | [], m => some m
  | i :: rest, m =>
    match m.step i with
    | none => none
    | some m => Machine.exec rest m

/-- The position of the definition of a label. -/
def find_label (prog : List Instr) (name : String) : Option Nat :=
  let k := prog.indexOf (Instr.label name)
  if k < prog.length then some k else none

/-- Running a program from position `pc`; the result is the value handed to `ExitProcess`
in `rcx`.  `none` is a fault, running off the end, or exhausted fuel. -/
def Machine.run : Nat → List Instr → Nat → Machine → Option Nat
  | 0, _, _, _ => none
  | fuel + 1, prog, pc, m =>
    match prog[pc]? with
    | none => none
    | some .call_ExitProcess => some m.rcx
    | some (.jz name) =>
      if m.zf then
        match find_label prog name with
        | some k => Machine.run fuel prog k m
        | none => none
      else Machine.run fuel prog (pc + 1) m
    | some i =>
      match m.step i with
      | none => none
      | some m => Machine.run fuel prog (pc + 1) m

/-- A machine at process start: registers cleared, `rsp` at `rsp0`, memory cleared. -/
def Machine.start (rsp0 : Nat) : Machine :=
  { rax := 0, rbx := 0, rcx := 0, rdx := 0, rsp := rsp0, zf := false, mem := fun _ => 0 }

/-! ## The meaning of source programs -/

/-- The value of a declared variable. -/
def env_get (env : List (String × Nat)) (x : String) : Option Nat :=
  (env.find? (fun b => decide (b.1 = x))).map (·.2)

/-- The value of an expression: `+ - *` modulo `2^64`, `/` the unsigned quotient, every
operator applied as `lhs OP rhs`; `none` for an undeclared identifier, a literal that is not
a decimal number, or a division by zero. -/
def sem_expr (env : List (String × Nat)) : NodeExpr → Option Nat
  | .term (.int_lit t) => t.value.bind imm_value
  | .term (.ident t) => t.value.bind (fun x => env_get env x)
  | .term (.paren e) => sem_expr env e
  | .bin_expr (.add l r) =>
    (sem_expr env l).bind (fun a => (sem_expr env r).map (fun b => (a + b) % WORD))
  | .bin_expr (.sub l r) =>
    (sem_expr env l).bind (fun a => (sem_expr env r).map (fun b => (a + WORD - b) % WORD))
  | .bin_expr (.multi l r) =>
    (sem_expr env l).bind (fun a => (sem_expr env r).map (fun b => (a * b) % WORD))
  | .bin_expr (.div l r) =>
    (sem_expr env l).bind (fun a =>
      (sem_expr env r).bind (fun b => if b = 0 then none else some (a / b)))

/-- The value of a binary node from the values of its operands. -/
def bin_value : NodeBinExpr → Nat → Nat → Option Nat
  | .add _ _, a, b => some ((a + b) % WORD)
  | .sub _ _, a, b => some ((a + WORD - b) % WORD)
  | .multi _ _, a, b => some ((a * b) % WORD)
  | .div _ _, a, b => if b = 0 then none else some (a / b)

/-- The number of stack words the code of an expression needs below the stack pointer. -/
def push_depth : NodeExpr → Nat
  | .term (.int_lit _) => 1
  | .term (.ident _) => 1
  | .term (.paren e) => push_depth e
  | .bin_expr (.add l r) => max (push_depth r) (push_depth l + 1)
  | .bin_expr (.sub l r) => max (push_depth r) (push_depth l + 1)
  | .bin_expr (.multi l r) => max (push_depth r) (push_depth l + 1)
  | .bin_expr (.div l r) => max (push_depth r) (push_depth l + 1)

/-- The machine stack agrees with the variable table for the variables of the environment:
the stack region lies inside the address space, and every variable that has a value in the
environment is found in `m_vars`, with `stack_loc < m_stack_size`, and its value is the word
stored `(m_stack_size - stack_loc - 1) * 8` bytes above `rsp`. -/
def Agrees (g : GeneratorWin) (m : Machine) (env : List (String × Nat)) : Prop :=
  m.rsp < WORD ∧ m.rsp + 8 * g.m_stack_size ≤ WORD
    ∧ ∀ x v, env_get env x = some v →
        ∃ it, g.find_var x = some it ∧ it.stack_loc < g.m_stack_size ∧ v < WORD
          ∧ m.mem (m.rsp + 8 * (g.m_stack_size - it.stack_loc - 1)) = v

/-- A machine whose stack holds the single word 7 (the value of `x`) at address 1000. -/
def machine_x7 : Machine :=
  { rax := 0, rbx := 0, rcx := 0, rdx := 0, rsp := 1000, zf := false,
    mem := fun a => if a = 1000 then 7 else 0 }

/-- The expression `x - 2 * 3`. -/
def expr_x_minus_2_times_3 : NodeExpr :=
  .bin_expr (.sub (e_var "x") (.bin_expr (.multi (e_int "2") (e_int "3"))))

/-- How the execution of a statement ends: the process has exited with a status, or control
goes on with an environment. -/
inductive Flow
  | exited (status : Nat)
  | running (env : List (String × Nat))

/-- The environment with the value of `x` replaced. -/
def env_set (env : List (String × Nat)) (x : String) (v : Nat) : List (String × Nat) :=
  env.map (fun b => if b.1 = x then (x, v) else b)

/-- The meaning of a `Set` statement: `=` stores the value of the expression, a compound
operator stores `old OP value` with the old value as left operand. -/
def sem_set : NodeStmtSet → List (String × Nat) → Option Flow
  | .set_expr ident e, env =>
    ident.value.bind (fun x => (env_get env x).bind (fun _ =>
      (sem_expr env e).map (fun v => .running (env_set env x v))))
  | .set_add ident e, env =>
    ident.value.bind (fun x => (env_get env x).bind (fun old =>
      (sem_expr env e).map (fun v => .running (env_set env x ((old + v) % WORD)))))
  | .set_sub ident e, env =>
    ident.value.bind (fun x => (env_get env x).bind (fun old =>
      (sem_expr env e).map (fun v => .running (env_set env x ((old + WORD - v) % WORD)))))
  | .set_multi ident e, env =>
    ident.value.bind (fun x => (env_get env x).bind (fun old =>
      (sem_expr env e).map (fun v => .running (env_set env x ((old * v) % WORD)))))
  | .set_div ident e, env =>
    ident.value.bind (fun x => (env_get env x).bind (fun old =>
      (sem_expr env e).bind (fun v =>
        if v = 0 then none else some (.running (env_set env x (old / v))))))

mutual
/-- The meaning of a statement: `exit(e)` ends the process with the value of `e`; `let`
declares a new variable; a scope forgets its declarations at its end; an `if` runs its scope
exactly when its condition is non-zero and its trailing clause, if any, otherwise. -/
def sem_stmt : NodeStmt → List (String × Nat) → Option Flow
  | .exit e, env => (sem_expr env e).map Flow.exited
  | .let_ ident e, env =>
    ident.value.bind (fun x =>
      match env_get env x with
      | some _ => none
      | none => (sem_expr env e).map (fun v => .running (env ++ [(x, v)])))
  | .set s, env => sem_set s env
  | .scope sc, env => sem_scope sc env
  | .if_ c sc pred, env =>
    match sem_expr env c with
    | none => none
    | some v => if v ≠ 0 then sem_scope sc env else sem_pred_opt pred env
/-- The meaning of a scope. -/
def sem_scope : NodeScope → List (String × Nat) → Option Flow
  | .mk stmts, env =>
    match sem_stmts stmts env with
    | some (.running env1) => some (.running (env1.take env.length))
    | r => r
/-- The meaning of a statement list. -/
def sem_stmts : List NodeStmt → List (String × Nat) → Option Flow
  | [], env => some (.running env)
  | s :: rest, env =>
    match sem_stmt s env with
    | some (.running env1) => sem_stmts rest env1
    | r => r
/-- The meaning of an optional trailing clause. -/
def sem_pred_opt : Option NodeIfPred → List (String × Nat) → Option Flow
  | none, env => some (.running env)
  | some pred, env => sem_pred pred env
/-- The meaning of a trailing clause. -/
def sem_pred : NodeIfPred → List (String × Nat) → Option Flow
  | .else_if c sc pred, env =>
    match sem_expr env c with
    | none => none
    | some v => if v ≠ 0 then sem_scope sc env else sem_pred_opt pred env
  | .else_ sc, env => sem_scope sc env
end

/-- The exit status the source semantics gives a program: that of the first `exit` reached,
or 0 when control reaches the end. -/
def sem_prog (prog : NodeProg) : Option Nat :=
  match sem_stmts prog.stmts [] with
  | some (.exited status) => some status
  | some (.running _) => some 0
  | none => none

/-- The program `exit(2 + 3 * 4);`. -/
def prog_exit_14 : NodeProg :=
  ⟨[.exit (.bin_expr (.add (e_int "2") (.bin_expr (.multi (e_int "3") (e_int "4")))))]⟩

/-- The program `let x = 5; x += 3; exit(x);`. -/
def prog_exit_8 : NodeProg :=
  ⟨[.let_ (tok_ident "x") (e_int "5"), .set (.set_add (tok_ident "x") (e_int "3")),
    .exit (e_var "x")]⟩

/-- The program `let x = 0; if (x) { exit(7); } exit(9);`. -/
def prog_exit_9 : NodeProg :=
  ⟨[.let_ (tok_ident "x") (e_int "0"), .if_ (e_var "x") (.mk [.exit (e_int "7")]) none,
    .exit (e_int "9")]⟩

/-- The program `let x = 0; if (x) { exit(7); } else { exit(8); } exit(9);`. -/
def prog_if_else : NodeProg :=
  ⟨[.let_ (tok_ident "x") (e_int "0"),
    .if_ (e_var "x") (.mk [.exit (e_int "7")]) (some (.else_ (.mk [.exit (e_int "8")]))),
    .exit (e_int "9")]⟩

/-- The instructions `gen_prog` emits for a program, if it succeeds. -/
def compile (prog : NodeProg) : Option (List Instr) :=
  match GeneratorWin.gen_prog prog with
  | .ok gen => some gen.m_output
  | .error _ => none

/-- The status with which the compiled program ends when run from a fresh machine. -/
def run_compiled (fuel : Nat) (prog : NodeProg) : Option Nat :=
  (compile prog).bind (fun code => Machine.run fuel code 0 (Machine.start 65536))

/-- The program `let x = x;`. -/
def prog_let_self : NodeProg := ⟨[.let_ (tok_ident "x") (e_var "x")]⟩

/-- The generator state in which `let x = x;`, as the first statement of a program, starts
lowering its initialiser: `x` is already in `m_vars`, nothing is on the stack yet. -/
def gen_in_let_self : GeneratorWin :=
  { m_output := [.header], m_stack_size := 0, m_vars := [Var.mk "x" 0], m_scopes := [],
    m_label_count := 0 }

/-- The program `let a = 1; let x = x + a; exit(x);`. -/
def prog_let_self_sum : NodeProg :=
  ⟨[.let_ (tok_ident "a") (e_int "1"),
    .let_ (tok_ident "x") (.bin_expr (.add (e_var "x") (e_var "a"))), .exit (e_var "x")]⟩

/-- The target of a `Set` statement. -/
def NodeStmtSet.ident : NodeStmtSet → Token
  | .set_expr ident _ => ident
  | .set_add ident _ => ident
  | .set_multi ident _ => ident
  | .set_sub ident _ => ident
  | .set_div ident _ => ident

/-! ## `Set` statements on the machine -/

/-- The expression of a `Set` statement. -/
def NodeStmtSet.expr : NodeStmtSet → NodeExpr
  | .set_expr _ expr => expr
  | .set_add _ expr => expr
  | .set_multi _ expr => expr
  | .set_sub _ expr => expr
  | .set_div _ expr => expr

/-- The word a `Set` statement is to leave in its target, from the old value of the target
and the value `v` of the expression: `v` for `=`, and `old OP v` for a compound operator
(`+ - *` modulo `2^64`, `/` the unsigned quotient, undefined for a zero divisor). -/
def set_value : NodeStmtSet → Nat → Nat → Option Nat
  | .set_expr _ _, _, v => some v
  | .set_add _ _, old, v => some ((old + v) % WORD)
  | .set_multi _ _, old, v => some ((old * v) % WORD)
  | .set_sub _ _, old, v => some ((old + WORD - v) % WORD)
  | .set_div _ _, old, v => if v = 0 then none else some (old / v)

/-- The instructions `gen_stmt_set` emits after the code of the expression, for a target
`offset` bytes above the stack pointer. -/
def NodeStmtSet.store_code : NodeStmtSet → Nat → List Instr
  | .set_expr _ _, offset =>
    [.pop .rax, .add_rsp (size_add offset 8), .push .rax, .sub_rsp offset]
  | .set_add _ _, offset => [.pop .rax, .add_qword_rax offset]
  | .set_multi _ _, offset =>
    [.pop .rbx, .mov_rax_qword offset, .mul_rbx, .mov_qword_rax offset]
  | .set_sub _ _, offset => [.pop .rax, .sub_qword_rax offset]
  | .set_div _ _, offset =>
    [.pop .rbx, .mov_rax_qword offset, .xor_rdx_rdx, .div_rbx, .mov_qword_rax offset]

/-- The statement `x += 3`. -/
def set_x_plus_3 : NodeStmtSet := .set_add (tok_ident "x") (e_int "3")

/-! ## tokenization.hpp: the tokenizer

A `char` of the source text is a `Char`.  The classification functions are those of the "C"
locale, which the program never changes: outside ASCII they are false. -/

/-- `std::isalpha`. -/
def isalpha (c : Char) : Bool := c.isAlpha

/-- `std::isdigit`. -/
def isdigit (c : Char) : Bool := c.isDigit

/-- `std::isalnum`. -/
def isalnum (c : Char) : Bool := c.isAlphanum

/-- `std::isspace`: space, `\t`, `\n`, `\v`, `\f` and `\r`. -/
def isspace (c : Char) : Bool :=
  c = ' ' || c = '\t' || c = '\n' || c = '\x0b' || c = '\x0c' || c = '\r'

/-- How `tokenize` ends when it does not return: the message
`<srcName>:<line>:<col>: lex_error: Unexpected character '<c>'` followed by
`exit(EXIT_FAILURE)`; `out_of_fuel` belongs to the model only. -/
inductive LexHalt
  | lex_error (srcName : String) (line col : Int) (c : Char)
  | out_of_fuel
  deriving DecidableEq, Repr

/-- The text written to `std::cerr`. -/
def LexHalt.stderr : LexHalt → String
  | .lex_error srcName line col c =>
    srcName ++ ":" ++ toString line ++ ":" ++ toString col
      ++ ": lex_error: Unexpected character '" ++ String.singleton c ++ "'\n"
  | .out_of_fuel => ""

/-- The state of `Tokenizer::tokenize` at the test of its outer loop: the member
`m_srcName`, the characters of `m_src` from `m_index` on (`rest`: `peek()` is its first
character, `peek(1)` its second, `consume()` removes the first), and the locals `tokens`,
`line_count` and `col_count`.  The local `buf` is empty at that point.  The two `int`
counters are integers without overflow: it would take `2^31` characters to reach it. -/
structure Tokenizer where
  m_srcName : String
  rest : List Char
  tokens : List Token
  line_count : Int
  col_count : Int

/-- The inner loop of the identifier branch,
`while (peek().has_value() && std::isalnum(peek().value()))` with body
`buf.push_back(consume()); col_count++;`: the result is `buf`, `col_count` and the
characters left. -/
def ident_loop : List Char → List Char → Int → List Char × Int × List Char
  | [], buf, col_count => (buf, col_count, [])
  | c :: rest, buf, col_count =>
    if isalnum c then ident_loop rest (buf ++ [c]) (col_count + 1)
    else (buf, col_count, c :: rest)

/-- The inner loop of the integer branch,
`while (peek().has_value() && std::isdigit(peek().value()))` with body
`buf.push_back(consume());`: the result is `buf` and the characters left. -/
def digit_loop : List Char → List Char → List Char × List Char
  | [], buf => (buf, [])
  | c :: rest, buf =>
    if isdigit c then digit_loop rest (buf ++ [c]) else (buf, c :: rest)

/-- The loop `while (peek().has_value() && peek().value() != '\n') consume();` of the line
comment branch. -/
def line_comment_loop : List Char → List Char
  | [] => []
  | c :: rest => if c ≠ '\n' then line_comment_loop rest else c :: rest

/-- The loop of the block comment branch: it consumes until `peek()` is `*` and `peek(1)`
is `/`, or to the end of the text. -/
def block_comment_loop : List Char → List Char
  | [] => []
  | c :: rest =>
    if c = '*' ∧ rest.head? = some '/' then c :: rest else block_comment_loop rest

/-- The kind and payload pushed for the text `buf` of the identifier branch. -/
def word_token (buf : String) : TokenType × Option String :=
  if buf = "exit" then (._exit, none)
  else if buf = "let" then (.let_, none)
  else if buf = "if" then (.if_, none)
  else if buf = "else" then (.else_, none)
  else (.ident, some buf)

/-- The characters up to `rest` have been consumed. -/
def Tokenizer.consumed (t : Tokenizer) (rest : List Char) : Tokenizer :=
  { t with rest := rest }

/-- `tokens.push_back` of a token of the given kind and payload at `line_count`,
`col_count`. -/
def Tokenizer.push_back (t : Tokenizer) (type : TokenType) (value : Option String) :
    Tokenizer :=
  { t with tokens := t.tokens ++ [⟨type, t.line_count, t.col_count, value⟩] }

/-- The statement `col_count++;` that ends the body of the outer loop. -/
def Tokenizer.next_col (t : Tokenizer) : Tokenizer :=
  { t with col_count := t.col_count + 1 }

/-- The body of the outer loop of `tokenize`, entered with `peek().has_value()`: the
branches in the order of the source.  The compound operators leave through `continue`,
without the final `col_count++`. -/
def Tokenizer.step (t : Tokenizer) : Except LexHalt Tokenizer :=
  match t.rest with
  | [] => .ok t
  | c :: rest =>
    if isalpha c then
      let r := ident_loop rest [c] t.col_count
      let w := word_token (String.mk r.1)
      .ok ((({ t with rest := r.2.2, col_count := r.2.1 } : Tokenizer).push_back w.1 w.2).next_col)
    else if isdigit c then
      let r := digit_loop rest [c]
      .ok (((t.consumed r.2).push_back .int_lit (some (String.mk r.1))).next_col)
    else if c = '/' ∧ rest.head? = some '/' then
      .ok ((t.consumed (line_comment_loop rest.tail)).next_col)
    else if c = '/' ∧ rest.head? = some '*' then
      .ok ((t.consumed (block_comment_loop rest.tail).tail.tail).next_col)
    else if c = '(' then .ok (((t.consumed rest).push_back .open_paren none).next_col)
    else if c = ')' then .ok (((t.consumed rest).push_back .close_paren none).next_col)
    else if c = ';' then .ok (((t.consumed rest).push_back .semi none).next_col)
    else if c = '=' then .ok (((t.consumed rest).push_back .eq none).next_col)
    else if c = '+' then
      if rest.head? = some '=' then .ok ((t.consumed rest.tail).push_back .pluseq none)
      else .ok (((t.consumed rest).push_back .plus none).next_col)
    else if c = '*' then
      if rest.head? = some '=' then .ok ((t.consumed rest.tail).push_back .stareq none)
      else .ok (((t.consumed rest).push_back .star none).next_col)
    else if c = '-' then
      if rest.head? = some '=' then .ok ((t.consumed rest.tail).push_back .minuseq none)
      else .ok (((t.consumed rest).push_back .minus none).next_col)
    else if c = '/' then
      if rest.head? = some '=' then .ok ((t.consumed rest.tail).push_back .fslasheq none)
      else .ok (((t.consumed rest).push_back .fslash none).next_col)
    else if c = '\x7b' then .ok (((t.consumed rest).push_back .open_curly none).next_col)
    else if c = '\x7d' then .ok (((t.consumed rest).push_back .close_curly none).next_col)
    else if c = '\n' then
      .ok (({ t with rest := rest, line_count := t.line_count + 1, col_count := 0 } :
        Tokenizer).next_col)
    else if isspace c then .ok ((t.consumed rest).next_col)
    else .error (.lex_error t.m_srcName t.line_count t.col_count c)

/-- The outer loop `while (peek().has_value())` and the `return tokens;` after it.  Each
iteration consumes a character, so `fuel` bounds the number of iterations. -/
def Tokenizer.loop : Nat → Tokenizer → Except LexHalt (List Token)
  | 0, _ => .error .out_of_fuel
  | fuel + 1, t =>
    match t.rest with
    | [] => .ok t.tokens
    | _ :: _ =>
      match t.step with
      | .error h => .error h
      | .ok t => Tokenizer.loop fuel t

/-- The tokenizer as `main` constructs it, with the locals of `tokenize` initialised. -/
def Tokenizer.init (src srcName : String) : Tokenizer :=
  { m_srcName := srcName, rest := src.toList, tokens := [], line_count := 1, col_count := 1 }

/-- `Tokenizer(src, srcName).tokenize()`.  The loop gets one unit of fuel per character of
the text and one for the final test. -/
def tokenize (src srcName : String) : Except LexHalt (List Token) :=
  Tokenizer.loop (src.length + 1) (Tokenizer.init src srcName)

/-! ## Tokens without their positions, and the comments of a text -/

/-- The kind and the payload of a token. -/
def Token.kind (t : Token) : TokenType × Option String := (t.type, t.value)

/-- The kinds and payloads of the tokens returned, `none` when the tokenizer halts. -/
def lex_kinds : Except LexHalt (List Token) → Option (List (TokenType × Option String))
  | .ok tokens => some (tokens.map Token.kind)
  | .error _ => none

/-- The compound token `c=` of an operator character. -/
def compound_type (c : Char) : TokenType :=
  if c = '+' then .pluseq
  else if c = '-' then .minuseq
  else if c = '*' then .stareq
  else .fslasheq

/-- The characters the language is written in: ASCII letters, decimal digits, whitespace
and the punctuation `( ) { } ; = + - * /`. -/
def lexable (c : Char) : Bool :=
  isalpha c || isdigit c || isspace c || c = '(' || c = ')' || c = '\x7b' || c = '\x7d'
    || c = ';' || c = '=' || c = '+' || c = '-' || c = '*' || c = '/'

/-- Where a character stands with respect to comments: in the code, on the second `/` of
`//`, inside a line comment, on the `*` of `/*`, inside a block comment, on the `/` of a
closing `*/`. -/
inductive Region
  | code | line_open | line | block_open | block | block_close
  deriving DecidableEq, Repr

/-- The characters of a text that are not inside a comment, in order, reading from a
character in the given region.  A line comment is `//` up to, not including, the next
newline; a block comment is `/*` up to and including the next `*/`, or to the end of the
text when there is none. -/
def code_chars : Region → List Char → List Char
  | _, [] => []
  | .code, c :: rest =>
    if c = '/' ∧ rest.head? = some '/' then code_chars .line_open rest
    else if c = '/' ∧ rest.head? = some '*' then code_chars .block_open rest
    else c :: code_chars .code rest
  | .line_open, _ :: rest => code_chars .line rest
  | .line, c :: rest =>
    if c = '\n' then c :: code_chars .code rest else code_chars .line rest
  | .block_open, _ :: rest => code_chars .block rest
  | .block, c :: rest =>
    if c = '*' ∧ rest.head? = some '/' then code_chars .block_close rest
    else code_chars .block rest
  | .block_close, _ :: rest => code_chars .code rest

/-- The leftmost character outside the comments of a text that is not `lexable`. -/
def first_unexpected (src : List Char) : Option Char :=
  (code_chars .code src).find? (fun c => !lexable c)

/-- The payload of a token is well formed for its kind: an identifier carries a letter
followed by letters and digits, not one of the keywords; an integer literal carries a
non-empty string of decimal digits; every other kind carries no payload. -/
def Token.well_formed (t : Token) : Prop :=
  match t.type with
  | .ident => ∃ c cs, t.value = some (String.mk (c :: cs)) ∧ isalpha c = true
      ∧ (∀ d ∈ cs, isalnum d = true) ∧ String.mk (c :: cs) ∉ ["exit", "let", "if", "else"]
  | .int_lit => ∃ c cs, t.value = some (String.mk (c :: cs)) ∧ isdigit c = true
      ∧ ∀ d ∈ cs, isdigit d = true
  | _ => t.value = none

/-! ## Lines and columns of a text -/

/-- The lines of a text: the stretches between its newline characters. -/
def text_lines : List Char → List (List Char)
  | [] => [[]]
  | c :: rest =>
    if c = '\n' then [] :: text_lines rest
    else
      match text_lines rest with
      | [] => [[c]]
      | l :: ls => (c :: l) :: ls

/-- The length of line `line` (counted from 1) of a text. -/
def line_length (src : List Char) (line : Nat) : Option Nat :=
  ((text_lines src)[line - 1]?).map List.length

/-- The line and the column, both counted from 1, of the character at offset `i` of a text:
one more than the number of newlines before it, and one more than the number of characters
between the last of those newlines and it. -/
def position_of (src : List Char) (i : Nat) : Nat × Nat :=
  (1 + (src.take i).count '\n', 1 + ((src.take i).reverse.takeWhile (fun c => c != '\n')).length)

/-- The character named by the `lex_error` with which the tokenizer halts, if it does. -/
def lex_char : Except LexHalt (List Token) → Option Char
  | .error (.lex_error _ _ _ c) => some c
  | _ => none

/-! ## Chains of `else` clauses -/

mutual
/-- The clauses of a trailing clause, outermost first: the condition, if the clause is an
`else if`, and the scope. -/
def pred_clauses : NodeIfPred → List (Option NodeExpr × NodeScope)
  | .else_if expr scope pred => (some expr, scope) :: pred_clauses_opt pred
  | .else_ scope => [(none, scope)]
/-- The clauses of an optional trailing clause. -/
def pred_clauses_opt : Option NodeIfPred → List (Option NodeExpr × NodeScope)
  | none => []
  | some pred => pred_clauses pred
end

mutual
/-- How deep a trailing clause is nested: 1 for `else`, one more than what follows for
`else if`. -/
def pred_depth : NodeIfPred → Nat
  | .else_if _ _ pred => pred_depth_opt pred + 1
  | .else_ _ => 1
/-- The depth of an optional trailing clause, 0 when there is none. -/
def pred_depth_opt : Option NodeIfPred → Nat
  | none => 0
  | some pred => pred_depth pred
end

/-- The tokens of a chain `else if ( e ) { ... } ... else { ... }` with the clauses they
spell, in source order: one entry for each `else` keyword of the chain.  The final `else`
may be missing. -/
inductive ElseChain : List Token → List (Option NodeExpr × NodeScope) → Prop
  | nil : ElseChain [] []
  | else_if (el k o c : Token) (E SC PR : List Token) (e : NodeExpr) (sc : NodeScope)
      (cl : List (Option NodeExpr × NodeScope)) :
      el.type = .else_ → k.type = .if_ → o.type = .open_paren → c.type = .close_paren →
      ExprParses E e → ScopeParses SC sc → ElseChain PR cl →
      ElseChain (el :: k :: o :: E ++ c :: SC ++ PR) ((some e, sc) :: cl)
  | else_ (el : Token) (SC : List Token) (sc : NodeScope) :
      el.type = .else_ → (∃ t r, SC = t :: r ∧ t.type = .open_curly) → ScopeParses SC sc →
      ElseChain (el :: SC) [(none, sc)]

/-- The tokens of `else if (x) { } else { }`. -/
def toks_else_chain : List Token :=
  [tok .else_, tok .if_, tok .open_paren, tok_ident "x", tok .close_paren, tok .open_curly,
    tok .close_curly, tok .else_, tok .open_curly, tok .close_curly]

/-- The text `error` writes to `std::cerr`:
`<srcName>:<line>:<col>: parse_error: <msg>` and a newline. -/
def Halt.stderr : Halt → String
  | .diag srcName line col msg =>
    srcName ++ ":" ++ toString line ++ ":" ++ toString col ++ ": parse_error: " ++ msg ++ "\n"
  | _ => ""

/-- The parser `p'` is the parser `p` moved forward inside the token list. -/
def Parser.Frame (p p' : Parser) : Prop :=
  p'.m_srcName = p.m_srcName ∧ p'.m_tokens = p.m_tokens ∧ p.m_index ≤ p'.m_index
    ∧ (p.m_index ≤ p.m_tokens.length → p'.m_index ≤ p.m_tokens.length)

/-- The tokens of the three lines `exit((`, `1 +`, `2;`. -/
def toks_unclosed_paren : List Token :=
  [⟨._exit, 1, 4, none⟩, ⟨.open_paren, 1, 5, none⟩, ⟨.open_paren, 1, 6, none⟩,
    ⟨.int_lit, 2, 1, some "1"⟩, ⟨.plus, 2, 3, none⟩, ⟨.int_lit, 3, 1, some "2"⟩,
    ⟨.semi, 3, 2, none⟩]

/-- The token list begins none of the statement forms at which `parse_stmt` commits itself:
`exit (`, `let` ident `=`, an identifier followed by a token (taken as the beginning of a
`Set` statement), `{`, `if`. -/
def starts_no_statement : List Token → Prop
  | [] => False
  | t :: r =>
    ¬ (t.type = ._exit ∧ (r[0]?).map (fun x => x.type) = some .open_paren)
    ∧ ¬ (t.type = .let_ ∧ (r[0]?).map (fun x => x.type) = some .ident
        ∧ (r[1]?).map (fun x => x.type) = some .eq)
    ∧ ¬ (t.type = .ident ∧ (r[0]?).isSome = true)
    ∧ t.type ≠ .open_curly ∧ t.type ≠ .if_

/-- What the generator writes to `std::cerr` when it halts with `exit(EXIT_FAILURE)` is one
of its two bare messages: `Undeclared identifier used '<name>'` for a name that is not in
`m_vars`, or `Identifier already used: <name>` for a name that is; each is followed by a
newline and preceded by nothing. -/
def GenHalt.bare : GenHalt × GeneratorWin → Prop
  | (.exit_failure text, gen) =>
    ∃ name, (text = "Undeclared identifier used '" ++ name ++ "'\n" ∧ gen.find_var name = none)
      ∨ (text = "Identifier already used: " ++ name ++ "\n" ∧ (gen.find_var name).isSome = true)
  | _ => True

/-! ## Labels -/

/-- The label `create_label` returns when the counter stands at `k`. -/
def label_name (k : Nat) : String := "label" ++ toString k

/-- The target of a `jz`. -/
def Instr.jz_target : Instr → Option String
  | .jz name => some name
  | _ => none

/-- The label a line defines. -/
def Instr.label_def : Instr → Option String
  | .label name => some name
  | _ => none

/-- The targets of the `jz` instructions of a piece of code, in order. -/
def jz_targets (code : List Instr) : List String := code.filterMap Instr.jz_target

/-- The labels defined in a piece of code, in order. -/
def label_defs (code : List Instr) : List String := code.filterMap Instr.label_def

mutual
/-- The number of `if` statements that `gen_stmt` lowers for a statement: the statement
itself, if it is one, and those in its scope; the trailing clause is never lowered. -/
def stmt_ifs : NodeStmt → Nat
  | .exit _ => 0
  | .let_ _ _ => 0
  | .set _ => 0
  | .scope scope => scope_ifs scope
  | .if_ _ scope _ => scope_ifs scope + 1
/-- The number of `if` statements lowered for a scope. -/
def scope_ifs : NodeScope → Nat
  | .mk stmts => stmts_ifs stmts
/-- The number of `if` statements lowered for a statement list. -/
def stmts_ifs : List NodeStmt → Nat
  | [] => 0
  | stmt :: rest => stmt_ifs stmt + stmts_ifs rest
end

/-- The value of a string of decimal digits. -/
def digits_value (cs : List Char) (init : Nat) : Nat :=
  cs.foldl (fun n c => 10 * n + (c.toNat - 48)) init

/-- A piece of code without `jz` and without label definitions. -/
def Plain (code : List Instr) : Prop := jz_targets code = [] ∧ label_defs code = []

/-- In a piece of code the targets of the `jz` instructions are, in order, the `n` labels
created from the counter value `k` on, and the labels defined are the same labels, each
once. -/
def LabelsFrom (k n : Nat) (code : List Instr) : Prop :=
  jz_targets code = (List.range' k n).map label_name
    ∧ (label_defs code).Perm ((List.range' k n).map label_name)

/-- The program `if (1) { if (2) { } } if (3) { }`. -/
def prog_three_ifs : NodeProg :=
  ⟨[.if_ (e_int "1") (.mk [.if_ (e_int "2") (.mk []) none]) none,
    .if_ (e_int "3") (.mk []) none]⟩

/-- The generator state after `gen_prog` on `prog_three_ifs`. -/
def prog_three_ifs_done : GeneratorWin :=
  { m_output := [.header, .mov_rax "1", .push .rax, .pop .rax, .test_rax_rax, .jz "label0",
      .mov_rax "2", .push .rax, .pop .rax, .test_rax_rax, .jz "label1", .add_rsp 0,
      .label "label1", .add_rsp 0, .label "label0", .mov_rax "3", .push .rax, .pop .rax,
      .test_rax_rax, .jz "label2", .add_rsp 0, .label "label2", .sub_rsp_28h, .mov_ecx_0,
      .call_ExitProcess],
    m_stack_size := 0, m_vars := [], m_scopes := [], m_label_count := 3 }

/-- The generator state after lowering `if (3) { }` in a fresh generator. -/
def if_3_done : GeneratorWin :=
  { m_output := [.mov_rax "3", .push .rax, .pop .rax, .test_rax_rax, .jz "label0",
      .add_rsp 0, .label "label0"],
    m_stack_size := 0, m_vars := [], m_scopes := [], m_label_count := 1 }

/-! ## Counting the iterations of the tokenizer -/

/-- The number of times the body of the outer loop of `tokenize` is entered in a run of
`Tokenizer.loop`: an iteration that halts counts as one. -/
def Tokenizer.iterations : Nat → Tokenizer → Nat
  | 0, _ => 0
  | fuel + 1, t =>
    match t.rest with
    | [] => 0
    | _ :: _ =>
      match t.step with
      | .error _ => 1
      | .ok t => Tokenizer.iterations fuel t + 1

/-! ## The states a run of the generator goes through -/

/-- The state in which a generator function returns or, when it halts, the state in which
it halts. -/
def final_state : GenResult → GeneratorWin
  | .ok gen => gen
  | .error (_, gen) => gen

mutual
/-- The calls of `gen_stmt` made while a statement is lowered from a state, in the order in
which they are entered: each with its statement and the state it is entered in.  The first is
the call for the statement itself; the others are those for the statements of its scope, at
any depth.  The trailing clause of an `if` is not lowered. -/
def stmt_calls : NodeStmt → GeneratorWin → List (NodeStmt × GeneratorWin)
  | .exit expr, gen => [(.exit expr, gen)]
  | .let_ ident expr, gen => [(.let_ ident expr, gen)]
  | .set stmt_set, gen => [(.set stmt_set, gen)]
  | .scope scope, gen => (.scope scope, gen) :: scope_calls scope gen
  | .if_ expr scope pred, gen =>
    (.if_ expr scope pred, gen) ::
      match gen.gen_expr expr with
      | .error _ => []
      | .ok gen =>
        let gen := gen.pop .rax
        let (label, gen) := gen.create_label
        let gen := gen.emit .test_rax_rax
        let gen := gen.emit (.jz label)
        scope_calls scope gen
/-- The calls of `gen_stmt` made by `gen_scope`. -/
def scope_calls : NodeScope → GeneratorWin → List (NodeStmt × GeneratorWin)
  | .mk stmts, gen => stmts_calls stmts gen.begin_scope
/-- The calls of `gen_stmt` made while a statement list is lowered. -/
def stmts_calls : List NodeStmt → GeneratorWin → List (NodeStmt × GeneratorWin)
  | [], _ => []
  | stmt :: rest, gen =>
    stmt_calls stmt gen ++
      match GeneratorWin.gen_stmt stmt gen with
      | .error _ => []
      | .ok gen => stmts_calls rest gen
end

/-- The names recorded in `m_vars` are pairwise distinct. -/
def GeneratorWin.names_distinct (gen : GeneratorWin) : Prop :=
  (gen.m_vars.map Var.name).Nodup

/-- The stack counter equals the number of variables, and the variable at index `i` of
`m_vars` has `stack_loc = i`. -/
def GeneratorWin.stack_aligned (gen : GeneratorWin) : Prop :=
  gen.m_stack_size = gen.m_vars.length ∧ ∀ (i : Nat) (v : Var), gen.m_vars[i]? = some v → v.stack_loc = i

/-- The program `{ let x = 1; } { let x = 2; }`. -/
def prog_sibling_lets : NodeProg :=
  ⟨[.scope (.mk [.let_ (tok_ident "x") (e_int "1")]),
    .scope (.mk [.let_ (tok_ident "x") (e_int "2")])]⟩

/-- The generator state after `gen_prog` on `prog_sibling_lets`. -/
def prog_sibling_lets_done : GeneratorWin :=
  { m_output := [.header, .mov_rax "1", .push .rax, .add_rsp 8, .mov_rax "2", .push .rax,
      .add_rsp 8, .sub_rsp_28h, .mov_ecx_0, .call_ExitProcess],
    m_stack_size := 0, m_vars := [], m_scopes := [], m_label_count := 0 }

/-- The generator state after `{ let x = 1; }` has been lowered at the top level. -/
def after_scope_let_x : GeneratorWin :=
  { m_output := [.header, .mov_rax "1", .push .rax, .add_rsp 8],
    m_stack_size := 0, m_vars := [], m_scopes := [], m_label_count := 0 }

/-- The program `{ let x = 1; } exit(x);`. -/
def prog_use_after_scope : NodeProg :=
  ⟨[.scope (.mk [.let_ (tok_ident "x") (e_int "1")]), .exit (e_var "x")]⟩

/-- The program `{ let x = 1; } x = 2;`. -/
def prog_set_after_scope : NodeProg :=
  ⟨[.scope (.mk [.let_ (tok_ident "x") (e_int "1")]),
    .set (.set_expr (tok_ident "x") (e_int "2"))]⟩

/-! ## Writing a syntax tree back to tokens -/

/-- What the syntax tree keeps of a token: its kind, and its payload if it is an identifier
or an integer literal. -/
def Token.spelling (t : Token) : TokenType × Option String :=
  (t.type, if t.type = .ident ∨ t.type = .int_lit then t.value else none)

mutual
/-- The tokens of a term: the literal, the identifier, or `(` expression `)`. -/
def term_toks : NodeTerm → List (TokenType × Option String)
  | .int_lit int_lit => [(.int_lit, int_lit.value)]
  | .ident ident => [(.ident, ident.value)]
  | .paren expr => (.open_paren, none) :: expr_toks expr ++ [(.close_paren, none)]
/-- The tokens of a binary node: left operand, operator, right operand, with no
parentheses added. -/
def bin_expr_toks : NodeBinExpr → List (TokenType × Option String)
  | .add lhs rhs => expr_toks lhs ++ (.plus, none) :: expr_toks rhs
  | .sub lhs rhs => expr_toks lhs ++ (.minus, none) :: expr_toks rhs
  | .multi lhs rhs => expr_toks lhs ++ (.star, none) :: expr_toks rhs
  | .div lhs rhs => expr_toks lhs ++ (.fslash, none) :: expr_toks rhs
/-- The tokens of an expression. -/
def expr_toks : NodeExpr → List (TokenType × Option String)
  | .term t => term_toks t
  | .bin_expr b => bin_expr_toks b
end

/-- The tokens of a `Set` statement without its `;`: target, operator, expression. -/
def set_toks : NodeStmtSet → List (TokenType × Option String)
  | .set_expr ident expr => (.ident, ident.value) :: (.eq, none) :: expr_toks expr
  | .set_add ident expr => (.ident, ident.value) :: (.pluseq, none) :: expr_toks expr
  | .set_multi ident expr => (.ident, ident.value) :: (.stareq, none) :: expr_toks expr
  | .set_sub ident expr => (.ident, ident.value) :: (.minuseq, none) :: expr_toks expr
  | .set_div ident expr => (.ident, ident.value) :: (.fslasheq, none) :: expr_toks expr

mutual
/-- The tokens of a statement: `exit ( e ) ;`, `let x = e ;`, a `Set` statement with its
`;`, a scope, or `if ( e )` scope and the trailing clauses. -/
def stmt_toks : NodeStmt → List (TokenType × Option String)
  | .exit expr =>
    (._exit, none) :: (.open_paren, none) :: expr_toks expr
      ++ [(.close_paren, none), (.semi, none)]
  | .let_ ident expr =>
    (.let_, none) :: (.ident, ident.value) :: (.eq, none) :: expr_toks expr ++ [(.semi, none)]
  | .set stmt_set => set_toks stmt_set ++ [(.semi, none)]
  | .scope scope => scope_toks scope
  | .if_ expr scope pred =>
    (.if_, none) :: (.open_paren, none) :: expr_toks expr
      ++ (.close_paren, none) :: scope_toks scope ++ pred_opt_toks pred
/-- The tokens of a scope: its statements between braces. -/
def scope_toks : NodeScope → List (TokenType × Option String)
  | .mk stmts => (.open_curly, none) :: stmts_toks stmts ++ [(.close_curly, none)]
/-- The tokens of a trailing clause: `else if ( e )` scope and what follows, or `else`
scope. -/
def pred_toks : NodeIfPred → List (TokenType × Option String)
  | .else_if expr scope pred =>
    (.else_, none) :: (.if_, none) :: (.open_paren, none) :: expr_toks expr
      ++ (.close_paren, none) :: scope_toks scope ++ pred_opt_toks pred
  | .else_ scope => (.else_, none) :: scope_toks scope
/-- The tokens of an optional trailing clause. -/
def pred_opt_toks : Option NodeIfPred → List (TokenType × Option String)
  | none => []
  | some pred => pred_toks pred
/-- The tokens of a statement list. -/
def stmts_toks : List NodeStmt → List (TokenType × Option String)
  | [] => []
  | stmt :: rest => stmt_toks stmt ++ stmts_toks rest
end

/-- The tokens of a program. -/
def prog_toks (prog : NodeProg) : List (TokenType × Option String) := stmts_toks prog.stmts

/-! ## What a parser function has consumed -/

/-- The parser `p'` is the parser `p` after it has consumed tokens that spell `w`. -/
def Parser.Consumed (p p' : Parser) (w : List (TokenType × Option String)) : Prop :=
  ∃ seg tail, p.rest = seg ++ tail ∧ p' = p.advance seg.length ∧ seg.map Token.spelling = w

/-- What is shown of the result of a parser function that returns an optional node, called
on `p` with `fuel`: a node returned spells the tokens consumed, nothing is consumed when no
node is returned, and with `bound ≤ fuel` the model has not run out of fuel. -/
def Good {α : Type} (w : α → List (TokenType × Option String)) (bound : Nat) (p : Parser)
    (fuel : Nat) : Except Halt (Option α × Parser) → Prop
  | .error h => bound ≤ fuel → h ≠ .out_of_fuel
  | .ok (none, p') => p' = p
  | .ok (some a, p') => p.Consumed p' (w a)

/-- The same for the operator loop of `parse_expr` entered with `lhs`: the expression
returned spells the tokens of `lhs` followed by the tokens consumed. -/
def GoodLoop (lhs : NodeExpr) (bound : Nat) (p : Parser) (fuel : Nat) :
    Except Halt (Option NodeExpr × Parser) → Prop
  | .error h => bound ≤ fuel → h ≠ .out_of_fuel
  | .ok (none, _) => False
  | .ok (some e, p') => ∃ w, p.Consumed p' w ∧ expr_toks e = expr_toks lhs ++ w

/-- The same for `parse_stmt_set`, which has consumed the target when it returns no node. -/
def GoodSet (bound : Nat) (p : Parser) (fuel : Nat) :
    Except Halt (Option NodeStmtSet × Parser) → Prop
  | .error h => bound ≤ fuel → h ≠ .out_of_fuel
  | .ok (none, _) => True
  | .ok (some s, p') => p.Consumed p' (set_toks s)

/-- The same for the statement loops of `parse_scope` and `parse_prog` entered with `stmts`:
the list returned is `stmts` followed by statements that spell the tokens consumed. -/
def GoodStmts (stmts : List NodeStmt) (bound : Nat) (p : Parser) (fuel : Nat) :
    Except Halt (List NodeStmt × Parser) → Prop
  | .error h => bound ≤ fuel → h ≠ .out_of_fuel
  | .ok (r, p') => ∃ new, r = stmts ++ new ∧ p.Consumed p' (stmts_toks new)

/-! ## Counting the calls of the parser

The functions below count the calls of `parse_prog`, `parse_stmt`, `parse_stmt_set`,
`parse_scope`, `parse_if_pred`, `parse_expr` and `parse_term` made in a run: each follows the
body of the function it counts for, adds one for the call itself and the counts of the calls
made, and takes the results that decide how the body goes on from the parser functions
themselves.  A loop is not a call; its count is that of the calls made in its turns. -/

mutual
/-- The calls made by a call of `parse_term`, itself included. -/
def calls_term : Nat → Parser → Nat
  | 0, _ => 1
  | fuel + 1, p =>
    1 + match p.try_consume .int_lit with
      | .ok (none, p) =>
        match p.try_consume .ident with
        | .ok (none, p) =>
          match p.try_consume .open_paren with
          | .ok (some _, p) => calls_expr fuel 0 p
          | _ => 0
        | _ => 0
      | _ => 0
/-- The calls made by a call of `parse_expr`, itself included. -/
def calls_expr : Nat → Int → Parser → Nat
  | 0, _, _ => 1
  | fuel + 1, min_prec, p =>
    1 + (calls_term fuel p +
      match Parser.parse_term fuel p with
      | .ok (some term_lhs, p) => calls_expr_loop fuel min_prec (.term term_lhs) p
      | _ => 0)
/-- The calls made in the turns of the operator loop of `parse_expr`. -/
def calls_expr_loop : Nat → Int → NodeExpr → Parser → Nat
  | 0, _, _, _ => 0
  | fuel + 1, min_prec, expr_lhs, p =>
    match p.peek 0 with
    | none => 0
    | some curr_tok =>
      match bin_prec curr_tok.type with
      | none => 0
      | some prec =>
        if prec < min_prec then 0
        else
          match p.consume with
          | .error _ => 0
          | .ok (op, p) =>
            calls_expr fuel (prec + 1) p +
              match Parser.parse_expr fuel (prec + 1) p with
              | .ok (some expr_rhs, p) =>
                match mk_bin_expr op.type expr_lhs expr_rhs with
                | none => 0
                | some expr => calls_expr_loop fuel min_prec expr p
              | _ => 0
end

/-- The calls made by a call of `parse_stmt_set`, itself included. -/
def calls_stmt_set (fuel : Nat) (p : Parser) : Nat :=
  1 + match p.consume with
    | .error _ => 0
    | .ok (_, p) =>
      match p.peek 0 with
      | none => 0
      | some t =>
        if t.type = .eq ∨ t.type = .pluseq ∨ t.type = .stareq ∨ t.type = .minuseq
            ∨ t.type = .fslasheq then
          match p.consume with
          | .error _ => 0
          | .ok (_, p) => calls_expr fuel 0 p
        else 0

mutual
/-- The calls made by a call of `parse_scope`, itself included. -/
def calls_scope : Nat → Parser → Nat
  | 0, _ => 1
  | fuel + 1, p =>
    1 + match p.try_consume .open_curly with
      | .ok (some _, p) => calls_scope_loop fuel [] p
      | _ => 0
/-- The calls made in the turns of the statement loop of `parse_scope`. -/
def calls_scope_loop : Nat → List NodeStmt → Parser → Nat
  | 0, _, _ => 0
  | fuel + 1, stmts, p =>
    calls_stmt fuel p +
      match Parser.parse_stmt fuel p with
      | .ok (some stmt, p) => calls_scope_loop fuel (stmts ++ [stmt]) p
      | _ => 0
/-- The calls made by a call of `parse_if_pred`, itself included. -/
def calls_if_pred : Nat → Parser → Nat
  | 0, _ => 1
  | fuel + 1, p =>
    1 + match p.try_consume .else_ with
      | .ok (some _, p) =>
        match p.try_consume .if_ with
        | .ok (some _, p) =>
          match p.try_consume_err .open_paren "Expected '('" (-1) (-1) with
          | .error _ => 0
          | .ok (_, p) =>
            calls_expr fuel 0 p +
              match Parser.parse_expr fuel 0 p with
              | .ok (some _, p) =>
                match p.try_consume_err .close_paren "Expected ')'" (-1) (-1) with
                | .error _ => 0
                | .ok (_, p) =>
                  calls_scope fuel p +
                    match Parser.parse_scope fuel p with
                    | .ok (some _, p) => calls_if_pred fuel p
                    | _ => 0
              | _ => 0
        | .ok (none, p) => calls_scope fuel p
        | .error _ => 0
      | _ => 0
/-- The calls made by a call of `parse_stmt`, itself included. -/
def calls_stmt : Nat → Parser → Nat
  | 0, _ => 1
  | fuel + 1, p =>
    1 + match p.peek 0 with
      | none => 0
      | some t0 =>
        if t0.type = ._exit ∧ (p.peek 1).map (fun t => t.type) = some .open_paren then
          match p.consume with
          | .error _ => 0
          | .ok (_, p) =>
            match p.consume with
            | .error _ => 0
            | .ok (_, p) => calls_expr fuel 0 p
        else if t0.type = .let_ ∧ (p.peek 1).map (fun t => t.type) = some .ident
            ∧ (p.peek 2).map (fun t => t.type) = some .eq then
          match p.consume with
          | .error _ => 0
          | .ok (_, p) =>
            match p.consume with
            | .error _ => 0
            | .ok (_, p) =>
              match p.consume with
              | .error _ => 0
              | .ok (_, p) => calls_expr fuel 0 p
        else if t0.type = .ident ∧ (p.peek 1).isSome then calls_stmt_set fuel p
        else if t0.type = .open_curly then calls_scope fuel p
        else
          match p.try_consume .if_ with
          | .ok (some if_, p) =>
            match p.try_consume_err .open_paren "Expected '('" if_.line (-1) with
            | .error _ => 0
            | .ok (_, p) =>
              calls_expr fuel 0 p +
                match Parser.parse_expr fuel 0 p with
                | .ok (some _, p) =>
                  match p.try_consume_err .close_paren "Expected ')'" if_.line (-1) with
                  | .error _ => 0
                  | .ok (_, p) =>
                    calls_scope fuel p +
                      match Parser.parse_scope fuel p with
                      | .ok (some _, p) => calls_if_pred fuel p
                      | _ => 0
                | _ => 0
          | _ => 0
end

/-- The calls made in the turns of the statement loop of `parse_prog`. -/
def calls_prog_loop : Nat → List NodeStmt → Parser → Nat
  | 0, _, _ => 0
  | fuel + 1, stmts, p =>
    match p.peek 0 with
    | none => 0
    | some _ =>
      calls_stmt fuel p +
        match Parser.parse_stmt fuel p with
        | .ok (some stmt, p) => calls_prog_loop fuel (stmts ++ [stmt]) p
        | _ => 0

/-- The calls made by a call of `parse_prog`, itself included. -/
def calls_prog (fuel : Nat) (p : Parser) : Nat := 1 + calls_prog_loop fuel [] p

/-- A count `c` of calls is paid for by the tokens consumed, two calls a token: when a node
is returned, `c` and `slack` more are within twice the number of tokens consumed; when none
is returned `c ≤ base`; when the run halts, `c` is within twice the number of tokens that
were left, and `base_halt` more. -/
def CallsWithin {α : Type} (c slack base base_halt : Nat) (p : Parser) :
    Except Halt (Option α × Parser) → Prop
  | .error _ => c ≤ 2 * p.rest.length + base_halt
  | .ok (none, _) => c ≤ base
  | .ok (some _, p') => c + slack + 2 * p'.rest.length ≤ 2 * p.rest.length

/-- The same for a loop, which returns what it has collected: `c` is within twice the number
of tokens consumed and `base` more, or, when the run halts, within twice the number of tokens
that were left and `base_halt` more. -/
def CallsWithinLoop {α : Type} (c base base_halt : Nat) (p : Parser) :
    Except Halt (α × Parser) → Prop
  | .error _ => c ≤ 2 * p.rest.length + base_halt
  | .ok (_, p') => c + 2 * p'.rest.length ≤ 2 * p.rest.length + base

/-! # Properties -/

/-! ## Expression lowering: bookkeeping -/

/-- Induction over expressions with a single motive. -/
theorem NodeExpr.induction_on {P : NodeExpr → Prop}
    (h_int : ∀ t, P (.term (.int_lit t)))
    (h_ident : ∀ t, P (.term (.ident t)))
    (h_paren : ∀ e, P e → P (.term (.paren e)))
    (h_bin : ∀ b : NodeBinExpr, P b.lhs → P b.rhs → P (.bin_expr b)) :
    ∀ e, P e := by
  intro e
  exact NodeExpr.rec (motive_1 := fun t => P (.term t)) (motive_2 := fun b => P (.bin_expr b))
    (motive_3 := P) h_int h_ident (fun e ih => h_paren e ih)
    (fun l r hl hr => h_bin (.add l r) hl hr) (fun l r hl hr => h_bin (.sub l r) hl hr)
    (fun l r hl hr => h_bin (.multi l r) hl hr) (fun l r hl hr => h_bin (.div l r) hl hr)
    (fun t ih => ih) (fun b ih => ih) e

theorem size_sub_succ_one (n : Nat) : size_sub (n + 1) 1 = n := by
  simp [size_sub]

theorem size_sub_add_self (a b : Nat) : size_sub (a + b) b = a := by
  simp [size_sub]

theorem gen_expr_int_lit (t : Token) (g : GeneratorWin) :
    g.gen_expr (.term (.int_lit t)) =
      match t.value with
      | none => .error (.bad_optional_access, g)
      | some value => .ok ((g.emit (.mov_rax value)).push .rax) := by
  simp only [GeneratorWin.gen_expr, GeneratorWin.gen_term]

theorem gen_expr_ident (t : Token) (g : GeneratorWin) :
    g.gen_expr (.term (.ident t)) =
      match t.value with
      | none => .error (.bad_optional_access, g)
      | some name =>
        match g.find_var name with
        | none => .error (.exit_failure ("Undeclared identifier used '" ++ name ++ "'\n"), g)
        | some it => .ok (g.push (.qword_rsp (g.offset it))) := by
  simp only [GeneratorWin.gen_expr, GeneratorWin.gen_term]

theorem gen_expr_paren (e : NodeExpr) (g : GeneratorWin) :
    g.gen_expr (.term (.paren e)) = g.gen_expr e := by
  simp only [GeneratorWin.gen_expr, GeneratorWin.gen_term]

/-- All four alternatives of `gen_bin_expr` have the same shape. -/
theorem gen_expr_bin (b : NodeBinExpr) (g : GeneratorWin) :
    g.gen_expr (.bin_expr b) =
      match g.gen_expr b.rhs with
      | .error e => .error e
      | .ok g1 =>
        match g1.gen_expr b.lhs with
        | .error e => .error e
        | .ok g2 => .ok ((((g2.pop .rax).pop .rbx).emit_all b.op_code).push .rax) := by
  cases b <;>
    simp only [GeneratorWin.gen_expr, GeneratorWin.gen_bin_expr, NodeBinExpr.lhs,
      NodeBinExpr.rhs, NodeBinExpr.op_code, GeneratorWin.emit_all, GeneratorWin.emit,
      List.append_assoc, List.singleton_append]

/-- What a successful `gen_expr` does to the members other than `m_output`. -/
theorem gen_expr_effect (e : NodeExpr) : ∀ g g' : GeneratorWin,
    g.gen_expr e = .ok g' →
    g'.m_stack_size = g.m_stack_size + 1 ∧ g'.m_vars = g.m_vars ∧ g'.m_scopes = g.m_scopes
      ∧ g'.m_label_count = g.m_label_count := by
  induction e using NodeExpr.induction_on with
  | h_int t =>
    intro g g' h
    rw [gen_expr_int_lit] at h
    cases hv : t.value with
    | none => simp [hv] at h
    | some v =>
      simp [hv] at h
      subst h
      simp [GeneratorWin.push, GeneratorWin.emit]
  | h_ident t =>
    intro g g' h
    rw [gen_expr_ident] at h
    cases hv : t.value with
    | none => simp [hv] at h
    | some v =>
      simp only [hv] at h
      cases hf : g.find_var v with
      | none => simp [hf] at h
      | some it =>
        simp [hf] at h
        subst h
        simp [GeneratorWin.push, GeneratorWin.emit]
  | h_paren e ih =>
    intro g g' h
    rw [gen_expr_paren] at h
    exact ih g g' h
  | h_bin b ihl ihr =>
    intro g g' h
    rw [gen_expr_bin] at h
    cases h1 : g.gen_expr b.rhs with
    | error e => simp [h1] at h
    | ok g1 =>
      simp only [h1] at h
      cases h2 : g1.gen_expr b.lhs with
      | error e => simp [h2] at h
      | ok g2 =>
        simp [h2] at h
        subst h
        obtain ⟨a1, a2, a3, a4⟩ := ihr g g1 h1
        obtain ⟨b1, b2, b3, b4⟩ := ihl g1 g2 h2
        simp [GeneratorWin.push, GeneratorWin.pop, GeneratorWin.emit, GeneratorWin.emit_all,
          b1, a1, size_sub_succ_one, *]

/-- What a successful `gen_stmt_set` does to the members other than `m_output`. -/
theorem gen_stmt_set_effect (s : NodeStmtSet) (g g' : GeneratorWin)
    (h : g.gen_stmt_set s = .ok g') :
    g'.m_stack_size = g.m_stack_size ∧ g'.m_vars = g.m_vars ∧ g'.m_scopes = g.m_scopes
      ∧ g'.m_label_count = g.m_label_count := by
  cases s with
  | set_expr ident expr | set_add ident expr | set_multi ident expr | set_sub ident expr
  | set_div ident expr =>
    simp only [GeneratorWin.gen_stmt_set] at h
    cases hv : ident.value with
    | none => simp [hv] at h
    | some name =>
      simp only [hv] at h
      cases hf : g.find_var name with
      | none => simp [hf] at h
      | some it =>
        simp only [hf] at h
        cases h1 : g.gen_expr expr with
        | error e => simp [h1] at h
        | ok g1 =>
          simp [h1] at h
          subst h
          obtain ⟨a1, a2, a3, a4⟩ := gen_expr_effect expr g g1 h1
          simp [GeneratorWin.pop, GeneratorWin.emit, a1, size_sub_succ_one, *]

theorem decls_length (l : List NodeStmt) : ∀ n, (decls l n).length = count_lets l := by
  induction l with
  | nil => intro n; rfl
  | cons s r ih =>
    intro n
    cases s <;> simp [decls, count_lets, ih]

theorem end_scope_effect (g g' : GeneratorWin) (vars : List Var) (scopes : List Nat)
    (new_vars : List Var) (n : Nat)
    (hv : g.m_vars = vars ++ new_vars) (hs : g.m_scopes = scopes ++ [vars.length])
    (hn : g.m_stack_size = n + new_vars.length)
    (h : g.end_scope = .ok g') :
    g'.m_stack_size = n ∧ g'.m_vars = vars ∧ g'.m_scopes = scopes
      ∧ g'.m_label_count = g.m_label_count
      ∧ g'.m_output = g.m_output ++ [.add_rsp (size_mul new_vars.length 8)] := by
  have hc : size_sub g.m_vars.length vars.length = new_vars.length := by
    rw [hv, List.length_append, Nat.add_comm, ]
    simp [size_sub]
  have hl : g.m_scopes.getLast? = some vars.length := by rw [hs]; simp
  simp only [GeneratorWin.end_scope, hl, hc, GeneratorWin.emit] at h
  rw [if_pos (by simp [hv])] at h
  simp at h
  subst h
  simp [hv, hs, hn, size_sub_add_self]

mutual
theorem gen_stmt_effect : ∀ (s : NodeStmt) (g g' : GeneratorWin),
    g.gen_stmt s = .ok g' →
    g'.m_stack_size = g.m_stack_size + count_lets [s]
      ∧ g'.m_vars = g.m_vars ++ decls [s] g.m_stack_size ∧ g'.m_scopes = g.m_scopes
      ∧ g.m_label_count ≤ g'.m_label_count
  | .exit expr, g, g', h => by
    simp only [GeneratorWin.gen_stmt] at h
    cases h1 : g.gen_expr expr with
    | error e => simp [h1] at h
    | ok g1 =>
      simp [h1] at h
      subst h
      obtain ⟨a1, a2, a3, a4⟩ := gen_expr_effect expr g g1 h1
      simp [GeneratorWin.pop, GeneratorWin.emit, a1, size_sub_succ_one, decls, count_lets, *]
  | .let_ ident expr, g, g', h => by
    simp only [GeneratorWin.gen_stmt] at h
    cases hv : ident.value with
    | none => simp [hv] at h
    | some name =>
      simp only [hv] at h
      cases hf : g.find_var name with
      | some it => simp [hf] at h
      | none =>
        simp only [hf] at h
        obtain ⟨a1, a2, a3, a4⟩ := gen_expr_effect expr _ g' h
        simp at a1 a2 a3 a4
        simp [decls, count_lets, hv, *]
  | .set s, g, g', h => by
    simp only [GeneratorWin.gen_stmt] at h
    obtain ⟨a1, a2, a3, a4⟩ := gen_stmt_set_effect s g g' h
    simp [decls, count_lets, *]
  | .scope sc, g, g', h => by
    simp only [GeneratorWin.gen_stmt] at h
    obtain ⟨a1, a2, a3, a4⟩ := gen_scope_effect sc g g' h
    simp [decls, count_lets, *]
  | .if_ expr sc pred, g, g', h => by
    simp only [GeneratorWin.gen_stmt] at h
    cases h1 : g.gen_expr expr with
    | error e => simp [h1] at h
    | ok g1 =>
      simp only [h1] at h
      obtain ⟨a1, a2, a3, a4⟩ := gen_expr_effect expr g g1 h1
      simp only [GeneratorWin.create_label] at h
      generalize hg2 : (GeneratorWin.emit _ (Instr.jz _)) = g2 at h
      cases h2 : g2.gen_scope sc with
      | error e => simp [h2] at h
      | ok g3 =>
        simp [h2] at h
        subst h
        obtain ⟨b1, b2, b3, b4⟩ := gen_scope_effect sc g2 g3 h2
        subst hg2
        simp [GeneratorWin.pop, GeneratorWin.emit, a1, size_sub_succ_one] at b1 b2 b3 b4
        simp [GeneratorWin.emit, decls, count_lets, *]
        omega
theorem gen_scope_effect : ∀ (sc : NodeScope) (g g' : GeneratorWin),
    g.gen_scope sc = .ok g' →
    g'.m_stack_size = g.m_stack_size ∧ g'.m_vars = g.m_vars ∧ g'.m_scopes = g.m_scopes
      ∧ g.m_label_count ≤ g'.m_label_count
  | .mk stmts, g, g', h => by
    simp only [GeneratorWin.gen_scope] at h
    cases h1 : GeneratorWin.gen_stmts stmts g.begin_scope with
    | error e => simp [h1] at h
    | ok g1 =>
      simp only [h1] at h
      obtain ⟨a1, a2, a3, a4⟩ := gen_stmts_effect stmts g.begin_scope g1 h1
      simp only [GeneratorWin.begin_scope] at a1 a2 a3 a4
      obtain ⟨b1, b2, b3, b4, _⟩ := end_scope_effect g1 g' g.m_vars g.m_scopes
        (decls stmts g.m_stack_size) g.m_stack_size a2 a3 (by rw [a1, decls_length]) h
      exact ⟨b1, b2, b3, by omega⟩
theorem gen_stmts_effect : ∀ (l : List NodeStmt) (g g' : GeneratorWin),
    GeneratorWin.gen_stmts l g = .ok g' →
    g'.m_stack_size = g.m_stack_size + count_lets l
      ∧ g'.m_vars = g.m_vars ++ decls l g.m_stack_size ∧ g'.m_scopes = g.m_scopes
      ∧ g.m_label_count ≤ g'.m_label_count
  | [], g, g', h => by
    simp only [GeneratorWin.gen_stmts] at h
    cases h
    simp [decls, count_lets]
  | s :: rest, g, g', h => by
    simp only [GeneratorWin.gen_stmts] at h
    cases h1 : g.gen_stmt s with
    | error e => simp [h1] at h
    | ok g1 =>
      simp only [h1] at h
      obtain ⟨a1, a2, a3, a4⟩ := gen_stmt_effect s g g1 h1
      obtain ⟨b1, b2, b3, b4⟩ := gen_stmts_effect rest g1 g' h
      refine ⟨?_, ?_, by rw [b3, a3], by omega⟩
      · rw [b1, a1]; cases s <;> simp only [count_lets] <;> omega
      · rw [b2, a2, a1]; cases s <;> simp [decls, count_lets]
end

/-! ## C5: expression lowering pushes exactly one word -/

/-- C5: whenever `gen_expr e` succeeds, it has increased `m_stack_size` by exactly 1 and has
left `m_vars`, `m_scopes` and `m_label_count` unchanged, for every expression `e` and every
generator state. -/
theorem C5_gen_expr_stack_effect (e : NodeExpr) (g g' : GeneratorWin)
    (h : g.gen_expr e = .ok g') :
    g'.m_stack_size = g.m_stack_size + 1 ∧ g'.m_vars = g.m_vars ∧ g'.m_scopes = g.m_scopes
      ∧ g'.m_label_count = g.m_label_count :=
  gen_expr_effect e g g' h

/-- C5 at `(x + 1) * 2`, lowered in a state where `x` is declared. -/
theorem C5_gen_expr_stack_effect_witness :
    gen_with_x.gen_expr sample_expr = .ok sample_expr_done
    ∧ (sample_expr_done.m_stack_size = gen_with_x.m_stack_size + 1
      ∧ sample_expr_done.m_vars = gen_with_x.m_vars
      ∧ sample_expr_done.m_scopes = gen_with_x.m_scopes
      ∧ sample_expr_done.m_label_count = gen_with_x.m_label_count) :=
  ⟨rfl, C5_gen_expr_stack_effect sample_expr gen_with_x sample_expr_done rfl⟩

/-! ## C7: a scope restores the tables -/

/-- C7: whenever `gen_scope` succeeds, `m_stack_size`, `m_vars` and `m_scopes` have on return
the values they had on entry, whatever statements the scope contains. -/
theorem C7_gen_scope_frame (scope : NodeScope) (g g' : GeneratorWin)
    (h : g.gen_scope scope = .ok g') :
    g'.m_stack_size = g.m_stack_size ∧ g'.m_vars = g.m_vars ∧ g'.m_scopes = g.m_scopes :=
  let ⟨h1, h2, h3, _⟩ := gen_scope_effect scope g g' h
  ⟨h1, h2, h3⟩

/-- C7 at `{ let y = 1; x = y; if (x) { let z = 2; } { } }`, lowered where `x` is declared. -/
theorem C7_gen_scope_frame_witness :
    gen_with_x.gen_scope sample_scope = .ok sample_scope_done
    ∧ (sample_scope_done.m_stack_size = gen_with_x.m_stack_size
      ∧ sample_scope_done.m_vars = gen_with_x.m_vars
      ∧ sample_scope_done.m_scopes = gen_with_x.m_scopes) :=
  ⟨rfl, C7_gen_scope_frame sample_scope gen_with_x sample_scope_done rfl⟩

/-! ## C8: the stack size when `gen_prog` returns -/

theorem gen_prog_effect (prog : NodeProg) (g : GeneratorWin)
    (h : GeneratorWin.gen_prog prog = .ok g) :
    g.m_stack_size = count_lets prog.stmts ∧ g.m_vars = decls prog.stmts 0
      ∧ g.m_scopes = [] := by
  simp only [GeneratorWin.gen_prog] at h
  cases h1 : GeneratorWin.gen_stmts prog.stmts (GeneratorWin.init.emit .header) with
  | error e => simp [h1] at h
  | ok g1 =>
    simp [h1] at h
    subst h
    obtain ⟨a1, a2, a3, _⟩ := gen_stmts_effect _ _ _ h1
    simp [GeneratorWin.emit, GeneratorWin.init] at a1 a2 a3
    simp [GeneratorWin.emit, *]

/-- C8, as stated, fails: for the program `let x = 1;` `gen_prog` succeeds and returns with
`m_stack_size = 1`. -/
theorem C8_counterexample :
    GeneratorWin.gen_prog prog_let = .ok prog_let_done ∧ prog_let_done.m_stack_size = 1
    ∧ ¬ (∀ (prog : NodeProg) (g : GeneratorWin),
          GeneratorWin.gen_prog prog = .ok g → g.m_stack_size = 0) :=
  ⟨rfl, rfl, fun h => absurd (h prog_let prog_let_done rfl) (by decide)⟩

/-- C8, amended: whenever `gen_prog` succeeds, `m_stack_size` on return equals the number of
`Let` statements at the top level of the program (those inside a scope are reclaimed by
`end_scope`); in particular it is 0 when the program has no top-level `Let`. -/
theorem C8_stack_size_counts_top_level_lets (prog : NodeProg) (g : GeneratorWin)
    (h : GeneratorWin.gen_prog prog = .ok g) :
    g.m_stack_size = count_lets prog.stmts ∧ (count_lets prog.stmts = 0 → g.m_stack_size = 0) :=
  ⟨(gen_prog_effect prog g h).1, fun h0 => by rw [(gen_prog_effect prog g h).1, h0]⟩

/-- C8 amended, at `let x = 1; exit(x); let y = 2;`, which has two top-level `Let`s. -/
theorem C8_stack_size_counts_top_level_lets_witness :
    GeneratorWin.gen_prog prog_two_lets = .ok prog_two_lets_done
    ∧ (prog_two_lets_done.m_stack_size = count_lets prog_two_lets.stmts
        ∧ (count_lets prog_two_lets.stmts = 0 → prog_two_lets_done.m_stack_size = 0)) :=
  ⟨rfl, C8_stack_size_counts_top_level_lets prog_two_lets prog_two_lets_done rfl⟩

/-! ## C9: re-declaration -/

theorem gen_stmts_append (a b : List NodeStmt) : ∀ g : GeneratorWin,
    GeneratorWin.gen_stmts (a ++ b) g =
      match GeneratorWin.gen_stmts a g with
      | .error e => .error e
      | .ok g1 => GeneratorWin.gen_stmts b g1 := by
  induction a with
  | nil => intro g; simp [GeneratorWin.gen_stmts]
  | cons s r ih =>
    intro g
    simp only [List.cons_append, GeneratorWin.gen_stmts]
    cases h : g.gen_stmt s with
    | error e => rfl
    | ok g1 => exact ih g1

theorem find_var_isSome (g : GeneratorWin) (x : String)
    (h : ∃ v ∈ g.m_vars, v.name = x) : ∃ it, g.find_var x = some it := by
  obtain ⟨v, hv, hx⟩ := h
  cases hf : g.find_var x with
  | some it => exact ⟨it, rfl⟩
  | none =>
    simp only [GeneratorWin.find_var, List.find?_eq_none] at hf
    exact absurd hx (by simpa using hf v hv)

theorem gen_stmt_let_declared (g : GeneratorWin) (ident : Token) (expr : NodeExpr)
    (x : String) (hx : ident.value = some x) (h : ∃ v ∈ g.m_vars, v.name = x) :
    g.gen_stmt (.let_ ident expr)
      = .error (.exit_failure ("Identifier already used: " ++ x ++ "\n"), g) := by
  obtain ⟨it, hit⟩ := find_var_isSome g x h
  simp only [GeneratorWin.gen_stmt, hx, hit]

/-- C9: when lowering reaches `let x = e` in a state whose `m_vars` holds a variable named
`x`, `gen_stmt` halts with `Identifier already used: x` on the error stream, in the very state
in which the statement was reached (nothing emitted, `m_vars` unchanged); the same holds for
the whole statement list once the statements before the `let` have been lowered.  The programs
`let x = 1; let x = 2;` and `let x = 1; { let x = 2; }` both halt this way. -/
theorem C9_redeclaration_rejected :
    (∀ (g : GeneratorWin) (ident : Token) (expr : NodeExpr) (x : String),
      ident.value = some x → (∃ v ∈ g.m_vars, v.name = x) →
      g.gen_stmt (.let_ ident expr)
          = .error (.exit_failure ("Identifier already used: " ++ x ++ "\n"), g)
        ∧ ∀ (before after : List NodeStmt) (g0 : GeneratorWin),
            GeneratorWin.gen_stmts before g0 = .ok g →
            GeneratorWin.gen_stmts (before ++ .let_ ident expr :: after) g0
              = .error (.exit_failure ("Identifier already used: " ++ x ++ "\n"), g))
    ∧ GeneratorWin.gen_prog prog_redeclare
        = .error (.exit_failure "Identifier already used: x\n", after_let_x)
    ∧ GeneratorWin.gen_prog prog_redeclare_nested
        = .error (.exit_failure "Identifier already used: x\n", after_let_x_open) := by
  refine ⟨?_, rfl, rfl⟩
  intro g ident expr x hx hv
  have h1 := gen_stmt_let_declared g ident expr x hx hv
  refine ⟨h1, ?_⟩
  intro before after g0 hb
  rw [gen_stmts_append, hb]
  simp only [GeneratorWin.gen_stmts, h1]

/-- C9 at `let x = 2` reached after `let x = 1;`. -/
theorem C9_redeclaration_rejected_witness :
    (tok_ident "x").value = some "x" ∧ (∃ v ∈ after_let_x.m_vars, v.name = "x")
    ∧ after_let_x.gen_stmt (.let_ (tok_ident "x") (e_int "2"))
        = .error (.exit_failure ("Identifier already used: " ++ "x" ++ "\n"), after_let_x) :=
  ⟨rfl, ⟨Var.mk "x" 0, by decide, rfl⟩,
    (C9_redeclaration_rejected.1 after_let_x (tok_ident "x") (e_int "2") "x" rfl
      ⟨Var.mk "x" 0, by decide, rfl⟩).1⟩

/-! ## Parser positions: basic facts -/

theorem Parser.advance_zero (p : Parser) : p.advance 0 = p := rfl

theorem Parser.advance_advance (p : Parser) (a b : Nat) :
    (p.advance a).advance b = p.advance (a + b) := by
  simp [Parser.advance, Nat.add_assoc]

theorem Parser.rest_advance (p : Parser) (n : Nat) : (p.advance n).rest = p.rest.drop n := by
  simp [Parser.advance, Parser.rest, List.drop_drop, Nat.add_comm]

theorem Parser.rest_advance_append (p : Parser) (a b : List Token) (h : p.rest = a ++ b) :
    (p.advance a.length).rest = b := by
  rw [Parser.rest_advance, h, List.drop_left]

theorem Parser.getElem?_of_rest (p : Parser) (k : Nat) :
    p.m_tokens[p.m_index + k]? = p.rest[k]? := by
  simp [Parser.rest, List.getElem?_drop]

theorem Parser.peek_zero (p : Parser) : p.peek 0 = p.rest.head? := by
  have h := Parser.getElem?_of_rest p 0
  simp only [Nat.add_zero] at h
  show p.m_tokens[p.m_index + 0]? = _
  rw [Nat.add_zero, h, List.head?_eq_getElem?]

theorem Parser.peek_one (p : Parser) : p.peek 1 = p.rest[1]? :=
  Parser.getElem?_of_rest p 1

theorem Parser.peek_two (p : Parser) : p.peek 2 = p.rest[2]? :=
  Parser.getElem?_of_rest p 2

theorem Parser.consume_cons (p : Parser) (t : Token) (r : List Token) (h : p.rest = t :: r) :
    p.consume = .ok (t, p.advance 1) := by
  have h0 := Parser.getElem?_of_rest p 0
  simp only [Nat.add_zero, h, List.getElem?_cons_zero] at h0
  simp [Parser.consume, h0, Parser.advance]

theorem Parser.try_consume_hit (p : Parser) (t : Token) (r : List Token) (type : TokenType)
    (h : p.rest = t :: r) (ht : t.type = type) :
    p.try_consume type = .ok (some t, p.advance 1) := by
  simp [Parser.try_consume, Parser.peek_zero, h, ht, Parser.consume_cons p t r h]

theorem Parser.try_consume_miss (p : Parser) (t : Token) (r : List Token) (type : TokenType)
    (h : p.rest = t :: r) (ht : t.type ≠ type) :
    p.try_consume type = .ok (none, p) := by
  simp [Parser.try_consume, Parser.peek_zero, h, ht]

theorem Parser.try_consume_err_hit (p : Parser) (t : Token) (r : List Token)
    (type : TokenType) (msg : String) (line col : Int)
    (h : p.rest = t :: r) (ht : t.type = type) :
    p.try_consume_err type msg line col = .ok (t, p.advance 1) := by
  simp [Parser.try_consume_err, Parser.peek_zero, h, ht, Parser.consume_cons p t r h]

/-! ## Precedence climbing on operator chains -/

theorem bin_prec_cases (ty : TokenType) (q : Int) (h : bin_prec ty = some q) :
    (q = 0 ∧ (ty = .plus ∨ ty = .minus)) ∨ (q = 1 ∧ (ty = .star ∨ ty = .fslash)) := by
  cases ty <;> simp [bin_prec] at h <;> simp [← h]

theorem bin_prec_mul (ty : TokenType) (h : ty = .star ∨ ty = .fslash) :
    bin_prec ty = some 1 := by
  rcases h with h | h <;> simp [h, bin_prec]

theorem bin_prec_add (ty : TokenType) (hs : (bin_prec ty).isSome)
    (h : ¬ (ty = .star ∨ ty = .fslash)) : bin_prec ty = some 0 := by
  cases ty <;> simp [bin_prec] at hs h ⊢

theorem mk_bin_expr_eq (op : Token) (hs : (bin_prec op.type).isSome) (lhs rhs : NodeExpr) :
    mk_bin_expr op.type lhs rhs = some (ref_node op lhs rhs) := by
  cases h : op.type <;> simp [h, bin_prec] at hs <;> simp [mk_bin_expr, ref_node, h]

theorem parse_expr_loop_succ (f : Nat) (mp : Int) (lhs : NodeExpr) (p : Parser) :
    Parser.parse_expr_loop (f + 1) mp lhs p =
      match p.peek 0 with
      | none => .ok (some lhs, p)
      | some curr_tok =>
        match bin_prec curr_tok.type with
        | none => .ok (some lhs, p)
        | some prec =>
          if prec < mp then .ok (some lhs, p)
          else
            match p.consume with
            | .error h => .error h
            | .ok (op, p) =>
              match Parser.parse_expr f (prec + 1) p with
              | .error h => .error h
              | .ok (none, p) => .error (p.error "Unable to parse expression" op.line (-1))
              | .ok (some expr_rhs, p) =>
                match mk_bin_expr op.type lhs expr_rhs with
                | none => .error .assert_false
                | some expr => Parser.parse_expr_loop f mp expr p := by
  rw [Parser.parse_expr_loop]

theorem parse_expr_succ (f : Nat) (mp : Int) (p : Parser) :
    Parser.parse_expr (f + 1) mp p =
      match Parser.parse_term f p with
      | .error h => .error h
      | .ok (none, p) => .ok (none, p)
      | .ok (some term_lhs, p) => Parser.parse_expr_loop f mp (.term term_lhs) p := by
  rw [Parser.parse_expr]

/-- The loop returns at once when no operator of sufficient precedence follows. -/
theorem parse_expr_loop_stop (f : Nat) (mp : Int) (lhs : NodeExpr) (p : Parser)
    (h : ∀ t r, p.rest = t :: r → ∀ q, bin_prec t.type = some q → q < mp) :
    Parser.parse_expr_loop (f + 1) mp lhs p = .ok (some lhs, p) := by
  rw [parse_expr_loop_succ, Parser.peek_zero]
  cases hr : p.rest with
  | nil => rfl
  | cons t r =>
    simp only [List.head?_cons]
    cases hq : bin_prec t.type with
    | none => rfl
    | some q => simp [h t r hr q hq]

/-- One turn of the loop at an operator of sufficient precedence. -/
theorem parse_expr_loop_step (f : Nat) (mp : Int) (lhs rhs : NodeExpr) (p p2 : Parser)
    (op : Token) (r : List Token) (q : Int) (hr : p.rest = op :: r)
    (hq : bin_prec op.type = some q) (hge : mp ≤ q)
    (hrhs : Parser.parse_expr f (q + 1) (p.advance 1) = .ok (some rhs, p2)) :
    Parser.parse_expr_loop (f + 1) mp lhs p
      = Parser.parse_expr_loop f mp (ref_node op lhs rhs) p2 := by
  rw [parse_expr_loop_succ, Parser.peek_zero, hr]
  simp only [List.head?_cons, hq]
  rw [if_neg (by omega), Parser.consume_cons p op r hr]
  simp only [hrhs, mk_bin_expr_eq op (by simp [hq])]

/-- What follows a chain's pairs: the head of `toks ++ tail` is an operator or stops. -/
theorem chain_head (items : List (Token × NodeTerm)) (toks tail : List Token)
    (hc : ChainToks items toks) (hs : StopTail tail) :
    ∀ t r, toks ++ tail = t :: r → ∀ q, bin_prec t.type = some q → q < 2 := by
  intro t r h q hq
  cases hc with
  | nil =>
    simp at h
    have := hs t r h
    simp [this] at hq
  | cons op t' T items toks hop hT hTp hc' =>
    simp at h
    obtain ⟨h1, _⟩ := h
    subst h1
    rcases bin_prec_cases _ _ hq with ⟨h, _⟩ | ⟨h, _⟩ <;> omega

/-- At precedence 2 `parse_expr` parses exactly one term. -/
theorem parse_expr_two (T : List Token) (t : NodeTerm) (items : List (Token × NodeTerm))
    (toks tail : List Token) (p : Parser) (f : Nat)
    (hT : TermParses T t) (hc : ChainToks items toks) (hs : StopTail tail)
    (hr : p.rest = T ++ (toks ++ tail)) (hf : 2 * p.rest.length + 2 ≤ f) :
    Parser.parse_expr f 2 p = .ok (some (.term t), p.advance T.length) := by
  obtain ⟨f1, rfl⟩ : ∃ f1, f = f1 + 1 := ⟨f - 1, by omega⟩
  obtain ⟨f2, rfl⟩ : ∃ f2, f1 = f2 + 1 := ⟨f1 - 1, by omega⟩
  rw [parse_expr_succ, hT p _ _ hr (by omega)]
  simp only
  apply parse_expr_loop_stop
  intro t' r' h' q hq
  rw [Parser.rest_advance_append p T _ hr] at h'
  exact chain_head items toks tail hc hs t' r' h' q hq

theorem ref_split_join (items : List (Token × NodeTerm)) :
    (ref_split items).1 ++ unsplit (ref_split items).2 = items := by
  induction items with
  | nil => rfl
  | cons x r ih =>
    by_cases h : x.1.type = .star ∨ x.1.type = .fslash
    · simp only [ref_split, if_pos h, List.cons_append, ih]
    · simp only [ref_split, if_neg h, unsplit, List.flatMap_cons, List.nil_append,
        List.cons_append, List.cons.injEq, true_and]
      exact ih

theorem ref_split_unsplit (items : List (Token × NodeTerm)) :
    ref_split (unsplit (ref_split items).2) = ([], (ref_split items).2) := by
  induction items with
  | nil => rfl
  | cons x r ih =>
    by_cases h : x.1.type = .star ∨ x.1.type = .fslash
    · simp only [ref_split, if_pos h, ih]
    · have hj := ref_split_join r
      simp only [unsplit] at hj
      simp only [ref_split, if_neg h, unsplit, List.flatMap_cons, List.cons_append, hj]

theorem unsplit_length_le (items : List (Token × NodeTerm)) :
    (unsplit (ref_split items).2).length ≤ items.length := by
  have h := congrArg List.length (ref_split_join items)
  simp only [List.length_append] at h
  omega

/-- The loop at precedence 1 folds the leading multiplicative pairs and stops in front of
the first additive operator. -/
theorem parse_expr_loop_one (items : List (Token × NodeTerm)) (toks : List Token)
    (hc : ChainToks items toks) :
    ∀ (tail : List Token) (lhs : NodeExpr) (p : Parser) (f : Nat), StopTail tail →
      p.rest = toks ++ tail → 2 * p.rest.length + 1 ≤ f →
      ∃ consumed toks', toks = consumed ++ toks'
        ∧ ChainToks (unsplit (ref_split items).2) toks'
        ∧ Parser.parse_expr_loop f 1 lhs p
            = .ok (some (ref_mul_from lhs (ref_split items).1), p.advance consumed.length) := by
  induction hc with
  | nil =>
    intro tail lhs p f hs hr hf
    obtain ⟨f1, rfl⟩ : ∃ f1, f = f1 + 1 := ⟨f - 1, by omega⟩
    refine ⟨[], [], rfl, ChainToks.nil, ?_⟩
    rw [parse_expr_loop_stop]
    · rfl
    · intro t r h q hq
      rw [hr] at h
      have := hs t r (by simpa using h)
      simp [this] at hq
  | cons op t T items toks hop hTne hT hc' ih =>
    intro tail lhs p f hs hr hf
    obtain ⟨f1, rfl⟩ : ∃ f1, f = f1 + 1 := ⟨f - 1, by omega⟩
    have hr' : p.rest = op :: (T ++ (toks ++ tail)) := by simpa using hr
    have hlen : p.rest.length = 1 + T.length + toks.length + tail.length := by
      rw [hr']; simp; omega
    by_cases h : op.type = .star ∨ op.type = .fslash
    · -- a multiplicative operator: one term, then on with the loop
      have hp1 : (p.advance 1).rest = T ++ (toks ++ tail) := by
        rw [Parser.rest_advance, hr']; rfl
      have h2 := parse_expr_two T t items toks tail (p.advance 1) f1 hT hc' hs hp1
        (by rw [hp1]; simp; omega)
      have hp2 : ((p.advance 1).advance T.length).rest = toks ++ tail :=
        Parser.rest_advance_append _ T _ hp1
      obtain ⟨consumed, toks', e1, e2, e3⟩ := ih tail (ref_node op lhs (.term t))
        ((p.advance 1).advance T.length) f1 hs hp2 (by rw [hp2]; simp; omega)
      refine ⟨op :: T ++ consumed, toks', by simp [e1], ?_, ?_⟩
      · simpa only [ref_split, if_pos h] using e2
      · rw [parse_expr_loop_step f1 1 lhs (.term t) p _ op _ 1 hr' (bin_prec_mul _ h)
          (le_refl _) h2, e3]
        simp only [ref_split, if_pos h, ref_mul_from, List.foldl_cons,
          Parser.advance_advance, List.length_append, List.length_cons]
        congr 3
        omega
    · -- an additive operator: the loop stops here
      refine ⟨[], op :: T ++ toks, rfl, ?_, ?_⟩
      · have hj := ref_split_join items
        simp only [unsplit] at hj
        simp only [ref_split, if_neg h, unsplit, List.flatMap_cons, List.cons_append, hj]
        exact ChainToks.cons op t T items toks hop hTne hT hc'
      · rw [parse_expr_loop_stop]
        · simp only [ref_split, if_neg h, ref_mul_from, List.foldl_nil]
          rfl
        · intro t' r' h' q hq
          rw [hr'] at h'
          simp at h'
          obtain ⟨h1, _⟩ := h'
          subst h1
          rw [bin_prec_add _ hop h] at hq
          simp at hq
          omega

/-- At precedence 1 `parse_expr` parses one `mul` of the reference grammar. -/
theorem parse_expr_one (T : List Token) (t : NodeTerm) (items : List (Token × NodeTerm))
    (toks tail : List Token) (p : Parser) (f : Nat)
    (hT : TermParses T t) (hc : ChainToks items toks) (hs : StopTail tail)
    (hr : p.rest = T ++ (toks ++ tail)) (hf : 2 * p.rest.length + 2 ≤ f) :
    ∃ consumed toks', toks = consumed ++ toks'
      ∧ ChainToks (unsplit (ref_split items).2) toks'
      ∧ Parser.parse_expr f 1 p
          = .ok (some (ref_mul_from (.term t) (ref_split items).1),
              p.advance (T.length + consumed.length)) := by
  obtain ⟨f1, rfl⟩ : ∃ f1, f = f1 + 1 := ⟨f - 1, by omega⟩
  have hp1 : (p.advance T.length).rest = toks ++ tail := Parser.rest_advance_append p T _ hr
  have hlen : p.rest.length = T.length + (toks.length + tail.length) := by rw [hr]; simp
  obtain ⟨consumed, toks', e1, e2, e3⟩ := parse_expr_loop_one items toks hc tail (.term t)
    (p.advance T.length) f1 hs hp1 (by rw [hp1]; simp; omega)
  refine ⟨consumed, toks', e1, e2, ?_⟩
  rw [parse_expr_succ, hT p _ _ hr (by omega)]
  simp only [e3, Parser.advance_advance]

/-- The loop at precedence 0 folds the whole chain as the reference grammar does. -/
theorem parse_expr_loop_zero (n : Nat) :
    ∀ (items : List (Token × NodeTerm)) (toks : List Token), items.length ≤ n →
      ChainToks items toks →
      ∀ (tail : List Token) (lhs : NodeExpr) (p : Parser) (f : Nat), StopTail tail →
        p.rest = toks ++ tail → 2 * p.rest.length + 1 ≤ f →
        Parser.parse_expr_loop f 0 lhs p
          = .ok (some (ref_sum_from (ref_mul_from lhs (ref_split items).1)
              (ref_split items).2), p.advance toks.length) := by
  induction n with
  | zero =>
    intro items toks hn hc tail lhs p f hs hr hf
    obtain ⟨f1, rfl⟩ : ∃ f1, f = f1 + 1 := ⟨f - 1, by omega⟩
    cases hc with
    | nil =>
      rw [parse_expr_loop_stop]
      · rfl
      · intro t r h q hq
        rw [hr] at h
        have := hs t r (by simpa using h)
        simp [this] at hq
    | cons op t T items toks hop hTne hT hc' => simp at hn
  | succ n ih =>
    intro items toks hn hc tail lhs p f hs hr hf
    obtain ⟨f1, rfl⟩ : ∃ f1, f = f1 + 1 := ⟨f - 1, by omega⟩
    cases hc with
    | nil =>
      rw [parse_expr_loop_stop]
      · rfl
      · intro t r h q hq
        rw [hr] at h
        have := hs t r (by simpa using h)
        simp [this] at hq
    | cons op t T items toks hop hTne hT hc' =>
      have hn' : items.length ≤ n := by simpa using hn
      have hr' : p.rest = op :: (T ++ (toks ++ tail)) := by simpa using hr
      have hlen : p.rest.length = 1 + T.length + toks.length + tail.length := by
        rw [hr']; simp; omega
      have hp1 : (p.advance 1).rest = T ++ (toks ++ tail) := by
        rw [Parser.rest_advance, hr']; rfl
      by_cases h : op.type = .star ∨ op.type = .fslash
      · have h2 := parse_expr_two T t items toks tail (p.advance 1) f1 hT hc' hs hp1
          (by rw [hp1]; simp; omega)
        have hp2 : ((p.advance 1).advance T.length).rest = toks ++ tail :=
          Parser.rest_advance_append _ T _ hp1
        have e3 := ih items toks hn' hc' tail (ref_node op lhs (.term t))
          ((p.advance 1).advance T.length) f1 hs hp2 (by rw [hp2]; simp; omega)
        rw [parse_expr_loop_step f1 0 lhs (.term t) p _ op _ 1 hr' (bin_prec_mul _ h)
          (by omega) h2, e3]
        simp only [ref_split, if_pos h, ref_mul_from, List.foldl_cons,
          Parser.advance_advance, List.length_append, List.length_cons]
        congr 3
        omega
      · obtain ⟨consumed, toks', e1, e2, e3⟩ := parse_expr_one T t items toks tail
          (p.advance 1) f1 hT hc' hs hp1 (by rw [hp1]; simp; omega)
        have hp3 : ((p.advance 1).advance (T.length + consumed.length)).rest
            = toks' ++ tail := by
          rw [Parser.rest_advance, hp1, e1]
          simp [List.drop_append, List.append_assoc]
        have hl : (unsplit (ref_split items).2).length ≤ n :=
          le_trans (unsplit_length_le items) hn'
        have hlen2 : toks.length = consumed.length + toks'.length := by rw [e1]; simp
        have e4 := ih _ toks' hl e2 tail
          (ref_node op lhs (ref_mul_from (.term t) (ref_split items).1))
          ((p.advance 1).advance (T.length + consumed.length)) f1 hs hp3
          (by rw [hp3]; simp; omega)
        have hq0 : bin_prec op.type = some (0 : Int) := bin_prec_add _ hop h
        have e3' : Parser.parse_expr f1 ((0 : Int) + 1) (p.advance 1)
            = .ok (some (ref_mul_from (.term t) (ref_split items).1),
                (p.advance 1).advance (T.length + consumed.length)) := by
          simpa using e3
        rw [parse_expr_loop_step f1 0 lhs _ p _ op _ 0 hr' hq0 (le_refl _) e3', e4]
        simp only [ref_split_unsplit, ref_split, if_neg h, ref_mul_from, ref_sum_from,
          List.foldl_cons, List.foldl_nil, Parser.advance_advance, List.length_append,
          List.length_cons]
        congr 3
        omega

/-- At precedence 0 `parse_expr` parses a whole chain and returns the tree of the reference
grammar. -/
theorem parse_expr_zero (T : List Token) (t : NodeTerm) (items : List (Token × NodeTerm))
    (toks tail : List Token) (p : Parser) (f : Nat)
    (hT : TermParses T t) (hc : ChainToks items toks) (hs : StopTail tail)
    (hr : p.rest = T ++ (toks ++ tail)) (hf : 2 * p.rest.length + 2 ≤ f) :
    Parser.parse_expr f 0 p
      = .ok (some (ref_expr t items), p.advance (T.length + toks.length)) := by
  obtain ⟨f1, rfl⟩ : ∃ f1, f = f1 + 1 := ⟨f - 1, by omega⟩
  have hp1 : (p.advance T.length).rest = toks ++ tail := Parser.rest_advance_append p T _ hr
  have hlen : p.rest.length = T.length + (toks.length + tail.length) := by rw [hr]; simp
  have e := parse_expr_loop_zero items.length items toks (le_refl _) hc tail (.term t)
    (p.advance T.length) f1 hs hp1 (by rw [hp1]; simp; omega)
  rw [parse_expr_succ, hT p _ _ hr (by omega)]
  simp only [e, Parser.advance_advance, ref_expr]

/-! ## C1: precedence of `+ - * /` over integer literals -/

theorem parse_term_succ (f : Nat) (p : Parser) :
    Parser.parse_term (f + 1) p =
      match p.try_consume .int_lit with
      | .error h => .error h
      | .ok (some int_lit, p) => .ok (some (.int_lit int_lit), p)
      | .ok (none, p) =>
        match p.try_consume .ident with
        | .error h => .error h
        | .ok (some ident, p) => .ok (some (.ident ident), p)
        | .ok (none, p) =>
          match p.try_consume .open_paren with
          | .error h => .error h
          | .ok (none, p) => .ok (none, p)
          | .ok (some open_paren, p) =>
            match Parser.parse_expr f 0 p with
            | .error h => .error h
            | .ok (none, p) => .error (p.error_expected "expr" open_paren.line (-1))
            | .ok (some expr, p) =>
              match p.try_consume_err .close_paren "Expected ')'" open_paren.line (-1) with
              | .error h => .error h
              | .ok (_, p) => .ok (some (.paren expr), p) := by
  rw [Parser.parse_term]

theorem term_parses_int_lit (t : Token) (h : t.type = .int_lit) :
    TermParses [t] (.int_lit t) := by
  intro p tail f hr hf
  obtain ⟨f1, rfl⟩ : ∃ f1, f = f1 + 1 := ⟨f - 1, by omega⟩
  rw [parse_term_succ, Parser.try_consume_hit p t tail .int_lit hr h]
  rfl

theorem chain_toks_lit_pairs (pairs : List (Token × Token))
    (h : ∀ x ∈ pairs, (x.1.type = .plus ∨ x.1.type = .minus ∨ x.1.type = .star
      ∨ x.1.type = .fslash) ∧ x.2.type = .int_lit) :
    ChainToks (lit_pairs pairs) (pairs.flatMap (fun x => [x.1, x.2])) := by
  induction pairs with
  | nil => exact ChainToks.nil
  | cons x r ih =>
    obtain ⟨h1, h2⟩ := h x (List.mem_cons_self _ _)
    have hr := ih (fun y hy => h y (List.mem_cons_of_mem _ hy))
    have := ChainToks.cons x.1 (.int_lit x.2) [x.2] _ _
      (by rcases h1 with h | h | h | h <;> simp [h, bin_prec]) (by simp)
      (term_parses_int_lit x.2 h2) hr
    simpa [lit_pairs] using this

/-- C1: for every token list `int_lit (op int_lit)*` with `op` among `+ - * /`,
`parse_expr(0)` started at its first token (with enough fuel) consumes the whole list and
returns the tree that the two-level left-associative reference grammar assigns to it; in
particular `2 + 3 * 4` gives `Add(2, Mul(3, 4))`, `2 * 3 + 4` gives `Add(Mul(2, 3), 4)` and
`1 - 2 - 3` gives `Sub(Sub(1, 2), 3)`. -/
theorem C1_precedence_climbing :
    (∀ (srcName : String) (first : Token) (pairs : List (Token × Token)) (fuel : Nat),
      first.type = .int_lit →
      (∀ x ∈ pairs, (x.1.type = .plus ∨ x.1.type = .minus ∨ x.1.type = .star
        ∨ x.1.type = .fslash) ∧ x.2.type = .int_lit) →
      2 * (chain_tokens first pairs).length + 2 ≤ fuel →
      Parser.parse_expr fuel 0 ⟨srcName, chain_tokens first pairs, 0⟩
        = .ok (some (ref_expr (.int_lit first) (lit_pairs pairs)),
            ⟨srcName, chain_tokens first pairs, (chain_tokens first pairs).length⟩))
    ∧ ref_expr (.int_lit (tok_int "2"))
          (lit_pairs [(tok .plus, tok_int "3"), (tok .star, tok_int "4")])
        = .bin_expr (.add (e_int "2") (.bin_expr (.multi (e_int "3") (e_int "4"))))
    ∧ ref_expr (.int_lit (tok_int "2"))
          (lit_pairs [(tok .star, tok_int "3"), (tok .plus, tok_int "4")])
        = .bin_expr (.add (.bin_expr (.multi (e_int "2") (e_int "3"))) (e_int "4"))
    ∧ ref_expr (.int_lit (tok_int "1"))
          (lit_pairs [(tok .minus, tok_int "2"), (tok .minus, tok_int "3")])
        = .bin_expr (.sub (.bin_expr (.sub (e_int "1") (e_int "2"))) (e_int "3")) := by
  refine ⟨?_, rfl, rfl, rfl⟩
  intro srcName first pairs fuel hfirst hpairs hfuel
  have hc := chain_toks_lit_pairs pairs hpairs
  have hs : StopTail [] := by intro t r h; simp at h
  have h := parse_expr_zero [first] (.int_lit first) (lit_pairs pairs) _ []
    ⟨srcName, chain_tokens first pairs, 0⟩ fuel (term_parses_int_lit first hfirst) hc hs
    (by simp [Parser.rest, chain_tokens]) (by simpa [Parser.rest] using hfuel)
  rw [h]
  simp [Parser.advance, chain_tokens, Nat.add_comm]

/-- C1 at `2 + 3 * 4`: the parser returns `Add(2, Mul(3, 4))` and stands at the end. -/
theorem C1_precedence_climbing_witness :
    (tok_int "2").type = .int_lit
    ∧ (∀ x ∈ [(tok .plus, tok_int "3"), (tok .star, tok_int "4")],
        (x.1.type = .plus ∨ x.1.type = .minus ∨ x.1.type = .star ∨ x.1.type = .fslash)
          ∧ x.2.type = .int_lit)
    ∧ 2 * toks_2_plus_3_star_4.length + 2 ≤ 12
    ∧ Parser.parse_expr 12 0 ⟨"main.l", toks_2_plus_3_star_4, 0⟩
        = .ok (some (ref_expr (.int_lit (tok_int "2"))
              (lit_pairs [(tok .plus, tok_int "3"), (tok .star, tok_int "4")])),
            ⟨"main.l", toks_2_plus_3_star_4, toks_2_plus_3_star_4.length⟩) :=
  ⟨rfl, by decide, by decide,
    C1_precedence_climbing.1 "main.l" (tok_int "2")
      [(tok .plus, tok_int "3"), (tok .star, tok_int "4")] 12 rfl (by decide) (by decide)⟩

/-- The three examples of C1, evaluated directly. -/
theorem parse_expr_examples :
    Parser.parse_expr 12 0 ⟨"main.l", toks_2_plus_3_star_4, 0⟩
        = .ok (some (.bin_expr (.add (e_int "2") (.bin_expr (.multi (e_int "3") (e_int "4"))))),
            ⟨"main.l", toks_2_plus_3_star_4, 5⟩)
    ∧ Parser.parse_expr 12 0 ⟨"main.l", toks_2_star_3_plus_4, 0⟩
        = .ok (some (.bin_expr (.add (.bin_expr (.multi (e_int "2") (e_int "3"))) (e_int "4"))),
            ⟨"main.l", toks_2_star_3_plus_4, 5⟩)
    ∧ Parser.parse_expr 12 0 ⟨"main.l", toks_1_minus_2_minus_3, 0⟩
        = .ok (some (.bin_expr (.sub (.bin_expr (.sub (e_int "1") (e_int "2"))) (e_int "3"))),
            ⟨"main.l", toks_1_minus_2_minus_3, 5⟩) :=
  ⟨rfl, rfl, rfl⟩

/-! ## C2: the parser accepts the grammar -/

theorem chain_toks_append (a : List (Token × NodeTerm)) (ta : List Token)
    (ha : ChainToks a ta) (b : List (Token × NodeTerm)) (tb : List Token)
    (hb : ChainToks b tb) : ChainToks (a ++ b) (ta ++ tb) := by
  induction ha with
  | nil => simpa using hb
  | cons op t T items toks hop hTne hT _ ih =>
    have := ChainToks.cons op t T (items ++ b) (toks ++ tb) hop hTne hT ih
    simpa using this

theorem expr_parses_of_chain (T : List Token) (t : NodeTerm)
    (items : List (Token × NodeTerm)) (toks : List Token)
    (hT : TermParses T t) (hc : ChainToks items toks) :
    ExprParses (T ++ toks) (ref_expr t items) := by
  intro p tail f hs hr hf
  have h := parse_expr_zero T t items toks tail p f hT hc hs (by simpa using hr) hf
  simpa using h

theorem term_parses_ident (t : Token) (h : t.type = .ident) :
    TermParses [t] (.ident t) := by
  intro p tail f hr hf
  obtain ⟨f1, rfl⟩ : ∃ f1, f = f1 + 1 := ⟨f - 1, by omega⟩
  rw [parse_term_succ, Parser.try_consume_miss p t tail .int_lit hr (by simp [h])]
  simp only
  rw [Parser.try_consume_hit p t tail .ident hr h]
  rfl

theorem stop_tail_cons (c : Token) (tail : List Token) (h : bin_prec c.type = none) :
    StopTail (c :: tail) := by
  intro t r e
  simp at e
  rw [← e.1]
  exact h

theorem term_parses_paren (o c : Token) (E : List Token) (e : NodeExpr)
    (ho : o.type = .open_paren) (hcl : c.type = .close_paren) (hE : ExprParses E e) :
    TermParses (o :: E ++ [c]) (.paren e) := by
  intro p tail f hr hf
  obtain ⟨f1, rfl⟩ : ∃ f1, f = f1 + 1 := ⟨f - 1, by omega⟩
  have hr' : p.rest = o :: (E ++ (c :: tail)) := by simpa using hr
  have hlen : p.rest.length = 1 + E.length + 1 + tail.length := by rw [hr']; simp; omega
  have hp1 : (p.advance 1).rest = E ++ (c :: tail) := by rw [Parser.rest_advance, hr']; rfl
  have hp2 : ((p.advance 1).advance E.length).rest = c :: tail :=
    Parser.rest_advance_append _ E _ hp1
  rw [parse_term_succ, Parser.try_consume_miss p o _ .int_lit hr' (by simp [ho])]
  simp only
  rw [Parser.try_consume_miss p o _ .ident hr' (by simp [ho])]
  simp only
  rw [Parser.try_consume_hit p o _ .open_paren hr' ho]
  simp only
  rw [hE (p.advance 1) (c :: tail) f1 (stop_tail_cons c tail (by simp [hcl, bin_prec])) hp1
    (by rw [hp1]; simp; omega)]
  simp only
  rw [Parser.try_consume_err_hit _ c tail .close_paren _ _ _ hp2 hcl]
  simp only [Parser.advance_advance, List.length_cons, List.length_append, List.length_nil]
  congr 3
  omega

theorem stmt_parses_exit (k o c s : Token) (E : List Token) (e : NodeExpr)
    (hk : k.type = ._exit) (ho : o.type = .open_paren) (hcl : c.type = .close_paren)
    (hsm : s.type = .semi) (hE : ExprParses E e) :
    StmtParses (k :: o :: E ++ [c, s]) (.exit e) := by
  intro p tail f _ hr hf
  obtain ⟨f1, rfl⟩ : ∃ f1, f = f1 + 1 := ⟨f - 1, by omega⟩
  have hr' : p.rest = k :: o :: (E ++ (c :: s :: tail)) := by simpa using hr
  have hlen : p.rest.length = 2 + E.length + 2 + tail.length := by rw [hr']; simp; omega
  have hp1 : (p.advance 1).rest = o :: (E ++ (c :: s :: tail)) := by
    rw [Parser.rest_advance, hr']; rfl
  have hp2 : ((p.advance 1).advance 1).rest = E ++ (c :: s :: tail) := by
    rw [Parser.rest_advance, hp1]; rfl
  have hp3 : (((p.advance 1).advance 1).advance E.length).rest = c :: s :: tail :=
    Parser.rest_advance_append _ E _ hp2
  have hp4 : ((((p.advance 1).advance 1).advance E.length).advance 1).rest = s :: tail := by
    rw [Parser.rest_advance, hp3]; rfl
  rw [Parser.parse_stmt]
  simp only [Parser.peek_zero, Parser.peek_one, hr', List.head?_cons, hk, ho,
    List.getElem?_cons_succ, List.getElem?_cons_zero, Option.map_some', and_self, if_true]
  rw [Parser.consume_cons p k _ hr']
  simp only
  rw [Parser.consume_cons _ o _ hp1]
  simp only
  rw [hE _ (c :: s :: tail) f1 (stop_tail_cons c _ (by simp [hcl, bin_prec])) hp2
    (by rw [hp2]; simp; omega)]
  simp only
  rw [Parser.try_consume_err_hit _ c _ .close_paren _ _ _ hp3 hcl]
  simp only
  rw [Parser.try_consume_err_hit _ s _ .semi _ _ _ hp4 hsm]
  simp only [Parser.advance_advance, List.length_cons, List.length_append, List.length_nil]
  congr 3
  omega

theorem stmt_parses_let (k i q s : Token) (E : List Token) (e : NodeExpr)
    (hk : k.type = .let_) (hi : i.type = .ident) (hq : q.type = .eq)
    (hsm : s.type = .semi) (hE : ExprParses E e) :
    StmtParses (k :: i :: q :: E ++ [s]) (.let_ i e) := by
  intro p tail f _ hr hf
  obtain ⟨f1, rfl⟩ : ∃ f1, f = f1 + 1 := ⟨f - 1, by omega⟩
  have hr' : p.rest = k :: i :: q :: (E ++ (s :: tail)) := by simpa using hr
  have hlen : p.rest.length = 3 + E.length + 1 + tail.length := by rw [hr']; simp; omega
  have hp1 : (p.advance 1).rest = i :: q :: (E ++ (s :: tail)) := by
    rw [Parser.rest_advance, hr']; rfl
  have hp2 : ((p.advance 1).advance 1).rest = q :: (E ++ (s :: tail)) := by
    rw [Parser.rest_advance, hp1]; rfl
  have hp3 : (((p.advance 1).advance 1).advance 1).rest = E ++ (s :: tail) := by
    rw [Parser.rest_advance, hp2]; rfl
  have hp4 : ((((p.advance 1).advance 1).advance 1).advance E.length).rest = s :: tail :=
    Parser.rest_advance_append _ E _ hp3
  rw [Parser.parse_stmt]
  simp only [Parser.peek_zero, Parser.peek_one, Parser.peek_two, hr', List.head?_cons, hk,
    hi, hq, List.getElem?_cons_succ, List.getElem?_cons_zero, Option.map_some', and_self,
    if_true, reduceCtorEq, false_and, if_false]
  rw [Parser.consume_cons p k _ hr']
  simp only
  rw [Parser.consume_cons _ i _ hp1]
  simp only
  rw [Parser.consume_cons _ q _ hp2]
  simp only
  rw [hE _ (s :: tail) f1 (stop_tail_cons s _ (by simp [hsm, bin_prec])) hp3
    (by rw [hp3]; simp; omega)]
  simp only
  rw [Parser.try_consume_err_hit _ s _ .semi _ _ _ hp4 hsm]
  simp only [Parser.advance_advance, List.length_cons, List.length_append, List.length_nil]
  congr 3
  omega

theorem parse_stmt_set_ok (i op : Token) (E tail : List Token) (e : NodeExpr) (p : Parser)
    (f : Nat) (hop : op.type = .eq ∨ op.type = .pluseq ∨ op.type = .minuseq
      ∨ op.type = .stareq ∨ op.type = .fslasheq)
    (hE : ExprParses E e) (hs : StopTail tail) (hr : p.rest = i :: op :: (E ++ tail))
    (hf : 2 * p.rest.length + 2 ≤ f) :
    Parser.parse_stmt_set f p
      = .ok (some (set_node op.type i e), ((p.advance 1).advance 1).advance E.length) := by
  have hlen : p.rest.length = 2 + E.length + tail.length := by rw [hr]; simp; omega
  have hp1 : (p.advance 1).rest = op :: (E ++ tail) := by
    rw [Parser.rest_advance, hr]; rfl
  have hp2 : ((p.advance 1).advance 1).rest = E ++ tail := by
    rw [Parser.rest_advance, hp1]; rfl
  have hop' : op.type = .eq ∨ op.type = .pluseq ∨ op.type = .stareq ∨ op.type = .minuseq
      ∨ op.type = .fslasheq := by tauto
  simp only [Parser.parse_stmt_set]
  rw [Parser.consume_cons p i _ hr]
  simp only [Parser.peek_zero, hp1, List.head?_cons]
  rw [if_pos hop', Parser.consume_cons _ op _ hp1]
  simp only
  rw [hE _ tail f hs hp2 (by rw [hp2]; simp; omega)]
  simp only [set_node]
  split_ifs <;> rfl

theorem stmt_parses_set (i op s : Token) (E : List Token) (e : NodeExpr)
    (hi : i.type = .ident) (hop : op.type = .eq ∨ op.type = .pluseq ∨ op.type = .minuseq
      ∨ op.type = .stareq ∨ op.type = .fslasheq)
    (hsm : s.type = .semi) (hE : ExprParses E e) :
    StmtParses (i :: op :: E ++ [s]) (.set (set_node op.type i e)) := by
  intro p tail f _ hr hf
  obtain ⟨f1, rfl⟩ : ∃ f1, f = f1 + 1 := ⟨f - 1, by omega⟩
  have hr' : p.rest = i :: op :: (E ++ (s :: tail)) := by simpa using hr
  have hlen : p.rest.length = 2 + E.length + 1 + tail.length := by rw [hr']; simp; omega
  have hp3 : (((p.advance 1).advance 1).advance E.length).rest = s :: tail := by
    apply Parser.rest_advance_append
    rw [Parser.rest_advance, Parser.rest_advance, hr']; rfl
  rw [Parser.parse_stmt]
  simp only [Parser.peek_zero, Parser.peek_one, hr', List.head?_cons, hi,
    List.getElem?_cons_succ, List.getElem?_cons_zero, Option.map_some', Option.isSome_some,
    and_self, if_true, reduceCtorEq, false_and, if_false]
  rw [parse_stmt_set_ok i op E (s :: tail) e p f1 hop hE
    (stop_tail_cons s _ (by simp [hsm, bin_prec])) hr' (by omega)]
  simp only
  rw [Parser.try_consume_err_hit _ s _ .semi _ _ _ hp3 hsm]
  simp only [Parser.advance_advance, List.length_cons, List.length_append, List.length_nil]
  congr 3
  omega

theorem stmt_parses_scope (S : List Token) (sc : NodeScope)
    (hhead : ∃ t r, S = t :: r ∧ t.type = .open_curly) (hS : ScopeParses S sc) :
    StmtParses S (.scope sc) := by
  intro p tail f _ hr hf
  obtain ⟨f1, rfl⟩ : ∃ f1, f = f1 + 1 := ⟨f - 1, by omega⟩
  obtain ⟨t, r, rfl, ht⟩ := hhead
  have hr' : p.rest = t :: (r ++ tail) := by simpa using hr
  rw [Parser.parse_stmt]
  simp only [Parser.peek_zero, hr', List.head?_cons, ht, reduceCtorEq, false_and, if_false,
    if_true]
  rw [hS p tail f1 hr (by omega)]

theorem pred_parses_none : PredParses [] none := by
  intro p tail f hne hr hf
  obtain ⟨f1, rfl⟩ : ∃ f1, f = f1 + 1 := ⟨f - 1, by omega⟩
  rw [Parser.parse_if_pred]
  have : p.try_consume .else_ = .ok (none, p) := by
    cases htl : tail with
    | nil => simp [Parser.try_consume, Parser.peek_zero, hr, htl]
    | cons t r =>
      exact Parser.try_consume_miss p t r _ (by simpa [htl] using hr) (hne t r htl)
  rw [this]
  rfl

theorem stmt_parses_if (k o c : Token) (E SC PR : List Token) (e : NodeExpr)
    (sc : NodeScope) (pr : Option NodeIfPred)
    (hk : k.type = .if_) (ho : o.type = .open_paren) (hcl : c.type = .close_paren)
    (hE : ExprParses E e) (hS : ScopeParses SC sc) (hP : PredParses PR pr) :
    StmtParses (k :: o :: E ++ c :: SC ++ PR) (.if_ e sc pr) := by
  intro p tail f hne hr hf
  obtain ⟨f1, rfl⟩ : ∃ f1, f = f1 + 1 := ⟨f - 1, by omega⟩
  have hr' : p.rest = k :: o :: (E ++ (c :: (SC ++ (PR ++ tail)))) := by simpa using hr
  have hlen : p.rest.length = 2 + E.length + 1 + SC.length + PR.length + tail.length := by
    rw [hr']; simp; omega
  have hp1 : (p.advance 1).rest = o :: (E ++ (c :: (SC ++ (PR ++ tail)))) := by
    rw [Parser.rest_advance, hr']; rfl
  have hp2 : ((p.advance 1).advance 1).rest = E ++ (c :: (SC ++ (PR ++ tail))) := by
    rw [Parser.rest_advance, hp1]; rfl
  have hp3 : (((p.advance 1).advance 1).advance E.length).rest
      = c :: (SC ++ (PR ++ tail)) := Parser.rest_advance_append _ E _ hp2
  have hp4 : ((((p.advance 1).advance 1).advance E.length).advance 1).rest
      = SC ++ (PR ++ tail) := by
    rw [Parser.rest_advance, hp3]; rfl
  have hp5 : (((((p.advance 1).advance 1).advance E.length).advance 1).advance
      SC.length).rest = PR ++ tail := Parser.rest_advance_append _ SC _ hp4
  rw [Parser.parse_stmt]
  simp only [Parser.peek_zero, hr', List.head?_cons, hk, reduceCtorEq, false_and, if_false]
  rw [Parser.try_consume_hit p k _ .if_ hr' hk]
  simp only
  rw [Parser.try_consume_err_hit _ o _ .open_paren _ _ _ hp1 ho]
  simp only
  rw [hE _ _ f1 (stop_tail_cons c _ (by simp [hcl, bin_prec])) hp2 (by rw [hp2]; simp; omega)]
  simp only
  rw [Parser.try_consume_err_hit _ c _ .close_paren _ _ _ hp3 hcl]
  simp only
  rw [hS _ _ f1 hp4 (by rw [hp4]; simp; omega)]
  simp only
  rw [hP _ _ f1 hne hp5 (by rw [hp5]; simp; omega)]
  simp only [Parser.advance_advance, List.length_cons, List.length_append, List.length_nil]
  congr 3
  omega

theorem pred_parses_else_if (el k o c : Token) (E SC PR : List Token) (e : NodeExpr)
    (sc : NodeScope) (pr : Option NodeIfPred)
    (hel : el.type = .else_) (hk : k.type = .if_) (ho : o.type = .open_paren)
    (hcl : c.type = .close_paren)
    (hE : ExprParses E e) (hS : ScopeParses SC sc) (hP : PredParses PR pr) :
    PredParses (el :: k :: o :: E ++ c :: SC ++ PR) (some (.else_if e sc pr)) := by
  intro p tail f hne hr hf
  obtain ⟨f1, rfl⟩ : ∃ f1, f = f1 + 1 := ⟨f - 1, by omega⟩
  have hr' : p.rest = el :: k :: o :: (E ++ (c :: (SC ++ (PR ++ tail)))) := by
    simpa using hr
  have hlen : p.rest.length = 3 + E.length + 1 + SC.length + PR.length + tail.length := by
    rw [hr']; simp; omega
  have hp0 : (p.advance 1).rest = k :: o :: (E ++ (c :: (SC ++ (PR ++ tail)))) := by
    rw [Parser.rest_advance, hr']; rfl
  have hp1 : ((p.advance 1).advance 1).rest = o :: (E ++ (c :: (SC ++ (PR ++ tail)))) := by
    rw [Parser.rest_advance, hp0]; rfl
  have hp2 : (((p.advance 1).advance 1).advance 1).rest
      = E ++ (c :: (SC ++ (PR ++ tail))) := by
    rw [Parser.rest_advance, hp1]; rfl
  have hp3 : ((((p.advance 1).advance 1).advance 1).advance E.length).rest
      = c :: (SC ++ (PR ++ tail)) := Parser.rest_advance_append _ E _ hp2
  have hp4 : (((((p.advance 1).advance 1).advance 1).advance E.length).advance 1).rest
      = SC ++ (PR ++ tail) := by
    rw [Parser.rest_advance, hp3]; rfl
  have hp5 : ((((((p.advance 1).advance 1).advance 1).advance E.length).advance 1).advance
      SC.length).rest = PR ++ tail := Parser.rest_advance_append _ SC _ hp4
  rw [Parser.parse_if_pred]
  rw [Parser.try_consume_hit p el _ .else_ hr' hel]
  simp only
  rw [Parser.try_consume_hit _ k _ .if_ hp0 hk]
  simp only
  rw [Parser.try_consume_err_hit _ o _ .open_paren _ _ _ hp1 ho]
  simp only
  rw [hE _ _ f1 (stop_tail_cons c _ (by simp [hcl, bin_prec])) hp2 (by rw [hp2]; simp; omega)]
  simp only
  rw [Parser.try_consume_err_hit _ c _ .close_paren _ _ _ hp3 hcl]
  simp only
  rw [hS _ _ f1 hp4 (by rw [hp4]; simp; omega)]
  simp only
  rw [hP _ _ f1 hne hp5 (by rw [hp5]; simp; omega)]
  simp only [Parser.advance_advance, List.length_cons, List.length_append, List.length_nil]
  congr 3
  omega

theorem pred_parses_else (el : Token) (SC : List Token) (sc : NodeScope)
    (hel : el.type = .else_) (hhead : ∃ t r, SC = t :: r ∧ t.type = .open_curly)
    (hS : ScopeParses SC sc) :
    PredParses (el :: SC) (some (.else_ sc)) := by
  intro p tail f _ hr hf
  obtain ⟨f1, rfl⟩ : ∃ f1, f = f1 + 1 := ⟨f - 1, by omega⟩
  obtain ⟨t, r, hSC, ht⟩ := hhead
  have hr' : p.rest = el :: (SC ++ tail) := by simpa using hr
  have hlen : p.rest.length = 1 + SC.length + tail.length := by rw [hr']; simp; omega
  have hp1 : (p.advance 1).rest = SC ++ tail := by rw [Parser.rest_advance, hr']; rfl
  have hp1' : (p.advance 1).rest = t :: (r ++ tail) := by rw [hp1, hSC]; rfl
  rw [Parser.parse_if_pred]
  rw [Parser.try_consume_hit p el _ .else_ hr' hel]
  simp only
  rw [Parser.try_consume_miss _ t _ .if_ hp1' (by simp [ht])]
  simp only
  rw [hS _ _ f1 hp1 (by rw [hp1]; simp; omega)]
  simp only [Parser.advance_advance, List.length_cons]
  congr 3
  omega

theorem stmt_start_ne_else (ty : TokenType) (h : stmt_start ty) : ty ≠ .else_ := by
  rcases h with h | h | h | h | h <;> simp [h]

theorem no_else_chunks (chunks : List (List Token)) (sts : List NodeStmt)
    (h : List.Forall₂ StmtChunk chunks sts) (tail : List Token) (ht : NoElse tail) :
    NoElse (chunks.flatten ++ tail) := by
  cases h with
  | nil => simpa using ht
  | cons hc _ =>
    obtain ⟨⟨t, r, rfl, hst⟩, _⟩ := hc
    intro t' r' e
    simp at e
    rw [← e.1]
    exact stmt_start_ne_else _ hst

theorem parse_stmt_close_curly (f : Nat) (p : Parser) (c : Token) (tail : List Token)
    (hr : p.rest = c :: tail) (hc : c.type = .close_curly) :
    Parser.parse_stmt (f + 1) p = .ok (none, p) := by
  rw [Parser.parse_stmt]
  simp only [Parser.peek_zero, hr, List.head?_cons, hc, reduceCtorEq, false_and, if_false]
  rw [Parser.try_consume_miss p c tail .if_ hr (by simp [hc])]

/-- The loop of `parse_scope` collects one statement per chunk and stops at `}`. -/
theorem parse_scope_loop_chunks (chunks : List (List Token)) (sts : List NodeStmt)
    (h : List.Forall₂ StmtChunk chunks sts) :
    ∀ (acc : List NodeStmt) (p : Parser) (c : Token) (tail : List Token) (f : Nat),
      c.type = .close_curly → p.rest = chunks.flatten ++ c :: tail →
      3 * p.rest.length + 3 ≤ f →
      Parser.parse_scope_loop f acc p
        = .ok (acc ++ sts, p.advance chunks.flatten.length) := by
  induction h with
  | nil =>
    intro acc p c tail f hc hr hf
    obtain ⟨f1, rfl⟩ : ∃ f1, f = f1 + 1 := ⟨f - 1, by omega⟩
    obtain ⟨f2, rfl⟩ : ∃ f2, f1 = f2 + 1 := ⟨f1 - 1, by omega⟩
    rw [Parser.parse_scope_loop, parse_stmt_close_curly f2 p c tail (by simpa using hr) hc]
    simp [Parser.advance]
  | @cons S st chunks sts hS hrest ih =>
    intro acc p c tail f hc hr hf
    obtain ⟨f1, rfl⟩ : ∃ f1, f = f1 + 1 := ⟨f - 1, by omega⟩
    have hr' : p.rest = S ++ (chunks.flatten ++ c :: tail) := by simpa using hr
    have hlen : p.rest.length = S.length + (chunks.flatten.length + (1 + tail.length)) := by
      rw [hr']; simp; omega
    have hSne : 1 ≤ S.length := by
      obtain ⟨⟨t, r, rfl, _⟩, _⟩ := hS
      simp
    have hne : NoElse (chunks.flatten ++ c :: tail) := by
      apply no_else_chunks chunks sts hrest
      intro t r e
      simp at e
      rw [← e.1, hc]
      simp
    have hp1 : (p.advance S.length).rest = chunks.flatten ++ c :: tail :=
      Parser.rest_advance_append p S _ hr'
    rw [Parser.parse_scope_loop, hS.2 p _ f1 hne hr' (by omega)]
    simp only
    rw [ih (acc ++ [st]) (p.advance S.length) c tail f1 hc hp1 (by rw [hp1]; simp only [List.length_append, List.length_cons, List.length_nil]; omega)]
    simp [Parser.advance_advance]

theorem scope_parses (o c : Token) (chunks : List (List Token)) (sts : List NodeStmt)
    (ho : o.type = .open_curly) (hc : c.type = .close_curly)
    (h : List.Forall₂ StmtChunk chunks sts) :
    ScopeParses (o :: chunks.flatten ++ [c]) (.mk sts) := by
  intro p tail f hr hf
  obtain ⟨f1, rfl⟩ : ∃ f1, f = f1 + 1 := ⟨f - 1, by omega⟩
  have hr' : p.rest = o :: (chunks.flatten ++ c :: tail) := by simpa using hr
  have hlen : p.rest.length = 1 + chunks.flatten.length + 1 + tail.length := by
    rw [hr']; simp; omega
  have hp1 : (p.advance 1).rest = chunks.flatten ++ c :: tail := by
    rw [Parser.rest_advance, hr']; rfl
  have hp2 : ((p.advance 1).advance chunks.flatten.length).rest = c :: tail :=
    Parser.rest_advance_append _ _ _ hp1
  rw [Parser.parse_scope, Parser.try_consume_hit p o _ .open_curly hr' ho]
  simp only
  rw [parse_scope_loop_chunks chunks sts h [] (p.advance 1) c tail f1 hc hp1
    (by rw [hp1]; simp only [List.length_append, List.length_cons, List.length_nil]; omega)]
  simp only
  rw [Parser.try_consume_err_hit _ c _ .close_curly _ _ _ hp2 hc]
  simp only [Parser.advance_advance, List.length_cons, List.length_append, List.length_nil,
    List.nil_append]
  congr 3
  omega

/-- The loop of `parse_prog` collects one statement per chunk up to the end of the tokens. -/
theorem parse_prog_loop_chunks (chunks : List (List Token)) (sts : List NodeStmt)
    (h : List.Forall₂ StmtChunk chunks sts) :
    ∀ (acc : List NodeStmt) (p : Parser) (f : Nat),
      p.rest = chunks.flatten → 3 * p.rest.length + 3 ≤ f →
      Parser.parse_prog_loop f acc p
        = .ok (⟨acc ++ sts⟩, p.advance chunks.flatten.length) := by
  induction h with
  | nil =>
    intro acc p f hr hf
    obtain ⟨f1, rfl⟩ : ∃ f1, f = f1 + 1 := ⟨f - 1, by omega⟩
    rw [Parser.parse_prog_loop]
    simp [Parser.peek_zero, hr, Parser.advance]
  | @cons S st chunks sts hS hrest ih =>
    intro acc p f hr hf
    obtain ⟨f1, rfl⟩ : ∃ f1, f = f1 + 1 := ⟨f - 1, by omega⟩
    have hr' : p.rest = S ++ (chunks.flatten ++ []) := by simpa using hr
    have hlen : p.rest.length = S.length + chunks.flatten.length := by rw [hr']; simp
    obtain ⟨t, r, hSe, _⟩ := hS.1
    have hne : NoElse (chunks.flatten ++ []) :=
      no_else_chunks chunks sts hrest [] (by intro t r e; simp at e)
    have hp1 : (p.advance S.length).rest = chunks.flatten := by
      have := Parser.rest_advance_append p S _ hr'
      simpa using this
    have hpeek : p.rest.head? = some t := by rw [hr', hSe]; rfl
    have hSlen : 1 ≤ S.length := by rw [hSe]; simp
    rw [Parser.parse_prog_loop]
    simp only [Parser.peek_zero, hpeek]
    rw [hS.2 p _ f1 hne hr' (by omega)]
    simp only
    rw [ih (acc ++ [st]) (p.advance S.length) f1 hp1 (by rw [hp1]; omega)]
    simp [Parser.advance_advance]

/-- Every token list derivable from a nonterminal is parsed as such. -/
theorem parsed_of_derives (nt : NT) (toks : List Token) (h : Derives nt toks) :
    Parsed nt toks := by
  induction h with
  | term_int_lit t ht => exact ⟨by simp, _, term_parses_int_lit t ht⟩
  | term_ident t ht => exact ⟨by simp, _, term_parses_ident t ht⟩
  | term_paren o c e ho hc _ ih =>
    obtain ⟨T, t, items, toks, rfl, _, hT, hch⟩ := ih
    exact ⟨by simp, _, term_parses_paren o c _ _ ho hc (expr_parses_of_chain T t items toks hT hch)⟩
  | expr t r _ _ iht ihr =>
    obtain ⟨hne, t', hT⟩ := iht
    obtain ⟨items, hch⟩ := ihr
    exact ⟨t, t', items, r, rfl, hne, hT, hch⟩
  | expr_tail_nil => exact ⟨[], ChainToks.nil⟩
  | expr_tail_cons op e r hop _ _ ihe ihr =>
    obtain ⟨T, t, items, toks, rfl, hne, hT, hch⟩ := ihe
    obtain ⟨items', hch'⟩ := ihr
    refine ⟨(op, t) :: (items ++ items'), ?_⟩
    have := ChainToks.cons op t T (items ++ items') (toks ++ r)
      (by rcases hop with h | h | h | h <;> simp [h, bin_prec]) hne hT
      (chain_toks_append items toks hch items' r hch')
    simpa using this
  | scope o c ss ho hc _ ih =>
    obtain ⟨chunks, sts, rfl, hf⟩ := ih
    exact ⟨⟨o, _, rfl, ho⟩, _, scope_parses o c chunks sts ho hc hf⟩
  | stmts_nil => exact ⟨[], [], rfl, List.Forall₂.nil⟩
  | stmts_cons s r _ _ ihs ihr =>
    obtain ⟨st, hst⟩ := ihs
    obtain ⟨chunks, sts, rfl, hf⟩ := ihr
    exact ⟨s :: chunks, st :: sts, rfl, List.Forall₂.cons hst hf⟩
  | exit_stmt k o c s e hk ho hc hs _ ih =>
    obtain ⟨T, t, items, toks, rfl, _, hT, hch⟩ := ih
    exact ⟨_, ⟨k, _, rfl, Or.inl hk⟩,
      stmt_parses_exit k o c s _ _ hk ho hc hs (expr_parses_of_chain T t items toks hT hch)⟩
  | let_stmt k i q s e hk hi hq hs _ ih =>
    obtain ⟨T, t, items, toks, rfl, _, hT, hch⟩ := ih
    exact ⟨_, ⟨k, _, rfl, Or.inr (Or.inl hk)⟩,
      stmt_parses_let k i q s _ _ hk hi hq hs (expr_parses_of_chain T t items toks hT hch)⟩
  | set_stmt i op s e hi hop hs _ ih =>
    obtain ⟨T, t, items, toks, rfl, _, hT, hch⟩ := ih
    exact ⟨_, ⟨i, _, rfl, Or.inr (Or.inr (Or.inl hi))⟩,
      stmt_parses_set i op s _ _ hi hop hs (expr_parses_of_chain T t items toks hT hch)⟩
  | if_stmt k o c e sc pr hk ho hc _ _ _ ihe ihs ihp =>
    obtain ⟨T, t, items, toks, rfl, _, hT, hch⟩ := ihe
    obtain ⟨_, sc', hS⟩ := ihs
    obtain ⟨pr', hP⟩ := ihp
    exact ⟨_, ⟨k, _, rfl, Or.inr (Or.inr (Or.inr (Or.inr hk)))⟩,
      stmt_parses_if k o c _ sc pr _ sc' pr' hk ho hc
        (expr_parses_of_chain T t items toks hT hch) hS hP⟩
  | scope_stmt sc _ ih =>
    obtain ⟨hh, sc', hS⟩ := ih
    have hh' := hh
    obtain ⟨t, r, he, ht⟩ := hh'
    exact ⟨_, ⟨t, r, he, Or.inr (Or.inr (Or.inr (Or.inl ht)))⟩, stmt_parses_scope sc sc' hh hS⟩
  | if_pred_none => exact ⟨none, pred_parses_none⟩
  | if_pred_else_if el k o c e sc pr hel hk ho hc _ _ _ ihe ihs ihp =>
    obtain ⟨T, t, items, toks, rfl, _, hT, hch⟩ := ihe
    obtain ⟨_, sc', hS⟩ := ihs
    obtain ⟨pr', hP⟩ := ihp
    exact ⟨_, pred_parses_else_if el k o c _ sc pr _ sc' pr' hel hk ho hc
      (expr_parses_of_chain T t items toks hT hch) hS hP⟩
  | if_pred_else el sc hel _ ih =>
    obtain ⟨hh, sc', hS⟩ := ih
    exact ⟨_, pred_parses_else el sc sc' hel hh hS⟩

theorem stmt_chunks_of_derives (chunks : List (List Token))
    (hd : ∀ c ∈ chunks, Derives .stmt c) : ∃ sts, List.Forall₂ StmtChunk chunks sts := by
  induction chunks with
  | nil => exact ⟨[], List.Forall₂.nil⟩
  | cons c r ih =>
    obtain ⟨sts, h⟩ := ih (fun c' hc' => hd c' (List.mem_cons_of_mem _ hc'))
    obtain ⟨st, hst⟩ := parsed_of_derives .stmt c (hd c (List.mem_cons_self _ _))
    exact ⟨st :: sts, List.Forall₂.cons hst h⟩

/-- C2: for every token list derivable from `program = { stmt }`, given as the statements
`chunks` of its derivation, `parse_prog` (with enough fuel) returns a program without any
error and stands at the end of the tokens; the returned list has exactly one entry per
top-level statement, in source order: the entry at each position is the statement that
`parse_stmt` returns for the tokens of the statement at that position. -/
theorem C2_parser_accepts_grammar (srcName : String) (chunks : List (List Token))
    (fuel : Nat) (hd : ∀ c ∈ chunks, Derives .stmt c)
    (hf : 3 * chunks.flatten.length + 3 ≤ fuel) :
    ∃ prog : NodeProg,
      Parser.parse_prog fuel ⟨srcName, chunks.flatten, 0⟩
        = .ok (prog, ⟨srcName, chunks.flatten, chunks.flatten.length⟩)
      ∧ prog.stmts.length = chunks.length
      ∧ List.Forall₂ (fun c st => ∀ fuel', 3 * c.length + 2 ≤ fuel' →
          Parser.parse_stmt fuel' ⟨srcName, c, 0⟩ = .ok (some st, ⟨srcName, c, c.length⟩))
        chunks prog.stmts := by
  obtain ⟨sts, h⟩ := stmt_chunks_of_derives chunks hd
  refine ⟨⟨sts⟩, ?_, ?_, ?_⟩
  · have := parse_prog_loop_chunks chunks sts h [] ⟨srcName, chunks.flatten, 0⟩ fuel
      (by simp [Parser.rest]) (by simpa [Parser.rest] using hf)
    simpa [Parser.parse_prog, Parser.advance] using this
  · exact (List.Forall₂.length_eq h).symm
  · refine List.Forall₂.imp ?_ h
    intro c st hc fuel' hf'
    have := hc.2 ⟨srcName, c, 0⟩ [] fuel' (by intro t r e; simp at e)
      (by simp [Parser.rest]) (by simpa [Parser.rest] using hf')
    simpa [Parser.advance] using this

theorem derives_let_x_5 : Derives .stmt toks_let_x_5 :=
  Derives.let_stmt (tok .let_) (tok_ident "x") (tok .eq) (tok .semi) [tok_int "5"] rfl rfl rfl
    rfl (Derives.expr [tok_int "5"] [] (Derives.term_int_lit _ rfl) Derives.expr_tail_nil)

theorem derives_if_else : Derives .stmt toks_if_else :=
  Derives.if_stmt (tok .if_) (tok .open_paren) (tok .close_paren) [tok_ident "x"]
    [tok .open_curly, tok ._exit, tok .open_paren, tok_ident "x", tok .plus, tok_int "1",
      tok .close_paren, tok .semi, tok .close_curly]
    [tok .else_, tok .open_curly, tok_ident "x", tok .pluseq, tok_int "2", tok .semi,
      tok .close_curly]
    rfl rfl rfl
    (Derives.expr [tok_ident "x"] [] (Derives.term_ident _ rfl) Derives.expr_tail_nil)
    (Derives.scope (tok .open_curly) (tok .close_curly)
      [tok ._exit, tok .open_paren, tok_ident "x", tok .plus, tok_int "1", tok .close_paren,
        tok .semi] rfl rfl
      (Derives.stmts_cons _ [] (Derives.exit_stmt (tok ._exit) (tok .open_paren)
        (tok .close_paren) (tok .semi) [tok_ident "x", tok .plus, tok_int "1"] rfl rfl rfl rfl
        (Derives.expr [tok_ident "x"] [tok .plus, tok_int "1"] (Derives.term_ident _ rfl)
          (Derives.expr_tail_cons (tok .plus) [tok_int "1"] [] (Or.inl rfl)
            (Derives.expr [tok_int "1"] [] (Derives.term_int_lit _ rfl)
              Derives.expr_tail_nil) Derives.expr_tail_nil))) Derives.stmts_nil))
    (Derives.if_pred_else (tok .else_) _ rfl
      (Derives.scope (tok .open_curly) (tok .close_curly)
        [tok_ident "x", tok .pluseq, tok_int "2", tok .semi] rfl rfl
        (Derives.stmts_cons _ [] (Derives.set_stmt (tok_ident "x") (tok .pluseq) (tok .semi)
          [tok_int "2"] rfl (Or.inr (Or.inl rfl)) rfl
          (Derives.expr [tok_int "2"] [] (Derives.term_int_lit _ rfl) Derives.expr_tail_nil))
          Derives.stmts_nil)))

/-- C2 at `let x = 5; if (x) { exit(x + 1); } else { x += 2; }`. -/
theorem C2_parser_accepts_grammar_witness :
    (∀ c ∈ [toks_let_x_5, toks_if_else], Derives .stmt c)
    ∧ 3 * [toks_let_x_5, toks_if_else].flatten.length + 3 ≤ 78
    ∧ ∃ prog : NodeProg,
      Parser.parse_prog 78 ⟨"main.l", [toks_let_x_5, toks_if_else].flatten, 0⟩
        = .ok (prog, ⟨"main.l", [toks_let_x_5, toks_if_else].flatten,
            [toks_let_x_5, toks_if_else].flatten.length⟩)
      ∧ prog.stmts.length = [toks_let_x_5, toks_if_else].length
      ∧ List.Forall₂ (fun c st => ∀ fuel', 3 * c.length + 2 ≤ fuel' →
          Parser.parse_stmt fuel' ⟨"main.l", c, 0⟩ = .ok (some st, ⟨"main.l", c, c.length⟩))
        [toks_let_x_5, toks_if_else] prog.stmts :=
  have hd : ∀ c ∈ [toks_let_x_5, toks_if_else], Derives .stmt c := by
    intro c hc
    simp only [List.mem_cons, List.mem_singleton, List.not_mem_nil, or_false] at hc
    rcases hc with rfl | rfl
    · exact derives_let_x_5
    · exact derives_if_else
  ⟨hd, by decide, C2_parser_accepts_grammar "main.l" [toks_let_x_5, toks_if_else] 78 hd
    (by decide)⟩

/-! ## C4: the code of an expression computes its value -/

theorem WORD_eq : WORD = 18446744073709551616 := by
  unfold WORD
  rfl

theorem WORD_pos : 0 < WORD := by
  rw [WORD_eq]
  decide

theorem SIZE_MOD_eq_WORD : SIZE_MOD = WORD := by
  rw [WORD_eq]
  rfl

theorem exec_append (a b : List Instr) : ∀ m : Machine,
    Machine.exec (a ++ b) m =
      match Machine.exec a m with
      | none => none
      | some m1 => Machine.exec b m1 := by
  induction a with
  | nil => intro m; rfl
  | cons i r ih =>
    intro m
    simp only [List.cons_append, Machine.exec]
    cases m.step i with
    | none => rfl
    | some m1 => exact ih m1

theorem sem_expr_bin (env : List (String × Nat)) (b : NodeBinExpr) :
    sem_expr env (.bin_expr b) =
      (sem_expr env b.lhs).bind (fun x =>
        (sem_expr env b.rhs).bind (fun y => bin_value b x y)) := by
  cases b <;> simp only [sem_expr, NodeBinExpr.lhs, NodeBinExpr.rhs, bin_value] <;>
    cases sem_expr env _ <;> simp <;> cases sem_expr env _ <;> simp

theorem push_depth_bin (b : NodeBinExpr) :
    push_depth (.bin_expr b) = max (push_depth b.rhs) (push_depth b.lhs + 1) := by
  cases b <;> simp only [push_depth, NodeBinExpr.lhs, NodeBinExpr.rhs]

/-- The instructions between the pops and the push compute the value into `rax`. -/
theorem exec_op_code (b : NodeBinExpr) (m : Machine) (v : Nat)
    (hv : bin_value b m.rax m.rbx = some v) (ha : m.rax < WORD) :
    ∃ m', Machine.exec b.op_code m = some m' ∧ m'.rax = v ∧ m'.rsp = m.rsp
      ∧ m'.mem = m.mem ∧ v < WORD := by
  cases b with
  | add l r =>
    simp only [bin_value, Option.some.injEq] at hv
    subst hv
    exact ⟨_, rfl, rfl, rfl, rfl, Nat.mod_lt _ WORD_pos⟩
  | sub l r =>
    simp only [bin_value, Option.some.injEq] at hv
    subst hv
    exact ⟨_, rfl, rfl, rfl, rfl, Nat.mod_lt _ WORD_pos⟩
  | multi l r =>
    simp only [bin_value, Option.some.injEq] at hv
    subst hv
    exact ⟨_, rfl, rfl, rfl, rfl, Nat.mod_lt _ WORD_pos⟩
  | div l r =>
    simp only [bin_value] at hv
    by_cases h0 : m.rbx = 0
    · simp [h0] at hv
    · simp only [h0, if_false, Option.some.injEq] at hv
      subst hv
      have hq : m.rax / m.rbx < WORD := lt_of_le_of_lt (Nat.div_le_self _ _) ha
      refine ⟨{ m with rdx := (0 * WORD + m.rax) % m.rbx, zf := true,
                       rax := (0 * WORD + m.rax) / m.rbx }, ?_, by simp, rfl, rfl, hq⟩
      simp only [NodeBinExpr.op_code, Machine.exec, Machine.step, h0, if_false]
      rw [if_pos (by simpa using hq)]

theorem imm_value_lt (s : String) (v : Nat) (h : imm_value s = some v) : v < WORD := by
  simp only [imm_value] at h
  split_ifs at h
  simp only [Option.some.injEq] at h
  rw [← h]
  exact Nat.mod_lt _ WORD_pos

theorem agrees_push (g g1 : GeneratorWin) (m m1 : Machine) (env : List (String × Nat))
    (h : Agrees g m env) (hv : g1.m_vars = g.m_vars)
    (hs : g1.m_stack_size = g.m_stack_size + 1) (hr : m1.rsp + 8 = m.rsp)
    (hm : ∀ a, m.rsp ≤ a → m1.mem a = m.mem a) : Agrees g1 m1 env := by
  obtain ⟨h1, h2, h3⟩ := h
  refine ⟨by omega, by omega, ?_⟩
  intro x v hx
  obtain ⟨it, a1, a2, a3, a4⟩ := h3 x v hx
  refine ⟨it, by simpa only [GeneratorWin.find_var, hv] using a1, by omega, a3, ?_⟩
  rw [← a4, ← hm _ (by omega)]
  congr 1
  omega

theorem size_sub_of_le (a b : Nat) (h : b ≤ a) : size_sub a b = a - b := by
  simp only [size_sub, if_pos h]

theorem offset_eq (g : GeneratorWin) (it : Var) (h1 : it.stack_loc < g.m_stack_size)
    (h2 : 8 * g.m_stack_size ≤ WORD) :
    g.offset it = 8 * (g.m_stack_size - it.stack_loc - 1) := by
  have hlt : (g.m_stack_size - it.stack_loc - 1) * 8 < SIZE_MOD := by
    have := SIZE_MOD_eq_WORD
    omega
  simp only [GeneratorWin.offset, size_mul]
  have e1 : 1 ≤ g.m_stack_size - it.stack_loc := by omega
  rw [size_sub_of_le g.m_stack_size it.stack_loc (le_of_lt h1),
    size_sub_of_le (g.m_stack_size - it.stack_loc) 1 e1, Nat.mod_eq_of_lt hlt, Nat.mul_comm]

theorem pushed_spec (m : Machine) (v : Nat) (h1 : m.rsp < WORD) (h8 : 8 ≤ m.rsp) :
    (m.pushed v).rsp + 8 = m.rsp ∧ (m.pushed v).mem (m.pushed v).rsp = v
      ∧ ∀ a, m.rsp ≤ a → (m.pushed v).mem a = m.mem a := by
  have hrsp : (m.rsp + WORD - 8) % WORD = m.rsp - 8 := by
    rw [show m.rsp + WORD - 8 = (m.rsp - 8) + WORD by omega, Nat.add_mod_right,
      Nat.mod_eq_of_lt (by omega)]
  refine ⟨?_, ?_, ?_⟩
  · simp only [Machine.pushed, Machine.store, hrsp]; omega
  · simp only [Machine.pushed, Machine.store, if_true]
  · intro a ha
    simp only [Machine.pushed, Machine.store, hrsp]
    rw [if_neg (by omega)]

theorem exec_pops (m : Machine) :
    ∃ m', Machine.exec [.pop .rax, .pop .rbx] m = some m' ∧ m'.rax = m.mem m.rsp
      ∧ m'.rbx = m.mem ((m.rsp + 8) % WORD) ∧ m'.rsp = ((m.rsp + 8) % WORD + 8) % WORD
      ∧ m'.mem = m.mem :=
  ⟨_, rfl, rfl, rfl, rfl, rfl⟩

theorem exec_push_rax (m : Machine) :
    Machine.exec [.push .rax] m = some (m.pushed m.rax) := rfl

/-- The code of an expression, run from a machine that agrees with the variable table,
pushes the value of the expression and changes nothing at or above the old stack pointer. -/
theorem gen_expr_correct (e : NodeExpr) :
    ∀ (g : GeneratorWin) (m : Machine) (env : List (String × Nat)) (v : Nat),
      Agrees g m env → sem_expr env e = some v → 8 * push_depth e ≤ m.rsp →
      ∃ g' code m', g.gen_expr e = .ok g' ∧ g'.m_output = g.m_output ++ code
        ∧ Machine.exec code m = some m' ∧ m'.rsp + 8 = m.rsp ∧ m'.mem m'.rsp = v
        ∧ v < WORD ∧ ∀ a, m.rsp ≤ a → m'.mem a = m.mem a := by
  induction e using NodeExpr.induction_on with
  | h_int t =>
    intro g m env v hag hsem hroom
    simp only [sem_expr] at hsem
    cases htv : t.value with
    | none => simp [htv] at hsem
    | some s =>
      rw [htv] at hsem
      simp only [Option.some_bind] at hsem
      obtain ⟨h1, h2, _⟩ := hag
      simp only [push_depth] at hroom
      obtain ⟨p1, p2, p3⟩ := pushed_spec { m with rax := v } v h1 (by simpa using hroom)
      refine ⟨(g.emit (.mov_rax s)).push .rax, [.mov_rax s, .push .rax],
        Machine.pushed { m with rax := v } v, ?_, ?_, ?_, p1, p2, imm_value_lt s v hsem, p3⟩
      · rw [gen_expr_int_lit, htv]
      · simp [GeneratorWin.push, GeneratorWin.emit]
      · simp only [Machine.exec, Machine.step, hsem, Option.map_some', Machine.read]
  | h_ident t =>
    intro g m env v hag hsem hroom
    simp only [sem_expr] at hsem
    cases htv : t.value with
    | none => simp [htv] at hsem
    | some x =>
      rw [htv] at hsem
      simp only [Option.some_bind] at hsem
      obtain ⟨h1, h2, h3⟩ := hag
      obtain ⟨it, hfind, a2, a3, a4⟩ := h3 x v hsem
      simp only [push_depth] at hroom
      have hoff : g.offset it = 8 * (g.m_stack_size - it.stack_loc - 1) :=
        offset_eq g it a2 (by omega)
      have haddr : m.addr (g.offset it)
          = m.rsp + 8 * (g.m_stack_size - it.stack_loc - 1) := by
        simp only [Machine.addr, hoff]
        exact Nat.mod_eq_of_lt (by omega)
      obtain ⟨p1, p2, p3⟩ := pushed_spec m v h1 (by simpa using hroom)
      refine ⟨g.push (.qword_rsp (g.offset it)), [.push (.qword_rsp (g.offset it))],
        m.pushed v, ?_, ?_, ?_, p1, p2, ?_, p3⟩
      · rw [gen_expr_ident, htv]
        simp only [hfind]
      · simp [GeneratorWin.push, GeneratorWin.emit]
      · simp only [Machine.exec, Machine.step, Machine.read]
        rw [haddr, a4]
      · exact a3
  | h_paren e ih =>
    intro g m env v hag hsem hroom
    simp only [sem_expr] at hsem
    simp only [push_depth] at hroom
    obtain ⟨g', code, m', h1, h2⟩ := ih g m env v hag hsem hroom
    exact ⟨g', code, m', by rw [gen_expr_paren]; exact h1, h2⟩
  | h_bin b ihl ihr =>
    intro g m env v hag hsem hroom
    rw [sem_expr_bin] at hsem
    rw [push_depth_bin] at hroom
    cases hl : sem_expr env b.lhs with
    | none => simp [hl] at hsem
    | some vl =>
      cases hr : sem_expr env b.rhs with
      | none => simp [hl, hr] at hsem
      | some vr =>
        simp only [hl, hr, Option.some_bind] at hsem
        have hd1 : 8 * push_depth b.rhs ≤ m.rsp := by
          have := le_max_left (push_depth b.rhs) (push_depth b.lhs + 1); omega
        have hd2 : 8 * (push_depth b.lhs + 1) ≤ m.rsp := by
          have := le_max_right (push_depth b.rhs) (push_depth b.lhs + 1); omega
        obtain ⟨g1, code1, m1, r1, r2, r3, r4, r5, r6, r7⟩ := ihr g m env vr hag hr hd1
        obtain ⟨e1, e2, e3, e4⟩ := gen_expr_effect b.rhs g g1 r1
        have hag1 : Agrees g1 m1 env := agrees_push g g1 m m1 env hag e2 e1 r4 r7
        obtain ⟨g2, code2, m2, l1, l2, l3, l4, l5, l6, l7⟩ :=
          ihl g1 m1 env vl hag1 hl (by omega)
        obtain ⟨h1, h2, _⟩ := hag
        -- the two pops
        obtain ⟨m4, q1, q2, q3, q4, q5⟩ := exec_pops m2
        have hm3rsp : (m2.rsp + 8) % WORD = m1.rsp := by
          rw [l4]; exact Nat.mod_eq_of_lt (by omega)
        have hm4rsp : m4.rsp = m.rsp := by
          rw [q4, hm3rsp, r4]; exact Nat.mod_eq_of_lt h1
        have hm4rax : m4.rax = vl := by rw [q2, l5]
        have hm4rbx : m4.rbx = vr := by
          rw [q3, hm3rsp, l7 m1.rsp (le_refl _), r5]
        obtain ⟨m5, o1, o2, o3, o4, o5⟩ := exec_op_code b m4 v
          (by rw [hm4rax, hm4rbx]; exact hsem) (by rw [hm4rax]; exact l6)
        obtain ⟨p1, p2, p3⟩ := pushed_spec m5 v (by rw [o3, hm4rsp]; exact h1)
          (by rw [o3, hm4rsp]; omega)
        refine ⟨(((g2.pop .rax).pop .rbx).emit_all b.op_code).push .rax,
          code1 ++ (code2 ++ ([.pop .rax, .pop .rbx] ++ (b.op_code ++ [.push .rax]))),
          m5.pushed v, ?_, ?_, ?_, ?_, p2, o5, ?_⟩
        · rw [gen_expr_bin, r1]
          simp only [l1]
        · simp [GeneratorWin.push, GeneratorWin.pop, GeneratorWin.emit,
            GeneratorWin.emit_all, l2, r2]
        · rw [exec_append, r3]
          simp only
          rw [exec_append, l3]
          simp only
          rw [exec_append, q1]
          simp only
          rw [exec_append, o1]
          simp only
          rw [exec_push_rax, o2]
        · rw [p1, o3, hm4rsp]
        · intro a ha
          rw [p3 a (by rw [o3, hm4rsp]; exact ha), o4, q5, l7 a (by omega), r7 a ha]

theorem imm_value_small (s : String) (n : Nat)
    (h1 : (s.toList ≠ [] ∧ s.toList.all Char.isDigit = true))
    (h2 : s.toList.foldl (fun n c => 10 * n + (c.toNat - 48)) 0 = n)
    (h3 : n < 18446744073709551616) : imm_value s = some n := by
  unfold imm_value
  rw [if_pos h1, h2, Nat.mod_eq_of_lt (by rw [WORD_eq]; exact h3)]

theorem sem_examples :
    sem_expr [] (.bin_expr (.sub (e_int "7") (e_int "2"))) = some 5
    ∧ sem_expr [] (.bin_expr (.div (e_int "7") (e_int "2"))) = some 3
    ∧ sem_expr [("x", 7)] expr_x_minus_2_times_3 = some 1 := by
  have h7 : imm_value "7" = some 7 := imm_value_small "7" 7 (by decide) (by decide) (by decide)
  have h2 : imm_value "2" = some 2 := imm_value_small "2" 2 (by decide) (by decide) (by decide)
  have h3 : imm_value "3" = some 3 := imm_value_small "3" 3 (by decide) (by decide) (by decide)
  refine ⟨?_, ?_, ?_⟩
  · simp only [sem_expr, e_int, tok_int, Option.some_bind, h7, h2, Option.map_some', WORD_eq]
  · simp only [sem_expr, e_int, tok_int, Option.some_bind, h7, h2]
    rfl
  · simp only [sem_expr, expr_x_minus_2_times_3, e_int, e_var, tok_int, tok_ident,
      Option.some_bind, h2, h3, Option.map_some', WORD_eq, env_get, List.find?_cons,
      decide_True]

/-- C4: for every expression `e` with a value `v` in the environment (all identifiers
declared, literals decimal, divisors non-zero; `+ - *` modulo `2^64`, `/` the unsigned
quotient, operators applied as `lhs OP rhs`), `gen_expr e` succeeds from every generator
state whose variable table the machine stack agrees with, and running the emitted
instructions (given room for them below the stack pointer) pushes exactly one word: the
stack pointer ends 8 lower, the word on top is `v`, a 64-bit value, and memory at or above
the old stack pointer is unchanged.  In particular `7 - 2` has value 5 and `7 / 2` value 3. -/
theorem C4_expression_code_computes_value :
    (∀ (e : NodeExpr) (g : GeneratorWin) (m : Machine) (env : List (String × Nat)) (v : Nat),
      Agrees g m env → sem_expr env e = some v → 8 * push_depth e ≤ m.rsp →
      ∃ g' code m', g.gen_expr e = .ok g' ∧ g'.m_output = g.m_output ++ code
        ∧ Machine.exec code m = some m' ∧ m'.rsp + 8 = m.rsp ∧ m'.mem m'.rsp = v
        ∧ v < WORD ∧ ∀ a, m.rsp ≤ a → m'.mem a = m.mem a)
    ∧ sem_expr [] (.bin_expr (.sub (e_int "7") (e_int "2"))) = some 5
    ∧ sem_expr [] (.bin_expr (.div (e_int "7") (e_int "2"))) = some 3 :=
  ⟨fun e g m env v h1 h2 h3 => gen_expr_correct e g m env v h1 h2 h3,
    sem_examples.1, sem_examples.2.1⟩

theorem agrees_x7 : Agrees gen_with_x machine_x7 [("x", 7)] := by
  refine ⟨?_, ?_, ?_⟩
  · rw [WORD_eq]; decide
  · rw [WORD_eq]; decide
  · intro x v hx
    by_cases h : "x" = x
    · subst h
      have hv : 7 = v := by simpa [env_get] using hx
      subst hv
      exact ⟨Var.mk "x" 0, rfl, by decide, by rw [WORD_eq]; decide, rfl⟩
    · simp [env_get, h] at hx

/-- C4 at `x - 2 * 3` with `x = 7` stored in the only stack slot: the code pushes 1. -/
theorem C4_expression_code_computes_value_witness :
    Agrees gen_with_x machine_x7 [("x", 7)]
    ∧ sem_expr [("x", 7)] expr_x_minus_2_times_3 = some 1
    ∧ 8 * push_depth expr_x_minus_2_times_3 ≤ machine_x7.rsp
    ∧ ∃ g' code m', gen_with_x.gen_expr expr_x_minus_2_times_3 = .ok g'
        ∧ g'.m_output = gen_with_x.m_output ++ code
        ∧ Machine.exec code machine_x7 = some m' ∧ m'.rsp + 8 = machine_x7.rsp
        ∧ m'.mem m'.rsp = 1 ∧ 1 < WORD ∧ ∀ a, machine_x7.rsp ≤ a → m'.mem a = machine_x7.mem a :=
  ⟨agrees_x7, sem_examples.2.2, by decide,
    C4_expression_code_computes_value.1 expr_x_minus_2_times_3 gen_with_x machine_x7
      [("x", 7)] 1 agrees_x7 sem_examples.2.2 (by decide)⟩

/-! ## C3: the exit status of compiled programs -/

/-- The three example programs of C3 end with the status the source semantics gives. -/
theorem run_compiled_examples :
    (sem_prog prog_exit_14 = some 14 ∧ run_compiled 100 prog_exit_14 = some 14)
    ∧ (sem_prog prog_exit_8 = some 8 ∧ run_compiled 100 prog_exit_8 = some 8)
    ∧ (sem_prog prog_exit_9 = some 9 ∧ run_compiled 100 prog_exit_9 = some 9) := by
  with_unfolding_all decide

/-- C3 fails at `let x = 0; if (x) { exit(7); } else { exit(8); } exit(9);`: the condition is
zero, so the source semantics runs the `else` scope and the status is 8, but `gen_stmt` emits
nothing for the clause of an `if`, and the compiled program ends with status 9. -/
theorem C3_else_clause_not_lowered :
    sem_prog prog_if_else = some 8
    ∧ compile prog_if_else = some [.header, .mov_rax "0", .push .rax, .push (.qword_rsp 0),
        .pop .rax, .test_rax_rax, .jz "label0", .mov_rax "7", .push .rax, .pop .rcx,
        .sub_rsp_28h, .call_ExitProcess, .add_rsp 0, .label "label0", .mov_rax "9",
        .push .rax, .pop .rcx, .sub_rsp_28h, .call_ExitProcess, .sub_rsp_28h, .mov_ecx_0,
        .call_ExitProcess]
    ∧ run_compiled 100 prog_if_else = some 9 := by
  with_unfolding_all decide

/-! ## C6 and C10: a variable inside its own initialiser -/

/-- C6 fails at `let x = x;`: `Let` appends `x` with `stack_loc = m_stack_size` to `m_vars`
before it lowers the initialiser, so when the push for the term `x` is emitted the variable
`x` has `stack_loc = 0 = m_stack_size`, and `(m_stack_size - stack_loc - 1) * 8` wraps
around to `2^64 - 8`, which is the offset emitted. -/
theorem C6_self_reference_offset_wraps :
    GeneratorWin.gen_stmt (.let_ (tok_ident "x") (e_var "x")) (GeneratorWin.init.emit .header)
        = gen_in_let_self.gen_expr (e_var "x")
    ∧ (∃ v ∈ gen_in_let_self.m_vars, ¬ v.stack_loc < gen_in_let_self.m_stack_size)
    ∧ gen_in_let_self.offset (Var.mk "x" 0) = 18446744073709551608
    ∧ gen_in_let_self.gen_expr (e_var "x")
        = .ok (gen_in_let_self.push (.qword_rsp 18446744073709551608))
    ∧ compile prog_let_self = some [.header, .push (.qword_rsp 18446744073709551608),
        .sub_rsp_28h, .mov_ecx_0, .call_ExitProcess] :=
  ⟨rfl, ⟨Var.mk "x" 0, by decide, by decide⟩, rfl, rfl, rfl⟩

theorem find_var_none (g : GeneratorWin) (x : String) (h : ∀ v ∈ g.m_vars, v.name ≠ x) :
    g.find_var x = none := by
  simp only [GeneratorWin.find_var, List.find?_eq_none]
  intro v hv
  simpa using h v hv

/-- A term naming a variable that is not in `m_vars` halts the generator. -/
theorem undeclared_term_halts (g : GeneratorWin) (t : Token) (x : String)
    (ht : t.value = some x) (h : ∀ v ∈ g.m_vars, v.name ≠ x) :
    g.gen_expr (.term (.ident t))
      = .error (.exit_failure ("Undeclared identifier used '" ++ x ++ "'\n"), g) := by
  rw [gen_expr_ident, ht]
  simp only [find_var_none g x h]

/-- A `Set` statement whose target is not in `m_vars` halts the generator before anything
is emitted for its expression. -/
theorem undeclared_set_target_halts (g : GeneratorWin) (s : NodeStmtSet) (x : String)
    (ht : s.ident.value = some x) (h : ∀ v ∈ g.m_vars, v.name ≠ x) :
    g.gen_stmt_set s
      = .error (.exit_failure ("Undeclared identifier used '" ++ x ++ "'\n"), g) := by
  cases s <;> simp only [NodeStmtSet.ident] at ht <;>
    simp only [GeneratorWin.gen_stmt_set, ht, find_var_none g x h]

/-- C10 fails at `let a = 1; let x = x + a; exit(x);`: the term `x` in the initialiser of
`let x` is not preceded by any declaration of `x` (the source semantics gives the program no
meaning), yet generation does not halt with `Undeclared identifier used 'x'`: `Let` has put
`x` into `m_vars` before lowering the initialiser, the lookup succeeds, and the compiled
program runs and exits with status 2. -/
theorem C10_self_reference_accepted :
    sem_prog prog_let_self_sum = none
    ∧ compile prog_let_self_sum = some [.header, .mov_rax "1", .push .rax,
        .push (.qword_rsp 0), .push (.qword_rsp 0), .pop .rax, .pop .rbx, .add_rax_rbx,
        .push .rax, .push (.qword_rsp 0), .pop .rcx, .sub_rsp_28h, .call_ExitProcess,
        .sub_rsp_28h, .mov_ecx_0, .call_ExitProcess]
    ∧ run_compiled 100 prog_let_self_sum = some 2 := by
  with_unfolding_all decide

/-! ## C12: the clause of an `if` -/

/-- C12 fails at `if (1) { exit(7); } else { exit(8); }`: `gen_stmt` emits for an `if` the
code of the condition, `pop rax`, `test rax, rax`, `jz label0`, the code of the then-scope
and `label0:`, whatever clause the statement carries. No `jmp` and no second label is
emitted, and nothing of the `else` scope (no `mov rax, 8`) reaches the output. -/
theorem C12_if_clause_emits_nothing :
    (∀ (expr : NodeExpr) (scope : NodeScope) (pred : Option NodeIfPred) (g : GeneratorWin),
        g.gen_stmt (.if_ expr scope pred) = g.gen_stmt (.if_ expr scope none))
    ∧ compile ⟨[.if_ (e_int "1") (.mk [.exit (e_int "7")])
          (some (.else_ (.mk [.exit (e_int "8")])))]⟩
        = some [.header, .mov_rax "1", .push .rax, .pop .rax, .test_rax_rax, .jz "label0",
            .mov_rax "7", .push .rax, .pop .rcx, .sub_rsp_28h, .call_ExitProcess, .add_rsp 0,
            .label "label0", .sub_rsp_28h, .mov_ecx_0, .call_ExitProcess] := by
  refine ⟨?_, by with_unfolding_all decide⟩
  intro expr scope pred g
  simp only [GeneratorWin.gen_stmt]

/-! ## C11: `Set` statements -/

theorem gen_stmt_set_ok (s : NodeStmtSet) (g g1 : GeneratorWin) (x : String) (it : Var)
    (hx : s.ident.value = some x) (hf : g.find_var x = some it)
    (h1 : g.gen_expr s.expr = .ok g1) :
    ∃ g', g.gen_stmt_set s = .ok g'
      ∧ g'.m_output = g1.m_output
          ++ s.store_code (size_mul (size_sub (size_sub (size_sub g1.m_stack_size 1)
              it.stack_loc) 1) 8) := by
  cases s <;> simp only [NodeStmtSet.ident, NodeStmtSet.expr] at hx h1 <;>
    simp [GeneratorWin.gen_stmt_set, hx, hf, h1, GeneratorWin.pop, GeneratorWin.emit,
      GeneratorWin.offset, NodeStmtSet.store_code]

theorem exec_store_set_expr (m : Machine) (n1 n2 : Nat) :
    ∃ m', Machine.exec [.pop .rax, .add_rsp n1, .push .rax, .sub_rsp n2] m = some m'
      ∧ m'.rsp = ((((m.rsp + 8) % WORD + n1) % WORD + WORD - 8) % WORD + WORD - n2 % WORD) % WORD
      ∧ m'.mem = fun b =>
          if b = (((m.rsp + 8) % WORD + n1) % WORD + WORD - 8) % WORD then m.mem m.rsp
          else m.mem b :=
  ⟨_, rfl, rfl, rfl⟩

theorem exec_store_set_add (m : Machine) (n : Nat) :
    ∃ m', Machine.exec [.pop .rax, .add_qword_rax n] m = some m'
      ∧ m'.rsp = (m.rsp + 8) % WORD
      ∧ m'.mem = fun b =>
          if b = ((m.rsp + 8) % WORD + n) % WORD
          then (m.mem (((m.rsp + 8) % WORD + n) % WORD) + m.mem m.rsp) % WORD
          else m.mem b :=
  ⟨_, rfl, rfl, rfl⟩

theorem exec_store_set_sub (m : Machine) (n : Nat) :
    ∃ m', Machine.exec [.pop .rax, .sub_qword_rax n] m = some m'
      ∧ m'.rsp = (m.rsp + 8) % WORD
      ∧ m'.mem = fun b =>
          if b = ((m.rsp + 8) % WORD + n) % WORD
          then (m.mem (((m.rsp + 8) % WORD + n) % WORD) + WORD - m.mem m.rsp) % WORD
          else m.mem b :=
  ⟨_, rfl, rfl, rfl⟩

theorem exec_store_set_multi (m : Machine) (n : Nat) :
    ∃ m', Machine.exec [.pop .rbx, .mov_rax_qword n, .mul_rbx, .mov_qword_rax n] m = some m'
      ∧ m'.rsp = (m.rsp + 8) % WORD
      ∧ m'.mem = fun b =>
          if b = ((m.rsp + 8) % WORD + n) % WORD
          then (m.mem (((m.rsp + 8) % WORD + n) % WORD) * m.mem m.rsp) % WORD
          else m.mem b :=
  ⟨_, rfl, rfl, rfl⟩

theorem exec_store_set_div (m : Machine) (n : Nat) (h0 : m.mem m.rsp ≠ 0)
    (hq : (0 * WORD + m.mem (((m.rsp + 8) % WORD + n) % WORD)) / m.mem m.rsp < WORD) :
    ∃ m', Machine.exec
        [.pop .rbx, .mov_rax_qword n, .xor_rdx_rdx, .div_rbx, .mov_qword_rax n] m = some m'
      ∧ m'.rsp = (m.rsp + 8) % WORD
      ∧ m'.mem = fun b =>
          if b = ((m.rsp + 8) % WORD + n) % WORD
          then (0 * WORD + m.mem (((m.rsp + 8) % WORD + n) % WORD)) / m.mem m.rsp
          else m.mem b := by
  simp only [Machine.exec, Machine.step, Machine.store, Machine.addr, if_neg h0, if_pos hq]
  exact ⟨_, rfl, rfl, rfl⟩

theorem set_expr_arith (r off : Nat) (h8 : 8 ≤ r) (h : r + off + 8 ≤ WORD) :
    ((r + size_add off 8) % WORD + WORD - 8) % WORD = r + off
      ∧ (r + off + WORD - off % WORD) % WORD = r := by
  have hW := WORD_eq
  have hS := SIZE_MOD_eq_WORD
  simp only [size_add]
  rw [hS, hW]
  rw [hW] at h
  omega

theorem store_code_correct (s : NodeStmtSet) (m m1 : Machine) (off old v nv : Nat)
    (h8 : 8 ≤ m.rsp) (hslot : m.rsp + off + 8 ≤ WORD) (hrsp : m1.rsp + 8 = m.rsp)
    (hv : m1.mem m1.rsp = v) (hold : m1.mem (m.rsp + off) = old) (hlt : old < WORD)
    (hnv : set_value s old v = some nv) :
    ∃ m', Machine.exec (s.store_code off) m1 = some m' ∧ m'.rsp = m.rsp
      ∧ m'.mem (m.rsp + off) = nv ∧ ∀ a, a ≠ m.rsp + off → m'.mem a = m1.mem a := by
  have hW := WORD_pos
  have hpop : (m1.rsp + 8) % WORD = m.rsp := by
    rw [hrsp]; exact Nat.mod_eq_of_lt (by omega)
  have haddr : (m.rsp + off) % WORD = m.rsp + off := Nat.mod_eq_of_lt (by omega)
  cases s with
  | set_expr ident expr =>
    obtain ⟨m', e1, e2, e3⟩ := exec_store_set_expr m1 (size_add off 8) off
    obtain ⟨a1, a2⟩ := set_expr_arith m.rsp off h8 hslot
    rw [hpop, a1] at e2 e3
    rw [a2] at e2
    simp only [set_value, Option.some.injEq] at hnv
    refine ⟨m', e1, e2, ?_, ?_⟩
    · rw [e3]; simp only [if_true]; rw [hv, hnv]
    · intro a ha
      rw [e3]; simp only [if_neg ha]
  | set_add ident expr =>
    obtain ⟨m', e1, e2, e3⟩ := exec_store_set_add m1 off
    rw [hpop] at e2
    rw [hpop, haddr, hold, hv] at e3
    simp only [set_value, Option.some.injEq] at hnv
    refine ⟨m', e1, e2, ?_, ?_⟩
    · rw [e3]; simp only [if_true]; exact hnv
    · intro a ha
      rw [e3]; simp only [if_neg ha]
  | set_multi ident expr =>
    obtain ⟨m', e1, e2, e3⟩ := exec_store_set_multi m1 off
    rw [hpop] at e2
    rw [hpop, haddr, hold, hv] at e3
    simp only [set_value, Option.some.injEq] at hnv
    refine ⟨m', e1, e2, ?_, ?_⟩
    · rw [e3]; simp only [if_true]; exact hnv
    · intro a ha
      rw [e3]; simp only [if_neg ha]
  | set_sub ident expr =>
    obtain ⟨m', e1, e2, e3⟩ := exec_store_set_sub m1 off
    rw [hpop] at e2
    rw [hpop, haddr, hold, hv] at e3
    simp only [set_value, Option.some.injEq] at hnv
    refine ⟨m', e1, e2, ?_, ?_⟩
    · rw [e3]; simp only [if_true]; exact hnv
    · intro a ha
      rw [e3]; simp only [if_neg ha]
  | set_div ident expr =>
    simp only [set_value] at hnv
    by_cases hv0 : v = 0
    · simp [hv0] at hnv
    · rw [if_neg hv0] at hnv
      simp only [Option.some.injEq] at hnv
      have hq : (0 * WORD + m1.mem (((m1.rsp + 8) % WORD + off) % WORD)) / m1.mem m1.rsp
          = old / v := by
        rw [hpop, haddr, hold, hv, Nat.zero_mul, Nat.zero_add]
      obtain ⟨m', e1, e2, e3⟩ := exec_store_set_div m1 off (by rw [hv]; exact hv0)
        (by rw [hq]; exact lt_of_le_of_lt (Nat.div_le_self old v) hlt)
      rw [hpop] at e2
      rw [hq, hpop, haddr] at e3
      refine ⟨m', e1, e2, ?_, ?_⟩
      · rw [e3]; simp only [if_true]; exact hnv
      · intro a ha
        rw [e3]; simp only [if_neg ha]

theorem sem_set_eq (s : NodeStmtSet) (env : List (String × Nat)) (x : String)
    (old v nv : Nat) (hx : s.ident.value = some x) (hold : env_get env x = some old)
    (hv : sem_expr env s.expr = some v) (hnv : set_value s old v = some nv) :
    sem_set s env = some (.running (env_set env x nv)) := by
  cases s <;> simp only [NodeStmtSet.ident, NodeStmtSet.expr] at hx hv <;>
    simp only [set_value] at hnv
  case set_div ident expr =>
    by_cases h0 : v = 0
    · simp [h0] at hnv
    · rw [if_neg h0] at hnv
      simp only [Option.some.injEq] at hnv
      simp only [sem_set, hx, hold, hv, Option.some_bind, if_neg h0, hnv]
  all_goals
    simp only [Option.some.injEq] at hnv
    simp only [sem_set, hx, hold, hv, Option.some_bind, Option.map_some', hnv]

/-- C11: for every `Set` statement `x OP e` whose target has the value `old` and whose
expression has the value `v` in the environment, run from a machine that agrees with the
variable table (with room below the stack pointer for the words the expression pushes):
`gen_stmt_set` succeeds, and the emitted code leaves in the stack slot of `x` the word
`set_value`, which is `v` for `=` and `old OP v`, the old value as left operand, for
`+= -= *= /=` (the word the source semantics `sem_set` stores); the stack pointer is the
same after as before, every other word at or above the stack pointer (so the slot of every
other variable) is unchanged, and `m_stack_size` is unchanged. -/
theorem C11_set_statement_updates_slot (s : NodeStmtSet) (g : GeneratorWin) (m : Machine)
    (env : List (String × Nat)) (x : String) (old v nv : Nat)
    (hag : Agrees g m env) (hx : s.ident.value = some x) (hold : env_get env x = some old)
    (hv : sem_expr env s.expr = some v) (hnv : set_value s old v = some nv)
    (hroom : 8 * push_depth s.expr ≤ m.rsp) :
    sem_set s env = some (.running (env_set env x nv))
    ∧ ∃ it g' code m', g.find_var x = some it ∧ g.gen_stmt_set s = .ok g'
        ∧ g'.m_output = g.m_output ++ code ∧ Machine.exec code m = some m'
        ∧ m'.rsp = m.rsp
        ∧ m'.mem (m.rsp + 8 * (g.m_stack_size - it.stack_loc - 1)) = nv
        ∧ (∀ a, m.rsp ≤ a → a ≠ m.rsp + 8 * (g.m_stack_size - it.stack_loc - 1) →
            m'.mem a = m.mem a)
        ∧ g'.m_stack_size = g.m_stack_size := by
  refine ⟨sem_set_eq s env x old v nv hx hold hv hnv, ?_⟩
  obtain ⟨g1, code1, m1, r1, r2, r3, r4, r5, r6, r7⟩ :=
    gen_expr_correct s.expr g m env v hag hv hroom
  obtain ⟨e1, _, _, _⟩ := gen_expr_effect s.expr g g1 r1
  obtain ⟨h1, h2, h3⟩ := hag
  obtain ⟨it, a1, a2, a3, a4⟩ := h3 x old hold
  obtain ⟨g', s1, s2⟩ := gen_stmt_set_ok s g g1 x it hx a1 r1
  have hoff : size_mul (size_sub (size_sub (size_sub g1.m_stack_size 1) it.stack_loc) 1) 8
      = 8 * (g.m_stack_size - it.stack_loc - 1) := by
    have h := offset_eq g it a2 (by omega)
    simp only [GeneratorWin.offset] at h
    rw [e1, size_sub_of_le (g.m_stack_size + 1) 1 (by omega), Nat.add_sub_cancel]
    exact h
  rw [hoff] at s2
  obtain ⟨m', t1, t2, t3, t4⟩ := store_code_correct s m m1
    (8 * (g.m_stack_size - it.stack_loc - 1)) old v nv (by omega) (by omega) r4 r5
    (by rw [r7 _ (by omega)]; exact a4) a3 hnv
  refine ⟨it, g', code1 ++ s.store_code (8 * (g.m_stack_size - it.stack_loc - 1)), m',
    a1, s1, ?_, ?_, t2, t3, ?_, (gen_stmt_set_effect s g g' s1).1⟩
  · rw [s2, r2, List.append_assoc]
  · rw [exec_append, r3]
    exact t1
  · intro a ha hne
    rw [t4 a hne, r7 a ha]

/-- C11 at `x += 3` with `x = 7` stored in the only stack slot, at address 1000: the code
leaves 10 there. -/
theorem C11_set_statement_updates_slot_witness :
    Agrees gen_with_x machine_x7 [("x", 7)]
    ∧ env_get [("x", 7)] "x" = some 7
    ∧ sem_expr [("x", 7)] set_x_plus_3.expr = some 3
    ∧ set_value set_x_plus_3 7 3 = some 10
    ∧ sem_set set_x_plus_3 [("x", 7)] = some (.running (env_set [("x", 7)] "x" 10))
    ∧ ∃ it g' code m', gen_with_x.find_var "x" = some it
        ∧ gen_with_x.gen_stmt_set set_x_plus_3 = .ok g'
        ∧ g'.m_output = gen_with_x.m_output ++ code
        ∧ Machine.exec code machine_x7 = some m'
        ∧ m'.rsp = machine_x7.rsp
        ∧ m'.mem (machine_x7.rsp + 8 * (gen_with_x.m_stack_size - it.stack_loc - 1)) = 10
        ∧ (∀ a, machine_x7.rsp ≤ a →
            a ≠ machine_x7.rsp + 8 * (gen_with_x.m_stack_size - it.stack_loc - 1) →
            m'.mem a = machine_x7.mem a)
        ∧ g'.m_stack_size = gen_with_x.m_stack_size := by
  have h3 : imm_value "3" = some 3 :=
    imm_value_small "3" 3 (by decide) (by decide) (by decide)
  have hv : sem_expr [("x", 7)] set_x_plus_3.expr = some 3 := by
    simp only [set_x_plus_3, NodeStmtSet.expr, sem_expr, e_int, tok_int, Option.some_bind, h3]
  have hnv : set_value set_x_plus_3 7 3 = some 10 := by
    simp only [set_x_plus_3, set_value, WORD_eq]
  exact ⟨agrees_x7, by decide, hv, hnv,
    C11_set_statement_updates_slot set_x_plus_3 gen_with_x machine_x7 [("x", 7)] "x" 7 3 10
      agrees_x7 rfl (by decide) hv hnv (by decide)⟩

/-! ## The tokenizer: its loops -/

theorem ident_loop_eq : ∀ (rest buf : List Char) (col : Int),
    ident_loop rest buf col
      = (buf ++ rest.takeWhile isalnum, col + (rest.takeWhile isalnum).length,
          rest.dropWhile isalnum)
  | [], buf, col => by simp [ident_loop]
  | c :: rest, buf, col => by
    by_cases h : isalnum c = true
    · simp only [ident_loop, if_pos h, ident_loop_eq rest, List.takeWhile_cons_of_pos h,
        List.dropWhile_cons_of_pos h, List.append_assoc, List.singleton_append,
        List.length_cons, Nat.cast_add, Nat.cast_one]
      congr 2
      omega
    · simp [ident_loop, h]

theorem digit_loop_eq : ∀ (rest buf : List Char),
    digit_loop rest buf = (buf ++ rest.takeWhile isdigit, rest.dropWhile isdigit)
  | [], buf => by simp [digit_loop]
  | c :: rest, buf => by
    by_cases h : isdigit c = true
    · simp only [digit_loop, if_pos h, digit_loop_eq rest, List.takeWhile_cons_of_pos h,
        List.dropWhile_cons_of_pos h, List.append_assoc, List.singleton_append]
    · simp [digit_loop, h]

theorem dropWhile_length_le (p : Char → Bool) : ∀ l : List Char,
    (l.dropWhile p).length ≤ l.length
  | [] => by simp
  | c :: l => by
    by_cases h : p c = true
    · rw [List.dropWhile_cons_of_pos h]
      have := dropWhile_length_le p l
      simp only [List.length_cons]
      omega
    · rw [List.dropWhile_cons_of_neg h]

theorem line_comment_loop_length : ∀ l : List Char,
    (line_comment_loop l).length ≤ l.length
  | [] => by simp [line_comment_loop]
  | c :: l => by
    by_cases h : c = '\n'
    · simp [line_comment_loop, h]
    · simp only [line_comment_loop, ne_eq, h, not_false_eq_true, if_true, List.length_cons]
      have := line_comment_loop_length l
      omega

theorem block_comment_loop_length : ∀ l : List Char,
    (block_comment_loop l).length ≤ l.length
  | [] => by simp [block_comment_loop]
  | c :: l => by
    by_cases h : c = '*' ∧ l.head? = some '/'
    · simp only [block_comment_loop, if_pos h, le_refl]
    · simp only [block_comment_loop, if_neg h, List.length_cons]
      have := block_comment_loop_length l
      omega

theorem tail_length_le (l : List Char) : l.tail.length ≤ l.length := by
  cases l <;> simp

theorem step_cons (t : Tokenizer) (c : Char) (rest : List Char) (hr : t.rest = c :: rest) :
    t.step =
    if isalpha c then
      .ok ((({ t with rest := (ident_loop rest [c] t.col_count).2.2,
                      col_count := (ident_loop rest [c] t.col_count).2.1 } : Tokenizer).push_back
        (word_token (String.mk (ident_loop rest [c] t.col_count).1)).1
        (word_token (String.mk (ident_loop rest [c] t.col_count).1)).2).next_col)
    else if isdigit c then
      .ok (((t.consumed (digit_loop rest [c]).2).push_back .int_lit
        (some (String.mk (digit_loop rest [c]).1))).next_col)
    else if c = '/' ∧ rest.head? = some '/' then
      .ok ((t.consumed (line_comment_loop rest.tail)).next_col)
    else if c = '/' ∧ rest.head? = some '*' then
      .ok ((t.consumed (block_comment_loop rest.tail).tail.tail).next_col)
    else if c = '(' then .ok (((t.consumed rest).push_back .open_paren none).next_col)
    else if c = ')' then .ok (((t.consumed rest).push_back .close_paren none).next_col)
    else if c = ';' then .ok (((t.consumed rest).push_back .semi none).next_col)
    else if c = '=' then .ok (((t.consumed rest).push_back .eq none).next_col)
    else if c = '+' then
      if rest.head? = some '=' then .ok ((t.consumed rest.tail).push_back .pluseq none)
      else .ok (((t.consumed rest).push_back .plus none).next_col)
    else if c = '*' then
      if rest.head? = some '=' then .ok ((t.consumed rest.tail).push_back .stareq none)
      else .ok (((t.consumed rest).push_back .star none).next_col)
    else if c = '-' then
      if rest.head? = some '=' then .ok ((t.consumed rest.tail).push_back .minuseq none)
      else .ok (((t.consumed rest).push_back .minus none).next_col)
    else if c = '/' then
      if rest.head? = some '=' then .ok ((t.consumed rest.tail).push_back .fslasheq none)
      else .ok (((t.consumed rest).push_back .fslash none).next_col)
    else if c = '\x7b' then .ok (((t.consumed rest).push_back .open_curly none).next_col)
    else if c = '\x7d' then .ok (((t.consumed rest).push_back .close_curly none).next_col)
    else if c = '\n' then
      .ok (({ t with rest := rest, line_count := t.line_count + 1, col_count := 0 } :
        Tokenizer).next_col)
    else if isspace c then .ok ((t.consumed rest).next_col)
    else .error (.lex_error t.m_srcName t.line_count t.col_count c) := by
  unfold Tokenizer.step
  rw [hr]

/-- The cases of the body of the outer loop, by the first character `c` of the text and the
characters `rest` after it: an identifier or keyword, an integer literal, a line comment, a
block comment, a single-character token, a compound operator, a newline, other whitespace,
an unexpected character. -/
theorem step_cases (c : Char) (rest : List Char) :
    (isalpha c = true ∧ ∀ t : Tokenizer, t.rest = c :: rest →
        t.step = .ok ((({ t with
            rest := rest.dropWhile isalnum,
            col_count := t.col_count + (rest.takeWhile isalnum).length } : Tokenizer).push_back
          (word_token (String.mk (c :: rest.takeWhile isalnum))).1
          (word_token (String.mk (c :: rest.takeWhile isalnum))).2).next_col))
    ∨ (isdigit c = true ∧ ∀ t : Tokenizer, t.rest = c :: rest →
        t.step = .ok (((t.consumed (rest.dropWhile isdigit)).push_back .int_lit
          (some (String.mk (c :: rest.takeWhile isdigit)))).next_col))
    ∨ (c = '/' ∧ rest.head? = some '/' ∧ ∀ t : Tokenizer, t.rest = c :: rest →
        t.step = .ok ((t.consumed (line_comment_loop rest.tail)).next_col))
    ∨ (c = '/' ∧ rest.head? = some '*' ∧ ∀ t : Tokenizer, t.rest = c :: rest →
        t.step = .ok ((t.consumed (block_comment_loop rest.tail).tail.tail).next_col))
    ∨ (∃ type : TokenType, lexable c = true ∧ type ≠ .ident ∧ type ≠ .int_lit
        ∧ (c = '/' → rest.head? ≠ some '/' ∧ rest.head? ≠ some '*')
        ∧ ∀ t : Tokenizer, t.rest = c :: rest →
          t.step = .ok (((t.consumed rest).push_back type none).next_col))
    ∨ ((c = '+' ∨ c = '*' ∨ c = '-' ∨ c = '/') ∧ rest.head? = some '='
        ∧ ∀ t : Tokenizer, t.rest = c :: rest →
          t.step = .ok ((t.consumed rest.tail).push_back (compound_type c) none))
    ∨ (c = '\n' ∧ ∀ t : Tokenizer, t.rest = c :: rest →
        t.step = .ok (({ t with rest := rest, line_count := t.line_count + 1, col_count := 0 } :
          Tokenizer).next_col))
    ∨ (isspace c = true ∧ c ≠ '/' ∧ ∀ t : Tokenizer, t.rest = c :: rest →
        t.step = .ok ((t.consumed rest).next_col))
    ∨ (lexable c = false ∧ ∀ t : Tokenizer, t.rest = c :: rest →
        t.step = .error (.lex_error t.m_srcName t.line_count t.col_count c)) := by
  by_cases h1 : isalpha c = true
  · refine Or.inl ?_
    refine ⟨h1, ?_⟩
    intro t hr
    rw [step_cons t c rest hr, if_pos h1]
    simp only [ident_loop_eq, List.singleton_append]
  by_cases h2 : isdigit c = true
  · refine Or.inr (Or.inl ?_)
    refine ⟨h2, ?_⟩
    intro t hr
    rw [step_cons t c rest hr, if_neg h1, if_pos h2]
    simp only [digit_loop_eq, List.singleton_append]
  by_cases h3 : c = '/' ∧ rest.head? = some '/'
  · refine Or.inr (Or.inr (Or.inl ?_))
    refine ⟨h3.1, h3.2, ?_⟩
    intro t hr
    rw [step_cons t c rest hr, if_neg h1, if_neg h2, if_pos h3]
  by_cases h4 : c = '/' ∧ rest.head? = some '*'
  · refine Or.inr (Or.inr (Or.inr (Or.inl ?_)))
    refine ⟨h4.1, h4.2, ?_⟩
    intro t hr
    rw [step_cons t c rest hr, if_neg h1, if_neg h2, if_neg h3, if_pos h4]
  by_cases h5 : c = '('
  · have hne : ¬ c = '/' := by rw [h5]; decide
    refine Or.inr (Or.inr (Or.inr (Or.inr (Or.inl ?_))))
    refine ⟨.open_paren, by rw [h5]; decide, by decide, by decide,
      fun hc => absurd hc hne, ?_⟩
    intro t hr
    rw [step_cons t c rest hr, if_neg h1, if_neg h2, if_neg h3, if_neg h4, if_pos h5]
  by_cases h6 : c = ')'
  · have hne : ¬ c = '/' := by rw [h6]; decide
    refine Or.inr (Or.inr (Or.inr (Or.inr (Or.inl ?_))))
    refine ⟨.close_paren, by rw [h6]; decide, by decide, by decide,
      fun hc => absurd hc hne, ?_⟩
    intro t hr
    rw [step_cons t c rest hr, if_neg h1, if_neg h2, if_neg h3, if_neg h4, if_neg h5,
        if_pos h6]
  by_cases h7 : c = ';'
  · have hne : ¬ c = '/' := by rw [h7]; decide
    refine Or.inr (Or.inr (Or.inr (Or.inr (Or.inl ?_))))
    refine ⟨.semi, by rw [h7]; decide, by decide, by decide,
      fun hc => absurd hc hne, ?_⟩
    intro t hr
    rw [step_cons t c rest hr, if_neg h1, if_neg h2, if_neg h3, if_neg h4, if_neg h5,
        if_neg h6, if_pos h7]
  by_cases h8 : c = '='
  · have hne : ¬ c = '/' := by rw [h8]; decide
    refine Or.inr (Or.inr (Or.inr (Or.inr (Or.inl ?_))))
    refine ⟨.eq, by rw [h8]; decide, by decide, by decide,
      fun hc => absurd hc hne, ?_⟩
    intro t hr
    rw [step_cons t c rest hr, if_neg h1, if_neg h2, if_neg h3, if_neg h4, if_neg h5,
        if_neg h6, if_neg h7, if_pos h8]
  by_cases h9 : c = '+'
  · by_cases he : rest.head? = some '='
    · refine Or.inr (Or.inr (Or.inr (Or.inr (Or.inr (Or.inl ?_)))))
      refine ⟨Or.inl h9, he, ?_⟩
      intro t hr
      rw [step_cons t c rest hr, if_neg h1, if_neg h2, if_neg h3, if_neg h4, if_neg h5,
        if_neg h6, if_neg h7, if_neg h8, if_pos h9, if_pos he]
      have hc : compound_type c = .pluseq := by rw [h9]; decide
      rw [hc]
    · refine Or.inr (Or.inr (Or.inr (Or.inr (Or.inl ?_))))
      have hne : ¬ c = '/' := by rw [h9]; decide
      refine ⟨.plus, by rw [h9]; decide, by decide, by decide,
        fun hc => absurd hc hne, ?_⟩
      intro t hr
      rw [step_cons t c rest hr, if_neg h1, if_neg h2, if_neg h3, if_neg h4, if_neg h5,
        if_neg h6, if_neg h7, if_neg h8, if_pos h9, if_neg he]
  by_cases h10 : c = '*'
  · by_cases he : rest.head? = some '='
    · refine Or.inr (Or.inr (Or.inr (Or.inr (Or.inr (Or.inl ?_)))))
      refine ⟨Or.inr (Or.inl h10), he, ?_⟩
      intro t hr
      rw [step_cons t c rest hr, if_neg h1, if_neg h2, if_neg h3, if_neg h4, if_neg h5,
        if_neg h6, if_neg h7, if_neg h8, if_neg h9, if_pos h10, if_pos he]
      have hc : compound_type c = .stareq := by rw [h10]; decide
      rw [hc]
    · refine Or.inr (Or.inr (Or.inr (Or.inr (Or.inl ?_))))
      have hne : ¬ c = '/' := by rw [h10]; decide
      refine ⟨.star, by rw [h10]; decide, by decide, by decide,
        fun hc => absurd hc hne, ?_⟩
      intro t hr
      rw [step_cons t c rest hr, if_neg h1, if_neg h2, if_neg h3, if_neg h4, if_neg h5,
        if_neg h6, if_neg h7, if_neg h8, if_neg h9, if_pos h10, if_neg he]
  by_cases h11 : c = '-'
  · by_cases he : rest.head? = some '='
    · refine Or.inr (Or.inr (Or.inr (Or.inr (Or.inr (Or.inl ?_)))))
      refine ⟨Or.inr (Or.inr (Or.inl h11)), he, ?_⟩
      intro t hr
      rw [step_cons t c rest hr, if_neg h1, if_neg h2, if_neg h3, if_neg h4, if_neg h5,
        if_neg h6, if_neg h7, if_neg h8, if_neg h9, if_neg h10, if_pos h11, if_pos he]
      have hc : compound_type c = .minuseq := by rw [h11]; decide
      rw [hc]
    · refine Or.inr (Or.inr (Or.inr (Or.inr (Or.inl ?_))))
      have hne : ¬ c = '/' := by rw [h11]; decide
      refine ⟨.minus, by rw [h11]; decide, by decide, by decide,
        fun hc => absurd hc hne, ?_⟩
      intro t hr
      rw [step_cons t c rest hr, if_neg h1, if_neg h2, if_neg h3, if_neg h4, if_neg h5,
        if_neg h6, if_neg h7, if_neg h8, if_neg h9, if_neg h10, if_pos h11, if_neg he]
  by_cases h12 : c = '/'
  · by_cases he : rest.head? = some '='
    · refine Or.inr (Or.inr (Or.inr (Or.inr (Or.inr (Or.inl ?_)))))
      refine ⟨Or.inr (Or.inr (Or.inr h12)), he, ?_⟩
      intro t hr
      rw [step_cons t c rest hr, if_neg h1, if_neg h2, if_neg h3, if_neg h4, if_neg h5,
        if_neg h6, if_neg h7, if_neg h8, if_neg h9, if_neg h10, if_neg h11,
        if_pos h12, if_pos he]
      have hc : compound_type c = .fslasheq := by rw [h12]; decide
      rw [hc]
    · refine Or.inr (Or.inr (Or.inr (Or.inr (Or.inl ?_))))
      refine ⟨.fslash, by rw [h12]; decide, by decide, by decide, ?_, ?_⟩
      · intro hc
        exact ⟨fun x => h3 ⟨hc, x⟩, fun x => h4 ⟨hc, x⟩⟩
      · intro t hr
        rw [step_cons t c rest hr, if_neg h1, if_neg h2, if_neg h3, if_neg h4, if_neg h5,
        if_neg h6, if_neg h7, if_neg h8, if_neg h9, if_neg h10, if_neg h11,
        if_pos h12, if_neg he]
  by_cases h13 : c = '\x7b'
  · have hne : ¬ c = '/' := by rw [h13]; decide
    refine Or.inr (Or.inr (Or.inr (Or.inr (Or.inl ?_))))
    refine ⟨.open_curly, by rw [h13]; decide, by decide, by decide,
      fun hc => absurd hc hne, ?_⟩
    intro t hr
    rw [step_cons t c rest hr, if_neg h1, if_neg h2, if_neg h3, if_neg h4, if_neg h5,
        if_neg h6, if_neg h7, if_neg h8, if_neg h9, if_neg h10, if_neg h11,
        if_neg h12, if_pos h13]
  by_cases h14 : c = '\x7d'
  · have hne : ¬ c = '/' := by rw [h14]; decide
    refine Or.inr (Or.inr (Or.inr (Or.inr (Or.inl ?_))))
    refine ⟨.close_curly, by rw [h14]; decide, by decide, by decide,
      fun hc => absurd hc hne, ?_⟩
    intro t hr
    rw [step_cons t c rest hr, if_neg h1, if_neg h2, if_neg h3, if_neg h4, if_neg h5,
        if_neg h6, if_neg h7, if_neg h8, if_neg h9, if_neg h10, if_neg h11,
        if_neg h12, if_neg h13, if_pos h14]
  by_cases h15 : c = '\n'
  · refine Or.inr (Or.inr (Or.inr (Or.inr (Or.inr (Or.inr (Or.inl ?_))))))
    refine ⟨h15, ?_⟩
    intro t hr
    rw [step_cons t c rest hr, if_neg h1, if_neg h2, if_neg h3, if_neg h4, if_neg h5,
        if_neg h6, if_neg h7, if_neg h8, if_neg h9, if_neg h10, if_neg h11,
        if_neg h12, if_neg h13, if_neg h14, if_pos h15]
  by_cases h16 : isspace c = true
  · refine Or.inr (Or.inr (Or.inr (Or.inr (Or.inr (Or.inr (Or.inr (Or.inl ?_)))))))
    refine ⟨h16, h12, ?_⟩
    intro t hr
    rw [step_cons t c rest hr, if_neg h1, if_neg h2, if_neg h3, if_neg h4, if_neg h5,
        if_neg h6, if_neg h7, if_neg h8, if_neg h9, if_neg h10, if_neg h11,
        if_neg h12, if_neg h13, if_neg h14, if_neg h15, if_pos h16]
  refine Or.inr (Or.inr (Or.inr (Or.inr (Or.inr (Or.inr (Or.inr (Or.inr (?_))))))))
  refine ⟨?_, ?_⟩
  · simp [lexable, h1, h2, h5, h6, h7, h8, h9, h10, h11, h12, h13, h14, h16]
  · intro t hr
    rw [step_cons t c rest hr, if_neg h1, if_neg h2, if_neg h3, if_neg h4, if_neg h5,
        if_neg h6, if_neg h7, if_neg h8, if_neg h9, if_neg h10, if_neg h11,
        if_neg h12, if_neg h13, if_neg h14, if_neg h15, if_neg h16]

theorem step_compound (t : Tokenizer) (c : Char) (r : List Char)
    (hc : c = '+' ∨ c = '-' ∨ c = '*' ∨ c = '/') (hr : t.rest = c :: '=' :: r) :
    t.step = .ok ((t.consumed r).push_back (compound_type c) none) := by
  rw [step_cons t c ('=' :: r) hr]
  rcases hc with h | h | h | h <;> subst h <;> rfl

/-! ## The tokenizer: kinds and payloads do not depend on positions -/

/-- Two tokenizers at the same text do the same in one iteration, up to the positions they
record: both halt, or both go on from the same text having pushed tokens of the same kinds
and payloads. -/
theorem step_rel (t u : Tokenizer) (c : Char) (rest : List Char)
    (ht : t.rest = c :: rest) (hu : u.rest = c :: rest) :
    (∃ t' u' new_t new_u, t.step = .ok t' ∧ u.step = .ok u' ∧ t'.rest = u'.rest
        ∧ t'.rest.length ≤ rest.length ∧ t'.tokens = t.tokens ++ new_t
        ∧ u'.tokens = u.tokens ++ new_u ∧ new_t.map Token.kind = new_u.map Token.kind)
    ∨ (∃ h1 h2, t.step = .error h1 ∧ u.step = .error h2) := by
  have l1 := dropWhile_length_le isalnum rest
  have l2 := dropWhile_length_le isdigit rest
  have l3 := line_comment_loop_length rest.tail
  have l4 := block_comment_loop_length rest.tail
  have l5 := tail_length_le rest
  have l6 := tail_length_le (block_comment_loop rest.tail)
  have l7 := tail_length_le (block_comment_loop rest.tail).tail
  rcases step_cases c rest with ⟨_, h⟩ | ⟨_, h⟩ | ⟨_, _, h⟩ | ⟨_, _, h⟩ | ⟨ty, _, _, _, _, h⟩
    | ⟨_, _, h⟩ | ⟨_, h⟩ | ⟨_, _, h⟩ | ⟨_, h⟩
  · exact Or.inl ⟨_, _, [_], [_], h t ht, h u hu, rfl, l1, rfl, rfl, rfl⟩
  · exact Or.inl ⟨_, _, [_], [_], h t ht, h u hu, rfl, l2, rfl, rfl, rfl⟩
  · exact Or.inl ⟨_, _, [], [], h t ht, h u hu, rfl, by
      simp only [Tokenizer.next_col, Tokenizer.consumed]; omega, by
      simp [Tokenizer.next_col, Tokenizer.consumed], by
      simp [Tokenizer.next_col, Tokenizer.consumed], rfl⟩
  · exact Or.inl ⟨_, _, [], [], h t ht, h u hu, rfl, by
      simp only [Tokenizer.next_col, Tokenizer.consumed]; omega, by
      simp [Tokenizer.next_col, Tokenizer.consumed], by
      simp [Tokenizer.next_col, Tokenizer.consumed], rfl⟩
  · exact Or.inl ⟨_, _, [_], [_], h t ht, h u hu, rfl, le_refl _, rfl, rfl, rfl⟩
  · exact Or.inl ⟨_, _, [_], [_], h t ht, h u hu, rfl, l5, rfl, rfl, rfl⟩
  · exact Or.inl ⟨_, _, [], [], h t ht, h u hu, rfl, le_refl _, by
      simp [Tokenizer.next_col], by simp [Tokenizer.next_col], rfl⟩
  · exact Or.inl ⟨_, _, [], [], h t ht, h u hu, rfl, le_refl _, by
      simp [Tokenizer.next_col, Tokenizer.consumed], by
      simp [Tokenizer.next_col, Tokenizer.consumed], rfl⟩
  · exact Or.inr ⟨_, _, h t ht, h u hu⟩

theorem loop_succ (fuel : Nat) (t : Tokenizer) (c : Char) (rest : List Char)
    (hr : t.rest = c :: rest) :
    Tokenizer.loop (fuel + 1) t =
      match t.step with
      | .error h => .error h
      | .ok t => Tokenizer.loop fuel t := by
  rw [Tokenizer.loop]
  split
  · rename_i h; rw [hr] at h; exact absurd h (by simp)
  · rfl

theorem loop_nil (fuel : Nat) (t : Tokenizer) (hr : t.rest = []) :
    Tokenizer.loop (fuel + 1) t = .ok t.tokens := by
  rw [Tokenizer.loop]
  split
  · rfl
  · rename_i h; rw [hr] at h; exact absurd h (by simp)

/-- Two runs of the outer loop from the same text, each with enough fuel, both halt, or
return what they started with followed by tokens of the same kinds and payloads. -/
theorem loop_rel : ∀ (n : Nat) (t u : Tokenizer) (f1 f2 : Nat),
    t.rest = u.rest → t.rest.length ≤ n → n < f1 → n < f2 →
    (∃ l1 l2, Tokenizer.loop f1 t = .ok (t.tokens ++ l1)
        ∧ Tokenizer.loop f2 u = .ok (u.tokens ++ l2)
        ∧ l1.map Token.kind = l2.map Token.kind)
    ∨ (∃ h1 h2, Tokenizer.loop f1 t = .error h1 ∧ Tokenizer.loop f2 u = .error h2) := by
  intro n
  induction n with
  | zero =>
    intro t u f1 f2 hr hn h1 h2
    obtain ⟨f1, rfl⟩ : ∃ k, f1 = k + 1 := ⟨f1 - 1, by omega⟩
    obtain ⟨f2, rfl⟩ : ∃ k, f2 = k + 1 := ⟨f2 - 1, by omega⟩
    have ht : t.rest = [] := List.length_eq_zero.mp (by omega)
    have hu : u.rest = [] := by rw [← hr]; exact ht
    exact Or.inl ⟨[], [], by rw [loop_nil f1 t ht, List.append_nil],
      by rw [loop_nil f2 u hu, List.append_nil], rfl⟩
  | succ n ih =>
    intro t u f1 f2 hr hn h1 h2
    obtain ⟨f1, rfl⟩ : ∃ k, f1 = k + 1 := ⟨f1 - 1, by omega⟩
    obtain ⟨f2, rfl⟩ : ∃ k, f2 = k + 1 := ⟨f2 - 1, by omega⟩
    cases ht : t.rest with
    | nil =>
      have hu : u.rest = [] := by rw [← hr]; exact ht
      exact Or.inl ⟨[], [], by rw [loop_nil f1 t ht, List.append_nil],
        by rw [loop_nil f2 u hu, List.append_nil], rfl⟩
    | cons c rest =>
      have hu : u.rest = c :: rest := by rw [← hr]; exact ht
      rw [ht] at hn
      simp only [List.length_cons] at hn
      rw [loop_succ f1 t c rest ht, loop_succ f2 u c rest hu]
      rcases step_rel t u c rest ht hu with
        ⟨t', u', new_t, new_u, s1, s2, s3, s4, s5, s6, s7⟩ | ⟨e1, e2, s1, s2⟩
      · rw [s1, s2]
        simp only
        rcases ih t' u' f1 f2 s3 (by omega) (by omega) (by omega) with
          ⟨l1, l2, r1, r2, r3⟩ | ⟨e1, e2, r1, r2⟩
        · refine Or.inl ⟨new_t ++ l1, new_u ++ l2, ?_, ?_, ?_⟩
          · rw [r1, s5, List.append_assoc]
          · rw [r2, s6, List.append_assoc]
          · rw [List.map_append, List.map_append, s7, r3]
        · exact Or.inr ⟨e1, e2, r1, r2⟩
      · rw [s1, s2]
        exact Or.inr ⟨e1, e2, rfl, rfl⟩

/-! ## C15: compound operators -/

/-- C15: for each operator character `c` of `+ - * /` and every text `rest`, tokenizing
`c ++ "=" ++ rest` gives the compound token of `c` (`pluseq`, `minuseq`, `stareq`,
`fslasheq`) followed by the kinds and payloads of the tokens of `rest`, and halts exactly
when tokenizing `rest` halts (`lex_kinds` is `none`); the pair is not split into the
operator and `eq`. -/
theorem C15_compound_operator_first (c : Char) (rest srcName : String)
    (hc : c = '+' ∨ c = '-' ∨ c = '*' ∨ c = '/') :
    lex_kinds (tokenize (String.singleton c ++ "=" ++ rest) srcName)
      = (lex_kinds (tokenize rest srcName)).map (fun ks => (compound_type c, none) :: ks) := by
  have hl : (String.singleton c ++ "=" ++ rest).toList = c :: '=' :: rest.toList := by
    simp [String.toList, String.singleton]
  have hn : (String.singleton c ++ "=" ++ rest).length = rest.length + 2 := by
    show (String.singleton c ++ "=" ++ rest).toList.length = rest.toList.length + 2
    rw [hl]
    rfl
  have hr : (Tokenizer.init (String.singleton c ++ "=" ++ rest) srcName).rest
      = c :: '=' :: rest.toList := hl
  simp only [tokenize]
  rw [hn, loop_succ _ _ c ('=' :: rest.toList) hr, step_compound _ c rest.toList hc hr]
  simp only
  rcases loop_rel rest.length
      (((Tokenizer.init (String.singleton c ++ "=" ++ rest) srcName).consumed
        rest.toList).push_back (compound_type c) none)
      (Tokenizer.init rest srcName) (rest.length + 2) (rest.length + 1) rfl (le_refl _)
      (by omega) (by omega) with ⟨l1, l2, r1, r2, r3⟩ | ⟨e1, e2, r1, r2⟩
  · rw [r1, r2]
    simp [lex_kinds, Tokenizer.push_back, Tokenizer.consumed, Tokenizer.init, Token.kind, r3]
  · rw [r1, r2]
    rfl

/-- C15 at `+=1`: the tokens are `pluseq` and the literal. -/
theorem C15_compound_operator_first_witness :
    ('+' = '+' ∨ '+' = '-' ∨ '+' = '*' ∨ '+' = '/')
    ∧ lex_kinds (tokenize "1" "m.l") = some [(.int_lit, some "1")]
    ∧ lex_kinds (tokenize (String.singleton '+' ++ "=" ++ "1") "m.l")
        = (lex_kinds (tokenize "1" "m.l")).map (fun ks => (compound_type '+', none) :: ks) :=
  ⟨Or.inl rfl, rfl, C15_compound_operator_first '+' "1" "m.l" (Or.inl rfl)⟩

/-! ## The tokenizer: payloads -/

theorem word_token_cases (s : String) :
    ((word_token s).2 = none ∧ (word_token s).1 ≠ .ident ∧ (word_token s).1 ≠ .int_lit)
    ∨ (word_token s = (.ident, some s) ∧ s ∉ ["exit", "let", "if", "else"]) := by
  unfold word_token
  by_cases h1 : s = "exit"
  · rw [if_pos h1]; exact Or.inl ⟨rfl, by decide, by decide⟩
  by_cases h2 : s = "let"
  · rw [if_neg h1, if_pos h2]; exact Or.inl ⟨rfl, by decide, by decide⟩
  by_cases h3 : s = "if"
  · rw [if_neg h1, if_neg h2, if_pos h3]; exact Or.inl ⟨rfl, by decide, by decide⟩
  by_cases h4 : s = "else"
  · rw [if_neg h1, if_neg h2, if_neg h3, if_pos h4]; exact Or.inl ⟨rfl, by decide, by decide⟩
  rw [if_neg h1, if_neg h2, if_neg h3, if_neg h4]
  refine Or.inr ⟨rfl, ?_⟩
  simp [h1, h2, h3, h4]

theorem well_formed_other (type : TokenType) (line col : Int) (h1 : type ≠ .ident)
    (h2 : type ≠ .int_lit) : (Token.mk type line col none).well_formed := by
  cases type <;> simp_all [Token.well_formed]

theorem well_formed_word (c : Char) (cs : List Char) (line col : Int) (hc : isalpha c = true)
    (hcs : ∀ d ∈ cs, isalnum d = true) :
    (Token.mk (word_token (String.mk (c :: cs))).1 line col
      (word_token (String.mk (c :: cs))).2).well_formed := by
  rcases word_token_cases (String.mk (c :: cs)) with ⟨h1, h2, h3⟩ | ⟨h1, h2⟩
  · rw [h1]; exact well_formed_other _ line col h2 h3
  · rw [h1]
    exact ⟨c, cs, rfl, hc, hcs, h2⟩

theorem well_formed_int (c : Char) (cs : List Char) (line col : Int) (hc : isdigit c = true)
    (hcs : ∀ d ∈ cs, isdigit d = true) :
    (Token.mk .int_lit line col (some (String.mk (c :: cs)))).well_formed :=
  ⟨c, cs, rfl, hc, hcs⟩

/-- An iteration of the outer loop pushes nothing, or one token with a well formed
payload. -/
theorem step_tokens (t t' : Tokenizer) (h : t.step = .ok t') :
    t'.tokens = t.tokens ∨ ∃ tok, t'.tokens = t.tokens ++ [tok] ∧ tok.well_formed := by
  cases hr : t.rest with
  | nil =>
    unfold Tokenizer.step at h
    rw [hr] at h
    simp only [Except.ok.injEq] at h
    subst h
    exact Or.inl rfl
  | cons c rest =>
    rcases step_cases c rest with ⟨a, s⟩ | ⟨a, s⟩ | ⟨_, _, s⟩ | ⟨_, _, s⟩ | ⟨ty, _, a, b, _, s⟩
      | ⟨a, _, s⟩ | ⟨_, s⟩ | ⟨_, _, s⟩ | ⟨_, s⟩
    all_goals
      rw [s t hr] at h
      first
        | (injection h with h; subst h)
        | (exact absurd h (by simp))
    · exact Or.inr ⟨_, rfl, well_formed_word c _ _ _ a
        (fun d hd => (List.mem_takeWhile_imp hd))⟩
    · exact Or.inr ⟨_, rfl, well_formed_int c _ _ _ a
        (fun d hd => (List.mem_takeWhile_imp hd))⟩
    · exact Or.inl rfl
    · exact Or.inl rfl
    · exact Or.inr ⟨_, rfl, well_formed_other ty _ _ a b⟩
    · refine Or.inr ⟨_, rfl, well_formed_other _ _ _ ?_ ?_⟩ <;>
        rcases a with a | a | a | a <;> subst a <;> decide
    · exact Or.inl rfl
    · exact Or.inl rfl

/-- Every token the outer loop returns is well formed when those it starts with are. -/
theorem loop_well_formed : ∀ (fuel : Nat) (t : Tokenizer) (tokens : List Token),
    Tokenizer.loop fuel t = .ok tokens → (∀ x ∈ t.tokens, x.well_formed) →
    ∀ x ∈ tokens, x.well_formed := by
  intro fuel
  induction fuel with
  | zero =>
    intro t tokens h
    simp [Tokenizer.loop] at h
  | succ fuel ih =>
    intro t tokens h hw
    cases hr : t.rest with
    | nil =>
      rw [loop_nil fuel t hr] at h
      simp only [Except.ok.injEq] at h
      subst h
      exact hw
    | cons c rest =>
      rw [loop_succ fuel t c rest hr] at h
      cases hs : t.step with
      | error e => rw [hs] at h; simp at h
      | ok t' =>
        rw [hs] at h
        simp only at h
        refine ih t' tokens h ?_
        rcases step_tokens t t' hs with e | ⟨tok, e, w⟩
        · rw [e]; exact hw
        · rw [e]
          intro x hx
          rcases List.mem_append.mp hx with hx | hx
          · exact hw x hx
          · rw [List.mem_singleton.mp hx]; exact w

theorem isalpha_of_isdigit (c : Char) (h : isdigit c = true) : isalpha c = false := by
  simp only [isdigit, Char.isDigit, Bool.and_eq_true, decide_eq_true_eq] at h
  simp only [isalpha, Char.isAlpha, Char.isUpper, Char.isLower, Bool.or_eq_false_iff,
    Bool.and_eq_false_imp, decide_eq_true_eq, decide_eq_false_iff_not]
  simp only [ge_iff_le, UInt32.le_def, BitVec.le_def] at *
  have e1 : (UInt32.toBitVec 48).toNat = 48 := rfl
  have e2 : (UInt32.toBitVec 57).toNat = 57 := rfl
  have e3 : (UInt32.toBitVec 65).toNat = 65 := rfl
  have e4 : (UInt32.toBitVec 90).toNat = 90 := rfl
  have e5 : (UInt32.toBitVec 97).toNat = 97 := rfl
  have e6 : (UInt32.toBitVec 122).toNat = 122 := rfl
  rw [e1, e2] at h
  rw [e3, e4, e5, e6]
  omega

theorem head_dropWhile (p : Char → Bool) : ∀ (l : List Char) (d : Char),
    (l.dropWhile p).head? = some d → p d = false
  | [], d, h => by simp at h
  | c :: l, d, h => by
    by_cases hc : p c = true
    · rw [List.dropWhile_cons_of_pos hc] at h
      exact head_dropWhile p l d h
    · rw [List.dropWhile_cons_of_neg hc] at h
      simp only [List.head?_cons, Option.some.injEq] at h
      rw [← h]
      simpa using hc

theorem word_token_type (s : String) :
    ((word_token s).1 = ._exit ↔ s = "exit") ∧ ((word_token s).1 = .let_ ↔ s = "let")
    ∧ ((word_token s).1 = .if_ ↔ s = "if") ∧ ((word_token s).1 = .else_ ↔ s = "else")
    ∧ ((word_token s).1 = .ident ↔ s ∉ ["exit", "let", "if", "else"])
    ∧ ((word_token s).1 = .ident → (word_token s).2 = some s)
    ∧ ((word_token s).1 ≠ .ident → (word_token s).2 = none) := by
  unfold word_token
  by_cases h1 : s = "exit"
  · rw [if_pos h1]; subst h1; decide
  by_cases h2 : s = "let"
  · rw [if_neg h1, if_pos h2]; subst h2; decide
  by_cases h3 : s = "if"
  · rw [if_neg h1, if_neg h2, if_pos h3]; subst h3; decide
  by_cases h4 : s = "else"
  · rw [if_neg h1, if_neg h2, if_neg h3, if_pos h4]; subst h4; decide
  rw [if_neg h1, if_neg h2, if_neg h3, if_neg h4]
  simp [h1, h2, h3, h4]

/-! ## C14: identifiers and keywords -/

/-- C14: when the outer loop of the tokenizer stands on a letter `c` (it never stands
inside a comment), one iteration consumes `c` and all letters and digits that follow (what
is left does not start with a letter or digit) and pushes exactly one token for that run:
`exit`, `let`, `if` or `else` exactly when the run is that word, and otherwise `ident` with
the whole run as payload.  So `exit1`, `lets` and `iff` are identifiers. -/
theorem C14_identifier_or_keyword :
    (∀ (t : Tokenizer) (c : Char) (rest : List Char), t.rest = c :: rest →
      isalpha c = true →
      ∃ t' tok, t.step = .ok t' ∧ t'.rest = rest.dropWhile isalnum
        ∧ (∀ d, t'.rest.head? = some d → isalnum d = false)
        ∧ t'.tokens = t.tokens ++ [tok]
        ∧ (tok.type = ._exit ↔ String.mk (c :: rest.takeWhile isalnum) = "exit")
        ∧ (tok.type = .let_ ↔ String.mk (c :: rest.takeWhile isalnum) = "let")
        ∧ (tok.type = .if_ ↔ String.mk (c :: rest.takeWhile isalnum) = "if")
        ∧ (tok.type = .else_ ↔ String.mk (c :: rest.takeWhile isalnum) = "else")
        ∧ (tok.type = .ident ↔
            String.mk (c :: rest.takeWhile isalnum) ∉ ["exit", "let", "if", "else"])
        ∧ (tok.type = .ident → tok.value = some (String.mk (c :: rest.takeWhile isalnum)))
        ∧ (tok.type ≠ .ident → tok.value = none))
    ∧ lex_kinds (tokenize "exit1 lets iff" "m.l")
        = some [(.ident, some "exit1"), (.ident, some "lets"), (.ident, some "iff")]
    ∧ lex_kinds (tokenize "exit let if else" "m.l")
        = some [(._exit, none), (.let_, none), (.if_, none), (.else_, none)] := by
  refine ⟨?_, rfl, rfl⟩
  intro t c rest hr hc
  obtain ⟨w1, w2, w3, w4, w5, w6, w7⟩ :=
    word_token_type (String.mk (c :: rest.takeWhile isalnum))
  refine ⟨(({ t with
      rest := rest.dropWhile isalnum,
      col_count := t.col_count + (rest.takeWhile isalnum).length } : Tokenizer).push_back
        (word_token (String.mk (c :: rest.takeWhile isalnum))).1
        (word_token (String.mk (c :: rest.takeWhile isalnum))).2).next_col,
    ⟨(word_token (String.mk (c :: rest.takeWhile isalnum))).1, t.line_count,
      t.col_count + (rest.takeWhile isalnum).length,
      (word_token (String.mk (c :: rest.takeWhile isalnum))).2⟩,
    ?_, rfl, head_dropWhile isalnum rest, rfl, w1, w2, w3, w4, w5, w6, w7⟩
  rw [step_cons t c rest hr, if_pos hc]
  simp only [ident_loop_eq, List.singleton_append]

/-- C14 at the text `exit1;`: the run is `exit1`, what is left is `;`. -/
theorem C14_identifier_or_keyword_witness :
    (Tokenizer.init "exit1;" "m.l").rest = 'e' :: ['x', 'i', 't', '1', ';']
    ∧ isalpha 'e' = true
    ∧ String.mk ('e' :: ['x', 'i', 't', '1', ';'].takeWhile isalnum) = "exit1"
    ∧ ['x', 'i', 't', '1', ';'].dropWhile isalnum = [';']
    ∧ ∃ t' tok, (Tokenizer.init "exit1;" "m.l").step = .ok t'
        ∧ t'.rest = ['x', 'i', 't', '1', ';'].dropWhile isalnum
        ∧ (∀ d, t'.rest.head? = some d → isalnum d = false)
        ∧ t'.tokens = (Tokenizer.init "exit1;" "m.l").tokens ++ [tok]
        ∧ (tok.type = ._exit ↔
            String.mk ('e' :: ['x', 'i', 't', '1', ';'].takeWhile isalnum) = "exit")
        ∧ (tok.type = .let_ ↔
            String.mk ('e' :: ['x', 'i', 't', '1', ';'].takeWhile isalnum) = "let")
        ∧ (tok.type = .if_ ↔
            String.mk ('e' :: ['x', 'i', 't', '1', ';'].takeWhile isalnum) = "if")
        ∧ (tok.type = .else_ ↔
            String.mk ('e' :: ['x', 'i', 't', '1', ';'].takeWhile isalnum) = "else")
        ∧ (tok.type = .ident ↔
            String.mk ('e' :: ['x', 'i', 't', '1', ';'].takeWhile isalnum)
              ∉ ["exit", "let", "if", "else"])
        ∧ (tok.type = .ident →
            tok.value = some (String.mk ('e' :: ['x', 'i', 't', '1', ';'].takeWhile isalnum)))
        ∧ (tok.type ≠ .ident → tok.value = none) :=
  ⟨rfl, rfl, by decide, by decide,
    C14_identifier_or_keyword.1 (Tokenizer.init "exit1;" "m.l") 'e' ['x', 'i', 't', '1', ';']
      rfl rfl⟩

theorem tokenize_well_formed (src srcName : String) (tokens : List Token)
    (h : tokenize src srcName = .ok tokens) : ∀ tok ∈ tokens, tok.well_formed :=
  loop_well_formed _ _ tokens h (by simp [Tokenizer.init])

/-! ## C16: which tokens carry a payload -/

/-- C16: every token that `tokenize` returns carries a payload if and only if its kind is
`ident` or `int_lit`. -/
theorem C16_payload_iff_ident_or_int_lit (src srcName : String) (tokens : List Token)
    (h : tokenize src srcName = .ok tokens) :
    ∀ tok ∈ tokens, (tok.value.isSome = true ↔ (tok.type = .ident ∨ tok.type = .int_lit)) := by
  intro tok htok
  have hw := tokenize_well_formed src srcName tokens h tok htok
  unfold Token.well_formed at hw
  cases hty : tok.type <;> rw [hty] at hw <;> simp only at hw
  case ident => obtain ⟨c, cs, hv, _⟩ := hw; simp [hv]
  case int_lit => obtain ⟨c, cs, hv, _⟩ := hw; simp [hv]
  all_goals simp [hw]

/-- C16 at `let x = 12;`: the identifier and the literal carry a payload, `let`, `=` and
`;` do not. -/
theorem C16_payload_iff_ident_or_int_lit_witness :
    tokenize "let x = 12;" "m.l"
      = .ok [⟨.let_, 1, 3, none⟩, ⟨.ident, 1, 5, some "x"⟩, ⟨.eq, 1, 7, none⟩,
          ⟨.int_lit, 1, 9, some "12"⟩, ⟨.semi, 1, 10, none⟩]
    ∧ ∀ tok ∈ [(⟨.let_, 1, 3, none⟩ : Token), ⟨.ident, 1, 5, some "x"⟩, ⟨.eq, 1, 7, none⟩,
          ⟨.int_lit, 1, 9, some "12"⟩, ⟨.semi, 1, 10, none⟩],
        (tok.value.isSome = true ↔ (tok.type = .ident ∨ tok.type = .int_lit)) :=
  ⟨rfl, C16_payload_iff_ident_or_int_lit "let x = 12;" "m.l" _ rfl⟩

/-! ## C17: the payloads -/

/-- C17: in every token list that `tokenize` returns, the payload of an `ident` token is a
letter followed by letters and digits (so a non-empty string matching
`[A-Za-z][A-Za-z0-9]*`) and is none of `exit`, `let`, `if`, `else`, and the payload of an
`int_lit` token is a non-empty string of decimal digits; and whenever the outer loop stands
on a digit `c`, the payload it pushes is the maximal run of digits there: `c` with all the
digits that follow, what is left not starting with a digit. -/
theorem C17_payloads_well_formed :
    (∀ (src srcName : String) (tokens : List Token), tokenize src srcName = .ok tokens →
      ∀ tok ∈ tokens,
        (tok.type = .ident → ∃ c cs, tok.value = some (String.mk (c :: cs))
          ∧ isalpha c = true ∧ (∀ d ∈ cs, isalnum d = true)
          ∧ String.mk (c :: cs) ∉ ["exit", "let", "if", "else"])
        ∧ (tok.type = .int_lit → ∃ c cs, tok.value = some (String.mk (c :: cs))
          ∧ isdigit c = true ∧ ∀ d ∈ cs, isdigit d = true))
    ∧ (∀ (t : Tokenizer) (c : Char) (rest : List Char), t.rest = c :: rest →
      isdigit c = true →
      ∃ t', t.step = .ok t'
        ∧ t'.tokens = t.tokens ++ [⟨.int_lit, t.line_count, t.col_count,
            some (String.mk (c :: rest.takeWhile isdigit))⟩]
        ∧ t'.rest = rest.dropWhile isdigit
        ∧ ∀ d, t'.rest.head? = some d → isdigit d = false) := by
  refine ⟨?_, ?_⟩
  · intro src srcName tokens h tok htok
    have hw := tokenize_well_formed src srcName tokens h tok htok
    unfold Token.well_formed at hw
    refine ⟨?_, ?_⟩
    · intro hty
      rw [hty] at hw
      exact hw
    · intro hty
      rw [hty] at hw
      exact hw
  · intro t c rest hr hc
    have ha : ¬ isalpha c = true := by rw [isalpha_of_isdigit c hc]; simp
    refine ⟨((t.consumed (rest.dropWhile isdigit)).push_back .int_lit
      (some (String.mk (c :: rest.takeWhile isdigit)))).next_col, ?_, rfl, rfl,
      head_dropWhile isdigit rest⟩
    rw [step_cons t c rest hr, if_neg ha, if_pos hc]
    simp only [digit_loop_eq, List.singleton_append]

/-- C17 at `x1 = 12;`, where the payloads are `x1` and `12`, and at the first iteration
on `12;`, which pushes `12` and leaves `;`. -/
theorem C17_payloads_well_formed_witness :
    tokenize "x1 = 12;" "m.l"
      = .ok [⟨.ident, 1, 2, some "x1"⟩, ⟨.eq, 1, 4, none⟩, ⟨.int_lit, 1, 6, some "12"⟩,
          ⟨.semi, 1, 7, none⟩]
    ∧ (∀ tok ∈ [(⟨.ident, 1, 2, some "x1"⟩ : Token), ⟨.eq, 1, 4, none⟩,
          ⟨.int_lit, 1, 6, some "12"⟩, ⟨.semi, 1, 7, none⟩],
        (tok.type = .ident → ∃ c cs, tok.value = some (String.mk (c :: cs))
          ∧ isalpha c = true ∧ (∀ d ∈ cs, isalnum d = true)
          ∧ String.mk (c :: cs) ∉ ["exit", "let", "if", "else"])
        ∧ (tok.type = .int_lit → ∃ c cs, tok.value = some (String.mk (c :: cs))
          ∧ isdigit c = true ∧ ∀ d ∈ cs, isdigit d = true))
    ∧ ((Tokenizer.init "12;" "m.l").rest = '1' :: ['2', ';'] ∧ isdigit '1' = true
      ∧ ∃ t', (Tokenizer.init "12;" "m.l").step = .ok t'
        ∧ t'.tokens = (Tokenizer.init "12;" "m.l").tokens
            ++ [⟨.int_lit, (Tokenizer.init "12;" "m.l").line_count,
                (Tokenizer.init "12;" "m.l").col_count,
                some (String.mk ('1' :: ['2', ';'].takeWhile isdigit))⟩]
        ∧ t'.rest = ['2', ';'].dropWhile isdigit
        ∧ ∀ d, t'.rest.head? = some d → isdigit d = false) :=
  ⟨rfl, C17_payloads_well_formed.1 "x1 = 12;" "m.l" _ rfl, rfl, rfl,
    C17_payloads_well_formed.2 (Tokenizer.init "12;" "m.l") '1' ['2', ';'] rfl rfl⟩

/-! ## The tokenizer: comments and unexpected characters -/

theorem code_chars_cons (c : Char) (rest : List Char)
    (h1 : ¬ (c = '/' ∧ rest.head? = some '/')) (h2 : ¬ (c = '/' ∧ rest.head? = some '*')) :
    code_chars .code (c :: rest) = c :: code_chars .code rest := by
  rw [code_chars, if_neg h1, if_neg h2]

theorem code_chars_cons_ne (c : Char) (rest : List Char) (h : c ≠ '/') :
    code_chars .code (c :: rest) = c :: code_chars .code rest :=
  code_chars_cons c rest (fun x => h x.1) (fun x => h x.1)

theorem first_unexpected_cons (c : Char) (rest : List Char) (hl : lexable c = true)
    (h1 : ¬ (c = '/' ∧ rest.head? = some '/')) (h2 : ¬ (c = '/' ∧ rest.head? = some '*')) :
    first_unexpected (c :: rest) = first_unexpected rest := by
  simp only [first_unexpected, code_chars_cons c rest h1 h2, List.find?_cons, hl,
    Bool.not_true]

theorem first_unexpected_bad (c : Char) (rest : List Char) (hl : lexable c = false) :
    first_unexpected (c :: rest) = some c := by
  have hne : c ≠ '/' := by
    intro h
    rw [h] at hl
    exact absurd hl (by decide)
  simp only [first_unexpected, code_chars_cons_ne c rest hne, List.find?_cons, hl,
    Bool.not_false]

theorem first_unexpected_dropWhile (p : Char → Bool)
    (hp : ∀ x, p x = true → lexable x = true ∧ x ≠ '/') : ∀ l : List Char,
    first_unexpected (l.dropWhile p) = first_unexpected l
  | [] => rfl
  | c :: l => by
    by_cases hc : p c = true
    · obtain ⟨h1, h2⟩ := hp c hc
      rw [List.dropWhile_cons_of_pos hc, first_unexpected_dropWhile p hp l,
        first_unexpected_cons c l h1 (fun x => h2 x.1) (fun x => h2 x.1)]
    · rw [List.dropWhile_cons_of_neg hc]

theorem code_chars_line : ∀ l : List Char,
    code_chars .line l = code_chars .code (line_comment_loop l)
  | [] => rfl
  | c :: l => by
    by_cases hc : c = '\n'
    · have hne : c ≠ '/' := by rw [hc]; decide
      rw [code_chars, if_pos hc, line_comment_loop, if_neg (by simpa using hc),
        code_chars_cons_ne c l hne]
    · rw [code_chars, if_neg hc, line_comment_loop, if_pos hc, code_chars_line l]

theorem code_chars_block : ∀ l : List Char,
    code_chars .block l = code_chars .code (block_comment_loop l).tail.tail
  | [] => rfl
  | c :: l => by
    by_cases hc : c = '*' ∧ l.head? = some '/'
    · rw [code_chars, if_pos hc, block_comment_loop, if_pos hc]
      cases l with
      | nil => simp at hc
      | cons d l => rfl
    · rw [code_chars, if_neg hc, block_comment_loop, if_neg hc, code_chars_block l]

theorem first_unexpected_line (rest : List Char) (h : rest.head? = some '/') :
    first_unexpected ('/' :: rest) = first_unexpected (line_comment_loop rest.tail) := by
  cases rest with
  | nil => simp at h
  | cons d l =>
    simp only [first_unexpected, List.tail_cons]
    rw [code_chars, if_pos ⟨rfl, h⟩, code_chars, code_chars_line]

theorem first_unexpected_block (rest : List Char) (h : rest.head? = some '*') :
    first_unexpected ('/' :: rest)
      = first_unexpected (block_comment_loop rest.tail).tail.tail := by
  cases rest with
  | nil => simp at h
  | cons d l =>
    have h1 : ¬ ('/' = '/' ∧ (d :: l).head? = some '/') := by
      rw [h]; simp
    simp only [first_unexpected, List.tail_cons]
    rw [code_chars, if_neg h1, if_pos ⟨rfl, h⟩, code_chars, code_chars_block]

theorem lexable_of_isalnum (x : Char) (h : isalnum x = true) : lexable x = true ∧ x ≠ '/' := by
  refine ⟨?_, ?_⟩
  · simp only [isalnum, Char.isAlphanum, Bool.or_eq_true] at h
    rcases h with h | h <;> simp [lexable, isalpha, isdigit, h]
  · intro hx
    rw [hx] at h
    exact absurd h (by decide)

theorem lexable_of_isdigit (x : Char) (h : isdigit x = true) : lexable x = true ∧ x ≠ '/' := by
  refine ⟨by simp [lexable, h], ?_⟩
  intro hx
  rw [hx] at h
  exact absurd h (by decide)

theorem lexable_of_isalpha (x : Char) (h : isalpha x = true) : lexable x = true ∧ x ≠ '/' := by
  refine ⟨by simp [lexable, h], ?_⟩
  intro hx
  rw [hx] at h
  exact absurd h (by decide)

/-- An iteration of the outer loop halts exactly on an unexpected character, which is then
the leftmost one outside comments; otherwise it goes on from a text with the same leftmost
unexpected character. -/
theorem step_unexpected (t : Tokenizer) (c : Char) (rest : List Char)
    (hr : t.rest = c :: rest) :
    (∃ t', t.step = .ok t' ∧ t'.rest.length ≤ rest.length ∧ t'.m_srcName = t.m_srcName
        ∧ first_unexpected t'.rest = first_unexpected (c :: rest))
    ∨ (t.step = .error (.lex_error t.m_srcName t.line_count t.col_count c)
        ∧ first_unexpected (c :: rest) = some c) := by
  have l1 := dropWhile_length_le isalnum rest
  have l2 := dropWhile_length_le isdigit rest
  have l3 := line_comment_loop_length rest.tail
  have l4 := block_comment_loop_length rest.tail
  have l5 := tail_length_le rest
  have l6 := tail_length_le (block_comment_loop rest.tail)
  have l7 := tail_length_le (block_comment_loop rest.tail).tail
  rcases step_cases c rest with ⟨a, s⟩ | ⟨a, s⟩ | ⟨a, b, s⟩ | ⟨a, b, s⟩ | ⟨ty, a, _, _, b, s⟩
    | ⟨a, b, s⟩ | ⟨a, s⟩ | ⟨a, b, s⟩ | ⟨a, s⟩
  · obtain ⟨h1, h2⟩ := lexable_of_isalpha c a
    refine Or.inl ⟨_, s t hr, l1, rfl, ?_⟩
    show first_unexpected (rest.dropWhile isalnum) = _
    rw [first_unexpected_dropWhile isalnum lexable_of_isalnum rest,
      first_unexpected_cons c rest h1 (fun x => h2 x.1) (fun x => h2 x.1)]
  · obtain ⟨h1, h2⟩ := lexable_of_isdigit c a
    refine Or.inl ⟨_, s t hr, l2, rfl, ?_⟩
    show first_unexpected (rest.dropWhile isdigit) = _
    rw [first_unexpected_dropWhile isdigit lexable_of_isdigit rest,
      first_unexpected_cons c rest h1 (fun x => h2 x.1) (fun x => h2 x.1)]
  · refine Or.inl ⟨_, s t hr, ?_, rfl, ?_⟩
    · show (line_comment_loop rest.tail).length ≤ _
      omega
    · show first_unexpected (line_comment_loop rest.tail) = _
      rw [a, first_unexpected_line rest b]
  · refine Or.inl ⟨_, s t hr, ?_, rfl, ?_⟩
    · show (block_comment_loop rest.tail).tail.tail.length ≤ _
      omega
    · show first_unexpected (block_comment_loop rest.tail).tail.tail = _
      rw [a, first_unexpected_block rest b]
  · refine Or.inl ⟨_, s t hr, le_refl _, rfl, ?_⟩
    show first_unexpected rest = _
    rw [first_unexpected_cons c rest a (fun x => (b x.1).1 x.2) (fun x => (b x.1).2 x.2)]
  · refine Or.inl ⟨_, s t hr, l5, rfl, ?_⟩
    show first_unexpected rest.tail = _
    cases rest with
    | nil => simp at b
    | cons d r =>
      simp only [List.head?_cons, Option.some.injEq] at b
      subst b
      have hc : lexable c = true := by
        rcases a with a | a | a | a <;> subst a <;> decide
      rw [first_unexpected_cons c ('=' :: r) hc (by simp) (by simp),
        first_unexpected_cons '=' r (by decide) (by simp) (by simp), List.tail_cons]
  · refine Or.inl ⟨_, s t hr, le_refl _, rfl, ?_⟩
    show first_unexpected rest = _
    subst a
    rw [first_unexpected_cons '\n' rest (by decide) (by simp) (by simp)]
  · refine Or.inl ⟨_, s t hr, le_refl _, rfl, ?_⟩
    show first_unexpected rest = _
    rw [first_unexpected_cons c rest (by simp [lexable, a]) (fun x => b x.1)
      (fun x => b x.1)]
  · exact Or.inr ⟨s t hr, first_unexpected_bad c rest a⟩

/-- With enough fuel the outer loop halts on the leftmost unexpected character outside
comments, if there is one, and returns a token list otherwise. -/
theorem loop_unexpected : ∀ (n : Nat) (t : Tokenizer) (fuel : Nat),
    t.rest.length ≤ n → n < fuel →
    match first_unexpected t.rest with
    | some c => ∃ line col, Tokenizer.loop fuel t = .error (.lex_error t.m_srcName line col c)
    | none => ∃ tokens, Tokenizer.loop fuel t = .ok tokens := by
  intro n
  induction n with
  | zero =>
    intro t fuel hn hf
    obtain ⟨fuel, rfl⟩ : ∃ k, fuel = k + 1 := ⟨fuel - 1, by omega⟩
    have ht : t.rest = [] := List.length_eq_zero.mp (by omega)
    rw [ht, loop_nil fuel t ht]
    exact ⟨_, rfl⟩
  | succ n ih =>
    intro t fuel hn hf
    obtain ⟨fuel, rfl⟩ : ∃ k, fuel = k + 1 := ⟨fuel - 1, by omega⟩
    cases ht : t.rest with
    | nil =>
      rw [loop_nil fuel t ht]
      exact ⟨_, rfl⟩
    | cons c rest =>
      rw [ht] at hn
      simp only [List.length_cons] at hn
      rw [loop_succ fuel t c rest ht]
      rcases step_unexpected t c rest ht with ⟨t', s1, s2, s3, s4⟩ | ⟨s1, s2⟩
      · rw [s1, ← s4, ← s3]
        exact ih t' fuel (by omega) (by omega)
      · rw [s1, s2]
        exact ⟨_, _, rfl⟩

/-! ## C13: when the tokenizer halts -/

/-- C13: if some character of the source outside the `//` and `/* */` comments is not
`lexable` (an ASCII letter, a decimal digit, whitespace or one of `( ) { } ; = + - * /`),
`tokenize` halts with the `lex_error` that names the leftmost such character; if there is
none, `tokenize` returns a token list.  So it halts if and only if there is such a
character. -/
theorem C13_lex_error_iff_unexpected_character (src srcName : String) :
    (match first_unexpected src.toList with
      | some c => ∃ line col, tokenize src srcName = .error (.lex_error srcName line col c)
      | none => ∃ tokens, tokenize src srcName = .ok tokens)
    ∧ ((∃ h, tokenize src srcName = .error h)
        ↔ ∃ c ∈ code_chars .code src.toList, lexable c = false) := by
  have h := loop_unexpected src.length (Tokenizer.init src srcName) (src.length + 1)
    (le_refl _) (by omega)
  have hfu : first_unexpected (Tokenizer.init src srcName).rest
      = first_unexpected src.toList := rfl
  have hname : (Tokenizer.init src srcName).m_srcName = srcName := rfl
  rw [hfu, hname] at h
  refine ⟨h, ?_⟩
  cases hf : first_unexpected src.toList with
  | none =>
    rw [hf] at h
    obtain ⟨tokens, ht⟩ := h
    simp only [first_unexpected, List.find?_eq_none, Bool.not_eq_true',
      Bool.not_eq_false] at hf
    constructor
    · rintro ⟨e, he⟩
      rw [show tokenize src srcName = Tokenizer.loop (src.length + 1)
        (Tokenizer.init src srcName) from rfl, ht] at he
      exact absurd he (by simp)
    · rintro ⟨c, hc, hl⟩
      rw [hf c hc] at hl
      exact absurd hl (by simp)
  | some c =>
    rw [hf] at h
    obtain ⟨line, col, ht⟩ := h
    constructor
    · intro _
      have h1 := List.find?_some hf
      have h2 := List.mem_of_find?_eq_some hf
      exact ⟨c, h2, by simpa using h1⟩
    · intro _
      exact ⟨_, ht⟩

/-- C13 at `a /* @ */ $ # b` and at `a /* $ */ b // $`: in the first text `$` is the
leftmost unexpected character outside comments and the tokenizer halts on it; in the second
every `$` is inside a comment and the tokens are returned. -/
theorem C13_lex_error_iff_unexpected_character_witness :
    first_unexpected "a /* @ */ $ # b".toList = some '$'
    ∧ tokenize "a /* @ */ $ # b" "m.l" = .error (.lex_error "m.l" 1 5 '$')
    ∧ (LexHalt.lex_error "m.l" 1 5 '$').stderr
        = "m.l:1:5: lex_error: Unexpected character '$'\n"
    ∧ tokenize "a /* $ */ b // $" "m.l"
        = .ok [⟨.ident, 1, 1, some "a"⟩, ⟨.ident, 1, 5, some "b"⟩]
    ∧ ((∃ h, tokenize "a /* @ */ $ # b" "m.l" = .error h)
        ↔ ∃ c ∈ code_chars .code "a /* @ */ $ # b".toList, lexable c = false) :=
  ⟨by decide, rfl, by decide, rfl,
    (C13_lex_error_iff_unexpected_character "a /* @ */ $ # b" "m.l").2⟩

/-! ## C18, C19, C20: the positions recorded in tokens -/

/-- C18 fails at the two-line text `/*`, `*/ x`: the token for `x` is recorded at line 1,
column 3, and line 1 of the text, `/*`, has 2 characters.  The block comment loop consumes
the newline without resetting `col_count`, which goes on counting from the column of the
comment. -/
theorem C18_position_outside_line :
    tokenize "/*\n*/ x" "m.l" = .ok [⟨.ident, 1, 3, some "x"⟩]
    ∧ text_lines "/*\n*/ x".toList = [['/', '*'], ['*', '/', ' ', 'x']]
    ∧ line_length "/*\n*/ x".toList 1 = some 2 := by
  refine ⟨rfl, by decide, by decide⟩

/-- C19 fails at the two-line text `/*`, `*/x`: one newline precedes `x`, the character at
offset 5, which stands on line 2, and the token for `x` is recorded at line 1.  The block
comment loop consumes the newline without `line_count++`. -/
theorem C19_newline_in_block_comment_not_counted :
    tokenize "/*\n*/x" "m.l" = .ok [⟨.ident, 1, 2, some "x"⟩]
    ∧ "/*\n*/x".toList.drop 5 = ['x']
    ∧ ("/*\n*/x".toList.take 5).count '\n' = 1
    ∧ position_of "/*\n*/x".toList 5 = (2, 3) := by
  refine ⟨rfl, by decide, by decide, by decide⟩

/-- C20 fails at `12`: the last character of the literal stands in column 2 and the token
is recorded at column 1, because the digit loop consumes without `col_count++`.  The
tokens after a literal of several digits, after a compound operator (two characters
consumed, `continue` before `col_count++`) and after a comment (one `col_count++` for the
whole comment) are recorded to the left of where they stand: `;` at columns 2, 1 and 2
where it stands in columns 3, 3 and 5.  After an identifier the column is right. -/
theorem C20_column_lags :
    tokenize "12" "m.l" = .ok [⟨.int_lit, 1, 1, some "12"⟩]
    ∧ position_of "12".toList 1 = (1, 2)
    ∧ tokenize "12;" "m.l" = .ok [⟨.int_lit, 1, 1, some "12"⟩, ⟨.semi, 1, 2, none⟩]
    ∧ position_of "12;".toList 2 = (1, 3)
    ∧ tokenize "+=;" "m.l" = .ok [⟨.pluseq, 1, 1, none⟩, ⟨.semi, 1, 1, none⟩]
    ∧ position_of "+=;".toList 2 = (1, 3)
    ∧ tokenize "/**/;" "m.l" = .ok [⟨.semi, 1, 2, none⟩]
    ∧ position_of "/**/;".toList 4 = (1, 5)
    ∧ tokenize "ab;" "m.l" = .ok [⟨.ident, 1, 2, some "ab"⟩, ⟨.semi, 1, 3, none⟩]
    ∧ position_of "ab;".toList 2 = (1, 3) := by
  refine ⟨rfl, by decide, rfl, by decide, rfl, by decide, rfl, by decide, rfl, by decide⟩

/-- An iteration of the outer loop keeps both counters at 1 or more and records a token, if
it pushes one, at a line and a column that are 1 or more. -/
theorem step_positions (t t' : Tokenizer) (h : t.step = .ok t')
    (hl : 1 ≤ t.line_count) (hc : 1 ≤ t.col_count)
    (ht : ∀ tok ∈ t.tokens, 1 ≤ tok.line ∧ 1 ≤ tok.col) :
    1 ≤ t'.line_count ∧ 1 ≤ t'.col_count ∧ ∀ tok ∈ t'.tokens, 1 ≤ tok.line ∧ 1 ≤ tok.col := by
  cases hr : t.rest with
  | nil =>
    unfold Tokenizer.step at h
    rw [hr] at h
    simp only [Except.ok.injEq] at h
    subst h
    exact ⟨hl, hc, ht⟩
  | cons c rest =>
    have hn : (0 : Int) ≤ ((rest.takeWhile isalnum).length : Int) := Int.natCast_nonneg _
    rcases step_cases c rest with ⟨_, s⟩ | ⟨_, s⟩ | ⟨_, _, s⟩ | ⟨_, _, s⟩ | ⟨ty, _, _, _, _, s⟩
      | ⟨_, _, s⟩ | ⟨_, s⟩ | ⟨_, _, s⟩ | ⟨_, s⟩
    all_goals
      rw [s t hr] at h
      first
        | (injection h with h; subst h)
        | (exact absurd h (by simp))
    all_goals
      simp only [Tokenizer.next_col, Tokenizer.push_back, Tokenizer.consumed]
      refine ⟨by omega, by omega, ?_⟩
      try exact ht
    all_goals
      intro tok htok
      rcases List.mem_append.mp htok with htok | htok
      · exact ht tok htok
      · rw [List.mem_singleton.mp htok]
        exact ⟨by simp only; omega, by simp only; omega⟩

/-- Every token that `tokenize` returns is recorded at a line and a column that are 1 or
more. -/
theorem tokenize_positions_positive (src srcName : String) (tokens : List Token)
    (h : tokenize src srcName = .ok tokens) : ∀ tok ∈ tokens, 1 ≤ tok.line ∧ 1 ≤ tok.col := by
  have key : ∀ (fuel : Nat) (t : Tokenizer) (tokens : List Token),
      Tokenizer.loop fuel t = .ok tokens → 1 ≤ t.line_count → 1 ≤ t.col_count →
      (∀ tok ∈ t.tokens, 1 ≤ tok.line ∧ 1 ≤ tok.col) →
      ∀ tok ∈ tokens, 1 ≤ tok.line ∧ 1 ≤ tok.col := by
    intro fuel
    induction fuel with
    | zero =>
      intro t tokens h
      simp [Tokenizer.loop] at h
    | succ fuel ih =>
      intro t tokens h hl hc ht
      cases hr : t.rest with
      | nil =>
        rw [loop_nil fuel t hr] at h
        simp only [Except.ok.injEq] at h
        subst h
        exact ht
      | cons c rest =>
        rw [loop_succ fuel t c rest hr] at h
        cases hs : t.step with
        | error e => rw [hs] at h; simp at h
        | ok t' =>
          rw [hs] at h
          simp only at h
          obtain ⟨a, b, d⟩ := step_positions t t' hs hl hc ht
          exact ih t' tokens h a b d
  exact key _ _ tokens h (le_refl (1 : Int)) (le_refl (1 : Int)) (by simp [Tokenizer.init])

/-! ## C21: texts of whitespace and comments -/

theorem step_space (t : Tokenizer) (c : Char) (rest : List Char) (hc : isspace c = true)
    (hr : t.rest = c :: rest) :
    ∃ t', t.step = .ok t' ∧ t'.rest = rest ∧ t'.tokens = t.tokens := by
  have h : ((((c = ' ' ∨ c = '\t') ∨ c = '\n') ∨ c = '\x0b') ∨ c = '\x0c') ∨ c = '\r' := by
    simpa [isspace] using hc
  rw [step_cons t c rest hr]
  rcases h with ((((h | h) | h) | h) | h) | h <;> subst h <;> exact ⟨_, rfl, rfl, rfl⟩

theorem step_line_comment (t : Tokenizer) (rest : List Char) (hr : t.rest = '/' :: '/' :: rest) :
    t.step = .ok ((t.consumed (line_comment_loop rest)).next_col) := by
  rw [step_cons t '/' ('/' :: rest) hr]
  rfl

theorem step_block_comment (t : Tokenizer) (rest : List Char)
    (hr : t.rest = '/' :: '*' :: rest) :
    t.step = .ok ((t.consumed (block_comment_loop rest).tail.tail).next_col) := by
  rw [step_cons t '/' ('*' :: rest) hr]
  rfl

/-- From a text whose characters outside comments are all whitespace, the outer loop
returns the tokens it started with. -/
theorem loop_blank : ∀ (n : Nat) (t : Tokenizer) (fuel : Nat),
    t.rest.length ≤ n → n < fuel → (∀ c ∈ code_chars .code t.rest, isspace c = true) →
    Tokenizer.loop fuel t = .ok t.tokens := by
  intro n
  induction n with
  | zero =>
    intro t fuel hn hf _
    obtain ⟨fuel, rfl⟩ : ∃ k, fuel = k + 1 := ⟨fuel - 1, by omega⟩
    exact loop_nil fuel t (List.length_eq_zero.mp (by omega))
  | succ n ih =>
    intro t fuel hn hf hb
    obtain ⟨fuel, rfl⟩ : ∃ k, fuel = k + 1 := ⟨fuel - 1, by omega⟩
    cases ht : t.rest with
    | nil => exact loop_nil fuel t ht
    | cons c rest =>
      rw [ht] at hn hb
      simp only [List.length_cons] at hn
      rw [loop_succ fuel t c rest ht]
      by_cases h1 : c = '/' ∧ rest.head? = some '/'
      · obtain ⟨hc, hh⟩ := h1
        subst hc
        cases rest with
        | nil => simp at hh
        | cons d r =>
          simp only [List.head?_cons, Option.some.injEq] at hh
          subst hh
          rw [step_line_comment t r ht]
          simp only
          have hl := line_comment_loop_length r
          simp only [List.length_cons] at hn
          rw [ih _ fuel (by simp only [Tokenizer.next_col, Tokenizer.consumed]; omega)
            (by omega) ?_]
          · rfl
          · show ∀ c ∈ code_chars .code (line_comment_loop r), isspace c = true
            rw [← code_chars_line]
            rw [code_chars, if_pos ⟨rfl, rfl⟩, code_chars] at hb
            exact hb
      by_cases h2 : c = '/' ∧ rest.head? = some '*'
      · obtain ⟨hc, hh⟩ := h2
        subst hc
        cases rest with
        | nil => simp at hh
        | cons d r =>
          simp only [List.head?_cons, Option.some.injEq] at hh
          subst hh
          rw [step_block_comment t r ht]
          simp only
          have hl := block_comment_loop_length r
          have hl1 := tail_length_le (block_comment_loop r)
          have hl2 := tail_length_le (block_comment_loop r).tail
          simp only [List.length_cons] at hn
          rw [ih _ fuel (by simp only [Tokenizer.next_col, Tokenizer.consumed]; omega)
            (by omega) ?_]
          · rfl
          · show ∀ c ∈ code_chars .code (block_comment_loop r).tail.tail, isspace c = true
            rw [← code_chars_block]
            rw [code_chars, if_neg (by simp), if_pos ⟨rfl, rfl⟩, code_chars] at hb
            exact hb
      rw [code_chars_cons c rest h1 h2] at hb
      obtain ⟨t', s1, s2, s3⟩ := step_space t c rest (hb c (List.mem_cons_self _ _)) ht
      rw [s1]
      simp only
      rw [ih t' fuel (by rw [s2]; omega) (by omega)
        (by rw [s2]; exact fun d hd => hb d (List.mem_cons_of_mem _ hd)), s3]

/-- C21: for every source whose characters outside `//` and `/* */` comments
(`code_chars`, in which a block comment that is never closed runs to the end of the text)
are all whitespace, `tokenize` halts with no error and returns the empty token list; the
empty source is one of these. -/
theorem C21_blank_source_gives_no_tokens :
    (∀ (src srcName : String), (∀ c ∈ code_chars .code src.toList, isspace c = true) →
      tokenize src srcName = .ok [])
    ∧ ∀ srcName : String, tokenize "" srcName = .ok [] := by
  refine ⟨?_, fun _ => rfl⟩
  intro src srcName h
  exact loop_blank src.length (Tokenizer.init src srcName) (src.length + 1) (le_refl _)
    (by omega) h

/-- C21 at a text of blanks, a line comment, a closed block comment and a block comment
that is never closed. -/
theorem C21_blank_source_gives_no_tokens_witness :
    code_chars .code " // a\n\t/* b */ \n/* c".toList = [' ', '\n', '\t', ' ', '\n']
    ∧ (∀ c ∈ code_chars .code " // a\n\t/* b */ \n/* c".toList, isspace c = true)
    ∧ tokenize " // a\n\t/* b */ \n/* c" "m.l" = .ok [] :=
  ⟨by decide, by decide,
    C21_blank_source_gives_no_tokens.1 " // a\n\t/* b */ \n/* c" "m.l" (by decide)⟩

/-! ## C28: the end of a block comment -/

theorem block_comment_loop_first : ∀ (s rest : List Char), ¬ ['*', '/'] <:+: s →
    block_comment_loop (s ++ '*' :: '/' :: rest) = '*' :: '/' :: rest
  | [], rest, _ => by
    rw [List.nil_append, block_comment_loop, if_pos ⟨rfl, rfl⟩]
  | c :: s, rest, h => by
    have h1 : ¬ ['*', '/'] <:+: s := fun x => h (List.infix_cons x)
    have h2 : ¬ (c = '*' ∧ (s ++ '*' :: '/' :: rest).head? = some '/') := by
      rintro ⟨hc, hh⟩
      cases s with
      | nil => simp at hh
      | cons d s =>
        simp only [List.cons_append, List.head?_cons, Option.some.injEq] at hh
        subst hc hh
        exact h (List.IsPrefix.isInfix ⟨s, rfl⟩)
    rw [List.cons_append, block_comment_loop, if_neg h2, block_comment_loop_first s rest h1]

/-- With enough fuel, the character on which the outer loop halts is the leftmost
unexpected character outside comments. -/
theorem lex_char_loop (t : Tokenizer) (fuel : Nat) (hf : t.rest.length < fuel) :
    lex_char (Tokenizer.loop fuel t) = first_unexpected t.rest := by
  have h := loop_unexpected t.rest.length t fuel (le_refl _) hf
  cases hu : first_unexpected t.rest with
  | none =>
    rw [hu] at h
    obtain ⟨tokens, ht⟩ := h
    rw [ht]
    rfl
  | some c =>
    rw [hu] at h
    obtain ⟨line, col, ht⟩ := h
    rw [ht]
    rfl

/-- C28: for every text `s` that does not contain `*/` (it may contain `/*`) and every
text `rest`, tokenizing `"/*" ++ s ++ "*/" ++ rest` gives tokens of the same kinds and
payloads as tokenizing `rest`, or halts when that halts, and then on the same character:
the comment ends at the first `*/`. -/
theorem C28_block_comment_ends_at_first_close (s rest srcName : String)
    (h : ¬ ['*', '/'] <:+: s.toList) :
    lex_kinds (tokenize ("/*" ++ s ++ "*/" ++ rest) srcName)
      = lex_kinds (tokenize rest srcName)
    ∧ lex_char (tokenize ("/*" ++ s ++ "*/" ++ rest) srcName)
      = lex_char (tokenize rest srcName) := by
  have hl : ("/*" ++ s ++ "*/" ++ rest).toList
      = '/' :: '*' :: (s.toList ++ '*' :: '/' :: rest.toList) := by
    simp [String.toList]
  have hn : ("/*" ++ s ++ "*/" ++ rest).length = s.length + rest.length + 4 := by
    show ("/*" ++ s ++ "*/" ++ rest).toList.length = s.toList.length + rest.toList.length + 4
    rw [hl]
    simp only [List.length_cons, List.length_append]
    omega
  have hr : (Tokenizer.init ("/*" ++ s ++ "*/" ++ rest) srcName).rest
      = '/' :: '*' :: (s.toList ++ '*' :: '/' :: rest.toList) := hl
  have hstep := step_block_comment _ _ hr
  rw [block_comment_loop_first s.toList rest.toList h] at hstep
  simp only [List.tail_cons] at hstep
  have hloop : tokenize ("/*" ++ s ++ "*/" ++ rest) srcName
      = Tokenizer.loop (s.length + rest.length + 4)
          (((Tokenizer.init ("/*" ++ s ++ "*/" ++ rest) srcName).consumed
            rest.toList).next_col) := by
    simp only [tokenize]
    rw [hn, loop_succ _ _ _ _ hr, hstep]
  have hlen : rest.toList.length = rest.length := rfl
  refine ⟨?_, ?_⟩
  · rw [hloop]
    rcases loop_rel rest.length
        (((Tokenizer.init ("/*" ++ s ++ "*/" ++ rest) srcName).consumed
          rest.toList).next_col)
        (Tokenizer.init rest srcName) (s.length + rest.length + 4) (rest.length + 1) rfl
        (le_refl _) (by omega) (by omega) with ⟨l1, l2, r1, r2, r3⟩ | ⟨e1, e2, r1, r2⟩
    · rw [r1, show tokenize rest srcName
        = Tokenizer.loop (rest.length + 1) (Tokenizer.init rest srcName) from rfl, r2]
      simp [lex_kinds, Tokenizer.next_col, Tokenizer.consumed, Tokenizer.init, r3]
    · rw [r1, show tokenize rest srcName
        = Tokenizer.loop (rest.length + 1) (Tokenizer.init rest srcName) from rfl, r2]
      rfl
  · rw [hloop, lex_char_loop _ _ (by
        show rest.toList.length < _
        omega),
      show tokenize rest srcName
        = Tokenizer.loop (rest.length + 1) (Tokenizer.init rest srcName) from rfl,
      lex_char_loop _ _ (by
        show rest.toList.length < _
        omega)]
    rfl

/-- C28 at `/* a /* b */ x */`: the comment ends at the first `*/`, and what follows is
tokenized as `x */` is (an identifier, `*` and `/`). -/
theorem C28_block_comment_ends_at_first_close_witness :
    ¬ ['*', '/'] <:+: " a /* b ".toList
    ∧ lex_kinds (tokenize " x */" "m.l")
        = some [(.ident, some "x"), (.star, none), (.fslash, none)]
    ∧ lex_kinds (tokenize ("/*" ++ " a /* b " ++ "*/" ++ " x */") "m.l")
        = lex_kinds (tokenize " x */" "m.l")
    ∧ lex_char (tokenize ("/*" ++ " a /* b " ++ "*/" ++ " x */") "m.l")
        = lex_char (tokenize " x */" "m.l") :=
  ⟨by decide, rfl,
    C28_block_comment_ends_at_first_close " a /* b " " x */" "m.l" (by decide)⟩

/-! ## C29: `Set` statements in the parser -/

/-- `peek(-1)` after consuming a token is that token. -/
theorem Parser.peek_prev (p : Parser) (t : Token) (r : List Token) (h : p.rest = t :: r) :
    (p.advance 1).peek (-1) = some t := by
  have h0 := Parser.getElem?_of_rest p 0
  rw [h] at h0
  simp only [Nat.add_zero, List.getElem?_cons_zero] at h0
  show (if 0 < p.m_index + 1 then p.m_tokens[p.m_index + 1 - (0 + 1)]? else none) = some t
  rw [if_pos (by omega)]
  simpa using h0

/-- The diagnostic of `error(msg)` with both positions left at their default, after the token
`t` has been consumed. -/
theorem Parser.error_default (p : Parser) (t : Token) (r : List Token) (msg : String)
    (h : p.rest = t :: r) :
    (p.advance 1).error msg (-1) (-1) = .diag p.m_srcName t.line (t.col + 1) msg := by
  simp only [Parser.error, if_true, Parser.peek_prev p t r h, Option.map_some']
  rfl

theorem parse_stmt_set_invalid (f : Nat) (p : Parser) (i t : Token) (rest : List Token)
    (hr : p.rest = i :: t :: rest) (hi : i.type = .ident)
    (ht : ¬ (t.type = .eq ∨ t.type = .pluseq ∨ t.type = .stareq ∨ t.type = .minuseq
      ∨ t.type = .fslasheq)) :
    Parser.parse_stmt (f + 1) p
      = .error (.diag p.m_srcName i.line (i.col + 1) "Invalid set statement") := by
  have hp1 : (p.advance 1).rest = t :: rest := by
    rw [Parser.rest_advance, hr]; rfl
  rw [Parser.parse_stmt]
  simp only [Parser.peek_zero, Parser.peek_one, hr, List.head?_cons, hi,
    List.getElem?_cons_succ, List.getElem?_cons_zero, Option.map_some', Option.isSome_some,
    and_self, if_true, reduceCtorEq, false_and, if_false]
  simp only [Parser.parse_stmt_set]
  rw [Parser.consume_cons p i _ hr]
  simp only [Parser.peek_zero, hp1, List.head?_cons]
  rw [if_neg ht]
  simp only
  rw [Parser.error_default p i _ _ hr]

/-- An identifier, an assignment operator, tokens that `parse_expr` parses as `e`, and `;`
are parsed by `parse_stmt` as the `Set` statement of the operator, whatever follows the
`;`. -/
theorem parse_stmt_set_semi (i op s : Token) (E tail : List Token) (e : NodeExpr)
    (p : Parser) (f : Nat) (hi : i.type = .ident)
    (hop : op.type = .eq ∨ op.type = .pluseq ∨ op.type = .minuseq
      ∨ op.type = .stareq ∨ op.type = .fslasheq)
    (hsm : s.type = .semi) (hE : ExprParses E e)
    (hr : p.rest = (i :: op :: E ++ [s]) ++ tail) (hf : 2 * p.rest.length + 3 ≤ f) :
    Parser.parse_stmt f p
      = .ok (some (.set (set_node op.type i e)), p.advance (i :: op :: E ++ [s]).length) := by
  obtain ⟨f1, rfl⟩ : ∃ f1, f = f1 + 1 := ⟨f - 1, by omega⟩
  have hr' : p.rest = i :: op :: (E ++ (s :: tail)) := by simpa using hr
  have hlen : p.rest.length = 2 + E.length + 1 + tail.length := by rw [hr']; simp; omega
  have hp3 : (((p.advance 1).advance 1).advance E.length).rest = s :: tail := by
    apply Parser.rest_advance_append
    rw [Parser.rest_advance, Parser.rest_advance, hr']; rfl
  rw [Parser.parse_stmt]
  simp only [Parser.peek_zero, Parser.peek_one, hr', List.head?_cons, hi,
    List.getElem?_cons_succ, List.getElem?_cons_zero, Option.map_some', Option.isSome_some,
    and_self, if_true, reduceCtorEq, false_and, if_false]
  rw [parse_stmt_set_ok i op E (s :: tail) e p f1 hop hE
    (stop_tail_cons s _ (by simp [hsm, bin_prec])) hr' (by omega)]
  simp only
  rw [Parser.try_consume_err_hit _ s _ .semi _ _ _ hp3 hsm]
  simp only [Parser.advance_advance, List.length_cons, List.length_append, List.length_nil]
  congr 3
  omega

/-- C29: for every token list that starts with an identifier `i`, an operator `op` among
`= += -= *= /=`, tokens `E` that `parse_expr` parses as `e`, and `;`, whatever tokens follow
the `;` (none, a statement, a stray `else`), `parse_stmt` returns, with fuel for the tokens,
the `Set` statement with target `i` and expression `e` whose variant is that of `op`:
`SetExpr` for `=`, `SetAdd` for `+=`, `SetSub` for `-=`, `SetMulti` for `*=`, `SetDiv` for
`/=`; it has then consumed the tokens up to and including the `;` and nothing more.  When
the token after the identifier is none of the five operators, `parse_stmt` halts with the
diagnostic `Invalid set statement`, at the line of the identifier and one column past
it. -/
theorem C29_set_statement_parsed :
    (∀ (i op s : Token) (E tail : List Token) (e : NodeExpr) (p : Parser) (f : Nat),
      i.type = .ident → s.type = .semi → ExprParses E e →
      p.rest = (i :: op :: E ++ [s]) ++ tail → 2 * p.rest.length + 3 ≤ f →
      (op.type = .eq → Parser.parse_stmt f p
          = .ok (some (.set (.set_expr i e)), p.advance (E.length + 3)))
      ∧ (op.type = .pluseq → Parser.parse_stmt f p
          = .ok (some (.set (.set_add i e)), p.advance (E.length + 3)))
      ∧ (op.type = .minuseq → Parser.parse_stmt f p
          = .ok (some (.set (.set_sub i e)), p.advance (E.length + 3)))
      ∧ (op.type = .stareq → Parser.parse_stmt f p
          = .ok (some (.set (.set_multi i e)), p.advance (E.length + 3)))
      ∧ (op.type = .fslasheq → Parser.parse_stmt f p
          = .ok (some (.set (.set_div i e)), p.advance (E.length + 3))))
    ∧ (∀ (f : Nat) (p : Parser) (i t : Token) (rest : List Token),
      p.rest = i :: t :: rest → i.type = .ident →
      ¬ (t.type = .eq ∨ t.type = .pluseq ∨ t.type = .stareq ∨ t.type = .minuseq
        ∨ t.type = .fslasheq) →
      Parser.parse_stmt (f + 1) p
        = .error (.diag p.m_srcName i.line (i.col + 1) "Invalid set statement")) := by
  refine ⟨?_, fun f p i t rest hr hi ht => parse_stmt_set_invalid f p i t rest hr hi ht⟩
  intro i op s E tail e p f hi hs hE hr hf
  have hlen : (i :: op :: E ++ [s]).length = E.length + 3 := by simp
  refine ⟨?_, ?_, ?_, ?_, ?_⟩
  · intro h
    have := parse_stmt_set_semi i op s E tail e p f hi (Or.inl h) hs hE hr hf
    rw [hlen] at this
    simpa [set_node, h] using this
  · intro h
    have := parse_stmt_set_semi i op s E tail e p f hi (Or.inr (Or.inl h)) hs hE hr hf
    rw [hlen] at this
    simpa [set_node, h] using this
  · intro h
    have := parse_stmt_set_semi i op s E tail e p f hi (Or.inr (Or.inr (Or.inl h))) hs hE hr hf
    rw [hlen] at this
    simpa [set_node, h] using this
  · intro h
    have := parse_stmt_set_semi i op s E tail e p f hi (Or.inr (Or.inr (Or.inr (Or.inl h))))
      hs hE hr hf
    rw [hlen] at this
    simpa [set_node, h] using this
  · intro h
    have := parse_stmt_set_semi i op s E tail e p f hi (Or.inr (Or.inr (Or.inr (Or.inr h))))
      hs hE hr hf
    rw [hlen] at this
    simpa [set_node, h] using this

/-- A single integer literal is parsed as itself. -/
theorem expr_parses_int_lit (t : Token) (h : t.type = .int_lit) :
    ExprParses [t] (.term (.int_lit t)) :=
  expr_parses_of_chain [t] (.int_lit t) [] [] (term_parses_int_lit t h) ChainToks.nil

/-- A single identifier is parsed as itself. -/
theorem expr_parses_ident (t : Token) (h : t.type = .ident) :
    ExprParses [t] (.term (.ident t)) :=
  expr_parses_of_chain [t] (.ident t) [] [] (term_parses_ident t h) ChainToks.nil

/-- C29 at `x += 2;` with nothing after it, at `x = 1;` followed by a stray `else`, and at
`x 2`, where `parse_stmt` halts. -/
theorem C29_set_statement_parsed_witness :
    ((tok_ident "x").type = .ident ∧ (tok .semi).type = .semi
      ∧ ExprParses [tok_int "2"] (e_int "2") ∧ (tok .pluseq).type = .pluseq
      ∧ Parser.parse_stmt 11 ⟨"m.l", [tok_ident "x", tok .pluseq, tok_int "2", tok .semi], 0⟩
        = .ok (some (.set (.set_add (tok_ident "x") (e_int "2"))),
            ⟨"m.l", [tok_ident "x", tok .pluseq, tok_int "2", tok .semi], 4⟩))
    ∧ ((tok .eq).type = .eq
      ∧ Parser.parse_stmt 13
          ⟨"m.l", [tok_ident "x", tok .eq, tok_int "1", tok .semi, tok .else_], 0⟩
        = .ok (some (.set (.set_expr (tok_ident "x") (e_int "1"))),
            ⟨"m.l", [tok_ident "x", tok .eq, tok_int "1", tok .semi, tok .else_], 4⟩))
    ∧ ((⟨"m.l", [tok_ident "x", tok_int "2"], 0⟩ : Parser).rest = [tok_ident "x", tok_int "2"]
      ∧ ¬ ((tok_int "2").type = .eq ∨ (tok_int "2").type = .pluseq
        ∨ (tok_int "2").type = .stareq ∨ (tok_int "2").type = .minuseq
        ∨ (tok_int "2").type = .fslasheq)
      ∧ Parser.parse_stmt 1 ⟨"m.l", [tok_ident "x", tok_int "2"], 0⟩
        = .error (.diag "m.l" 1 2 "Invalid set statement")) :=
  ⟨⟨rfl, rfl, expr_parses_int_lit _ rfl, rfl,
    (C29_set_statement_parsed.1 (tok_ident "x") (tok .pluseq) (tok .semi) [tok_int "2"] []
      (e_int "2") ⟨"m.l", [tok_ident "x", tok .pluseq, tok_int "2", tok .semi], 0⟩ 11
      rfl rfl (expr_parses_int_lit _ rfl) rfl (by decide)).2.1 rfl⟩,
   ⟨rfl,
    (C29_set_statement_parsed.1 (tok_ident "x") (tok .eq) (tok .semi) [tok_int "1"]
      [tok .else_] (e_int "1")
      ⟨"m.l", [tok_ident "x", tok .eq, tok_int "1", tok .semi, tok .else_], 0⟩ 13
      rfl rfl (expr_parses_int_lit _ rfl) rfl (by decide)).1 rfl⟩,
   ⟨rfl, by decide,
    C29_set_statement_parsed.2 0 ⟨"m.l", [tok_ident "x", tok_int "2"], 0⟩ (tok_ident "x")
      (tok_int "2") [] rfl rfl (by decide)⟩⟩

/-! ## C30: `parse_if_pred` -/

theorem parse_if_pred_no_else (f : Nat) (p : Parser)
    (h : ∀ t, p.peek 0 = some t → t.type ≠ .else_) :
    Parser.parse_if_pred (f + 1) p = .ok (none, p) := by
  rw [Parser.parse_if_pred]
  cases hp : p.peek 0 with
  | none => simp only [Parser.try_consume, hp]
  | some t => simp only [Parser.try_consume, hp, if_neg (h t hp)]

theorem else_chain_parses (P : List Token) (cl : List (Option NodeExpr × NodeScope))
    (h : ElseChain P cl) :
    ∃ pr, PredParses P pr ∧ pred_clauses_opt pr = cl ∧ pred_depth_opt pr = cl.length := by
  induction h with
  | nil => exact ⟨none, pred_parses_none, rfl, rfl⟩
  | else_if el k o c E SC PR e sc cl hel hk ho hc hE hS _ ih =>
    obtain ⟨pr, h1, h2, h3⟩ := ih
    refine ⟨some (.else_if e sc pr), pred_parses_else_if el k o c E SC PR e sc pr hel hk ho hc
      hE hS h1, ?_, ?_⟩
    · simp only [pred_clauses_opt, pred_clauses, h2]
    · simp only [pred_depth_opt, pred_depth, h3, List.length_cons]
  | else_ el SC sc hel hhead hS =>
    exact ⟨some (.else_ sc), pred_parses_else el SC sc hel hhead hS, rfl, rfl⟩

/-- C30: `parse_if_pred` returns no clause and consumes no token when the next token is not
`else` (or there is none); on `else if ( E ) SC PR`, where `parse_expr` parses `E` as `e`,
`parse_scope` parses `SC` as `sc` and `parse_if_pred` parses `PR` as `pr`, it returns the
`ElseIf` holding `e`, `sc` and `pr`; on `else SC` it returns the `Else` holding `sc`.  Hence
the clause parsed from a chain holds the clauses of the chain in source order, nested as
deep as the chain has `else` keywords, and `parse_stmt` puts it into the `If` node. -/
theorem C30_if_pred_chain :
    (∀ (f : Nat) (p : Parser), (∀ t, p.peek 0 = some t → t.type ≠ .else_) →
      Parser.parse_if_pred (f + 1) p = .ok (none, p))
    ∧ (∀ (el k o c : Token) (E SC PR : List Token) (e : NodeExpr) (sc : NodeScope)
        (pr : Option NodeIfPred), el.type = .else_ → k.type = .if_ → o.type = .open_paren →
      c.type = .close_paren → ExprParses E e → ScopeParses SC sc → PredParses PR pr →
      PredParses (el :: k :: o :: E ++ c :: SC ++ PR) (some (.else_if e sc pr)))
    ∧ (∀ (el : Token) (SC : List Token) (sc : NodeScope), el.type = .else_ →
      (∃ t r, SC = t :: r ∧ t.type = .open_curly) → ScopeParses SC sc →
      PredParses (el :: SC) (some (.else_ sc)))
    ∧ (∀ (P : List Token) (cl : List (Option NodeExpr × NodeScope)), ElseChain P cl →
      ∃ pr, PredParses P pr ∧ pred_clauses_opt pr = cl ∧ pred_depth_opt pr = cl.length)
    ∧ (∀ (k o c : Token) (E SC PR : List Token) (e : NodeExpr) (sc : NodeScope)
        (cl : List (Option NodeExpr × NodeScope)), k.type = .if_ → o.type = .open_paren →
      c.type = .close_paren → ExprParses E e → ScopeParses SC sc → ElseChain PR cl →
      ∃ pr, StmtParses (k :: o :: E ++ c :: SC ++ PR) (.if_ e sc pr)
        ∧ pred_clauses_opt pr = cl ∧ pred_depth_opt pr = cl.length) := by
  refine ⟨parse_if_pred_no_else, pred_parses_else_if, pred_parses_else, else_chain_parses, ?_⟩
  intro k o c E SC PR e sc cl hk ho hc hE hS hP
  obtain ⟨pr, h1, h2, h3⟩ := else_chain_parses PR cl hP
  exact ⟨pr, stmt_parses_if k o c E SC PR e sc pr hk ho hc hE hS h1, h2, h3⟩

theorem scope_parses_empty : ScopeParses [tok .open_curly, tok .close_curly] (.mk []) :=
  scope_parses (tok .open_curly) (tok .close_curly) [] [] rfl rfl List.Forall₂.nil

theorem else_chain_example :
    ElseChain toks_else_chain [(some (e_var "x"), .mk []), (none, .mk [])] :=
  ElseChain.else_if (tok .else_) (tok .if_) (tok .open_paren) (tok .close_paren)
    [tok_ident "x"] [tok .open_curly, tok .close_curly]
    [tok .else_, tok .open_curly, tok .close_curly] (e_var "x") (.mk []) [(none, .mk [])]
    rfl rfl rfl rfl (expr_parses_ident _ rfl) scope_parses_empty
    (ElseChain.else_ (tok .else_) [tok .open_curly, tok .close_curly] (.mk []) rfl
      ⟨_, _, rfl, rfl⟩ scope_parses_empty)

/-- C30 at `;`, where no clause is returned and nothing is consumed, and at
`else if (x) { } else { }`, a chain with two `else` keywords, parsed as a clause of
depth 2. -/
theorem C30_if_pred_chain_witness :
    ((∀ t, (⟨"m.l", [tok .semi], 0⟩ : Parser).peek 0 = some t → t.type ≠ .else_)
      ∧ Parser.parse_if_pred 1 ⟨"m.l", [tok .semi], 0⟩
          = .ok (none, ⟨"m.l", [tok .semi], 0⟩))
    ∧ ElseChain toks_else_chain [(some (e_var "x"), .mk []), (none, .mk [])]
    ∧ (∃ pr, PredParses toks_else_chain pr
        ∧ pred_clauses_opt pr = [(some (e_var "x"), .mk []), (none, .mk [])]
        ∧ pred_depth_opt pr = [(some (e_var "x"), NodeScope.mk []), (none, .mk [])].length)
    ∧ Parser.parse_if_pred 31 ⟨"m.l", toks_else_chain, 0⟩
        = .ok (some (.else_if (e_var "x") (.mk []) (some (.else_ (.mk [])))),
            ⟨"m.l", toks_else_chain, 10⟩) :=
  have h0 : ∀ t, (⟨"m.l", [tok .semi], 0⟩ : Parser).peek 0 = some t → t.type ≠ .else_ := by
    intro t ht
    have : t = tok .semi := by
      have h : (⟨"m.l", [tok .semi], 0⟩ : Parser).peek 0 = some (tok .semi) := rfl
      rw [h] at ht
      exact (Option.some.inj ht).symm
    rw [this]
    decide
  ⟨⟨h0, C30_if_pred_chain.1 0 ⟨"m.l", [tok .semi], 0⟩ h0⟩, else_chain_example,
    C30_if_pred_chain.2.2.2.1 toks_else_chain _ else_chain_example,
    C30_if_pred_chain.2.1 (tok .else_) (tok .if_) (tok .open_paren) (tok .close_paren)
      [tok_ident "x"] [tok .open_curly, tok .close_curly]
      [tok .else_, tok .open_curly, tok .close_curly] (e_var "x") (.mk [])
      (some (.else_ (.mk []))) rfl rfl rfl rfl (expr_parses_ident _ rfl) scope_parses_empty
      (C30_if_pred_chain.2.2.1 (tok .else_) [tok .open_curly, tok .close_curly] (.mk []) rfl
        ⟨_, _, rfl, rfl⟩ scope_parses_empty)
      ⟨"m.l", toks_else_chain, 0⟩ [] 31 (fun _ _ h => by simp at h) rfl (by decide)⟩

/-! ## The parser moves forward inside the token list -/

theorem Parser.frame_refl (p : Parser) : p.Frame p := ⟨rfl, rfl, le_refl _, fun h => h⟩

theorem Parser.frame_trans (p q r : Parser) (h1 : p.Frame q) (h2 : q.Frame r) : p.Frame r := by
  obtain ⟨a1, a2, a3, a4⟩ := h1
  obtain ⟨b1, b2, b3, b4⟩ := h2
  refine ⟨by rw [b1, a1], by rw [b2, a2], by omega, fun h => ?_⟩
  have := a4 h
  rw [a2] at b4
  exact b4 this

theorem Parser.consume_frame (p p' : Parser) (t : Token) (h : p.consume = .ok (t, p')) :
    p.Frame p' ∧ p' = p.advance 1 ∧ p.m_tokens[p.m_index]? = some t := by
  unfold Parser.consume at h
  cases hg : p.m_tokens[p.m_index]? with
  | none => rw [hg] at h; simp at h
  | some u =>
    rw [hg] at h
    simp only [Except.ok.injEq, Prod.mk.injEq] at h
    obtain ⟨h1, h2⟩ := h
    subst h1 h2
    have hlt : p.m_index < p.m_tokens.length := by
      by_contra hc
      rw [List.getElem?_eq_none (by omega)] at hg
      exact absurd hg (by simp)
    exact ⟨⟨rfl, rfl, Nat.le_succ _, fun _ => hlt⟩, rfl, rfl⟩

theorem Parser.try_consume_frame (p p' : Parser) (type : TokenType) (r : Option Token)
    (h : p.try_consume type = .ok (r, p')) : p.Frame p' := by
  unfold Parser.try_consume at h
  cases hp : p.peek 0 with
  | none =>
    rw [hp] at h
    simp only [Except.ok.injEq, Prod.mk.injEq] at h
    rw [← h.2]
    exact p.frame_refl
  | some t =>
    rw [hp] at h
    simp only at h
    by_cases ht : t.type = type
    · rw [if_pos ht] at h
      cases hc : p.consume with
      | error e => rw [hc] at h; simp at h
      | ok x =>
        obtain ⟨u, q⟩ := x
        rw [hc] at h
        simp only [Except.ok.injEq, Prod.mk.injEq] at h
        rw [← h.2]
        exact (Parser.consume_frame p q u hc).1
    · rw [if_neg ht] at h
      simp only [Except.ok.injEq, Prod.mk.injEq] at h
      rw [← h.2]
      exact p.frame_refl

theorem Parser.try_consume_err_frame (p p' : Parser) (type : TokenType) (msg : String)
    (line col : Int) (t : Token) (h : p.try_consume_err type msg line col = .ok (t, p')) :
    p.Frame p' := by
  unfold Parser.try_consume_err at h
  cases hp : p.peek 0 with
  | none => rw [hp] at h; simp at h
  | some u =>
    rw [hp] at h
    simp only at h
    by_cases ht : u.type = type
    · rw [if_pos ht] at h
      exact (Parser.consume_frame p p' t h).1
    · rw [if_neg ht] at h
      simp at h

/-- Whatever `parse_term`, `parse_expr` and the operator loop return, they leave the parser
moved forward inside the same token list. -/
theorem parse_expr_frame : ∀ f : Nat,
    (∀ (p p' : Parser) (r : Option NodeTerm), Parser.parse_term f p = .ok (r, p') → p.Frame p')
    ∧ (∀ (mp : Int) (p p' : Parser) (r : Option NodeExpr),
        Parser.parse_expr f mp p = .ok (r, p') → p.Frame p')
    ∧ (∀ (mp : Int) (lhs : NodeExpr) (p p' : Parser) (r : Option NodeExpr),
        Parser.parse_expr_loop f mp lhs p = .ok (r, p') → p.Frame p') := by
  intro f
  induction f with
  | zero =>
    refine ⟨?_, ?_, ?_⟩
    · intro p p' r h; simp [Parser.parse_term] at h
    · intro mp p p' r h; simp [Parser.parse_expr] at h
    · intro mp lhs p p' r h; simp [Parser.parse_expr_loop] at h
  | succ f ih =>
    obtain ⟨ih1, ih2, ih3⟩ := ih
    refine ⟨?_, ?_, ?_⟩
    · intro p p' r h
      rw [parse_term_succ] at h
      cases h1 : p.try_consume .int_lit with
      | error e => rw [h1] at h; simp at h
      | ok x1 =>
        obtain ⟨r1, p1⟩ := x1
        have f1 := Parser.try_consume_frame p p1 _ r1 h1
        rw [h1] at h
        cases r1 with
        | some t =>
          simp only [Except.ok.injEq, Prod.mk.injEq] at h
          rw [← h.2]; exact f1
        | none =>
          simp only at h
          cases h2 : p1.try_consume .ident with
          | error e => rw [h2] at h; simp at h
          | ok x2 =>
            obtain ⟨r2, p2⟩ := x2
            have f2 := Parser.frame_trans _ _ _ f1 (Parser.try_consume_frame p1 p2 _ r2 h2)
            rw [h2] at h
            cases r2 with
            | some t =>
              simp only [Except.ok.injEq, Prod.mk.injEq] at h
              rw [← h.2]; exact f2
            | none =>
              simp only at h
              cases h3 : p2.try_consume .open_paren with
              | error e => rw [h3] at h; simp at h
              | ok x3 =>
                obtain ⟨r3, p3⟩ := x3
                have f3 := Parser.frame_trans _ _ _ f2
                  (Parser.try_consume_frame p2 p3 _ r3 h3)
                rw [h3] at h
                cases r3 with
                | none =>
                  simp only [Except.ok.injEq, Prod.mk.injEq] at h
                  rw [← h.2]; exact f3
                | some o =>
                  simp only at h
                  cases h4 : Parser.parse_expr f 0 p3 with
                  | error e => rw [h4] at h; simp at h
                  | ok x4 =>
                    obtain ⟨r4, p4⟩ := x4
                    have f4 := Parser.frame_trans _ _ _ f3 (ih2 0 p3 p4 r4 h4)
                    rw [h4] at h
                    cases r4 with
                    | none => simp at h
                    | some e =>
                      simp only at h
                      cases h5 : p4.try_consume_err .close_paren "Expected ')'" o.line (-1) with
                      | error e => rw [h5] at h; simp at h
                      | ok x5 =>
                        obtain ⟨t5, p5⟩ := x5
                        rw [h5] at h
                        simp only [Except.ok.injEq, Prod.mk.injEq] at h
                        rw [← h.2]
                        exact Parser.frame_trans _ _ _ f4
                          (Parser.try_consume_err_frame p4 p5 _ _ _ _ t5 h5)
    · intro mp p p' r h
      rw [parse_expr_succ] at h
      cases h1 : Parser.parse_term f p with
      | error e => rw [h1] at h; simp at h
      | ok x1 =>
        obtain ⟨r1, p1⟩ := x1
        have f1 := ih1 p p1 r1 h1
        rw [h1] at h
        cases r1 with
        | none =>
          simp only [Except.ok.injEq, Prod.mk.injEq] at h
          rw [← h.2]; exact f1
        | some t =>
          simp only at h
          exact Parser.frame_trans _ _ _ f1 (ih3 mp _ p1 p' r h)
    · intro mp lhs p p' r h
      rw [parse_expr_loop_succ] at h
      cases hp : p.peek 0 with
      | none =>
        rw [hp] at h
        simp only [Except.ok.injEq, Prod.mk.injEq] at h
        rw [← h.2]; exact p.frame_refl
      | some t =>
        rw [hp] at h
        simp only at h
        cases hb : bin_prec t.type with
        | none =>
          rw [hb] at h
          simp only [Except.ok.injEq, Prod.mk.injEq] at h
          rw [← h.2]; exact p.frame_refl
        | some prec =>
          rw [hb] at h
          simp only at h
          by_cases hlt : prec < mp
          · rw [if_pos hlt] at h
            simp only [Except.ok.injEq, Prod.mk.injEq] at h
            rw [← h.2]; exact p.frame_refl
          · rw [if_neg hlt] at h
            cases hc : p.consume with
            | error e => rw [hc] at h; simp at h
            | ok x1 =>
              obtain ⟨op, p1⟩ := x1
              have f1 := (Parser.consume_frame p p1 op hc).1
              rw [hc] at h
              simp only at h
              cases h2 : Parser.parse_expr f (prec + 1) p1 with
              | error e => rw [h2] at h; simp at h
              | ok x2 =>
                obtain ⟨r2, p2⟩ := x2
                have f2 := Parser.frame_trans _ _ _ f1 (ih2 _ p1 p2 r2 h2)
                rw [h2] at h
                cases r2 with
                | none => simp at h
                | some rhs =>
                  simp only at h
                  cases hm : mk_bin_expr op.type lhs rhs with
                  | none => rw [hm] at h; simp at h
                  | some e =>
                    rw [hm] at h
                    simp only at h
                    exact Parser.frame_trans _ _ _ f2 (ih3 mp e p2 p' r h)

/-! ## C24: a parenthesis that is not closed -/

theorem Parser.peek_zero_lt (p : Parser) (t : Token) (h : p.peek 0 = some t) :
    p.m_index < p.m_tokens.length ∧ p.m_tokens[p.m_index]? = some t := by
  have h' : p.m_tokens[p.m_index + 0]? = some t := h
  rw [Nat.add_zero] at h'
  refine ⟨?_, h'⟩
  by_contra hc
  rw [List.getElem?_eq_none (by omega)] at h'
  exact absurd h' (by simp)

theorem Parser.consume_of_peek (p : Parser) (t : Token) (h : p.peek 0 = some t) :
    p.consume = .ok (t, p.advance 1) := by
  unfold Parser.consume
  rw [(Parser.peek_zero_lt p t h).2]
  rfl

/-- After at least one token has been consumed inside the token list, `peek(-1)` has a
value. -/
theorem Parser.peek_prev_some (p : Parser) (h1 : 0 < p.m_index)
    (h2 : p.m_index ≤ p.m_tokens.length) : ∃ prev, p.peek (-1) = some prev := by
  have hlt : p.m_index - 1 < p.m_tokens.length := by omega
  refine ⟨p.m_tokens[p.m_index - 1], ?_⟩
  show (if 0 < p.m_index then p.m_tokens[p.m_index - (0 + 1)]? else none) = _
  rw [if_pos h1, Nat.zero_add, List.getElem?_eq_getElem hlt]

/-- C24: when `parse_term` stands on a `(` token `o` (recorded at a line other than the
`-1` by which `error` knows a missing argument: lines are 1 or more), `parse_expr` parses
an expression after it, and the next token is absent or is not `)`, `parse_term` halts
with the diagnostic `Expected ')'`, whose line is the line of `o`, whatever the lines of
the tokens of the expression, and whose column is one past that of the last token
consumed. -/
theorem C24_unclosed_paren_reported_at_open_line (f : Nat) (p p2 : Parser) (o : Token)
    (e : NodeExpr) (ho : p.peek 0 = some o) (hty : o.type = .open_paren)
    (hline : o.line ≠ -1)
    (he : Parser.parse_expr f 0 (p.advance 1) = .ok (some e, p2))
    (hc : ∀ t, p2.peek 0 = some t → t.type ≠ .close_paren) :
    ∃ prev, p2.peek (-1) = some prev
      ∧ Parser.parse_term (f + 1) p
          = .error (.diag p.m_srcName o.line (prev.col + 1) "Expected ')'")
      ∧ (Halt.diag p.m_srcName o.line (prev.col + 1) "Expected ')'").stderr
          = p.m_srcName ++ ":" ++ toString o.line ++ ":" ++ toString (prev.col + 1)
              ++ ": parse_error: Expected ')'\n" := by
  obtain ⟨hlt, _⟩ := Parser.peek_zero_lt p o ho
  obtain ⟨a1, a2, a3, a4⟩ := (parse_expr_frame f).2.1 0 (p.advance 1) p2 (some e) he
  have hidx : p.m_index + 1 ≤ p2.m_index := a3
  have hlen : p2.m_index ≤ p2.m_tokens.length := by
    rw [a2]
    exact a4 (by show p.m_index + 1 ≤ p.m_tokens.length; omega)
  obtain ⟨prev, hprev⟩ := Parser.peek_prev_some p2 (by omega) hlen
  have hname : p2.m_srcName = p.m_srcName := a1
  refine ⟨prev, hprev, ?_, ?_⟩
  · have h1 : p.try_consume .int_lit = .ok (none, p) := by
      simp only [Parser.try_consume, ho, hty, reduceCtorEq, if_false]
    have h2 : p.try_consume .ident = .ok (none, p) := by
      simp only [Parser.try_consume, ho, hty, reduceCtorEq, if_false]
    have h3 : p.try_consume .open_paren = .ok (some o, p.advance 1) := by
      simp only [Parser.try_consume, ho, hty, if_true, Parser.consume_of_peek p o ho]
    have h4 : p2.try_consume_err .close_paren "Expected ')'" o.line (-1)
        = .error (.diag p.m_srcName o.line (prev.col + 1) "Expected ')'") := by
      have herr : p2.error "Expected ')'" o.line (-1)
          = .diag p.m_srcName o.line (prev.col + 1) "Expected ')'" := by
        simp only [Parser.error, if_neg hline, if_true, hprev, Option.map_some', hname]
      unfold Parser.try_consume_err
      cases hp : p2.peek 0 with
      | none => simp only [herr]
      | some t => simp only [if_neg (hc t hp), herr]
    rw [parse_term_succ, h1]
    simp only
    rw [h2]
    simp only
    rw [h3]
    simp only
    rw [he]
    simp only
    rw [h4]
  · simp only [Halt.stderr, String.append_assoc]
    rfl

/-- C24 at the three lines `exit((`, `1 +`, `2;`: the inner `(` stands on line 1, the
expression `1 + 2` ends on line 3, and the diagnostic is `m.l:1:2: parse_error: Expected
')'`; `parse_prog` halts with it. -/
theorem C24_unclosed_paren_reported_at_open_line_witness :
    (⟨"m.l", toks_unclosed_paren, 2⟩ : Parser).peek 0 = some ⟨.open_paren, 1, 6, none⟩
    ∧ Parser.parse_expr 7 0 ((⟨"m.l", toks_unclosed_paren, 2⟩ : Parser).advance 1)
        = .ok (some (.bin_expr (.add (.term (.int_lit ⟨.int_lit, 2, 1, some "1"⟩))
            (.term (.int_lit ⟨.int_lit, 3, 1, some "2"⟩)))), ⟨"m.l", toks_unclosed_paren, 6⟩)
    ∧ (∀ t, (⟨"m.l", toks_unclosed_paren, 6⟩ : Parser).peek 0 = some t →
        t.type ≠ .close_paren)
    ∧ (∃ prev, (⟨"m.l", toks_unclosed_paren, 6⟩ : Parser).peek (-1) = some prev
      ∧ Parser.parse_term (7 + 1) ⟨"m.l", toks_unclosed_paren, 2⟩
          = .error (.diag "m.l" 1 (prev.col + 1) "Expected ')'")
      ∧ (Halt.diag "m.l" 1 (prev.col + 1) "Expected ')'").stderr
          = "m.l" ++ ":" ++ toString (1 : Int) ++ ":" ++ toString (prev.col + 1)
              ++ ": parse_error: Expected ')'\n")
    ∧ Parser.parse_prog 12 ⟨"m.l", toks_unclosed_paren, 0⟩
        = .error (.diag "m.l" 1 2 "Expected ')'") :=
  have hc : ∀ t, (⟨"m.l", toks_unclosed_paren, 6⟩ : Parser).peek 0 = some t →
      t.type ≠ .close_paren := by
    intro t ht
    have h : (⟨"m.l", toks_unclosed_paren, 6⟩ : Parser).peek 0 = some ⟨.semi, 3, 2, none⟩ :=
      rfl
    rw [h] at ht
    rw [← Option.some.inj ht]
    decide
  ⟨rfl, rfl, hc,
    C24_unclosed_paren_reported_at_open_line 7 ⟨"m.l", toks_unclosed_paren, 2⟩
      ⟨"m.l", toks_unclosed_paren, 6⟩ ⟨.open_paren, 1, 6, none⟩ _ rfl rfl (by decide) rfl hc,
    rfl⟩

/-! ## C22 and C23: diagnostics without a previous token, and the end of the token list -/

/-- On a token list that begins no statement form `parse_stmt` returns no statement and
consumes nothing. -/
theorem parse_stmt_none (f : Nat) (p : Parser) (h : starts_no_statement p.rest) :
    Parser.parse_stmt (f + 1) p = .ok (none, p) := by
  cases hr : p.rest with
  | nil => rw [hr] at h; exact absurd h (by simp [starts_no_statement])
  | cons t r =>
    rw [hr] at h
    obtain ⟨h1, h2, h3, h4, h5⟩ := h
    have hp0 : p.peek 0 = some t := by rw [Parser.peek_zero, hr]; rfl
    have hp1 : p.peek 1 = r[0]? := by rw [Parser.peek_one, hr, List.getElem?_cons_succ]
    have hp2 : p.peek 2 = r[1]? := by rw [Parser.peek_two, hr, List.getElem?_cons_succ]
    rw [Parser.parse_stmt]
    simp only [hp0, hp1, hp2, if_neg h1, if_neg h2, if_neg h3, if_neg h4]
    simp only [Parser.try_consume, hp0, if_neg h5]

/-- At the start of the token list `error` finds no previous token: an invalid first
statement ends the parser in `bad_optional_access`, with no diagnostic. -/
theorem parse_prog_invalid_first (f : Nat) (p : Parser) (h0 : p.m_index = 0)
    (h : starts_no_statement p.rest) :
    Parser.parse_prog (f + 2) p = .error .bad_optional_access := by
  have hp : ∃ t, p.peek 0 = some t := by
    rw [Parser.peek_zero]
    cases hr : p.rest with
    | nil => rw [hr] at h; exact absurd h (by simp [starts_no_statement])
    | cons t r => exact ⟨t, rfl⟩
  obtain ⟨t, hp⟩ := hp
  have hprev : p.peek (-1) = none := by
    show (if 0 < p.m_index then p.m_tokens[p.m_index - (0 + 1)]? else none) = none
    rw [if_neg (by omega)]
  simp only [Parser.parse_prog, Parser.parse_prog_loop, hp, parse_stmt_none f p h,
    Parser.error, if_true, hprev, Option.map_none']

/-- After the first token an invalid statement is reported as `Invalid statement`, at the
line of the previously consumed token and one column past it. -/
theorem parse_prog_loop_invalid_later (f : Nat) (stmts : List NodeStmt) (p : Parser)
    (prev : Token) (hprev : p.peek (-1) = some prev) (h : starts_no_statement p.rest) :
    Parser.parse_prog_loop (f + 2) stmts p
      = .error (.diag p.m_srcName prev.line (prev.col + 1) "Invalid statement") := by
  have hp : ∃ t, p.peek 0 = some t := by
    rw [Parser.peek_zero]
    cases hr : p.rest with
    | nil => rw [hr] at h; exact absurd h (by simp [starts_no_statement])
    | cons t r => exact ⟨t, rfl⟩
  obtain ⟨t, hp⟩ := hp
  simp only [Parser.parse_prog_loop, hp, parse_stmt_none f p h, Parser.error, if_true, hprev,
    Option.map_some']

/-- C22 fails at the source `;` (and at every invalid first statement): no token has been
consumed, `error` evaluates `peek(-1).value()` on an empty optional, and the parser ends in
`bad_optional_access` without the diagnostic `Invalid statement`.  The same happens for the
other first tokens the claim lists.  After `exit(1);` the second `;` is reported as the
claim says. -/
theorem C22_invalid_first_statement_not_reported :
    (∀ fuel, Parser.parse_prog (fuel + 2) ⟨"m.l", [⟨.semi, 1, 1, none⟩], 0⟩
      = .error .bad_optional_access)
    ∧ (∀ fuel, Parser.parse_prog (fuel + 2) ⟨"m.l", [⟨.close_paren, 1, 1, none⟩], 0⟩
      = .error .bad_optional_access)
    ∧ (∀ fuel, Parser.parse_prog (fuel + 2) ⟨"m.l", [⟨.close_curly, 1, 1, none⟩], 0⟩
      = .error .bad_optional_access)
    ∧ (∀ fuel, Parser.parse_prog (fuel + 2) ⟨"m.l", [⟨.else_, 1, 4, none⟩], 0⟩
      = .error .bad_optional_access)
    ∧ (∀ fuel, Parser.parse_prog (fuel + 2) ⟨"m.l", [⟨.int_lit, 1, 1, some "5"⟩], 0⟩
      = .error .bad_optional_access)
    ∧ (∀ fuel, Parser.parse_prog (fuel + 2)
        ⟨"m.l", [⟨._exit, 1, 4, none⟩, ⟨.semi, 1, 5, none⟩], 0⟩
      = .error .bad_optional_access)
    ∧ (∀ fuel, Parser.parse_prog (fuel + 2)
        ⟨"m.l", [⟨.let_, 1, 3, none⟩, ⟨.ident, 1, 5, some "x"⟩, ⟨.semi, 1, 6, none⟩], 0⟩
      = .error .bad_optional_access)
    ∧ (∀ fuel, Parser.parse_prog (fuel + 2) ⟨"m.l", [⟨.ident, 1, 1, some "x"⟩], 0⟩
      = .error .bad_optional_access)
    ∧ Parser.parse_prog 12
        ⟨"m.l", [⟨._exit, 1, 4, none⟩, ⟨.open_paren, 1, 5, none⟩, ⟨.int_lit, 1, 6, some "1"⟩,
          ⟨.close_paren, 1, 7, none⟩, ⟨.semi, 1, 8, none⟩, ⟨.semi, 2, 1, none⟩], 0⟩
      = .error (.diag "m.l" 1 9 "Invalid statement") := by
  refine ⟨?_, ?_, ?_, ?_, ?_, ?_, ?_, ?_, rfl⟩ <;> intro fuel <;>
    exact parse_prog_invalid_first fuel _ rfl (by
      simp [starts_no_statement, Parser.rest])

/-- C23 fails at the source `{` (a scope that is never closed): `parse_scope` calls
`parse_stmt` at the end of the token list, whose first test evaluates `peek().value()` on an
empty optional, and the parser ends in `bad_optional_access` having reported nothing.  At
the source `;` it is `error` that evaluates `peek(-1).value()` on an empty optional. -/
theorem C23_reads_token_that_is_not_there :
    (∀ fuel, Parser.parse_prog (fuel + 5) ⟨"m.l", [⟨.open_curly, 1, 1, none⟩], 0⟩
      = .error .bad_optional_access)
    ∧ (∀ fuel, Parser.parse_prog (fuel + 7)
        ⟨"m.l", [⟨.open_curly, 1, 1, none⟩, ⟨.ident, 1, 3, some "x"⟩, ⟨.eq, 1, 5, none⟩,
          ⟨.int_lit, 1, 7, some "1"⟩, ⟨.semi, 1, 8, none⟩], 0⟩
      = .error .bad_optional_access)
    ∧ (∀ fuel, Parser.parse_prog (fuel + 2) ⟨"m.l", [⟨.semi, 1, 1, none⟩], 0⟩
      = .error .bad_optional_access)
    ∧ (Halt.bad_optional_access).stderr = "" := by
  refine ⟨?_, ?_, ?_, rfl⟩
  · intro fuel
    simp [Parser.parse_prog, Parser.parse_prog_loop, Parser.parse_stmt, Parser.parse_scope,
      Parser.parse_scope_loop, Parser.peek, Parser.try_consume, Parser.consume]
  · intro fuel
    simp [Parser.parse_prog, Parser.parse_prog_loop, Parser.parse_stmt, Parser.parse_scope,
      Parser.parse_scope_loop, Parser.peek, Parser.try_consume, Parser.consume,
      Parser.parse_stmt_set, Parser.parse_expr, Parser.parse_term, Parser.parse_expr_loop,
      Parser.try_consume_err, bin_prec]
  · intro fuel
    exact parse_prog_invalid_first fuel _ rfl (by simp [starts_no_statement, Parser.rest])

/-! ## C25: the messages of the generator -/

theorem gen_expr_halt (e : NodeExpr) :
    ∀ (g : GeneratorWin) (x : GenHalt × GeneratorWin), g.gen_expr e = .error x →
      GenHalt.bare x := by
  induction e using NodeExpr.induction_on with
  | h_int t =>
    intro g x h
    rw [gen_expr_int_lit] at h
    cases hv : t.value with
    | none =>
      rw [hv] at h
      simp only [Except.error.injEq] at h
      subst h
      trivial
    | some v => rw [hv] at h; simp at h
  | h_ident t =>
    intro g x h
    rw [gen_expr_ident] at h
    cases hv : t.value with
    | none =>
      rw [hv] at h
      simp only [Except.error.injEq] at h
      subst h
      trivial
    | some name =>
      rw [hv] at h
      simp only at h
      cases hf : g.find_var name with
      | none =>
        rw [hf] at h
        simp only [Except.error.injEq] at h
        subst h
        exact ⟨name, Or.inl ⟨rfl, hf⟩⟩
      | some it => rw [hf] at h; simp at h
  | h_paren e ih =>
    intro g x h
    rw [gen_expr_paren] at h
    exact ih g x h
  | h_bin b ihl ihr =>
    intro g x h
    rw [gen_expr_bin] at h
    cases h1 : g.gen_expr b.rhs with
    | error y =>
      rw [h1] at h
      simp only [Except.error.injEq] at h
      subst h
      exact ihr g y h1
    | ok g1 =>
      rw [h1] at h
      simp only at h
      cases h2 : g1.gen_expr b.lhs with
      | error y =>
        rw [h2] at h
        simp only [Except.error.injEq] at h
        subst h
        exact ihl g1 y h2
      | ok g2 => rw [h2] at h; simp at h

theorem gen_stmt_set_halt (s : NodeStmtSet) (g : GeneratorWin) (x : GenHalt × GeneratorWin)
    (h : g.gen_stmt_set s = .error x) : GenHalt.bare x := by
  cases s with
  | set_expr ident expr | set_add ident expr | set_multi ident expr | set_sub ident expr
  | set_div ident expr =>
    simp only [GeneratorWin.gen_stmt_set] at h
    cases hv : ident.value with
    | none =>
      rw [hv] at h
      simp only [Except.error.injEq] at h
      subst h
      trivial
    | some name =>
      rw [hv] at h
      simp only at h
      cases hf : g.find_var name with
      | none =>
        rw [hf] at h
        simp only [Except.error.injEq] at h
        subst h
        exact ⟨name, Or.inl ⟨rfl, hf⟩⟩
      | some it =>
        rw [hf] at h
        simp only at h
        cases h1 : g.gen_expr expr with
        | error y =>
          rw [h1] at h
          simp only [Except.error.injEq] at h
          subst h
          exact gen_expr_halt expr g y h1
        | ok g1 => rw [h1] at h; simp at h

theorem end_scope_halt (g : GeneratorWin) (x : GenHalt × GeneratorWin)
    (h : g.end_scope = .error x) : GenHalt.bare x := by
  unfold GeneratorWin.end_scope at h
  cases hl : g.m_scopes.getLast? with
  | none =>
    rw [hl] at h
    simp only [Except.error.injEq] at h
    subst h
    trivial
  | some back =>
    rw [hl] at h
    simp only at h
    split_ifs at h
    simp only [Except.error.injEq] at h
    subst h
    trivial

mutual
theorem gen_stmt_halt : ∀ (s : NodeStmt) (g : GeneratorWin) (x : GenHalt × GeneratorWin),
    g.gen_stmt s = .error x → GenHalt.bare x
  | .exit expr, g, x, h => by
    simp only [GeneratorWin.gen_stmt] at h
    cases h1 : g.gen_expr expr with
    | error y =>
      rw [h1] at h
      simp only [Except.error.injEq] at h
      subst h
      exact gen_expr_halt expr g y h1
    | ok g1 => rw [h1] at h; simp at h
  | .let_ ident expr, g, x, h => by
    simp only [GeneratorWin.gen_stmt] at h
    cases hv : ident.value with
    | none =>
      rw [hv] at h
      simp only [Except.error.injEq] at h
      subst h
      trivial
    | some name =>
      rw [hv] at h
      simp only at h
      cases hf : g.find_var name with
      | some it =>
        rw [hf] at h
        simp only [Except.error.injEq] at h
        subst h
        exact ⟨name, Or.inr ⟨rfl, by rw [hf]; rfl⟩⟩
      | none =>
        rw [hf] at h
        exact gen_expr_halt expr _ x h
  | .set s, g, x, h => by
    simp only [GeneratorWin.gen_stmt] at h
    exact gen_stmt_set_halt s g x h
  | .scope sc, g, x, h => by
    simp only [GeneratorWin.gen_stmt] at h
    exact gen_scope_halt sc g x h
  | .if_ expr sc pred, g, x, h => by
    simp only [GeneratorWin.gen_stmt] at h
    cases h1 : g.gen_expr expr with
    | error y =>
      rw [h1] at h
      simp only [Except.error.injEq] at h
      subst h
      exact gen_expr_halt expr g y h1
    | ok g1 =>
      simp only [h1] at h
      simp only [GeneratorWin.create_label] at h
      generalize hg2 : (GeneratorWin.emit _ (Instr.jz _)) = g2 at h
      cases h2 : g2.gen_scope sc with
      | error y =>
        rw [h2] at h
        simp only [Except.error.injEq] at h
        subst h
        exact gen_scope_halt sc g2 y h2
      | ok g3 => rw [h2] at h; simp at h
theorem gen_scope_halt : ∀ (sc : NodeScope) (g : GeneratorWin) (x : GenHalt × GeneratorWin),
    g.gen_scope sc = .error x → GenHalt.bare x
  | .mk stmts, g, x, h => by
    simp only [GeneratorWin.gen_scope] at h
    cases h1 : GeneratorWin.gen_stmts stmts g.begin_scope with
    | error y =>
      rw [h1] at h
      simp only [Except.error.injEq] at h
      subst h
      exact gen_stmts_halt stmts _ y h1
    | ok g1 =>
      rw [h1] at h
      exact end_scope_halt g1 x h
theorem gen_stmts_halt : ∀ (l : List NodeStmt) (g : GeneratorWin)
    (x : GenHalt × GeneratorWin), GeneratorWin.gen_stmts l g = .error x → GenHalt.bare x
  | [], g, x, h => by
    simp [GeneratorWin.gen_stmts] at h
  | s :: rest, g, x, h => by
    simp only [GeneratorWin.gen_stmts] at h
    cases h1 : g.gen_stmt s with
    | error y =>
      rw [h1] at h
      simp only [Except.error.injEq] at h
      subst h
      exact gen_stmt_halt s g y h1
    | ok g1 =>
      rw [h1] at h
      exact gen_stmts_halt rest g1 x h
end

/-- Every diagnostic in the format of the parser contains a colon. -/
theorem diag_stderr_has_colon (srcName : String) (line col : Int) (msg : String) :
    ':' ∈ (Halt.diag srcName line col msg).stderr.toList := by
  simp [Halt.stderr, String.toList]

/-- C25, as stated, fails: lowering `exit(x);` with `x` undeclared halts with the text
`Undeclared identifier used 'x'` on the error stream, and no diagnostic of the format
`<file>:<line>:<col>: parse_error: <message>` is that text (it contains no colon). -/
theorem C25_counterexample :
    GeneratorWin.gen_prog ⟨[.exit (e_var "x")]⟩
      = .error (.exit_failure "Undeclared identifier used 'x'\n", GeneratorWin.init.emit .header)
    ∧ ∀ (srcName : String) (line col : Int) (msg : String),
        (Halt.diag srcName line col msg).stderr ≠ "Undeclared identifier used 'x'\n" := by
  refine ⟨rfl, ?_⟩
  intro srcName line col msg h
  have h1 := diag_stderr_has_colon srcName line col msg
  rw [h] at h1
  exact absurd h1 (by decide)

/-- C25, amended: whenever `gen_prog` halts with `exit(EXIT_FAILURE)`, what it has written
to the error stream is one bare line, without file name, line, column or kind:
`Undeclared identifier used '<name>'` for a name that is not in `m_vars` at the halt, or
`Identifier already used: <name>` for a name that is. -/
theorem C25_generator_errors_are_bare_messages (prog : NodeProg) (text : String)
    (g : GeneratorWin) (h : GeneratorWin.gen_prog prog = .error (.exit_failure text, g)) :
    ∃ name, (text = "Undeclared identifier used '" ++ name ++ "'\n" ∧ g.find_var name = none)
      ∨ (text = "Identifier already used: " ++ name ++ "\n"
          ∧ (g.find_var name).isSome = true) := by
  simp only [GeneratorWin.gen_prog] at h
  cases h1 : GeneratorWin.gen_stmts prog.stmts (GeneratorWin.init.emit .header) with
  | error y =>
    rw [h1] at h
    simp only [Except.error.injEq] at h
    subst h
    exact gen_stmts_halt _ _ _ h1
  | ok g1 => rw [h1] at h; simp at h

/-- C25, amended, at `let x = 1; let x = 2;`. -/
theorem C25_generator_errors_are_bare_messages_witness :
    GeneratorWin.gen_prog prog_redeclare
      = .error (.exit_failure "Identifier already used: x\n", after_let_x)
    ∧ ∃ name, ("Identifier already used: x\n" = "Undeclared identifier used '" ++ name ++ "'\n"
          ∧ after_let_x.find_var name = none)
      ∨ ("Identifier already used: x\n" = "Identifier already used: " ++ name ++ "\n"
          ∧ (after_let_x.find_var name).isSome = true) :=
  ⟨rfl, C25_generator_errors_are_bare_messages prog_redeclare "Identifier already used: x\n"
    after_let_x rfl⟩

/-! ## C27: the end of a scope -/

theorem end_scope_ok (g : GeneratorWin) (vars new_vars : List Var) (scopes : List Nat)
    (hv : g.m_vars = vars ++ new_vars) (hs : g.m_scopes = scopes ++ [vars.length]) :
    ∃ g', g.end_scope = .ok g' := by
  have hc : size_sub g.m_vars.length vars.length = new_vars.length := by
    rw [hv, List.length_append, Nat.add_comm]
    simp [size_sub]
  have hl : g.m_scopes.getLast? = some vars.length := by rw [hs]; simp
  simp only [GeneratorWin.end_scope, hl, hc, GeneratorWin.emit]
  rw [if_pos (by simp [hv])]
  exact ⟨_, rfl⟩

theorem size_mul_eight (n : Nat) (h : n * 8 < SIZE_MOD) : size_mul n 8 = 8 * n := by
  rw [size_mul, Nat.mod_eq_of_lt h, Nat.mul_comm]

/-- C27: in a state whose last scope mark is the length of `vars` and whose `m_vars` is
`vars` followed by `n` further entries (those added since the matching `begin_scope`),
`end_scope` succeeds, emits `add rsp, 8*n` (the product taken in `size_t`), leaves `vars`
in `m_vars`, decreases `m_stack_size` by `n` and removes exactly the last scope mark.
When the statements of a scope have been lowered after `begin_scope`, these entries are the
variables of the `Let` statements directly in the scope, and `n` is their number; for a
scope without such a statement `n` is 0, `add rsp, 0` is emitted and `m_vars` is as the
statements left it. -/
theorem C27_end_scope_reclaims_scope_variables :
    (∀ (g : GeneratorWin) (vars new_vars : List Var) (scopes : List Nat) (stack : Nat),
      g.m_vars = vars ++ new_vars → g.m_scopes = scopes ++ [vars.length] →
      g.m_stack_size = stack + new_vars.length →
      ∃ g', g.end_scope = .ok g'
        ∧ g'.m_output = g.m_output ++ [.add_rsp (size_mul new_vars.length 8)]
        ∧ g'.m_vars = vars ∧ g'.m_stack_size = stack ∧ g'.m_scopes = scopes
        ∧ g'.m_label_count = g.m_label_count)
    ∧ (∀ (stmts : List NodeStmt) (g g1 : GeneratorWin),
      GeneratorWin.gen_stmts stmts g.begin_scope = .ok g1 →
      g1.m_vars = g.m_vars ++ decls stmts g.m_stack_size
        ∧ (decls stmts g.m_stack_size).length = count_lets stmts
        ∧ g1.m_scopes = g.m_scopes ++ [g.m_vars.length]
        ∧ g1.m_stack_size = g.m_stack_size + count_lets stmts
        ∧ ∃ g', g1.end_scope = .ok g' ∧ g.gen_scope (.mk stmts) = .ok g'
          ∧ g'.m_output = g1.m_output ++ [.add_rsp (size_mul (count_lets stmts) 8)]
          ∧ g'.m_vars = g.m_vars ∧ g'.m_stack_size = g.m_stack_size
          ∧ g'.m_scopes = g.m_scopes
          ∧ (count_lets stmts = 0 → g'.m_vars = g1.m_vars
              ∧ g'.m_output = g1.m_output ++ [.add_rsp 0]))
    ∧ (∀ n : Nat, n * 8 < SIZE_MOD → size_mul n 8 = 8 * n)
    ∧ (Instr.add_rsp (8 * 2)).render = "    add rsp, 16\n" := by
  refine ⟨?_, ?_, size_mul_eight, by decide⟩
  · intro g vars new_vars scopes stack hv hs hn
    obtain ⟨g', h⟩ := end_scope_ok g vars new_vars scopes hv hs
    obtain ⟨a1, a2, a3, a4, a5⟩ := end_scope_effect g g' vars scopes new_vars stack hv hs hn h
    exact ⟨g', h, a5, a2, a1, a3, a4⟩
  · intro stmts g g1 h1
    obtain ⟨a1, a2, a3, _⟩ := gen_stmts_effect stmts g.begin_scope g1 h1
    simp only [GeneratorWin.begin_scope] at a1 a2 a3
    have hlen := decls_length stmts g.m_stack_size
    obtain ⟨g', h⟩ := end_scope_ok g1 g.m_vars (decls stmts g.m_stack_size) g.m_scopes a2 a3
    obtain ⟨b1, b2, b3, _, b5⟩ := end_scope_effect g1 g' g.m_vars g.m_scopes
      (decls stmts g.m_stack_size) g.m_stack_size a2 a3 (by rw [a1, hlen]) h
    rw [hlen] at b5
    refine ⟨a2, hlen, a3, a1, g', h, ?_, b5, b2, b1, b3, ?_⟩
    · simp only [GeneratorWin.gen_scope, h1, h]
    · intro h0
      refine ⟨?_, ?_⟩
      · rw [b2, a2]
        have : decls stmts g.m_stack_size = [] := List.length_eq_zero.mp (by rw [hlen, h0])
        rw [this, List.append_nil]
      · rw [b5, h0]
        rfl

/-- C27 at the scope `{ let y = 1; x = y; if (x) { let z = 2; } { } }` lowered where `x` is
declared: one `Let` stands directly in the scope, and `add rsp, 8` is its last
instruction; the inner scopes have emitted `add rsp, 8` and `add rsp, 0`. -/
theorem C27_end_scope_reclaims_scope_variables_witness :
    (∃ g1, GeneratorWin.gen_stmts
        [.let_ (tok_ident "y") (e_int "1"), .set (.set_expr (tok_ident "x") (e_var "y")),
          .if_ (e_var "x") (.mk [.let_ (tok_ident "z") (e_int "2")]) none, .scope (.mk [])]
        gen_with_x.begin_scope = .ok g1
      ∧ g1.m_vars = gen_with_x.m_vars ++ [Var.mk "y" 1]
      ∧ g1.m_scopes = gen_with_x.m_scopes ++ [gen_with_x.m_vars.length]
      ∧ ∃ g', g1.end_scope = .ok g' ∧ gen_with_x.gen_scope sample_scope = .ok g'
        ∧ g'.m_output = g1.m_output ++ [.add_rsp (size_mul 1 8)]
        ∧ g'.m_vars = gen_with_x.m_vars ∧ g'.m_stack_size = gen_with_x.m_stack_size
        ∧ g'.m_scopes = gen_with_x.m_scopes)
    ∧ gen_with_x.gen_scope sample_scope = .ok sample_scope_done
    ∧ (after_let_x_open.m_vars = [Var.mk "x" 0] ++ []
      ∧ after_let_x_open.m_scopes = [] ++ [[Var.mk "x" 0].length]
      ∧ ∃ g', after_let_x_open.end_scope = .ok g'
        ∧ g'.m_output = after_let_x_open.m_output
            ++ [.add_rsp (size_mul ([] : List Var).length 8)]
        ∧ g'.m_vars = [Var.mk "x" 0] ∧ g'.m_stack_size = 1 ∧ g'.m_scopes = []
        ∧ g'.m_label_count = after_let_x_open.m_label_count) := by
  refine ⟨?_, rfl, rfl, rfl,
    C27_end_scope_reclaims_scope_variables.1 after_let_x_open [Var.mk "x" 0] [] [] 1 rfl rfl
      rfl⟩
  obtain ⟨h1, _, h3, _, g', k1, k2, k3, k4, k5, k6, _⟩ :=
    C27_end_scope_reclaims_scope_variables.2.1
      [.let_ (tok_ident "y") (e_int "1"), .set (.set_expr (tok_ident "x") (e_var "y")),
        .if_ (e_var "x") (.mk [.let_ (tok_ident "z") (e_int "2")]) none, .scope (.mk [])]
      gen_with_x _ rfl
  exact ⟨_, rfl, h1, h3, g', k1, k2, k3, k4, k5, k6⟩

/-! ## C26: labels -/

theorem digitChar_value (k : Nat) (h : k < 10) : (Nat.digitChar k).toNat - 48 = k := by
  interval_cases k <;> rfl

theorem toDigitsCore_value : ∀ (fuel n : Nat) (ds : List Char), n < fuel →
    digits_value (Nat.toDigitsCore 10 fuel n ds) 0 = digits_value ds n := by
  intro fuel
  induction fuel with
  | zero => intro n ds h; omega
  | succ fuel ih =>
    intro n ds h
    rw [Nat.toDigitsCore]
    by_cases h0 : n / 10 = 0
    · rw [if_pos h0]
      have hn : n < 10 := by omega
      simp only [digits_value, List.foldl_cons, Nat.mul_zero, Nat.zero_add]
      rw [Nat.mod_eq_of_lt hn, digitChar_value n hn]
    · rw [if_neg h0, ih (n / 10) _ (by omega)]
      simp only [digits_value, List.foldl_cons]
      rw [digitChar_value (n % 10) (Nat.mod_lt _ (by omega))]
      congr 1
      omega

theorem toString_nat_injective (a b : Nat) (h : toString a = toString b) : a = b := by
  have h1 : Nat.toDigits 10 a = Nat.toDigits 10 b := by
    have h2 : (Nat.toDigits 10 a).asString = (Nat.toDigits 10 b).asString := h
    exact congrArg String.data h2
  have ha := toDigitsCore_value (a + 1) a [] (by omega)
  have hb := toDigitsCore_value (b + 1) b [] (by omega)
  have e : digits_value (Nat.toDigits 10 a) 0 = digits_value (Nat.toDigits 10 b) 0 := by
    rw [h1]
  simp only [Nat.toDigits] at e
  rw [ha, hb] at e
  simpa [digits_value] using e

theorem label_name_injective (a b : Nat) (h : label_name a = label_name b) : a = b := by
  apply toString_nat_injective
  have h1 : (label_name a).data = (label_name b).data := by rw [h]
  simp only [label_name, String.data_append, List.append_cancel_left_eq] at h1
  exact String.ext h1

theorem label_names_nodup (k n : Nat) : ((List.range' k n).map label_name).Nodup :=
  (List.nodup_range' k n).map (fun a b h => label_name_injective a b h)

theorem plain_nil : Plain [] := ⟨rfl, rfl⟩

theorem plain_append (a b : List Instr) (ha : Plain a) (hb : Plain b) : Plain (a ++ b) := by
  obtain ⟨a1, a2⟩ := ha
  obtain ⟨b1, b2⟩ := hb
  exact ⟨by simp only [jz_targets, List.filterMap_append] at *; rw [a1, b1]; rfl,
    by simp only [label_defs, List.filterMap_append] at *; rw [a2, b2]; rfl⟩

theorem labels_from_plain (k : Nat) (code : List Instr) (h : Plain code) :
    LabelsFrom k 0 code := by
  obtain ⟨h1, h2⟩ := h
  exact ⟨by rw [h1]; rfl, by rw [h2]; exact List.Perm.refl _⟩

theorem labels_from_append (k a b : Nat) (c1 c2 : List Instr) (h1 : LabelsFrom k a c1)
    (h2 : LabelsFrom (k + a) b c2) : LabelsFrom k (a + b) (c1 ++ c2) := by
  obtain ⟨a1, a2⟩ := h1
  obtain ⟨b1, b2⟩ := h2
  have hr : List.range' k (a + b) = List.range' k a ++ List.range' (k + a) b := by
    rw [List.range'_append_1, Nat.add_comm]
  refine ⟨?_, ?_⟩
  · simp only [jz_targets, List.filterMap_append] at *
    rw [a1, b1, hr, List.map_append]
  · simp only [label_defs, List.filterMap_append] at *
    rw [hr, List.map_append]
    exact List.Perm.append a2 b2

theorem op_code_plain (b : NodeBinExpr) : Plain b.op_code := by
  cases b <;> exact ⟨rfl, rfl⟩

theorem store_code_plain (s : NodeStmtSet) (off : Nat) : Plain (s.store_code off) := by
  cases s <;> exact ⟨rfl, rfl⟩

/-- The code of an expression has no `jz` and defines no label. -/
theorem gen_expr_code (e : NodeExpr) :
    ∀ (g g' : GeneratorWin), g.gen_expr e = .ok g' →
      ∃ code, g'.m_output = g.m_output ++ code ∧ Plain code := by
  induction e using NodeExpr.induction_on with
  | h_int t =>
    intro g g' h
    rw [gen_expr_int_lit] at h
    cases hv : t.value with
    | none => rw [hv] at h; simp at h
    | some v =>
      rw [hv] at h
      simp only [Except.ok.injEq] at h
      subst h
      exact ⟨[.mov_rax v, .push .rax], by simp [GeneratorWin.push, GeneratorWin.emit],
        rfl, rfl⟩
  | h_ident t =>
    intro g g' h
    rw [gen_expr_ident] at h
    cases hv : t.value with
    | none => rw [hv] at h; simp at h
    | some name =>
      rw [hv] at h
      simp only at h
      cases hf : g.find_var name with
      | none => rw [hf] at h; simp at h
      | some it =>
        rw [hf] at h
        simp only [Except.ok.injEq] at h
        subst h
        exact ⟨[.push (.qword_rsp (g.offset it))], by simp [GeneratorWin.push, GeneratorWin.emit],
          rfl, rfl⟩
  | h_paren e ih =>
    intro g g' h
    rw [gen_expr_paren] at h
    exact ih g g' h
  | h_bin b ihl ihr =>
    intro g g' h
    rw [gen_expr_bin] at h
    cases h1 : g.gen_expr b.rhs with
    | error y => rw [h1] at h; simp at h
    | ok g1 =>
      rw [h1] at h
      simp only at h
      cases h2 : g1.gen_expr b.lhs with
      | error y => rw [h2] at h; simp at h
      | ok g2 =>
        rw [h2] at h
        simp only [Except.ok.injEq] at h
        subst h
        obtain ⟨c1, o1, p1⟩ := ihr g g1 h1
        obtain ⟨c2, o2, p2⟩ := ihl g1 g2 h2
        refine ⟨c1 ++ (c2 ++ ([.pop .rax, .pop .rbx] ++ (b.op_code ++ [.push .rax]))), ?_, ?_⟩
        · simp [GeneratorWin.push, GeneratorWin.pop, GeneratorWin.emit,
            GeneratorWin.emit_all, o1, o2]
        · exact plain_append _ _ p1 (plain_append _ _ p2 (plain_append _ _ ⟨rfl, rfl⟩
            (plain_append _ _ (op_code_plain b) ⟨rfl, rfl⟩)))

theorem gen_stmt_set_code (s : NodeStmtSet) (g g' : GeneratorWin)
    (h : g.gen_stmt_set s = .ok g') :
    ∃ code, g'.m_output = g.m_output ++ code ∧ Plain code := by
  have key : ∃ x it g1, s.ident.value = some x ∧ g.find_var x = some it
      ∧ g.gen_expr s.expr = .ok g1 := by
    cases s with
    | set_expr ident expr | set_add ident expr | set_multi ident expr | set_sub ident expr
    | set_div ident expr =>
      simp only [GeneratorWin.gen_stmt_set] at h
      cases hv : ident.value with
      | none => rw [hv] at h; simp at h
      | some name =>
        rw [hv] at h
        simp only at h
        cases hf : g.find_var name with
        | none => rw [hf] at h; simp at h
        | some it =>
          rw [hf] at h
          simp only at h
          cases h1 : g.gen_expr expr with
          | error e => rw [h1] at h; simp at h
          | ok g1 => exact ⟨name, it, g1, hv, hf, h1⟩
  obtain ⟨x, it, g1, hx, hf, h1⟩ := key
  obtain ⟨g'', s1, s2⟩ := gen_stmt_set_ok s g g1 x it hx hf h1
  rw [h] at s1
  simp only [Except.ok.injEq] at s1
  subst s1
  obtain ⟨c1, o1, p1⟩ := gen_expr_code s.expr g g1 h1
  exact ⟨c1 ++ s.store_code _, by rw [s2, o1, List.append_assoc],
    plain_append _ _ p1 (store_code_plain s _)⟩

theorem end_scope_code (g g' : GeneratorWin) (h : g.end_scope = .ok g') :
    g'.m_label_count = g.m_label_count ∧ ∃ code, g'.m_output = g.m_output ++ code ∧ Plain code := by
  unfold GeneratorWin.end_scope at h
  cases hl : g.m_scopes.getLast? with
  | none => rw [hl] at h; simp at h
  | some back =>
    rw [hl] at h
    simp only at h
    split_ifs at h
    simp only [Except.ok.injEq] at h
    subst h
    exact ⟨rfl, [.add_rsp (size_mul (size_sub g.m_vars.length back) 8)], rfl, rfl, rfl⟩

/-- The steps of `gen_stmt` on an `if`: the condition, `pop rax`, `create_label`,
`test rax, rax`, `jz` to the new label, the scope, the definition of the label. -/
theorem gen_stmt_if_unfold (expr : NodeExpr) (sc : NodeScope) (pred : Option NodeIfPred)
    (g g' : GeneratorWin) (h : g.gen_stmt (.if_ expr sc pred) = .ok g') :
    ∃ g1 g3, g.gen_expr expr = .ok g1
      ∧ GeneratorWin.gen_scope sc
          ((({ g1.pop .rax with m_label_count := g.m_label_count + 1 } : GeneratorWin).emit
            .test_rax_rax).emit (.jz (label_name g.m_label_count))) = .ok g3
      ∧ g' = g3.emit (.label (label_name g.m_label_count)) := by
  simp only [GeneratorWin.gen_stmt] at h
  cases h1 : g.gen_expr expr with
  | error e => rw [h1] at h; simp at h
  | ok g1 =>
    simp only [h1] at h
    obtain ⟨_, _, _, a4⟩ := gen_expr_effect expr g g1 h1
    simp only [GeneratorWin.create_label] at h
    have hl : (g1.pop .rax).m_label_count = g.m_label_count := by
      simp only [GeneratorWin.pop, GeneratorWin.emit, a4]
    rw [hl] at h
    cases h2 : GeneratorWin.gen_scope sc
        ((({ g1.pop .rax with m_label_count := g.m_label_count + 1 } : GeneratorWin).emit
          .test_rax_rax).emit (.jz (label_name g.m_label_count))) with
    | error e =>
      simp only [label_name] at h2
      rw [h2] at h
      simp at h
    | ok g3 =>
      have h2' := h2
      simp only [label_name] at h2'
      rw [h2'] at h
      simp only [Except.ok.injEq] at h
      exact ⟨g1, g3, rfl, h2, h.symm⟩

mutual
theorem gen_stmt_labels : ∀ (s : NodeStmt) (g g' : GeneratorWin),
    g.gen_stmt s = .ok g' →
    g'.m_label_count = g.m_label_count + stmt_ifs s
      ∧ ∃ code, g'.m_output = g.m_output ++ code
          ∧ LabelsFrom g.m_label_count (stmt_ifs s) code
  | .exit expr, g, g', h => by
    simp only [GeneratorWin.gen_stmt] at h
    cases h1 : g.gen_expr expr with
    | error e => simp [h1] at h
    | ok g1 =>
      simp [h1] at h
      subst h
      obtain ⟨_, _, _, a4⟩ := gen_expr_effect expr g g1 h1
      obtain ⟨c1, o1, p1⟩ := gen_expr_code expr g g1 h1
      refine ⟨by simp [GeneratorWin.pop, GeneratorWin.emit, stmt_ifs, a4],
        c1 ++ [.pop .rcx, .sub_rsp_28h, .call_ExitProcess],
        by simp [GeneratorWin.pop, GeneratorWin.emit, o1], ?_⟩
      exact labels_from_plain _ _ (plain_append _ _ p1 ⟨rfl, rfl⟩)
  | .let_ ident expr, g, g', h => by
    simp only [GeneratorWin.gen_stmt] at h
    cases hv : ident.value with
    | none => simp [hv] at h
    | some name =>
      simp only [hv] at h
      cases hf : g.find_var name with
      | some it => simp [hf] at h
      | none =>
        simp only [hf] at h
        obtain ⟨_, _, _, a4⟩ := gen_expr_effect expr _ g' h
        obtain ⟨c1, o1, p1⟩ := gen_expr_code expr _ g' h
        exact ⟨by simpa [stmt_ifs] using a4, c1, o1, labels_from_plain _ _ p1⟩
  | .set s, g, g', h => by
    simp only [GeneratorWin.gen_stmt] at h
    obtain ⟨_, _, _, a4⟩ := gen_stmt_set_effect s g g' h
    obtain ⟨c1, o1, p1⟩ := gen_stmt_set_code s g g' h
    exact ⟨by simpa [stmt_ifs] using a4, c1, o1, labels_from_plain _ _ p1⟩
  | .scope sc, g, g', h => by
    simp only [GeneratorWin.gen_stmt] at h
    simpa [stmt_ifs] using gen_scope_labels sc g g' h
  | .if_ expr sc pred, g, g', h => by
    obtain ⟨g1, g3, h1, h2, h3⟩ := gen_stmt_if_unfold expr sc pred g g' h
    obtain ⟨c1, o1, p1⟩ := gen_expr_code expr g g1 h1
    obtain ⟨b1, c3, o3, q1, q2⟩ := gen_scope_labels sc _ g3 h2
    simp only [GeneratorWin.emit, GeneratorWin.pop] at b1 o3 q1 q2
    subst h3
    refine ⟨by simp only [GeneratorWin.emit, b1, stmt_ifs]; omega,
      c1 ++ [.pop .rax, .test_rax_rax, .jz (label_name g.m_label_count)] ++ c3
        ++ [.label (label_name g.m_label_count)], ?_, ?_, ?_⟩
    · simp only [GeneratorWin.emit, o3, o1, List.append_assoc, List.cons_append,
        List.nil_append]
    · obtain ⟨p1a, _⟩ := p1
      simp only [jz_targets, List.filterMap_append] at p1a q1 ⊢
      rw [p1a, q1]
      simp only [stmt_ifs, List.filterMap_cons, Instr.jz_target, List.filterMap_nil,
        List.nil_append, List.append_nil, List.singleton_append]
      rw [List.range'_succ, List.map_cons]
    · obtain ⟨_, p1b⟩ := p1
      simp only [label_defs, List.filterMap_append] at p1b q2 ⊢
      rw [p1b]
      simp only [stmt_ifs, List.filterMap_cons, Instr.label_def, List.filterMap_nil,
        List.nil_append]
      rw [List.range'_succ, List.map_cons]
      exact (List.perm_append_singleton _ _).trans (List.Perm.cons _ q2)
theorem gen_scope_labels : ∀ (sc : NodeScope) (g g' : GeneratorWin),
    g.gen_scope sc = .ok g' →
    g'.m_label_count = g.m_label_count + scope_ifs sc
      ∧ ∃ code, g'.m_output = g.m_output ++ code
          ∧ LabelsFrom g.m_label_count (scope_ifs sc) code
  | .mk stmts, g, g', h => by
    simp only [GeneratorWin.gen_scope] at h
    cases h1 : GeneratorWin.gen_stmts stmts g.begin_scope with
    | error e => simp [h1] at h
    | ok g1 =>
      simp only [h1] at h
      obtain ⟨a1, c1, o1, l1⟩ := gen_stmts_labels stmts g.begin_scope g1 h1
      obtain ⟨b1, c2, o2, p2⟩ := end_scope_code g1 g' h
      simp only [GeneratorWin.begin_scope] at a1 o1 l1
      refine ⟨by rw [b1, a1]; rfl, c1 ++ c2, by rw [o2, o1, List.append_assoc], ?_⟩
      have := labels_from_append g.m_label_count (stmts_ifs stmts) 0 c1 c2 l1
        (labels_from_plain _ _ p2)
      simpa [scope_ifs] using this
theorem gen_stmts_labels : ∀ (l : List NodeStmt) (g g' : GeneratorWin),
    GeneratorWin.gen_stmts l g = .ok g' →
    g'.m_label_count = g.m_label_count + stmts_ifs l
      ∧ ∃ code, g'.m_output = g.m_output ++ code
          ∧ LabelsFrom g.m_label_count (stmts_ifs l) code
  | [], g, g', h => by
    simp only [GeneratorWin.gen_stmts] at h
    cases h
    exact ⟨rfl, [], by simp, labels_from_plain _ _ plain_nil⟩
  | s :: rest, g, g', h => by
    simp only [GeneratorWin.gen_stmts] at h
    cases h1 : g.gen_stmt s with
    | error e => simp [h1] at h
    | ok g1 =>
      simp only [h1] at h
      obtain ⟨a1, c1, o1, l1⟩ := gen_stmt_labels s g g1 h1
      obtain ⟨b1, c2, o2, l2⟩ := gen_stmts_labels rest g1 g' h
      rw [a1] at l2
      refine ⟨by rw [b1, a1, stmts_ifs]; omega, c1 ++ c2,
        by rw [o2, o1, List.append_assoc], ?_⟩
      rw [stmts_ifs]
      exact labels_from_append _ _ _ c1 c2 l1 l2
end

/-- C26: `create_label` returns `label<k>` for the counter value `k` and increments the
counter, which no statement decreases: lowering a statement list adds the number of `if`
statements lowered (nested ones included).  The code of an `if` lowered at counter value
`k` is the code of the condition, `pop rax`, `test rax, rax`, `jz label<k>`, the code of
its scope, whose labels start at `k + 1`, and `label<k>:`.  So in the output of `gen_prog`
the targets of the `jz` instructions are `label0`, `label1`, ... in emission order (the
`k`-th `if` lowered uses `label<k>`), the labels defined are the same labels, pairwise
distinct, and every `jz` targets a label that is defined exactly once. -/
theorem C26_labels_numbered_in_creation_order :
    (∀ g : GeneratorWin, g.create_label
        = (label_name g.m_label_count, { g with m_label_count := g.m_label_count + 1 }))
    ∧ label_name 0 = "label0" ∧ label_name 1 = "label1"
    ∧ (∀ (l : List NodeStmt) (g g' : GeneratorWin), GeneratorWin.gen_stmts l g = .ok g' →
        g'.m_label_count = g.m_label_count + stmts_ifs l)
    ∧ (∀ (expr : NodeExpr) (sc : NodeScope) (pred : Option NodeIfPred) (g g' : GeneratorWin),
        g.gen_stmt (.if_ expr sc pred) = .ok g' →
        ∃ c1 c3, Plain c1 ∧ LabelsFrom (g.m_label_count + 1) (scope_ifs sc) c3
          ∧ g'.m_output = g.m_output
              ++ (c1 ++ [.pop .rax, .test_rax_rax, .jz (label_name g.m_label_count)] ++ c3
                ++ [.label (label_name g.m_label_count)]))
    ∧ (∀ (prog : NodeProg) (g : GeneratorWin), GeneratorWin.gen_prog prog = .ok g →
        g.m_label_count = stmts_ifs prog.stmts
        ∧ jz_targets g.m_output = (List.range (stmts_ifs prog.stmts)).map label_name
        ∧ (label_defs g.m_output).Perm ((List.range (stmts_ifs prog.stmts)).map label_name)
        ∧ (label_defs g.m_output).Nodup
        ∧ ∀ l ∈ jz_targets g.m_output, (label_defs g.m_output).count l = 1) := by
  refine ⟨fun g => rfl, by decide, by decide,
    fun l g g' h => (gen_stmts_labels l g g' h).1, ?_, ?_⟩
  · intro expr sc pred g g' h
    obtain ⟨g1, g3, h1, h2, h3⟩ := gen_stmt_if_unfold expr sc pred g g' h
    obtain ⟨c1, o1, p1⟩ := gen_expr_code expr g g1 h1
    obtain ⟨_, c3, o3, q⟩ := gen_scope_labels sc _ g3 h2
    simp only [GeneratorWin.emit, GeneratorWin.pop] at o3 q
    subst h3
    refine ⟨c1, c3, p1, q, ?_⟩
    simp only [GeneratorWin.emit, o3, o1, List.append_assoc, List.cons_append,
      List.nil_append]
  · intro prog g h
    simp only [GeneratorWin.gen_prog] at h
    cases h1 : GeneratorWin.gen_stmts prog.stmts (GeneratorWin.init.emit .header) with
    | error e => rw [h1] at h; simp at h
    | ok g1 =>
      rw [h1] at h
      simp only [Except.ok.injEq] at h
      subst h
      obtain ⟨a1, code, o1, l1, l2⟩ := gen_stmts_labels _ _ g1 h1
      simp only [GeneratorWin.emit, GeneratorWin.init, Nat.zero_add, List.nil_append] at a1 o1 l1 l2
      rw [← List.range_eq_range'] at l1 l2
      have hj : jz_targets (g1.m_output ++ [.sub_rsp_28h] ++ [.mov_ecx_0]
          ++ [.call_ExitProcess]) = jz_targets code := by
        rw [o1]
        simp [jz_targets, Instr.jz_target]
      have hd : label_defs (g1.m_output ++ [.sub_rsp_28h] ++ [.mov_ecx_0]
          ++ [.call_ExitProcess]) = label_defs code := by
        rw [o1]
        simp [label_defs, Instr.label_def]
      have hnd : (label_defs code).Nodup := by
        rw [List.Perm.nodup_iff l2, List.range_eq_range']
        exact label_names_nodup 0 _
      simp only [GeneratorWin.emit]
      rw [hj, hd]
      refine ⟨a1, l1, l2, hnd, ?_⟩
      intro l hl
      rw [l1] at hl
      exact List.count_eq_one_of_mem hnd (l2.symm.subset hl)

theorem gen_prog_three_ifs :
    GeneratorWin.gen_prog prog_three_ifs = .ok prog_three_ifs_done := by
  simp [GeneratorWin.gen_prog, prog_three_ifs, prog_three_ifs_done, GeneratorWin.gen_stmts,
    GeneratorWin.gen_stmt, GeneratorWin.gen_scope, GeneratorWin.gen_expr,
    GeneratorWin.gen_term, GeneratorWin.create_label, GeneratorWin.emit, GeneratorWin.push,
    GeneratorWin.pop, GeneratorWin.init, GeneratorWin.begin_scope, GeneratorWin.end_scope,
    e_int, tok_int, size_sub, size_mul]
  decide

theorem gen_stmt_if_3 :
    GeneratorWin.init.gen_stmt (.if_ (e_int "3") (.mk []) none) = .ok if_3_done := by
  simp [if_3_done, GeneratorWin.gen_stmts,
    GeneratorWin.gen_stmt, GeneratorWin.gen_scope, GeneratorWin.gen_expr,
    GeneratorWin.gen_term, GeneratorWin.create_label, GeneratorWin.emit, GeneratorWin.push,
    GeneratorWin.pop, GeneratorWin.init, GeneratorWin.begin_scope, GeneratorWin.end_scope,
    e_int, tok_int, size_sub, size_mul]
  decide

theorem gen_stmts_if_3 :
    GeneratorWin.gen_stmts [.if_ (e_int "3") (.mk []) none] GeneratorWin.init
      = .ok if_3_done := by
  rw [GeneratorWin.gen_stmts, gen_stmt_if_3]
  rfl

/-- C26 at `if (1) { if (2) { } } if (3) { }`: the `jz` instructions target `label0`,
`label1`, `label2` in this order, and the labels are defined in the order `label1`,
`label0`, `label2`; and at `if (3) { }` lowered in a fresh generator. -/
theorem C26_labels_numbered_in_creation_order_witness :
    GeneratorWin.gen_prog prog_three_ifs = .ok prog_three_ifs_done
    ∧ stmts_ifs prog_three_ifs.stmts = 3
    ∧ jz_targets prog_three_ifs_done.m_output = ["label0", "label1", "label2"]
    ∧ label_defs prog_three_ifs_done.m_output = ["label1", "label0", "label2"]
    ∧ (prog_three_ifs_done.m_label_count = stmts_ifs prog_three_ifs.stmts
      ∧ jz_targets prog_three_ifs_done.m_output
          = (List.range (stmts_ifs prog_three_ifs.stmts)).map label_name
      ∧ (label_defs prog_three_ifs_done.m_output).Perm
          ((List.range (stmts_ifs prog_three_ifs.stmts)).map label_name)
      ∧ (label_defs prog_three_ifs_done.m_output).Nodup
      ∧ ∀ l ∈ jz_targets prog_three_ifs_done.m_output,
          (label_defs prog_three_ifs_done.m_output).count l = 1)
    ∧ (GeneratorWin.gen_stmts [.if_ (e_int "3") (.mk []) none] GeneratorWin.init
        = .ok if_3_done
      ∧ if_3_done.m_label_count = GeneratorWin.init.m_label_count
          + stmts_ifs [.if_ (e_int "3") (.mk []) none])
    ∧ (GeneratorWin.init.gen_stmt (.if_ (e_int "3") (.mk []) none) = .ok if_3_done
      ∧ ∃ c1 c3, Plain c1
        ∧ LabelsFrom (GeneratorWin.init.m_label_count + 1) (scope_ifs (.mk [])) c3
        ∧ if_3_done.m_output = GeneratorWin.init.m_output
            ++ (c1 ++ [.pop .rax, .test_rax_rax,
                  .jz (label_name GeneratorWin.init.m_label_count)] ++ c3
              ++ [.label (label_name GeneratorWin.init.m_label_count)])) :=
  ⟨gen_prog_three_ifs, by decide, by decide, by decide,
    C26_labels_numbered_in_creation_order.2.2.2.2.2 prog_three_ifs prog_three_ifs_done
      gen_prog_three_ifs,
    ⟨gen_stmts_if_3, C26_labels_numbered_in_creation_order.2.2.2.1 _ _ _ gen_stmts_if_3⟩,
    ⟨gen_stmt_if_3, C26_labels_numbered_in_creation_order.2.2.2.2.1 _ _ _ _ _ gen_stmt_if_3⟩⟩

/-! ## C36: the tokenizer terminates -/

/-- One iteration of the outer loop halts with a `lex_error` at the current position, or
consumes at least one character and pushes at most one token. -/
theorem step_progress (t : Tokenizer) (c : Char) (rest : List Char) (hr : t.rest = c :: rest) :
    (∃ t', t.step = .ok t' ∧ t'.m_srcName = t.m_srcName ∧ t'.rest.length ≤ rest.length
        ∧ (t'.tokens = t.tokens ∨ ∃ tok, t'.tokens = t.tokens ++ [tok]))
    ∨ t.step = .error (.lex_error t.m_srcName t.line_count t.col_count c) := by
  rcases step_cases c rest with ⟨_, h⟩ | ⟨_, h⟩ | ⟨_, _, h⟩ | ⟨_, _, h⟩ | ⟨ty, _, _, _, _, h⟩
    | ⟨_, _, h⟩ | ⟨_, h⟩ | ⟨_, _, h⟩ | ⟨_, h⟩
  · exact Or.inl ⟨_, h t hr, rfl, dropWhile_length_le _ _, Or.inr ⟨_, rfl⟩⟩
  · exact Or.inl ⟨_, h t hr, rfl, dropWhile_length_le _ _, Or.inr ⟨_, rfl⟩⟩
  · exact Or.inl ⟨_, h t hr, rfl,
      le_trans (line_comment_loop_length _) (tail_length_le _), Or.inl rfl⟩
  · refine Or.inl ⟨_, h t hr, rfl, ?_, Or.inl rfl⟩
    exact le_trans (tail_length_le _) (le_trans (tail_length_le _)
      (le_trans (block_comment_loop_length _) (tail_length_le _)))
  · exact Or.inl ⟨_, h t hr, rfl, le_refl _, Or.inr ⟨_, rfl⟩⟩
  · exact Or.inl ⟨_, h t hr, rfl, tail_length_le _, Or.inr ⟨_, rfl⟩⟩
  · exact Or.inl ⟨_, h t hr, rfl, le_refl _, Or.inl rfl⟩
  · exact Or.inl ⟨_, h t hr, rfl, le_refl _, Or.inl rfl⟩
  · exact Or.inr (h t hr)

/-- With more fuel than characters left the outer loop does not run out of fuel, its result
does not depend on the fuel, it returns at most one more token for each character left, and
it enters its body at most once for each character left. -/
theorem loop_terminates : ∀ (n : Nat) (t : Tokenizer) (f1 f2 : Nat),
    t.rest.length ≤ n → n < f1 → n < f2 →
    Tokenizer.loop f1 t = Tokenizer.loop f2 t
    ∧ Tokenizer.iterations f1 t ≤ t.rest.length
    ∧ ((∃ tokens, Tokenizer.loop f1 t = .ok tokens
          ∧ tokens.length ≤ t.tokens.length + t.rest.length)
      ∨ ∃ line col c, Tokenizer.loop f1 t = .error (.lex_error t.m_srcName line col c)) := by
  intro n
  induction n with
  | zero =>
    intro t f1 f2 hn h1 h2
    have hr : t.rest = [] := List.length_eq_zero.mp (Nat.le_zero.mp hn)
    obtain ⟨g1, rfl⟩ : ∃ g, f1 = g + 1 := ⟨f1 - 1, by omega⟩
    obtain ⟨g2, rfl⟩ : ∃ g, f2 = g + 1 := ⟨f2 - 1, by omega⟩
    rw [loop_nil g1 t hr, loop_nil g2 t hr]
    refine ⟨rfl, ?_, Or.inl ⟨_, rfl, by omega⟩⟩
    simp [Tokenizer.iterations, hr]
  | succ n ih =>
    intro t f1 f2 hn h1 h2
    obtain ⟨g1, rfl⟩ : ∃ g, f1 = g + 1 := ⟨f1 - 1, by omega⟩
    obtain ⟨g2, rfl⟩ : ∃ g, f2 = g + 1 := ⟨f2 - 1, by omega⟩
    cases hr : t.rest with
    | nil =>
      rw [loop_nil g1 t hr, loop_nil g2 t hr]
      refine ⟨rfl, ?_, Or.inl ⟨_, rfl, by omega⟩⟩
      simp [Tokenizer.iterations, hr]
    | cons c rest =>
      rw [loop_succ g1 t c rest hr, loop_succ g2 t c rest hr]
      have hlen : rest.length ≤ n := by
        rw [hr, List.length_cons] at hn
        omega
      rcases step_progress t c rest hr with ⟨t', hs, hname, hl, htok⟩ | hs
      · obtain ⟨e1, e2, e3⟩ := ih t' g1 g2 (le_trans hl hlen) (by omega) (by omega)
        simp only [hs]
        refine ⟨e1, ?_, ?_⟩
        · simp only [Tokenizer.iterations, hr, hs, List.length_cons]
          omega
        · rcases e3 with ⟨tokens, ht, hlt⟩ | ⟨line, col, c', ht⟩
          · refine Or.inl ⟨tokens, ht, ?_⟩
            simp only [List.length_cons]
            rcases htok with h | ⟨tok, h⟩
            · rw [h] at hlt; omega
            · rw [h, List.length_append, List.length_singleton] at hlt; omega
          · exact Or.inr ⟨line, col, c', by rw [ht, hname]⟩
      · rw [hs]
        refine ⟨rfl, ?_, Or.inr ⟨_, _, _, rfl⟩⟩
        simp only [Tokenizer.iterations, hr, hs, List.length_cons]
        omega

/-- C36: `tokenize` terminates on every source.  Each iteration of the outer loop either
halts with a `lex_error` or consumes at least one character and pushes at most one token;
hence a run of the loop never needs more iterations than there are characters left (it does
not run out of fuel and its result is the same for every larger amount of fuel), and
`tokenize` either halts with a `lex_error` or returns at most as many tokens as the source
has characters, having entered the body of its loop at most that many times. -/
theorem C36_tokenize_terminates :
    (∀ (t : Tokenizer) (c : Char) (rest : List Char), t.rest = c :: rest →
      (∃ t', t.step = .ok t' ∧ t'.rest.length < t.rest.length
          ∧ (t'.tokens = t.tokens ∨ ∃ tok, t'.tokens = t.tokens ++ [tok]))
      ∨ t.step = .error (.lex_error t.m_srcName t.line_count t.col_count c))
    ∧ (∀ (t : Tokenizer) (fuel : Nat), t.rest.length < fuel →
      Tokenizer.loop fuel t = Tokenizer.loop (t.rest.length + 1) t
      ∧ Tokenizer.loop fuel t ≠ .error .out_of_fuel
      ∧ Tokenizer.iterations fuel t ≤ t.rest.length)
    ∧ (∀ src srcName : String,
      ((∃ tokens, tokenize src srcName = .ok tokens ∧ tokens.length ≤ src.length)
        ∨ ∃ line col c, tokenize src srcName = .error (.lex_error srcName line col c))
      ∧ ∀ fuel, Tokenizer.iterations fuel (Tokenizer.init src srcName) ≤ src.length) := by
  refine ⟨?_, ?_, ?_⟩
  · intro t c rest hr
    rcases step_progress t c rest hr with ⟨t', hs, _, hl, htok⟩ | hs
    · refine Or.inl ⟨t', hs, ?_, htok⟩
      rw [hr, List.length_cons]
      omega
    · exact Or.inr hs
  · intro t fuel hf
    obtain ⟨e1, e2, e3⟩ := loop_terminates t.rest.length t fuel (t.rest.length + 1)
      (le_refl _) hf (Nat.lt_succ_self _)
    refine ⟨e1, ?_, e2⟩
    rcases e3 with ⟨tokens, ht, _⟩ | ⟨line, col, c, ht⟩ <;> rw [ht] <;> simp
  · intro src srcName
    have hlen : (Tokenizer.init src srcName).rest.length = src.length := by
      cases src
      rfl
    refine ⟨?_, ?_⟩
    · obtain ⟨_, _, e3⟩ := loop_terminates src.length (Tokenizer.init src srcName)
        (src.length + 1) (src.length + 1) (le_of_eq hlen) (Nat.lt_succ_self _)
        (Nat.lt_succ_self _)
      rcases e3 with ⟨tokens, ht, hl⟩ | ⟨line, col, c, ht⟩
      · refine Or.inl ⟨tokens, ht, ?_⟩
        rw [hlen] at hl
        simpa [Tokenizer.init] using hl
      · exact Or.inr ⟨line, col, c, ht⟩
    · intro fuel
      by_cases hf : src.length < fuel
      · obtain ⟨_, e2, _⟩ := loop_terminates src.length (Tokenizer.init src srcName)
          fuel fuel (le_of_eq hlen) hf hf
        rw [hlen] at e2
        exact e2
      · have : ∀ (f : Nat) (t : Tokenizer), Tokenizer.iterations f t ≤ f := by
          intro f
          induction f with
          | zero => intro t; simp [Tokenizer.iterations]
          | succ f ih =>
            intro t
            simp only [Tokenizer.iterations]
            split
            · omega
            · split
              · omega
              · have := ih ‹Tokenizer›
                omega
        exact le_trans (this fuel _) (by omega)

/-- C36 at the text `x1 +` and at the state in which `tokenize` starts on it. -/
theorem C36_tokenize_terminates_witness :
    (Tokenizer.init "x1 +" "m.l").rest = 'x' :: ['1', ' ', '+']
    ∧ ((∃ t', (Tokenizer.init "x1 +" "m.l").step = .ok t'
          ∧ t'.rest.length < (Tokenizer.init "x1 +" "m.l").rest.length
          ∧ (t'.tokens = (Tokenizer.init "x1 +" "m.l").tokens
            ∨ ∃ tok, t'.tokens = (Tokenizer.init "x1 +" "m.l").tokens ++ [tok]))
      ∨ (Tokenizer.init "x1 +" "m.l").step = .error (.lex_error "m.l" 1 1 'x'))
    ∧ (Tokenizer.init "x1 +" "m.l").rest.length < 9
    ∧ (Tokenizer.loop 9 (Tokenizer.init "x1 +" "m.l")
        = Tokenizer.loop ((Tokenizer.init "x1 +" "m.l").rest.length + 1)
            (Tokenizer.init "x1 +" "m.l")
      ∧ Tokenizer.loop 9 (Tokenizer.init "x1 +" "m.l") ≠ .error .out_of_fuel
      ∧ Tokenizer.iterations 9 (Tokenizer.init "x1 +" "m.l")
          ≤ (Tokenizer.init "x1 +" "m.l").rest.length)
    ∧ tokenize "x1 +" "m.l" = .ok [⟨.ident, 1, 2, some "x1"⟩, ⟨.plus, 1, 4, none⟩] :=
  ⟨rfl, C36_tokenize_terminates.1 (Tokenizer.init "x1 +" "m.l") 'x' ['1', ' ', '+'] rfl,
    by decide, C36_tokenize_terminates.2.1 (Tokenizer.init "x1 +" "m.l") 9 (by decide), rfl⟩

/-! ## The variable table during code generation -/

/-- Lowering an expression leaves `m_vars` alone, also when it halts. -/
theorem gen_expr_final_vars (e : NodeExpr) : ∀ g : GeneratorWin,
    (final_state (g.gen_expr e)).m_vars = g.m_vars := by
  induction e using NodeExpr.induction_on with
  | h_int t =>
    intro g
    rw [gen_expr_int_lit]
    cases hv : t.value <;> simp [final_state, GeneratorWin.push, GeneratorWin.emit]
  | h_ident t =>
    intro g
    rw [gen_expr_ident]
    cases hv : t.value with
    | none => simp [final_state]
    | some v =>
      simp only []
      cases hf : g.find_var v <;> simp [final_state, GeneratorWin.push, GeneratorWin.emit]
  | h_paren e ih =>
    intro g
    rw [gen_expr_paren]
    exact ih g
  | h_bin b ihl ihr =>
    intro g
    rw [gen_expr_bin]
    have h1 := ihr g
    cases hr : g.gen_expr b.rhs with
    | error x =>
      rw [hr] at h1
      exact h1
    | ok g1 =>
      rw [hr] at h1
      have h2 := ihl g1
      simp only []
      cases hl : g1.gen_expr b.lhs with
      | error x =>
        rw [hl] at h2
        exact h2.trans h1
      | ok g2 =>
        rw [hl] at h2
        simp only [final_state] at h1 h2 ⊢
        simp [GeneratorWin.push, GeneratorWin.pop, GeneratorWin.emit, GeneratorWin.emit_all,
          h1, h2]

/-- Lowering a `Set` statement leaves `m_vars` alone, also when it halts. -/
theorem gen_stmt_set_final_vars (s : NodeStmtSet) (g : GeneratorWin) :
    (final_state (g.gen_stmt_set s)).m_vars = g.m_vars := by
  cases s with
  | set_expr ident expr | set_add ident expr | set_multi ident expr | set_sub ident expr
  | set_div ident expr =>
    simp only [GeneratorWin.gen_stmt_set]
    cases hv : ident.value with
    | none => rfl
    | some name =>
      simp only []
      cases hf : g.find_var name with
      | none => rfl
      | some it =>
        simp only []
        have h1 := gen_expr_final_vars expr g
        cases he : g.gen_expr expr with
        | error x =>
          rw [he] at h1
          exact h1
        | ok g1 =>
          rw [he] at h1
          simp only [final_state] at h1 ⊢
          simp [GeneratorWin.pop, GeneratorWin.emit, h1]

/-- What `end_scope` leaves in `m_vars`, also when it halts, is a prefix of what was there. -/
theorem end_scope_final_vars (g : GeneratorWin) :
    ∃ k, (final_state g.end_scope).m_vars = g.m_vars.take k := by
  simp only [GeneratorWin.end_scope]
  cases hs : g.m_scopes.getLast? with
  | none => exact ⟨g.m_vars.length, by simp [final_state]⟩
  | some back =>
    simp only [GeneratorWin.emit]
    split
    · exact ⟨_, rfl⟩
    · exact ⟨g.m_vars.length, by simp [final_state]⟩

theorem names_distinct_take (g g' : GeneratorWin) (k : Nat) (h : g.names_distinct)
    (hv : g'.m_vars = g.m_vars.take k) : g'.names_distinct := by
  unfold GeneratorWin.names_distinct at h ⊢
  rw [hv, List.map_take]
  exact h.sublist (List.take_sublist _ _)

theorem names_distinct_of_vars (g g' : GeneratorWin) (h : g.names_distinct)
    (hv : g'.m_vars = g.m_vars) : g'.names_distinct := by
  unfold GeneratorWin.names_distinct at h ⊢
  rw [hv]
  exact h

/-- A name for which the search in `m_vars` finds nothing is the name of no variable. -/
theorem not_mem_of_find_var_none (g : GeneratorWin) (x : String) (h : g.find_var x = none) :
    x ∉ g.m_vars.map Var.name := by
  simp only [GeneratorWin.find_var, List.find?_eq_none] at h
  intro hx
  obtain ⟨v, hv, hn⟩ := List.mem_map.mp hx
  exact absurd hn (by simpa using h v hv)

theorem names_distinct_push_back (g : GeneratorWin) (x : String) (loc : Nat)
    (h : g.names_distinct) (hf : g.find_var x = none) :
    ({ g with m_vars := g.m_vars ++ [Var.mk x loc] } : GeneratorWin).names_distinct := by
  unfold GeneratorWin.names_distinct at h ⊢
  simp only [List.map_append, List.map_cons, List.map_nil]
  rw [List.nodup_append]
  refine ⟨h, List.nodup_singleton _, ?_⟩
  intro a ha hb
  rw [List.mem_singleton] at hb
  subst hb
  exact not_mem_of_find_var_none g a hf ha

mutual
/-- Lowering a statement keeps the names of `m_vars` pairwise distinct, also when it
halts. -/
theorem gen_stmt_distinct : ∀ (s : NodeStmt) (g : GeneratorWin), g.names_distinct →
    (final_state (g.gen_stmt s)).names_distinct
  | .exit expr, g, h => by
    simp only [GeneratorWin.gen_stmt]
    have h1 := gen_expr_final_vars expr g
    cases he : g.gen_expr expr with
    | error x =>
      rw [he] at h1
      exact names_distinct_of_vars g _ h h1
    | ok g1 =>
      rw [he] at h1
      exact names_distinct_of_vars g _ h (by simpa [final_state, GeneratorWin.pop,
        GeneratorWin.emit] using h1)
  | .let_ ident expr, g, h => by
    simp only [GeneratorWin.gen_stmt]
    cases hv : ident.value with
    | none => exact h
    | some name =>
      simp only []
      cases hf : g.find_var name with
      | some it => exact h
      | none =>
        exact names_distinct_of_vars _ _ (names_distinct_push_back g name g.m_stack_size h hf)
          (gen_expr_final_vars expr _)
  | .set s, g, h => by
    simp only [GeneratorWin.gen_stmt]
    exact names_distinct_of_vars g _ h (gen_stmt_set_final_vars s g)
  | .scope sc, g, h => by
    simp only [GeneratorWin.gen_stmt]
    exact gen_scope_distinct sc g h
  | .if_ expr sc pred, g, h => by
    simp only [GeneratorWin.gen_stmt]
    have h1 := gen_expr_final_vars expr g
    cases he : g.gen_expr expr with
    | error x =>
      rw [he] at h1
      exact names_distinct_of_vars g _ h h1
    | ok g1 =>
      rw [he] at h1
      simp only [GeneratorWin.create_label]
      generalize hg2 : (GeneratorWin.emit _ (Instr.jz _)) = g2
      have h2 : g2.names_distinct := by
        subst hg2
        exact names_distinct_of_vars g _ h (by simpa [final_state, GeneratorWin.pop,
          GeneratorWin.emit] using h1)
      have h3 := gen_scope_distinct sc g2 h2
      cases hs : g2.gen_scope sc with
      | error x =>
        rw [hs] at h3
        exact h3
      | ok g3 =>
        rw [hs] at h3
        exact names_distinct_of_vars _ _ h3 (by simp [final_state, GeneratorWin.emit])
/-- Lowering a scope keeps the names of `m_vars` pairwise distinct, also when it halts. -/
theorem gen_scope_distinct : ∀ (sc : NodeScope) (g : GeneratorWin), g.names_distinct →
    (final_state (g.gen_scope sc)).names_distinct
  | .mk stmts, g, h => by
    simp only [GeneratorWin.gen_scope]
    have h1 := gen_stmts_distinct stmts g.begin_scope
      (names_distinct_of_vars g _ h (by simp [GeneratorWin.begin_scope]))
    cases hs : GeneratorWin.gen_stmts stmts g.begin_scope with
    | error x =>
      rw [hs] at h1
      exact h1
    | ok g1 =>
      rw [hs] at h1
      obtain ⟨k, hk⟩ := end_scope_final_vars g1
      exact names_distinct_take g1 _ k h1 hk
/-- Lowering a statement list keeps the names of `m_vars` pairwise distinct, also when it
halts. -/
theorem gen_stmts_distinct : ∀ (l : List NodeStmt) (g : GeneratorWin), g.names_distinct →
    (final_state (GeneratorWin.gen_stmts l g)).names_distinct
  | [], g, h => by
    simp only [GeneratorWin.gen_stmts]
    exact h
  | s :: rest, g, h => by
    simp only [GeneratorWin.gen_stmts]
    have h1 := gen_stmt_distinct s g h
    cases hs : g.gen_stmt s with
    | error x =>
      rw [hs] at h1
      exact h1
    | ok g1 =>
      rw [hs] at h1
      exact gen_stmts_distinct rest g1 h1
end

mutual
/-- A property of the generator state that depends on `m_vars` and `m_stack_size` only and
that every returning call of `gen_stmt` preserves holds on entry to every call of `gen_stmt`
made while a statement is lowered. -/
theorem stmt_calls_inv (P : GeneratorWin → Prop)
    (hP : ∀ g g' : GeneratorWin, g'.m_vars = g.m_vars → g'.m_stack_size = g.m_stack_size →
      P g → P g')
    (h_stmt : ∀ s g g', P g → GeneratorWin.gen_stmt s g = .ok g' → P g') :
    ∀ (s : NodeStmt) (g : GeneratorWin), P g → ∀ x ∈ stmt_calls s g, P x.2
  | .exit e, g, hg, x, hx => by
    simp only [stmt_calls, List.mem_singleton] at hx
    subst hx
    exact hg
  | .let_ i e, g, hg, x, hx => by
    simp only [stmt_calls, List.mem_singleton] at hx
    subst hx
    exact hg
  | .set s, g, hg, x, hx => by
    simp only [stmt_calls, List.mem_singleton] at hx
    subst hx
    exact hg
  | .scope sc, g, hg, x, hx => by
    simp only [stmt_calls, List.mem_cons] at hx
    rcases hx with rfl | hx
    · exact hg
    · exact scope_calls_inv P hP h_stmt sc g hg x hx
  | .if_ e sc pred, g, hg, x, hx => by
    simp only [stmt_calls, List.mem_cons] at hx
    rcases hx with rfl | hx
    · exact hg
    · cases he : g.gen_expr e with
      | error y => simp [he] at hx
      | ok g1 =>
        simp only [he, GeneratorWin.create_label] at hx
        obtain ⟨a1, a2, _, _⟩ := gen_expr_effect e g g1 he
        refine scope_calls_inv P hP h_stmt sc _ (hP g _ ?_ ?_ hg) x hx
        · simp [GeneratorWin.emit, GeneratorWin.pop, a2]
        · simp [GeneratorWin.emit, GeneratorWin.pop, a1, size_sub_succ_one]
/-- The same on entry to every call of `gen_stmt` made by `gen_scope`. -/
theorem scope_calls_inv (P : GeneratorWin → Prop)
    (hP : ∀ g g' : GeneratorWin, g'.m_vars = g.m_vars → g'.m_stack_size = g.m_stack_size →
      P g → P g')
    (h_stmt : ∀ s g g', P g → GeneratorWin.gen_stmt s g = .ok g' → P g') :
    ∀ (sc : NodeScope) (g : GeneratorWin), P g → ∀ x ∈ scope_calls sc g, P x.2
  | .mk stmts, g, hg, x, hx => by
    simp only [scope_calls] at hx
    exact stmts_calls_inv P hP h_stmt stmts g.begin_scope (hP g g.begin_scope rfl rfl hg) x hx
/-- The same on entry to every call of `gen_stmt` made for a statement list. -/
theorem stmts_calls_inv (P : GeneratorWin → Prop)
    (hP : ∀ g g' : GeneratorWin, g'.m_vars = g.m_vars → g'.m_stack_size = g.m_stack_size →
      P g → P g')
    (h_stmt : ∀ s g g', P g → GeneratorWin.gen_stmt s g = .ok g' → P g') :
    ∀ (l : List NodeStmt) (g : GeneratorWin), P g → ∀ x ∈ stmts_calls l g, P x.2
  | [], g, hg, x, hx => by
    simp [stmts_calls] at hx
  | s :: rest, g, hg, x, hx => by
    simp only [stmts_calls, List.mem_append] at hx
    rcases hx with hx | hx
    · exact stmt_calls_inv P hP h_stmt s g hg x hx
    · cases hs : g.gen_stmt s with
      | error y => simp [hs] at hx
      | ok g1 =>
        simp only [hs] at hx
        exact stmts_calls_inv P hP h_stmt rest g1 (h_stmt s g g1 hg hs) x hx
end

theorem names_distinct_init : (GeneratorWin.init.emit .header).names_distinct := by
  simp [GeneratorWin.names_distinct, GeneratorWin.init, GeneratorWin.emit]

/-- Every call of `gen_stmt` made while a statement list is lowered from a state with
pairwise distinct names is entered with pairwise distinct names and leaves them so. -/
theorem stmts_calls_distinct (l : List NodeStmt) (g : GeneratorWin) (h : g.names_distinct) :
    ∀ x ∈ stmts_calls l g,
      x.2.names_distinct ∧ (final_state (x.2.gen_stmt x.1)).names_distinct := by
  intro x hx
  have h1 := stmts_calls_inv GeneratorWin.names_distinct
    (fun g g' hv _ hg => names_distinct_of_vars g g' hg hv)
    (fun s g g' hg hs => by
      have := gen_stmt_distinct s g hg
      rw [hs] at this
      exact this) l g h x hx
  exact ⟨h1, gen_stmt_distinct x.1 x.2 h1⟩

/-! ## C31: the names in `m_vars` are pairwise distinct -/

/-- C31: the names recorded in `m_vars` are pairwise distinct at every point of code
generation.  Lowering a statement list from a state with distinct names ends, by return or
by halt, in a state with distinct names, and so does every call of `gen_stmt` made on the
way, at top level or inside a scope, each of which is also entered with distinct names;
`gen_expr` and `gen_stmt_set` leave `m_vars` as it is, also when they halt; a `Let` that
returns has added, at the end of `m_vars`, a name that was not there.  For `gen_prog`, which
starts from an empty `m_vars`, all of this holds without a condition. -/
theorem C31_var_names_distinct :
    (∀ (l : List NodeStmt) (g : GeneratorWin), g.names_distinct →
      (final_state (GeneratorWin.gen_stmts l g)).names_distinct
      ∧ ∀ x ∈ stmts_calls l g,
          x.2.names_distinct ∧ (final_state (x.2.gen_stmt x.1)).names_distinct)
    ∧ (∀ (e : NodeExpr) (g : GeneratorWin), (final_state (g.gen_expr e)).m_vars = g.m_vars)
    ∧ (∀ (s : NodeStmtSet) (g : GeneratorWin),
        (final_state (g.gen_stmt_set s)).m_vars = g.m_vars)
    ∧ (∀ (g g' : GeneratorWin) (ident : Token) (expr : NodeExpr),
      g.gen_stmt (.let_ ident expr) = .ok g' →
      ∃ name, ident.value = some name ∧ name ∉ g.m_vars.map Var.name
        ∧ g'.m_vars = g.m_vars ++ [Var.mk name g.m_stack_size])
    ∧ (∀ prog : NodeProg, (final_state (GeneratorWin.gen_prog prog)).names_distinct
      ∧ ∀ x ∈ stmts_calls prog.stmts (GeneratorWin.init.emit .header),
          x.2.names_distinct ∧ (final_state (x.2.gen_stmt x.1)).names_distinct) := by
  refine ⟨fun l g h => ⟨gen_stmts_distinct l g h, stmts_calls_distinct l g h⟩,
    gen_expr_final_vars, gen_stmt_set_final_vars, ?_, ?_⟩
  · intro g g' ident expr h
    simp only [GeneratorWin.gen_stmt] at h
    cases hv : ident.value with
    | none => simp [hv] at h
    | some name =>
      simp only [hv] at h
      cases hf : g.find_var name with
      | some it => simp [hf] at h
      | none =>
        simp only [hf] at h
        refine ⟨name, rfl, not_mem_of_find_var_none g name hf, ?_⟩
        have h1 := gen_expr_final_vars expr
          ({ g with m_vars := g.m_vars ++ [Var.mk name g.m_stack_size] } : GeneratorWin)
        rw [h] at h1
        exact h1
  · intro prog
    refine ⟨?_, stmts_calls_distinct _ _ names_distinct_init⟩
    have h1 := gen_stmts_distinct prog.stmts _ names_distinct_init
    simp only [GeneratorWin.gen_prog]
    cases hs : GeneratorWin.gen_stmts prog.stmts (GeneratorWin.init.emit .header) with
    | error x =>
      rw [hs] at h1
      exact h1
    | ok g1 =>
      rw [hs] at h1
      exact names_distinct_of_vars _ _ h1 (by simp [final_state, GeneratorWin.emit])

/-- C31 at `{ let y = 1; x = y; if (x) { let z = 2; } { } }`, lowered where `x` is declared:
the inner `let z = 2` is entered with the distinct names `x`, `y`. -/
theorem C31_var_names_distinct_witness :
    gen_with_x.names_distinct
    ∧ ((final_state (GeneratorWin.gen_stmts sample_scope.stmts gen_with_x)).names_distinct
      ∧ ∀ x ∈ stmts_calls sample_scope.stmts gen_with_x,
          x.2.names_distinct ∧ (final_state (x.2.gen_stmt x.1)).names_distinct)
    ∧ (stmts_calls sample_scope.stmts gen_with_x).length = 5 :=
  ⟨by simp [GeneratorWin.names_distinct, gen_with_x],
    C31_var_names_distinct.1 sample_scope.stmts gen_with_x
      (by simp [GeneratorWin.names_distinct, gen_with_x]), by decide⟩

/-! ## C32: the stack counter and the variable table -/

/-- The variables of `decls` get consecutive stack locations. -/
theorem decls_stack_loc : ∀ (l : List NodeStmt) (n j : Nat) (v : Var),
    (decls l n)[j]? = some v → v.stack_loc = n + j
  | [], n, j, v, h => by simp [decls] at h
  | .let_ ident e :: rest, n, j, v, h => by
    simp only [decls] at h
    cases j with
    | zero =>
      simp only [List.getElem?_cons_zero, Option.some.injEq] at h
      subst h
      rfl
    | succ j =>
      simp only [List.getElem?_cons_succ] at h
      have := decls_stack_loc rest (n + 1) j v h
      omega
  | .exit e :: rest, n, j, v, h => by
    simp only [decls] at h
    exact decls_stack_loc rest n j v h
  | .set s :: rest, n, j, v, h => by
    simp only [decls] at h
    exact decls_stack_loc rest n j v h
  | .scope sc :: rest, n, j, v, h => by
    simp only [decls] at h
    exact decls_stack_loc rest n j v h
  | .if_ e sc pr :: rest, n, j, v, h => by
    simp only [decls] at h
    exact decls_stack_loc rest n j v h

/-- Adding the variables of the `Let` statements of a list keeps the table aligned. -/
theorem stack_aligned_decls (g g' : GeneratorWin) (l : List NodeStmt) (h : g.stack_aligned)
    (hv : g'.m_vars = g.m_vars ++ decls l g.m_stack_size)
    (hs : g'.m_stack_size = g.m_stack_size + count_lets l) : g'.stack_aligned := by
  obtain ⟨h1, h2⟩ := h
  refine ⟨?_, ?_⟩
  · rw [hs, hv, List.length_append, decls_length, h1]
  · intro i v hi
    rw [hv] at hi
    by_cases hlt : i < g.m_vars.length
    · rw [List.getElem?_append_left hlt] at hi
      exact h2 i v hi
    · rw [List.getElem?_append_right (by omega)] at hi
      have := decls_stack_loc l g.m_stack_size _ v hi
      omega

theorem gen_stmt_aligned (s : NodeStmt) (g g' : GeneratorWin) (h : g.stack_aligned)
    (hs : g.gen_stmt s = .ok g') : g'.stack_aligned := by
  obtain ⟨a1, a2, _, _⟩ := gen_stmt_effect s g g' hs
  exact stack_aligned_decls g g' [s] h a2 a1

theorem gen_stmts_aligned (l : List NodeStmt) (g g' : GeneratorWin) (h : g.stack_aligned)
    (hs : GeneratorWin.gen_stmts l g = .ok g') : g'.stack_aligned := by
  obtain ⟨a1, a2, _, _⟩ := gen_stmts_effect l g g' hs
  exact stack_aligned_decls g g' l h a2 a1

theorem stack_aligned_of_eq (g g' : GeneratorWin) (hv : g'.m_vars = g.m_vars)
    (hs : g'.m_stack_size = g.m_stack_size) (h : g.stack_aligned) : g'.stack_aligned := by
  unfold GeneratorWin.stack_aligned at h ⊢
  rw [hv, hs]
  exact h

theorem stack_aligned_init : (GeneratorWin.init.emit .header).stack_aligned := by
  simp [GeneratorWin.stack_aligned, GeneratorWin.init, GeneratorWin.emit]

/-- Every call of `gen_stmt` made while a statement list is lowered from an aligned state is
entered in an aligned state and, when it returns, returns in one. -/
theorem stmts_calls_aligned (l : List NodeStmt) (g : GeneratorWin) (h : g.stack_aligned) :
    ∀ x ∈ stmts_calls l g,
      x.2.stack_aligned ∧ ∀ g', x.2.gen_stmt x.1 = .ok g' → g'.stack_aligned := by
  intro x hx
  have h1 := stmts_calls_inv GeneratorWin.stack_aligned stack_aligned_of_eq
    (fun s g g' hg hs => gen_stmt_aligned s g g' hg hs) l g h x hx
  exact ⟨h1, fun g' hs => gen_stmt_aligned x.1 x.2 g' h1 hs⟩

/-- C32: before and after every statement that `gen_stmt` lowers, at top level or inside any
scope, `m_stack_size` equals the number of entries of `m_vars` and the entry at index `i`
has `stack_loc = i`.  A returning `gen_stmt` or `gen_stmts` keeps this, and so it holds on
entry to, and on return from, every call of `gen_stmt` made on the way.  `gen_prog` starts
from a state in which it holds; when `gen_prog` returns, it holds and `m_stack_size` equals
the number of top-level `Let` statements of the program. -/
theorem C32_stack_size_tracks_vars :
    (∀ (s : NodeStmt) (g g' : GeneratorWin), g.stack_aligned → g.gen_stmt s = .ok g' →
      g'.stack_aligned)
    ∧ (∀ (l : List NodeStmt) (g : GeneratorWin), g.stack_aligned →
      (∀ g', GeneratorWin.gen_stmts l g = .ok g' → g'.stack_aligned)
      ∧ ∀ x ∈ stmts_calls l g,
          x.2.stack_aligned ∧ ∀ g', x.2.gen_stmt x.1 = .ok g' → g'.stack_aligned)
    ∧ (∀ prog : NodeProg,
      (∀ x ∈ stmts_calls prog.stmts (GeneratorWin.init.emit .header),
          x.2.stack_aligned ∧ ∀ g', x.2.gen_stmt x.1 = .ok g' → g'.stack_aligned)
      ∧ ∀ g, GeneratorWin.gen_prog prog = .ok g →
          g.stack_aligned ∧ g.m_stack_size = count_lets prog.stmts) := by
  refine ⟨gen_stmt_aligned, fun l g h => ⟨fun g' hs => gen_stmts_aligned l g g' h hs,
    stmts_calls_aligned l g h⟩, fun prog => ⟨stmts_calls_aligned _ _ stack_aligned_init, ?_⟩⟩
  intro g h
  refine ⟨?_, (gen_prog_effect prog g h).1⟩
  simp only [GeneratorWin.gen_prog] at h
  cases h1 : GeneratorWin.gen_stmts prog.stmts (GeneratorWin.init.emit .header) with
  | error e => simp [h1] at h
  | ok g1 =>
    simp [h1] at h
    subst h
    exact stack_aligned_of_eq g1 _ (by simp [GeneratorWin.emit]) (by simp [GeneratorWin.emit])
      (gen_stmts_aligned _ _ g1 stack_aligned_init h1)

/-- C32 at `{ let y = 1; x = y; if (x) { let z = 2; } { } }`, lowered where `x` is
declared at location 0 and the stack holds one word. -/
theorem C32_stack_size_tracks_vars_witness :
    gen_with_x.stack_aligned
    ∧ ((∀ g', GeneratorWin.gen_stmts sample_scope.stmts gen_with_x = .ok g' → g'.stack_aligned)
      ∧ ∀ x ∈ stmts_calls sample_scope.stmts gen_with_x,
          x.2.stack_aligned ∧ ∀ g', x.2.gen_stmt x.1 = .ok g' → g'.stack_aligned)
    ∧ (stmts_calls sample_scope.stmts gen_with_x).map (fun x => x.2.m_stack_size)
        = [1, 2, 2, 2, 2] :=
  ⟨by simp [GeneratorWin.stack_aligned, gen_with_x, List.getElem?_cons],
    C32_stack_size_tracks_vars.2.1 sample_scope.stmts gen_with_x
      (by simp [GeneratorWin.stack_aligned, gen_with_x, List.getElem?_cons]), by decide⟩

/-! ## C34: a variable of a scope is not visible after the scope -/

theorem find_var_of_vars (g g' : GeneratorWin) (x : String) (hv : g'.m_vars = g.m_vars) :
    g'.find_var x = g.find_var x := by
  simp only [GeneratorWin.find_var, hv]

theorem find_var_append_none (g g' : GeneratorWin) (x : String) (new_vars : List Var)
    (hv : g'.m_vars = g.m_vars ++ new_vars) (hg : g.find_var x = none)
    (hn : ∀ v ∈ new_vars, v.name ≠ x) : g'.find_var x = none := by
  simp only [GeneratorWin.find_var, List.find?_eq_none] at hg ⊢
  intro v hv'
  rw [hv, List.mem_append] at hv'
  rcases hv' with h | h
  · exact hg v h
  · simpa using hn v h

/-- C34: a variable declared inside a scope is not visible after the scope.  When
`gen_scope` returns, a name that was not declared before the scope is not declared after it,
whatever the scope declared: a use of it as a term or as the target of a `Set` statement
halts with `Undeclared identifier used '<x>'`, and a `let` of it passes the declaration
check (the name is added to `m_vars` and the initialiser is lowered).  The same holds after
any statement list that has returned and has no `let x` at its own level, however many
scopes with a `let x` it contains.  `{ let x = 1; } { let x = 2; }` is lowered without
error; `{ let x = 1; } exit(x);` and `{ let x = 1; } x = 2;` halt with the message. -/
theorem C34_scope_variable_not_visible_after :
    (∀ (l : List NodeStmt) (g g1 : GeneratorWin) (x : String),
      GeneratorWin.gen_stmts l g = .ok g1 → g.find_var x = none →
      (∀ v ∈ decls l g.m_stack_size, v.name ≠ x) →
      g1.find_var x = none)
    ∧ (∀ (scope : NodeScope) (g g1 : GeneratorWin) (x : String),
      g.gen_scope scope = .ok g1 → g.find_var x = none →
      g1.find_var x = none
      ∧ (∀ t : Token, t.value = some x →
          g1.gen_expr (.term (.ident t))
            = .error (.exit_failure ("Undeclared identifier used '" ++ x ++ "'\n"), g1))
      ∧ (∀ s : NodeStmtSet, s.ident.value = some x →
          g1.gen_stmt (.set s)
            = .error (.exit_failure ("Undeclared identifier used '" ++ x ++ "'\n"), g1))
      ∧ (∀ (ident : Token) (expr : NodeExpr), ident.value = some x →
          g1.gen_stmt (.let_ ident expr)
            = GeneratorWin.gen_expr expr
                { g1 with m_vars := g1.m_vars ++ [Var.mk x g1.m_stack_size] }))
    ∧ GeneratorWin.gen_prog prog_sibling_lets = .ok prog_sibling_lets_done
    ∧ GeneratorWin.gen_prog prog_use_after_scope
        = .error (.exit_failure "Undeclared identifier used 'x'\n", after_scope_let_x)
    ∧ GeneratorWin.gen_prog prog_set_after_scope
        = .error (.exit_failure "Undeclared identifier used 'x'\n", after_scope_let_x) := by
  refine ⟨?_, ?_, rfl, rfl, rfl⟩
  · intro l g g1 x hs hg hn
    obtain ⟨_, a2, _, _⟩ := gen_stmts_effect l g g1 hs
    exact find_var_append_none g g1 x _ a2 hg hn
  · intro scope g g1 x hs hg
    obtain ⟨_, a2, _, _⟩ := gen_scope_effect scope g g1 hs
    have h1 : g1.find_var x = none := by rw [find_var_of_vars g g1 x a2, hg]
    have hne : ∀ v ∈ g1.m_vars, v.name ≠ x := by
      intro v hv hx
      exact not_mem_of_find_var_none g1 x h1 (List.mem_map.mpr ⟨v, hv, hx⟩)
    refine ⟨h1, fun t ht => undeclared_term_halts g1 t x ht hne, ?_, ?_⟩
    · intro s hx
      simp only [GeneratorWin.gen_stmt]
      exact undeclared_set_target_halts g1 s x hx hne
    · intro ident expr hx
      simp only [GeneratorWin.gen_stmt, hx, h1]

/-- C34 at the scope `{ let x = 1; }` lowered at the top level and the name `x`. -/
theorem C34_scope_variable_not_visible_after_witness :
    GeneratorWin.gen_scope (.mk [.let_ (tok_ident "x") (e_int "1")])
        (GeneratorWin.init.emit .header) = .ok after_scope_let_x
    ∧ (GeneratorWin.init.emit .header).find_var "x" = none
    ∧ (after_scope_let_x.find_var "x" = none
      ∧ (∀ t : Token, t.value = some "x" →
          after_scope_let_x.gen_expr (.term (.ident t))
            = .error (.exit_failure ("Undeclared identifier used '" ++ "x" ++ "'\n"),
                after_scope_let_x))
      ∧ (∀ s : NodeStmtSet, s.ident.value = some "x" →
          after_scope_let_x.gen_stmt (.set s)
            = .error (.exit_failure ("Undeclared identifier used '" ++ "x" ++ "'\n"),
                after_scope_let_x))
      ∧ (∀ (ident : Token) (expr : NodeExpr), ident.value = some "x" →
          after_scope_let_x.gen_stmt (.let_ ident expr)
            = GeneratorWin.gen_expr expr
                { after_scope_let_x with
                  m_vars := after_scope_let_x.m_vars
                    ++ [Var.mk "x" after_scope_let_x.m_stack_size] }))
    ∧ GeneratorWin.gen_stmts [.scope (.mk [.let_ (tok_ident "x") (e_int "1")])]
        (GeneratorWin.init.emit .header) = .ok after_scope_let_x
    ∧ (∀ v ∈ decls [.scope (.mk [.let_ (tok_ident "x") (e_int "1")])]
        (GeneratorWin.init.emit .header).m_stack_size, v.name ≠ "x")
    ∧ after_scope_let_x.find_var "x" = none :=
  ⟨rfl, rfl, C34_scope_variable_not_visible_after.2.1 (.mk [.let_ (tok_ident "x") (e_int "1")])
    (GeneratorWin.init.emit .header) after_scope_let_x "x" rfl rfl, rfl, by decide,
    C34_scope_variable_not_visible_after.1 [.scope (.mk [.let_ (tok_ident "x") (e_int "1")])]
      (GeneratorWin.init.emit .header) after_scope_let_x "x" rfl rfl (by decide)⟩

/-! ## What the parser consumes -/

theorem Parser.consumed_refl (p : Parser) : p.Consumed p [] :=
  ⟨[], p.rest, rfl, rfl, rfl⟩

theorem Parser.consumed_trans (p q r : Parser) (w1 w2 : List (TokenType × Option String))
    (h1 : p.Consumed q w1) (h2 : q.Consumed r w2) : p.Consumed r (w1 ++ w2) := by
  obtain ⟨s1, t1, a1, a2, a3⟩ := h1
  obtain ⟨s2, t2, b1, b2, b3⟩ := h2
  have hq : q.rest = t1 := by rw [a2]; exact Parser.rest_advance_append p s1 t1 a1
  refine ⟨s1 ++ s2, t2, ?_, ?_, ?_⟩
  · rw [a1, ← hq, b1, List.append_assoc]
  · rw [b2, a2, Parser.advance_advance, List.length_append]
  · rw [List.map_append, a3, b3]

/-- What has been consumed is gone from the tokens left; the index has moved forward by as
much, inside the same token list. -/
theorem Parser.consumed_length (p p' : Parser) (w : List (TokenType × Option String))
    (h : p.Consumed p' w) :
    p'.rest.length + w.length = p.rest.length ∧ p'.m_index = p.m_index + w.length
      ∧ p'.m_tokens = p.m_tokens ∧ p'.m_srcName = p.m_srcName := by
  obtain ⟨s, t, a1, a2, a3⟩ := h
  have hq : p'.rest = t := by rw [a2]; exact Parser.rest_advance_append p s t a1
  subst a3
  refine ⟨?_, ?_, ?_, ?_⟩
  · rw [hq, a1, List.length_append, List.length_map]; omega
  · rw [a2, List.length_map]; rfl
  · rw [a2]; rfl
  · rw [a2]; rfl

theorem Parser.consumed_nil (p p' : Parser) (h : p.Consumed p' []) : p' = p := by
  obtain ⟨s, t, _, a2, a3⟩ := h
  have : s = [] := List.map_eq_nil_iff.mp a3
  subst this
  exact a2

theorem Parser.consume_consumed (p p' : Parser) (t : Token) (h : p.consume = .ok (t, p')) :
    p.peek 0 = some t ∧ p' = p.advance 1 ∧ p.Consumed p' [t.spelling] := by
  obtain ⟨_, h2, h3⟩ := Parser.consume_frame p p' t h
  have h0 := Parser.getElem?_of_rest p 0
  rw [Nat.add_zero, h3] at h0
  cases hr : p.rest with
  | nil => rw [hr] at h0; simp at h0
  | cons u r =>
    rw [hr, List.getElem?_cons_zero, Option.some.injEq] at h0
    subst h0
    refine ⟨by rw [Parser.peek_zero, hr]; rfl, h2, ⟨[t], r, hr, h2, rfl⟩⟩

theorem Parser.try_consume_some (p p' : Parser) (type : TokenType) (t : Token)
    (h : p.try_consume type = .ok (some t, p')) :
    t.type = type ∧ p.peek 0 = some t ∧ p' = p.advance 1 ∧ p.Consumed p' [t.spelling] := by
  unfold Parser.try_consume at h
  cases hp : p.peek 0 with
  | none => rw [hp] at h; simp at h
  | some u =>
    rw [hp] at h
    simp only at h
    by_cases ht : u.type = type
    · rw [if_pos ht] at h
      cases hc : p.consume with
      | error e => rw [hc] at h; simp at h
      | ok x =>
        obtain ⟨v, q⟩ := x
        rw [hc] at h
        simp only [Except.ok.injEq, Prod.mk.injEq, Option.some.injEq] at h
        obtain ⟨e1, e2⟩ := h
        subst e1 e2
        obtain ⟨c1, c2, c3⟩ := Parser.consume_consumed p q v hc
        rw [hp, Option.some.injEq] at c1
        subst c1
        exact ⟨ht, rfl, c2, c3⟩
    · rw [if_neg ht] at h
      simp at h

theorem Parser.try_consume_none (p p' : Parser) (type : TokenType)
    (h : p.try_consume type = .ok (none, p')) :
    p' = p ∧ ∀ t, p.peek 0 = some t → t.type ≠ type := by
  unfold Parser.try_consume at h
  cases hp : p.peek 0 with
  | none =>
    rw [hp] at h
    simp only [Except.ok.injEq, Prod.mk.injEq, true_and] at h
    exact ⟨h.symm, fun t ht => by simp at ht⟩
  | some u =>
    rw [hp] at h
    simp only at h
    by_cases ht : u.type = type
    · rw [if_pos ht] at h
      cases hc : p.consume with
      | error e => rw [hc] at h; simp at h
      | ok x =>
        obtain ⟨v, q⟩ := x
        rw [hc] at h
        simp at h
    · rw [if_neg ht] at h
      simp only [Except.ok.injEq, Prod.mk.injEq, true_and] at h
      refine ⟨h.symm, fun t h' => ?_⟩
      rw [Option.some.injEq] at h'
      subst h'
      exact ht

theorem Parser.try_consume_err_ok (p p' : Parser) (type : TokenType) (msg : String)
    (line col : Int) (t : Token) (h : p.try_consume_err type msg line col = .ok (t, p')) :
    t.type = type ∧ p.peek 0 = some t ∧ p' = p.advance 1 ∧ p.Consumed p' [t.spelling] := by
  unfold Parser.try_consume_err at h
  cases hp : p.peek 0 with
  | none => rw [hp] at h; simp at h
  | some u =>
    rw [hp] at h
    simp only at h
    by_cases ht : u.type = type
    · rw [if_pos ht] at h
      obtain ⟨c1, c2, c3⟩ := Parser.consume_consumed p p' t h
      rw [hp, Option.some.injEq] at c1
      subst c1
      exact ⟨ht, rfl, c2, c3⟩
    · rw [if_neg ht] at h
      simp at h

/-! ## The parser's own halts are not the model's -/

theorem Parser.error_ne (p : Parser) (msg : String) (line col : Int) :
    p.error msg line col ≠ .out_of_fuel := by
  unfold Parser.error
  split
  · simp
  · split <;> simp

theorem Parser.consume_ne (p : Parser) (e : Halt) (h : p.consume = .error e) :
    e ≠ .out_of_fuel := by
  unfold Parser.consume at h
  split at h
  · simp at h
  · simp only [Except.error.injEq] at h
    subst h
    simp

theorem Parser.try_consume_ne (p : Parser) (type : TokenType) (e : Halt)
    (h : p.try_consume type = .error e) : e ≠ .out_of_fuel := by
  unfold Parser.try_consume at h
  cases hp : p.peek 0 with
  | none => rw [hp] at h; simp at h
  | some u =>
    rw [hp] at h
    simp only at h
    by_cases ht : u.type = type
    · rw [if_pos ht] at h
      cases hc : p.consume with
      | error e' =>
        rw [hc] at h
        simp only [Except.error.injEq] at h
        subst h
        exact Parser.consume_ne p e' hc
      | ok x => rw [hc] at h; simp at h
    · rw [if_neg ht] at h
      simp at h

theorem Parser.try_consume_err_ne (p : Parser) (type : TokenType) (msg : String)
    (line col : Int) (e : Halt) (h : p.try_consume_err type msg line col = .error e) :
    e ≠ .out_of_fuel := by
  unfold Parser.try_consume_err at h
  cases hp : p.peek 0 with
  | none =>
    rw [hp] at h
    simp only [Except.error.injEq] at h
    subst h
    exact Parser.error_ne p _ _ _
  | some u =>
    rw [hp] at h
    simp only at h
    by_cases ht : u.type = type
    · rw [if_pos ht] at h
      exact Parser.consume_ne p e h
    · rw [if_neg ht] at h
      simp only [Except.error.injEq] at h
      subst h
      exact Parser.error_ne p _ _ _

theorem spelling_ident (t : Token) (h : t.type = .ident) : t.spelling = (.ident, t.value) := by
  simp [Token.spelling, h]

theorem spelling_int_lit (t : Token) (h : t.type = .int_lit) :
    t.spelling = (.int_lit, t.value) := by
  simp [Token.spelling, h]

theorem spelling_other (t : Token) (type : TokenType) (h : t.type = type)
    (h1 : type ≠ .ident) (h2 : type ≠ .int_lit) : t.spelling = (type, none) := by
  subst h
  simp [Token.spelling, h1, h2]

/-! ## Expressions: tokens consumed, and enough fuel -/

theorem mk_bin_expr_toks (op : TokenType) (lhs rhs e : NodeExpr)
    (h : mk_bin_expr op lhs rhs = some e) :
    expr_toks e = expr_toks lhs ++ (op, none) :: expr_toks rhs
      ∧ op ≠ .ident ∧ op ≠ .int_lit := by
  unfold mk_bin_expr at h
  split_ifs at h with h1 h2 h3 h4 <;> simp only [Option.some.injEq] at h <;> subst h <;>
    simp [expr_toks, bin_expr_toks, *]

/-- For `parse_term`, `parse_expr` and the operator loop: a node returned spells the tokens
consumed, nothing is consumed when no node is returned, and with fuel of twice the number of
tokens left, and one or two more, the model has not run out of fuel. -/
theorem parse_expr_good : ∀ f : Nat,
    (∀ p : Parser, Good term_toks (2 * p.rest.length + 1) p f (Parser.parse_term f p))
    ∧ (∀ (mp : Int) (p : Parser),
        Good expr_toks (2 * p.rest.length + 2) p f (Parser.parse_expr f mp p))
    ∧ (∀ (mp : Int) (lhs : NodeExpr) (p : Parser),
        GoodLoop lhs (2 * p.rest.length + 1) p f (Parser.parse_expr_loop f mp lhs p)) := by
  intro f
  induction f with
  | zero =>
    refine ⟨?_, ?_, ?_⟩
    · intro p hb; omega
    · intro mp p hb; omega
    · intro mp lhs p hb; omega
  | succ f ih =>
    obtain ⟨ih1, ih2, ih3⟩ := ih
    refine ⟨?_, ?_, ?_⟩
    · intro p
      rw [parse_term_succ]
      cases h1 : p.try_consume .int_lit with
      | error e => exact fun _ => Parser.try_consume_ne p _ e h1
      | ok x1 =>
        obtain ⟨r1, p1⟩ := x1
        cases r1 with
        | some t =>
          obtain ⟨ht, _, _, c1⟩ := Parser.try_consume_some p p1 _ t h1
          show p.Consumed p1 (term_toks (.int_lit t))
          rw [spelling_int_lit t ht] at c1
          exact c1
        | none =>
          obtain ⟨e1, _⟩ := Parser.try_consume_none p p1 _ h1
          subst e1
          simp only []
          cases h2 : p1.try_consume .ident with
          | error e => exact fun _ => Parser.try_consume_ne p1 _ e h2
          | ok x2 =>
            obtain ⟨r2, p2⟩ := x2
            cases r2 with
            | some t =>
              obtain ⟨ht, _, _, c1⟩ := Parser.try_consume_some p1 p2 _ t h2
              show p1.Consumed p2 (term_toks (.ident t))
              rw [spelling_ident t ht] at c1
              exact c1
            | none =>
              obtain ⟨e2, _⟩ := Parser.try_consume_none p1 p2 _ h2
              subst e2
              simp only []
              cases h3 : p2.try_consume .open_paren with
              | error e => exact fun _ => Parser.try_consume_ne p2 _ e h3
              | ok x3 =>
                obtain ⟨r3, p3⟩ := x3
                cases r3 with
                | none =>
                  obtain ⟨e3, _⟩ := Parser.try_consume_none p2 p3 _ h3
                  subst e3
                  rfl
                | some o =>
                  obtain ⟨ho, _, _, c3⟩ := Parser.try_consume_some p2 p3 _ o h3
                  rw [spelling_other o _ ho (by decide) (by decide)] at c3
                  have l3 := (Parser.consumed_length _ _ _ c3).1
                  simp only [List.length_singleton] at l3
                  simp only []
                  have g4 := ih2 0 p3
                  cases h4 : Parser.parse_expr f 0 p3 with
                  | error e =>
                    rw [h4] at g4
                    exact fun hb => g4 (by omega)
                  | ok x4 =>
                    obtain ⟨r4, p4⟩ := x4
                    rw [h4] at g4
                    cases r4 with
                    | none => exact fun _ => Parser.error_ne _ _ _ _
                    | some e =>
                      have c4 : p3.Consumed p4 (expr_toks e) := g4
                      simp only []
                      cases h5 : p4.try_consume_err .close_paren "Expected ')'" o.line (-1) with
                      | error e' => exact fun _ => Parser.try_consume_err_ne p4 _ _ _ _ e' h5
                      | ok x5 =>
                        obtain ⟨t5, p5⟩ := x5
                        obtain ⟨ht5, _, _, c5⟩ := Parser.try_consume_err_ok p4 p5 _ _ _ _ t5 h5
                        rw [spelling_other t5 _ ht5 (by decide) (by decide)] at c5
                        show p2.Consumed p5 (term_toks (.paren e))
                        have := Parser.consumed_trans _ _ _ _ _
                          (Parser.consumed_trans _ _ _ _ _ c3 c4) c5
                        simpa [term_toks] using this
    · intro mp p
      rw [parse_expr_succ]
      have g1 := ih1 p
      cases h1 : Parser.parse_term f p with
      | error e =>
        rw [h1] at g1
        exact fun hb => g1 (by omega)
      | ok x1 =>
        obtain ⟨r1, p1⟩ := x1
        rw [h1] at g1
        cases r1 with
        | none => exact g1
        | some t =>
          have c1 : p.Consumed p1 (term_toks t) := g1
          have l1 := (Parser.consumed_length _ _ _ c1).1
          simp only []
          have g2 := ih3 mp (.term t) p1
          cases h2 : Parser.parse_expr_loop f mp (.term t) p1 with
          | error e =>
            rw [h2] at g2
            exact fun hb => g2 (by omega)
          | ok x2 =>
            obtain ⟨r2, p2⟩ := x2
            rw [h2] at g2
            cases r2 with
            | none => exact g2.elim
            | some e =>
              obtain ⟨w, c2, hw⟩ : ∃ w, p1.Consumed p2 w
                ∧ expr_toks e = expr_toks (.term t) ++ w := g2
              show p.Consumed p2 (expr_toks e)
              rw [hw]
              exact Parser.consumed_trans _ _ _ _ _ c1 c2
    · intro mp lhs p
      rw [parse_expr_loop_succ]
      cases hp : p.peek 0 with
      | none => exact ⟨[], Parser.consumed_refl p, by simp⟩
      | some t =>
        simp only []
        cases hb : bin_prec t.type with
        | none => exact ⟨[], Parser.consumed_refl p, by simp⟩
        | some prec =>
          simp only []
          by_cases hlt : prec < mp
          · rw [if_pos hlt]
            exact ⟨[], Parser.consumed_refl p, by simp⟩
          · rw [if_neg hlt]
            cases hc : p.consume with
            | error e => exact fun _ => Parser.consume_ne p e hc
            | ok x1 =>
              obtain ⟨op, p1⟩ := x1
              obtain ⟨hop, _, c1⟩ := Parser.consume_consumed p p1 op hc
              have l1 := (Parser.consumed_length _ _ _ c1).1
              simp only [List.length_singleton] at l1
              simp only []
              have g2 := ih2 (prec + 1) p1
              cases h2 : Parser.parse_expr f (prec + 1) p1 with
              | error e =>
                rw [h2] at g2
                exact fun hb => g2 (by omega)
              | ok x2 =>
                obtain ⟨r2, p2⟩ := x2
                rw [h2] at g2
                cases r2 with
                | none => exact fun _ => Parser.error_ne _ _ _ _
                | some rhs =>
                  have c2 : p1.Consumed p2 (expr_toks rhs) := g2
                  have l2 := (Parser.consumed_length _ _ _ c2).1
                  simp only []
                  cases hm : mk_bin_expr op.type lhs rhs with
                  | none => exact fun _ => by simp
                  | some e =>
                    obtain ⟨m1, m2, m3⟩ := mk_bin_expr_toks _ _ _ _ hm
                    rw [spelling_other op _ rfl m2 m3] at c1
                    simp only []
                    have g3 := ih3 mp e p2
                    cases h3 : Parser.parse_expr_loop f mp e p2 with
                    | error e' =>
                      rw [h3] at g3
                      exact fun hb => g3 (by omega)
                    | ok x3 =>
                      obtain ⟨r3, p3⟩ := x3
                      rw [h3] at g3
                      cases r3 with
                      | none => exact g3.elim
                      | some e3 =>
                        obtain ⟨w, c3, hw⟩ : ∃ w, p2.Consumed p3 w
                          ∧ expr_toks e3 = expr_toks e ++ w := g3
                        refine ⟨(op.type, none) :: expr_toks rhs ++ w, ?_, ?_⟩
                        · have := Parser.consumed_trans _ _ _ _ _
                            (Parser.consumed_trans _ _ _ _ _ c1 c2) c3
                          simpa using this
                        · rw [hw, m1]
                          simp

/-! ## Statements: tokens consumed, and enough fuel -/

theorem Parser.peek_advance_one (p : Parser) : (p.advance 1).peek 0 = p.peek 1 := rfl

theorem Parser.peek_advance_two (p : Parser) : ((p.advance 1).advance 1).peek 0 = p.peek 2 :=
  rfl

theorem stmt_toks_pos (s : NodeStmt) : 0 < (stmt_toks s).length := by
  cases s with
  | exit e => simp [stmt_toks]
  | let_ i e => simp [stmt_toks]
  | set s => simp [stmt_toks]
  | scope sc => cases sc; simp [stmt_toks, scope_toks]
  | if_ e sc pr => simp [stmt_toks]

theorem stmts_toks_append (a b : List NodeStmt) :
    stmts_toks (a ++ b) = stmts_toks a ++ stmts_toks b := by
  induction a with
  | nil => simp [stmts_toks]
  | cons s r ih => simp [stmts_toks, ih]

/-- For `parse_stmt_set` called at an identifier: a node returned spells the tokens consumed,
and with fuel of twice the number of tokens left the model has not run out of fuel. -/
theorem parse_stmt_set_good (f : Nat) (p : Parser)
    (hi : ∀ t, p.peek 0 = some t → t.type = .ident) :
    GoodSet (2 * p.rest.length) p f (Parser.parse_stmt_set f p) := by
  unfold Parser.parse_stmt_set
  cases hc : p.consume with
  | error e => exact fun _ => Parser.consume_ne p e hc
  | ok x1 =>
    obtain ⟨ident, p1⟩ := x1
    obtain ⟨hid, _, c1⟩ := Parser.consume_consumed p p1 ident hc
    rw [spelling_ident ident (hi ident hid)] at c1
    have l1 := (Parser.consumed_length _ _ _ c1).1
    simp only [List.length_singleton] at l1
    simp only []
    cases hp : p1.peek 0 with
    | none => exact fun _ => by simp
    | some t =>
      simp only []
      by_cases hop : t.type = .eq ∨ t.type = .pluseq ∨ t.type = .stareq ∨ t.type = .minuseq
          ∨ t.type = .fslasheq
      · rw [if_pos hop]
        cases hc2 : p1.consume with
        | error e => exact fun _ => Parser.consume_ne p1 e hc2
        | ok x2 =>
          obtain ⟨t', p2⟩ := x2
          obtain ⟨ht', _, c2⟩ := Parser.consume_consumed p1 p2 t' hc2
          rw [hp, Option.some.injEq] at ht'
          subst ht'
          have hsp : t.spelling = (t.type, none) :=
            spelling_other t _ rfl (by rcases hop with h | h | h | h | h <;> rw [h] <;> decide)
              (by rcases hop with h | h | h | h | h <;> rw [h] <;> decide)
          rw [hsp] at c2
          have l2 := (Parser.consumed_length _ _ _ c2).1
          simp only [List.length_singleton] at l2
          simp only []
          have g3 := (parse_expr_good f).2.1 0 p2
          cases h3 : Parser.parse_expr f 0 p2 with
          | error e =>
            rw [h3] at g3
            exact fun hb => g3 (by omega)
          | ok x3 =>
            obtain ⟨r3, p3⟩ := x3
            rw [h3] at g3
            cases r3 with
            | none => exact fun _ => Parser.error_ne _ _ _ _
            | some expr =>
              have c3 : p2.Consumed p3 (expr_toks expr) := g3
              have c := Parser.consumed_trans _ _ _ _ _
                (Parser.consumed_trans _ _ _ _ _ c1 c2) c3
              simp only []
              split_ifs with e1 e2 e3 e4
              · show p.Consumed p3 (set_toks (.set_expr ident expr))
                simpa [set_toks, e1] using c
              · show p.Consumed p3 (set_toks (.set_add ident expr))
                simpa [set_toks, e2] using c
              · show p.Consumed p3 (set_toks (.set_multi ident expr))
                simpa [set_toks, e3] using c
              · show p.Consumed p3 (set_toks (.set_sub ident expr))
                simpa [set_toks, e4] using c
              · show p.Consumed p3 (set_toks (.set_div ident expr))
                have e5 : t.type = .fslasheq := by
                  rcases hop with h | h | h | h | h
                  · exact absurd h e1
                  · exact absurd h e2
                  · exact absurd h e3
                  · exact absurd h e4
                  · exact h
                simpa [set_toks, e5] using c
      · rw [if_neg hop]
        trivial

/-- For `parse_scope`, the statement loop of `parse_scope`, `parse_if_pred` and
`parse_stmt`: a node returned spells the tokens consumed, nothing is consumed when no node
is returned, and with fuel of three times the number of tokens left, and one to three more,
the model has not run out of fuel. -/
theorem parse_stmt_good : ∀ f : Nat,
    (∀ p : Parser, Good scope_toks (3 * p.rest.length + 1) p f (Parser.parse_scope f p))
    ∧ (∀ (stmts : List NodeStmt) (p : Parser),
        GoodStmts stmts (3 * p.rest.length + 3) p f (Parser.parse_scope_loop f stmts p))
    ∧ (∀ p : Parser, Good pred_toks (3 * p.rest.length + 1) p f (Parser.parse_if_pred f p))
    ∧ (∀ p : Parser, Good stmt_toks (3 * p.rest.length + 2) p f (Parser.parse_stmt f p)) := by
  intro f
  induction f with
  | zero =>
    refine ⟨?_, ?_, ?_, ?_⟩
    · intro p hb; omega
    · intro stmts p hb; omega
    · intro p hb; omega
    · intro p hb; omega
  | succ f ih =>
    obtain ⟨ih_scope, ih_loop, ih_pred, ih_stmt⟩ := ih
    refine ⟨?_, ?_, ?_, ?_⟩
    · -- parse_scope
      intro p
      rw [Parser.parse_scope]
      cases h1 : p.try_consume .open_curly with
      | error e => exact fun _ => Parser.try_consume_ne p _ e h1
      | ok x1 =>
        obtain ⟨r1, p1⟩ := x1
        cases r1 with
        | none =>
          obtain ⟨e1, _⟩ := Parser.try_consume_none p p1 _ h1
          subst e1
          rfl
        | some o =>
          obtain ⟨ho, _, _, c1⟩ := Parser.try_consume_some p p1 _ o h1
          rw [spelling_other o _ ho (by decide) (by decide)] at c1
          have l1 := (Parser.consumed_length _ _ _ c1).1
          simp only [List.length_singleton] at l1
          simp only []
          have g2 := ih_loop [] p1
          cases h2 : Parser.parse_scope_loop f [] p1 with
          | error e =>
            rw [h2] at g2
            exact fun hb => g2 (by omega)
          | ok x2 =>
            obtain ⟨stmts, p2⟩ := x2
            rw [h2] at g2
            obtain ⟨new, hn, c2⟩ : ∃ new, stmts = [] ++ new
              ∧ p1.Consumed p2 (stmts_toks new) := g2
            simp only [List.nil_append] at hn
            subst hn
            simp only []
            cases h3 : p2.try_consume_err .close_curly "Expected '\x7d'" (-1) (-1) with
            | error e => exact fun _ => Parser.try_consume_err_ne p2 _ _ _ _ e h3
            | ok x3 =>
              obtain ⟨t3, p3⟩ := x3
              obtain ⟨ht3, _, _, c3⟩ := Parser.try_consume_err_ok p2 p3 _ _ _ _ t3 h3
              rw [spelling_other t3 _ ht3 (by decide) (by decide)] at c3
              show p.Consumed p3 (scope_toks (.mk stmts))
              have := Parser.consumed_trans _ _ _ _ _
                (Parser.consumed_trans _ _ _ _ _ c1 c2) c3
              simpa [scope_toks] using this
    · -- parse_scope_loop
      intro stmts p
      rw [Parser.parse_scope_loop]
      have g1 := ih_stmt p
      cases h1 : Parser.parse_stmt f p with
      | error e =>
        rw [h1] at g1
        exact fun hb => g1 (by omega)
      | ok x1 =>
        obtain ⟨r1, p1⟩ := x1
        rw [h1] at g1
        cases r1 with
        | none =>
          have e1 : p1 = p := g1
          subst e1
          exact ⟨[], by simp, Parser.consumed_refl _⟩
        | some s =>
          have c1 : p.Consumed p1 (stmt_toks s) := g1
          have l1 := (Parser.consumed_length _ _ _ c1).1
          have l0 := stmt_toks_pos s
          simp only []
          have g2 := ih_loop (stmts ++ [s]) p1
          cases h2 : Parser.parse_scope_loop f (stmts ++ [s]) p1 with
          | error e =>
            rw [h2] at g2
            exact fun hb => g2 (by omega)
          | ok x2 =>
            obtain ⟨r, p2⟩ := x2
            rw [h2] at g2
            obtain ⟨new, hn, c2⟩ : ∃ new, r = (stmts ++ [s]) ++ new
              ∧ p1.Consumed p2 (stmts_toks new) := g2
            refine ⟨s :: new, by simp [hn], ?_⟩
            have := Parser.consumed_trans _ _ _ _ _ c1 c2
            simpa [stmts_toks] using this
    · -- parse_if_pred
      intro p
      rw [Parser.parse_if_pred]
      cases h1 : p.try_consume .else_ with
      | error e => exact fun _ => Parser.try_consume_ne p _ e h1
      | ok x1 =>
        obtain ⟨r1, p1⟩ := x1
        cases r1 with
        | none =>
          obtain ⟨e1, _⟩ := Parser.try_consume_none p p1 _ h1
          subst e1
          rfl
        | some el =>
          obtain ⟨hel, _, _, c1⟩ := Parser.try_consume_some p p1 _ el h1
          rw [spelling_other el _ hel (by decide) (by decide)] at c1
          have l1 := (Parser.consumed_length _ _ _ c1).1
          simp only [List.length_singleton] at l1
          simp only []
          cases h2 : p1.try_consume .if_ with
          | error e => exact fun _ => Parser.try_consume_ne p1 _ e h2
          | ok x2 =>
            obtain ⟨r2, p2⟩ := x2
            cases r2 with
            | some k =>
              obtain ⟨hk, _, _, c2⟩ := Parser.try_consume_some p1 p2 _ k h2
              rw [spelling_other k _ hk (by decide) (by decide)] at c2
              have l2 := (Parser.consumed_length _ _ _ c2).1
              simp only [List.length_singleton] at l2
              simp only []
              cases h3 : p2.try_consume_err .open_paren "Expected '('" (-1) (-1) with
              | error e => exact fun _ => Parser.try_consume_err_ne p2 _ _ _ _ e h3
              | ok x3 =>
                obtain ⟨o, p3⟩ := x3
                obtain ⟨ho, _, _, c3⟩ := Parser.try_consume_err_ok p2 p3 _ _ _ _ o h3
                rw [spelling_other o _ ho (by decide) (by decide)] at c3
                have l3 := (Parser.consumed_length _ _ _ c3).1
                simp only [List.length_singleton] at l3
                simp only []
                have g4 := (parse_expr_good f).2.1 0 p3
                cases h4 : Parser.parse_expr f 0 p3 with
                | error e =>
                  rw [h4] at g4
                  exact fun hb => g4 (by omega)
                | ok x4 =>
                  obtain ⟨r4, p4⟩ := x4
                  rw [h4] at g4
                  cases r4 with
                  | none => exact fun _ => Parser.error_ne _ _ _ _
                  | some expr =>
                    have c4 : p3.Consumed p4 (expr_toks expr) := g4
                    have l4 := (Parser.consumed_length _ _ _ c4).1
                    simp only []
                    cases h5 : p4.try_consume_err .close_paren "Expected ')'" (-1) (-1) with
                    | error e => exact fun _ => Parser.try_consume_err_ne p4 _ _ _ _ e h5
                    | ok x5 =>
                      obtain ⟨c, p5⟩ := x5
                      obtain ⟨hc, _, _, c5⟩ := Parser.try_consume_err_ok p4 p5 _ _ _ _ c h5
                      rw [spelling_other c _ hc (by decide) (by decide)] at c5
                      have l5 := (Parser.consumed_length _ _ _ c5).1
                      simp only [List.length_singleton] at l5
                      simp only []
                      have g6 := ih_scope p5
                      cases h6 : Parser.parse_scope f p5 with
                      | error e =>
                        rw [h6] at g6
                        exact fun hb => g6 (by omega)
                      | ok x6 =>
                        obtain ⟨r6, p6⟩ := x6
                        rw [h6] at g6
                        cases r6 with
                        | none => exact fun _ => Parser.error_ne _ _ _ _
                        | some scope =>
                          have c6 : p5.Consumed p6 (scope_toks scope) := g6
                          have l6 := (Parser.consumed_length _ _ _ c6).1
                          simp only []
                          have g7 := ih_pred p6
                          cases h7 : Parser.parse_if_pred f p6 with
                          | error e =>
                            rw [h7] at g7
                            exact fun hb => g7 (by omega)
                          | ok x7 =>
                            obtain ⟨pred, p7⟩ := x7
                            rw [h7] at g7
                            have c7 : p6.Consumed p7 (pred_opt_toks pred) := by
                              cases pred with
                              | none =>
                                have e7 : p7 = p6 := g7
                                subst e7
                                exact Parser.consumed_refl _
                              | some pr => exact g7
                            show p.Consumed p7 (pred_toks (.else_if expr scope pred))
                            have := Parser.consumed_trans _ _ _ _ _
                              (Parser.consumed_trans _ _ _ _ _
                                (Parser.consumed_trans _ _ _ _ _
                                  (Parser.consumed_trans _ _ _ _ _
                                    (Parser.consumed_trans _ _ _ _ _
                                      (Parser.consumed_trans _ _ _ _ _ c1 c2) c3) c4) c5) c6) c7
                            simpa [pred_toks] using this
            | none =>
              obtain ⟨e2, _⟩ := Parser.try_consume_none p1 p2 _ h2
              subst e2
              simp only []
              have g3 := ih_scope p2
              cases h3 : Parser.parse_scope f p2 with
              | error e =>
                rw [h3] at g3
                exact fun hb => g3 (by omega)
              | ok x3 =>
                obtain ⟨r3, p3⟩ := x3
                rw [h3] at g3
                cases r3 with
                | none => exact fun _ => Parser.error_ne _ _ _ _
                | some scope =>
                  have c3 : p2.Consumed p3 (scope_toks scope) := g3
                  show p.Consumed p3 (pred_toks (.else_ scope))
                  have := Parser.consumed_trans _ _ _ _ _ c1 c3
                  simpa [pred_toks] using this
    · -- parse_stmt
      intro p
      rw [Parser.parse_stmt]
      cases hp : p.peek 0 with
      | none => exact fun _ => by simp
      | some t0 =>
        simp only []
        by_cases hexit : t0.type = ._exit ∧ (p.peek 1).map (fun t => t.type) = some .open_paren
        · rw [if_pos hexit]
          cases h1 : p.consume with
          | error e => exact fun _ => Parser.consume_ne p e h1
          | ok x1 =>
            obtain ⟨k, p1⟩ := x1
            obtain ⟨hk, e1, c1⟩ := Parser.consume_consumed p p1 k h1
            rw [hp, Option.some.injEq] at hk
            subst hk
            rw [spelling_other t0 _ hexit.1 (by decide) (by decide)] at c1
            have l1 := (Parser.consumed_length _ _ _ c1).1
            simp only [List.length_singleton] at l1
            simp only []
            cases h2 : p1.consume with
            | error e => exact fun _ => Parser.consume_ne p1 e h2
            | ok x2 =>
              obtain ⟨o, p2⟩ := x2
              obtain ⟨ho, _, c2⟩ := Parser.consume_consumed p1 p2 o h2
              rw [e1, Parser.peek_advance_one] at ho
              have hot : o.type = .open_paren := by
                have := hexit.2
                rw [ho] at this
                simpa using this
              rw [spelling_other o _ hot (by decide) (by decide)] at c2
              have l2 := (Parser.consumed_length _ _ _ c2).1
              simp only [List.length_singleton] at l2
              simp only []
              have g3 := (parse_expr_good f).2.1 0 p2
              cases h3 : Parser.parse_expr f 0 p2 with
              | error e =>
                rw [h3] at g3
                exact fun hb => g3 (by omega)
              | ok x3 =>
                obtain ⟨r3, p3⟩ := x3
                rw [h3] at g3
                cases r3 with
                | none => exact fun _ => Parser.error_ne _ _ _ _
                | some expr =>
                  have c3 : p2.Consumed p3 (expr_toks expr) := g3
                  simp only []
                  cases h4 : p3.try_consume_err .close_paren "Expected ')'" (-1) (-1) with
                  | error e => exact fun _ => Parser.try_consume_err_ne p3 _ _ _ _ e h4
                  | ok x4 =>
                    obtain ⟨c, p4⟩ := x4
                    obtain ⟨hc, _, _, c4⟩ := Parser.try_consume_err_ok p3 p4 _ _ _ _ c h4
                    rw [spelling_other c _ hc (by decide) (by decide)] at c4
                    simp only []
                    cases h5 : p4.try_consume_err .semi "Expected ';'" (-1) (-1) with
                    | error e => exact fun _ => Parser.try_consume_err_ne p4 _ _ _ _ e h5
                    | ok x5 =>
                      obtain ⟨s, p5⟩ := x5
                      obtain ⟨hs, _, _, c5⟩ := Parser.try_consume_err_ok p4 p5 _ _ _ _ s h5
                      rw [spelling_other s _ hs (by decide) (by decide)] at c5
                      show p.Consumed p5 (stmt_toks (.exit expr))
                      have := Parser.consumed_trans _ _ _ _ _
                        (Parser.consumed_trans _ _ _ _ _
                          (Parser.consumed_trans _ _ _ _ _
                            (Parser.consumed_trans _ _ _ _ _ c1 c2) c3) c4) c5
                      simpa [stmt_toks] using this
        · rw [if_neg hexit]
          by_cases hlet : t0.type = .let_ ∧ (p.peek 1).map (fun t => t.type) = some .ident
              ∧ (p.peek 2).map (fun t => t.type) = some .eq
          · rw [if_pos hlet]
            cases h1 : p.consume with
            | error e => exact fun _ => Parser.consume_ne p e h1
            | ok x1 =>
              obtain ⟨k, p1⟩ := x1
              obtain ⟨hk, e1, c1⟩ := Parser.consume_consumed p p1 k h1
              rw [hp, Option.some.injEq] at hk
              subst hk
              rw [spelling_other t0 _ hlet.1 (by decide) (by decide)] at c1
              have l1 := (Parser.consumed_length _ _ _ c1).1
              simp only [List.length_singleton] at l1
              simp only []
              cases h2 : p1.consume with
              | error e => exact fun _ => Parser.consume_ne p1 e h2
              | ok x2 =>
                obtain ⟨ident, p2⟩ := x2
                obtain ⟨hi, e2, c2⟩ := Parser.consume_consumed p1 p2 ident h2
                rw [e1, Parser.peek_advance_one] at hi
                have hit : ident.type = .ident := by
                  have := hlet.2.1
                  rw [hi] at this
                  simpa using this
                rw [spelling_ident ident hit] at c2
                have l2 := (Parser.consumed_length _ _ _ c2).1
                simp only [List.length_singleton] at l2
                simp only []
                cases h3 : p2.consume with
                | error e => exact fun _ => Parser.consume_ne p2 e h3
                | ok x3 =>
                  obtain ⟨q, p3⟩ := x3
                  obtain ⟨hq, _, c3⟩ := Parser.consume_consumed p2 p3 q h3
                  rw [e2, e1, Parser.peek_advance_two] at hq
                  have hqt : q.type = .eq := by
                    have := hlet.2.2
                    rw [hq] at this
                    simpa using this
                  rw [spelling_other q _ hqt (by decide) (by decide)] at c3
                  have l3 := (Parser.consumed_length _ _ _ c3).1
                  simp only [List.length_singleton] at l3
                  simp only []
                  have g4 := (parse_expr_good f).2.1 0 p3
                  cases h4 : Parser.parse_expr f 0 p3 with
                  | error e =>
                    rw [h4] at g4
                    exact fun hb => g4 (by omega)
                  | ok x4 =>
                    obtain ⟨r4, p4⟩ := x4
                    rw [h4] at g4
                    cases r4 with
                    | none => exact fun _ => Parser.error_ne _ _ _ _
                    | some expr =>
                      have c4 : p3.Consumed p4 (expr_toks expr) := g4
                      simp only []
                      cases h5 : p4.try_consume_err .semi "Expected ';'" ident.line (-1) with
                      | error e => exact fun _ => Parser.try_consume_err_ne p4 _ _ _ _ e h5
                      | ok x5 =>
                        obtain ⟨s, p5⟩ := x5
                        obtain ⟨hs, _, _, c5⟩ := Parser.try_consume_err_ok p4 p5 _ _ _ _ s h5
                        rw [spelling_other s _ hs (by decide) (by decide)] at c5
                        show p.Consumed p5 (stmt_toks (.let_ ident expr))
                        have := Parser.consumed_trans _ _ _ _ _
                          (Parser.consumed_trans _ _ _ _ _
                            (Parser.consumed_trans _ _ _ _ _
                              (Parser.consumed_trans _ _ _ _ _ c1 c2) c3) c4) c5
                        simpa [stmt_toks] using this
          · rw [if_neg hlet]
            by_cases hset : t0.type = .ident ∧ (p.peek 1).isSome
            · rw [if_pos hset]
              have g1 := parse_stmt_set_good f p (fun t ht => by
                rw [hp, Option.some.injEq] at ht
                subst ht
                exact hset.1)
              cases h1 : Parser.parse_stmt_set f p with
              | error e =>
                rw [h1] at g1
                exact fun hb => g1 (by omega)
              | ok x1 =>
                obtain ⟨r1, p1⟩ := x1
                rw [h1] at g1
                cases r1 with
                | none => exact fun _ => Parser.error_ne _ _ _ _
                | some stmt_set =>
                  have c1 : p.Consumed p1 (set_toks stmt_set) := g1
                  simp only []
                  cases h2 : p1.try_consume_err .semi "Expected ';'" (-1) (-1) with
                  | error e => exact fun _ => Parser.try_consume_err_ne p1 _ _ _ _ e h2
                  | ok x2 =>
                    obtain ⟨s, p2⟩ := x2
                    obtain ⟨hs, _, _, c2⟩ := Parser.try_consume_err_ok p1 p2 _ _ _ _ s h2
                    rw [spelling_other s _ hs (by decide) (by decide)] at c2
                    show p.Consumed p2 (stmt_toks (.set stmt_set))
                    have := Parser.consumed_trans _ _ _ _ _ c1 c2
                    simpa [stmt_toks] using this
            · rw [if_neg hset]
              by_cases hcurly : t0.type = .open_curly
              · rw [if_pos hcurly]
                have g1 := ih_scope p
                cases h1 : Parser.parse_scope f p with
                | error e =>
                  rw [h1] at g1
                  exact fun hb => g1 (by omega)
                | ok x1 =>
                  obtain ⟨r1, p1⟩ := x1
                  rw [h1] at g1
                  cases r1 with
                  | none => exact fun _ => Parser.error_ne _ _ _ _
                  | some scope =>
                    have c1 : p.Consumed p1 (scope_toks scope) := g1
                    show p.Consumed p1 (stmt_toks (.scope scope))
                    simpa [stmt_toks] using c1
              · rw [if_neg hcurly]
                cases h1 : p.try_consume .if_ with
                | error e => exact fun _ => Parser.try_consume_ne p _ e h1
                | ok x1 =>
                  obtain ⟨r1, p1⟩ := x1
                  cases r1 with
                  | none =>
                    obtain ⟨e1, _⟩ := Parser.try_consume_none p p1 _ h1
                    subst e1
                    rfl
                  | some k =>
                    obtain ⟨hk, _, _, c1⟩ := Parser.try_consume_some p p1 _ k h1
                    rw [spelling_other k _ hk (by decide) (by decide)] at c1
                    have l1 := (Parser.consumed_length _ _ _ c1).1
                    simp only [List.length_singleton] at l1
                    simp only []
                    cases h2 : p1.try_consume_err .open_paren "Expected '('" k.line (-1) with
                    | error e => exact fun _ => Parser.try_consume_err_ne p1 _ _ _ _ e h2
                    | ok x2 =>
                      obtain ⟨o, p2⟩ := x2
                      obtain ⟨ho, _, _, c2⟩ := Parser.try_consume_err_ok p1 p2 _ _ _ _ o h2
                      rw [spelling_other o _ ho (by decide) (by decide)] at c2
                      have l2 := (Parser.consumed_length _ _ _ c2).1
                      simp only [List.length_singleton] at l2
                      simp only []
                      have g3 := (parse_expr_good f).2.1 0 p2
                      cases h3 : Parser.parse_expr f 0 p2 with
                      | error e =>
                        rw [h3] at g3
                        exact fun hb => g3 (by omega)
                      | ok x3 =>
                        obtain ⟨r3, p3⟩ := x3
                        rw [h3] at g3
                        cases r3 with
                        | none => exact fun _ => Parser.error_ne _ _ _ _
                        | some expr =>
                          have c3 : p2.Consumed p3 (expr_toks expr) := g3
                          have l3 := (Parser.consumed_length _ _ _ c3).1
                          simp only []
                          cases h4 : p3.try_consume_err .close_paren "Expected ')'" k.line
                              (-1) with
                          | error e => exact fun _ => Parser.try_consume_err_ne p3 _ _ _ _ e h4
                          | ok x4 =>
                            obtain ⟨c, p4⟩ := x4
                            obtain ⟨hc, _, _, c4⟩ :=
                              Parser.try_consume_err_ok p3 p4 _ _ _ _ c h4
                            rw [spelling_other c _ hc (by decide) (by decide)] at c4
                            have l4 := (Parser.consumed_length _ _ _ c4).1
                            simp only [List.length_singleton] at l4
                            simp only []
                            have g5 := ih_scope p4
                            cases h5 : Parser.parse_scope f p4 with
                            | error e =>
                              rw [h5] at g5
                              exact fun hb => g5 (by omega)
                            | ok x5 =>
                              obtain ⟨r5, p5⟩ := x5
                              rw [h5] at g5
                              cases r5 with
                              | none => exact fun _ => Parser.error_ne _ _ _ _
                              | some scope =>
                                have c5 : p4.Consumed p5 (scope_toks scope) := g5
                                have l5 := (Parser.consumed_length _ _ _ c5).1
                                simp only []
                                have g6 := ih_pred p5
                                cases h6 : Parser.parse_if_pred f p5 with
                                | error e =>
                                  rw [h6] at g6
                                  exact fun hb => g6 (by omega)
                                | ok x6 =>
                                  obtain ⟨pred, p6⟩ := x6
                                  rw [h6] at g6
                                  have c6 : p5.Consumed p6 (pred_opt_toks pred) := by
                                    cases pred with
                                    | none =>
                                      have e6 : p6 = p5 := g6
                                      subst e6
                                      exact Parser.consumed_refl _
                                    | some pr => exact g6
                                  show p.Consumed p6 (stmt_toks (.if_ expr scope pred))
                                  have := Parser.consumed_trans _ _ _ _ _
                                    (Parser.consumed_trans _ _ _ _ _
                                      (Parser.consumed_trans _ _ _ _ _
                                        (Parser.consumed_trans _ _ _ _ _
                                          (Parser.consumed_trans _ _ _ _ _ c1 c2) c3) c4) c5) c6
                                  simpa [stmt_toks] using this

/-- For the loop of `parse_prog` entered with `stmts`: the program returned is `stmts`
followed by statements that spell the tokens consumed, no token is left, and with fuel of
three times the number of tokens left, and three more, the model has not run out of fuel. -/
theorem parse_prog_loop_good : ∀ (f : Nat) (stmts : List NodeStmt) (p : Parser),
    (∀ h, Parser.parse_prog_loop f stmts p = .error h → 3 * p.rest.length + 3 ≤ f →
      h ≠ .out_of_fuel)
    ∧ (∀ prog p', Parser.parse_prog_loop f stmts p = .ok (prog, p') →
      ∃ new, prog.stmts = stmts ++ new ∧ p.Consumed p' (stmts_toks new) ∧ p'.rest = []) := by
  intro f
  induction f with
  | zero =>
    intro stmts p
    refine ⟨fun h _ hb => by omega, fun prog p' h => ?_⟩
    simp [Parser.parse_prog_loop] at h
  | succ f ih =>
    intro stmts p
    rw [Parser.parse_prog_loop]
    cases hp : p.peek 0 with
    | none =>
      rw [Parser.peek_zero] at hp
      have hr : p.rest = [] := by
        cases hrest : p.rest with
        | nil => rfl
        | cons t r => rw [hrest] at hp; simp at hp
      refine ⟨fun h hh => by simp at hh, fun prog p' h => ?_⟩
      simp only [Except.ok.injEq, Prod.mk.injEq] at h
      obtain ⟨h1, h2⟩ := h
      subst h1 h2
      exact ⟨[], by simp, Parser.consumed_refl _, hr⟩
    | some t0 =>
      simp only []
      have g1 := (parse_stmt_good f).2.2.2 p
      cases h1 : Parser.parse_stmt f p with
      | error e =>
        rw [h1] at g1
        refine ⟨fun h hh hb => ?_, fun prog p' h => by simp at h⟩
        simp only [Except.error.injEq] at hh
        subst hh
        exact g1 (by omega)
      | ok x1 =>
        obtain ⟨r1, p1⟩ := x1
        rw [h1] at g1
        cases r1 with
        | none =>
          refine ⟨fun h hh _ => ?_, fun prog p' h => by simp at h⟩
          simp only [Except.error.injEq] at hh
          subst hh
          exact Parser.error_ne _ _ _ _
        | some s =>
          have c1 : p.Consumed p1 (stmt_toks s) := g1
          have l1 := (Parser.consumed_length _ _ _ c1).1
          have l0 := stmt_toks_pos s
          simp only []
          obtain ⟨i1, i2⟩ := ih (stmts ++ [s]) p1
          refine ⟨fun h hh hb => i1 h hh (by omega), fun prog p' h => ?_⟩
          obtain ⟨new, hn, c2, hr⟩ := i2 prog p' h
          refine ⟨s :: new, by simp [hn], ?_, hr⟩
          have := Parser.consumed_trans _ _ _ _ _ c1 c2
          simpa [stmts_toks] using this

/-- A program returned by `parse_prog` spells the whole token list. -/
theorem parse_prog_toks (fuel : Nat) (srcName : String) (toks : List Token) (prog : NodeProg)
    (p' : Parser) (h : Parser.parse_prog fuel ⟨srcName, toks, 0⟩ = .ok (prog, p')) :
    prog_toks prog = toks.map Token.spelling
      ∧ p' = ⟨srcName, toks, toks.length⟩ := by
  obtain ⟨new, hn, c, hr⟩ := (parse_prog_loop_good fuel [] ⟨srcName, toks, 0⟩).2 prog p' h
  simp only [List.nil_append] at hn
  obtain ⟨seg, tail, a1, a2, a3⟩ := c
  have ht : p'.rest = tail := by rw [a2]; exact Parser.rest_advance_append _ seg tail a1
  rw [hr] at ht
  subst ht
  simp only [Parser.rest, List.drop_zero, List.append_nil] at a1
  subst a1
  refine ⟨by rw [prog_toks, hn, a3], ?_⟩
  rw [a2]
  simp [Parser.advance]

/-! ## From the syntax tree back to the grammar -/

theorem spelling_type (t : Token) (type : TokenType) (v : Option String)
    (h : t.spelling = (type, v)) : t.type = type :=
  congrArg Prod.fst h

theorem expr_tail_append_aux (nt : NT) (x : List Token) (h : Derives nt x) :
    nt = .expr_tail → ∀ y, Derives .expr_tail y → Derives .expr_tail (x ++ y) := by
  induction h with
  | expr_tail_nil => intro _ y hy; exact hy
  | expr_tail_cons op e r hop he hr _ ihr =>
    intro _ y hy
    have := Derives.expr_tail_cons op e (r ++ y) hop he (ihr rfl y hy)
    simpa [List.append_assoc] using this
  | _ => intro hnt; cases hnt

theorem expr_tail_append (x y : List Token) (hx : Derives .expr_tail x)
    (hy : Derives .expr_tail y) : Derives .expr_tail (x ++ y) :=
  expr_tail_append_aux .expr_tail x hx rfl y hy

theorem bin_expr_toks_eq (b : NodeBinExpr) :
    ∃ op : TokenType, (op = .plus ∨ op = .minus ∨ op = .star ∨ op = .fslash)
      ∧ expr_toks (.bin_expr b) = expr_toks b.lhs ++ (op, none) :: expr_toks b.rhs := by
  cases b with
  | add l r => exact ⟨.plus, by simp, by simp [expr_toks, bin_expr_toks, NodeBinExpr.lhs,
      NodeBinExpr.rhs]⟩
  | sub l r => exact ⟨.minus, by simp, by simp [expr_toks, bin_expr_toks, NodeBinExpr.lhs,
      NodeBinExpr.rhs]⟩
  | multi l r => exact ⟨.star, by simp, by simp [expr_toks, bin_expr_toks, NodeBinExpr.lhs,
      NodeBinExpr.rhs]⟩
  | div l r => exact ⟨.fslash, by simp, by simp [expr_toks, bin_expr_toks, NodeBinExpr.lhs,
      NodeBinExpr.rhs]⟩

/-- Tokens that spell an expression are derivable from `expr`. -/
theorem derives_expr (e : NodeExpr) : ∀ ts : List Token,
    ts.map Token.spelling = expr_toks e → Derives .expr ts := by
  induction e using NodeExpr.induction_on with
  | h_int t =>
    intro ts h
    simp only [expr_toks, term_toks] at h
    obtain ⟨u, r, rfl, hu, hr⟩ := List.map_eq_cons_iff.mp h
    rw [List.map_eq_nil_iff] at hr
    subst hr
    have := Derives.expr [u] [] (Derives.term_int_lit u (spelling_type _ _ _ hu))
      Derives.expr_tail_nil
    simpa using this
  | h_ident t =>
    intro ts h
    simp only [expr_toks, term_toks] at h
    obtain ⟨u, r, rfl, hu, hr⟩ := List.map_eq_cons_iff.mp h
    rw [List.map_eq_nil_iff] at hr
    subst hr
    have := Derives.expr [u] [] (Derives.term_ident u (spelling_type _ _ _ hu))
      Derives.expr_tail_nil
    simpa using this
  | h_paren e ih =>
    intro ts h
    simp only [expr_toks, term_toks] at h
    obtain ⟨o, r, rfl, ho, hr⟩ := List.map_eq_cons_iff.mp h
    obtain ⟨mid, last, rfl, hmid, hlast⟩ := List.map_eq_append_iff.mp hr
    obtain ⟨c, r2, rfl, hc, hr2⟩ := List.map_eq_cons_iff.mp hlast
    rw [List.map_eq_nil_iff] at hr2
    subst hr2
    have := Derives.expr (o :: mid ++ [c]) [] (Derives.term_paren o c mid
      (spelling_type _ _ _ ho) (spelling_type _ _ _ hc) (ih mid hmid)) Derives.expr_tail_nil
    simpa using this
  | h_bin b ihl ihr =>
    intro ts h
    obtain ⟨op, hop, hb⟩ := bin_expr_toks_eq b
    rw [hb] at h
    obtain ⟨tl, rest, rfl, hl, hrest⟩ := List.map_eq_append_iff.mp h
    obtain ⟨o, tr, rfl, ho, hr⟩ := List.map_eq_cons_iff.mp hrest
    have dl := ihl tl hl
    have dr := ihr tr hr
    have hot : o.type = .plus ∨ o.type = .minus ∨ o.type = .star ∨ o.type = .fslash := by
      rw [spelling_type _ _ _ ho]
      exact hop
    cases dl with
    | expr t r ht hr' =>
      have h1 := Derives.expr_tail_cons o tr [] hot dr Derives.expr_tail_nil
      have h2 := Derives.expr t (r ++ (o :: tr ++ [])) ht (expr_tail_append _ _ hr' h1)
      simpa [List.append_assoc] using h2

theorem derives_set (s : NodeStmtSet) (ts : List Token) (c : Token) (hc : c.type = .semi)
    (h : ts.map Token.spelling = set_toks s) : Derives .stmt (ts ++ [c]) := by
  cases s with
  | set_expr i e | set_add i e | set_multi i e | set_sub i e | set_div i e =>
    simp only [set_toks] at h
    obtain ⟨u, r, rfl, hu, hr⟩ := List.map_eq_cons_iff.mp h
    obtain ⟨o, r2, rfl, ho, hr2⟩ := List.map_eq_cons_iff.mp hr
    have := Derives.set_stmt u o c r2 (spelling_type _ _ _ hu)
      (by simp [spelling_type _ _ _ ho]) hc (derives_expr e r2 hr2)
    simpa using this

mutual
/-- Tokens that spell a statement are derivable from `stmt`. -/
theorem derives_stmt : ∀ (s : NodeStmt) (ts : List Token),
    ts.map Token.spelling = stmt_toks s → Derives .stmt ts
  | .exit e, ts, h => by
    simp only [stmt_toks] at h
    obtain ⟨k, r, rfl, hk, hr⟩ := List.map_eq_cons_iff.mp h
    obtain ⟨o, r2, rfl, ho, hr2⟩ := List.map_eq_cons_iff.mp hr
    obtain ⟨mid, last, rfl, hmid, hlast⟩ := List.map_eq_append_iff.mp hr2
    obtain ⟨c, r3, rfl, hc, hr3⟩ := List.map_eq_cons_iff.mp hlast
    obtain ⟨s, r4, rfl, hs, hr4⟩ := List.map_eq_cons_iff.mp hr3
    rw [List.map_eq_nil_iff] at hr4
    subst hr4
    exact Derives.exit_stmt k o c s mid (spelling_type _ _ _ hk) (spelling_type _ _ _ ho)
      (spelling_type _ _ _ hc) (spelling_type _ _ _ hs) (derives_expr e mid hmid)
  | .let_ i e, ts, h => by
    simp only [stmt_toks] at h
    obtain ⟨k, r, rfl, hk, hr⟩ := List.map_eq_cons_iff.mp h
    obtain ⟨u, r2, rfl, hu, hr2⟩ := List.map_eq_cons_iff.mp hr
    obtain ⟨q, r3, rfl, hq, hr3⟩ := List.map_eq_cons_iff.mp hr2
    obtain ⟨mid, last, rfl, hmid, hlast⟩ := List.map_eq_append_iff.mp hr3
    obtain ⟨s, r4, rfl, hs, hr4⟩ := List.map_eq_cons_iff.mp hlast
    rw [List.map_eq_nil_iff] at hr4
    subst hr4
    exact Derives.let_stmt k u q s mid (spelling_type _ _ _ hk) (spelling_type _ _ _ hu)
      (spelling_type _ _ _ hq) (spelling_type _ _ _ hs) (derives_expr e mid hmid)
  | .set st, ts, h => by
    simp only [stmt_toks] at h
    obtain ⟨mid, last, rfl, hmid, hlast⟩ := List.map_eq_append_iff.mp h
    obtain ⟨s, r4, rfl, hs, hr4⟩ := List.map_eq_cons_iff.mp hlast
    rw [List.map_eq_nil_iff] at hr4
    subst hr4
    exact derives_set st mid s (spelling_type _ _ _ hs) hmid
  | .scope sc, ts, h => by
    simp only [stmt_toks] at h
    exact Derives.scope_stmt ts (derives_scope sc ts h)
  | .if_ e sc pred, ts, h => by
    simp only [stmt_toks, List.append_assoc, List.cons_append] at h
    obtain ⟨k, r, rfl, hk, hr⟩ := List.map_eq_cons_iff.mp h
    obtain ⟨o, r2, rfl, ho, hr2⟩ := List.map_eq_cons_iff.mp hr
    obtain ⟨mid, last, rfl, hmid, hlast⟩ := List.map_eq_append_iff.mp hr2
    obtain ⟨c, r3, rfl, hc, hr3⟩ := List.map_eq_cons_iff.mp hlast
    obtain ⟨tsc, tpr, rfl, hsc, hpr⟩ := List.map_eq_append_iff.mp hr3
    have := Derives.if_stmt k o c mid tsc tpr (spelling_type _ _ _ hk)
      (spelling_type _ _ _ ho) (spelling_type _ _ _ hc) (derives_expr e mid hmid)
      (derives_scope sc tsc hsc) (derives_pred_opt pred tpr hpr)
    simpa [List.append_assoc] using this
/-- Tokens that spell a scope are derivable from `scope`. -/
theorem derives_scope : ∀ (sc : NodeScope) (ts : List Token),
    ts.map Token.spelling = scope_toks sc → Derives .scope ts
  | .mk stmts, ts, h => by
    simp only [scope_toks] at h
    obtain ⟨o, r, rfl, ho, hr⟩ := List.map_eq_cons_iff.mp h
    obtain ⟨mid, last, rfl, hmid, hlast⟩ := List.map_eq_append_iff.mp hr
    obtain ⟨c, r2, rfl, hc, hr2⟩ := List.map_eq_cons_iff.mp hlast
    rw [List.map_eq_nil_iff] at hr2
    subst hr2
    exact Derives.scope o c mid (spelling_type _ _ _ ho) (spelling_type _ _ _ hc)
      (derives_stmts stmts mid hmid)
/-- Tokens that spell a trailing clause are derivable from `[ if_pred ]`. -/
theorem derives_pred : ∀ (pr : NodeIfPred) (ts : List Token),
    ts.map Token.spelling = pred_toks pr → Derives .if_pred_opt ts
  | .else_if e sc pred, ts, h => by
    simp only [pred_toks, List.append_assoc, List.cons_append] at h
    obtain ⟨el, r0, rfl, hel, hr0⟩ := List.map_eq_cons_iff.mp h
    obtain ⟨k, r, rfl, hk, hr⟩ := List.map_eq_cons_iff.mp hr0
    obtain ⟨o, r2, rfl, ho, hr2⟩ := List.map_eq_cons_iff.mp hr
    obtain ⟨mid, last, rfl, hmid, hlast⟩ := List.map_eq_append_iff.mp hr2
    obtain ⟨c, r3, rfl, hc, hr3⟩ := List.map_eq_cons_iff.mp hlast
    obtain ⟨tsc, tpr, rfl, hsc, hpr⟩ := List.map_eq_append_iff.mp hr3
    have := Derives.if_pred_else_if el k o c mid tsc tpr (spelling_type _ _ _ hel)
      (spelling_type _ _ _ hk) (spelling_type _ _ _ ho) (spelling_type _ _ _ hc)
      (derives_expr e mid hmid) (derives_scope sc tsc hsc) (derives_pred_opt pred tpr hpr)
    simpa [List.append_assoc] using this
  | .else_ sc, ts, h => by
    simp only [pred_toks] at h
    obtain ⟨el, r0, rfl, hel, hr0⟩ := List.map_eq_cons_iff.mp h
    exact Derives.if_pred_else el r0 (spelling_type _ _ _ hel) (derives_scope sc r0 hr0)
/-- Tokens that spell an optional trailing clause are derivable from `[ if_pred ]`. -/
theorem derives_pred_opt : ∀ (pr : Option NodeIfPred) (ts : List Token),
    ts.map Token.spelling = pred_opt_toks pr → Derives .if_pred_opt ts
  | none, ts, h => by
    simp only [pred_opt_toks, List.map_eq_nil_iff] at h
    subst h
    exact Derives.if_pred_none
  | some pr, ts, h => by
    simp only [pred_opt_toks] at h
    exact derives_pred pr ts h
/-- Tokens that spell a statement list are derivable from `{ stmt }`. -/
theorem derives_stmts : ∀ (l : List NodeStmt) (ts : List Token),
    ts.map Token.spelling = stmts_toks l → Derives .stmts ts
  | [], ts, h => by
    simp only [stmts_toks, List.map_eq_nil_iff] at h
    subst h
    exact Derives.stmts_nil
  | s :: rest, ts, h => by
    simp only [stmts_toks] at h
    obtain ⟨t1, t2, rfl, h1, h2⟩ := List.map_eq_append_iff.mp h
    exact Derives.stmts_cons t1 t2 (derives_stmt s t1 h1) (derives_stmts rest t2 h2)
end

/-! ## C33: the parser loses no tokens -/

theorem spelling_eq_kind (t : Token)
    (h : t.type ≠ .ident → t.type ≠ .int_lit → t.value = none) : t.spelling = t.kind := by
  unfold Token.spelling Token.kind
  by_cases h1 : t.type = .ident ∨ t.type = .int_lit
  · rw [if_pos h1]
  · rw [if_neg h1]
    push_neg at h1
    rw [h h1.1 h1.2]

theorem well_formed_no_payload (t : Token) (h : t.well_formed) (h1 : t.type ≠ .ident)
    (h2 : t.type ≠ .int_lit) : t.value = none := by
  unfold Token.well_formed at h
  cases ht : t.type <;> rw [ht] at h <;> first | exact h | exact absurd ht h1 | exact absurd ht h2

/-- C33: the parser loses no tokens.  For every token list on which `parse_prog` succeeds,
with whatever fuel, the tokens of the returned program, written in order (`exit ( e ) ;`,
`let x = e ;`, a `Set` statement with its operator, a scope with its braces, an `if` with
its chain of trailing clauses, a parenthesised term with its parentheses, a binary node as
left operand, operator, right operand), are the kinds of the input tokens, with the payloads
of the identifier and integer-literal tokens; when no other token carries a payload they are
the kinds and payloads of the input exactly, and this is the case for every token list that
`tokenize` returns.  The parser has then consumed the whole list, and the list is derivable
from `{ stmt }` in the grammar. -/
theorem C33_parser_loses_no_tokens :
    (∀ (fuel : Nat) (srcName : String) (toks : List Token) (prog : NodeProg) (p' : Parser),
      Parser.parse_prog fuel ⟨srcName, toks, 0⟩ = .ok (prog, p') →
      prog_toks prog = toks.map Token.spelling
      ∧ (prog_toks prog).map Prod.fst = toks.map Token.type
      ∧ ((∀ t ∈ toks, t.type ≠ .ident → t.type ≠ .int_lit → t.value = none) →
          prog_toks prog = toks.map Token.kind)
      ∧ p'.m_index = toks.length
      ∧ Derives .stmts toks)
    ∧ (∀ (src srcName : String) (toks : List Token) (fuel : Nat) (prog : NodeProg)
        (p' : Parser), tokenize src srcName = .ok toks →
      Parser.parse_prog fuel ⟨srcName, toks, 0⟩ = .ok (prog, p') →
      prog_toks prog = toks.map Token.kind ∧ Derives .stmts toks) := by
  have key : ∀ (fuel : Nat) (srcName : String) (toks : List Token) (prog : NodeProg)
      (p' : Parser), Parser.parse_prog fuel ⟨srcName, toks, 0⟩ = .ok (prog, p') →
      prog_toks prog = toks.map Token.spelling
      ∧ (prog_toks prog).map Prod.fst = toks.map Token.type
      ∧ ((∀ t ∈ toks, t.type ≠ .ident → t.type ≠ .int_lit → t.value = none) →
          prog_toks prog = toks.map Token.kind)
      ∧ p'.m_index = toks.length
      ∧ Derives .stmts toks := by
    intro fuel srcName toks prog p' h
    obtain ⟨h1, h2⟩ := parse_prog_toks fuel srcName toks prog p' h
    refine ⟨h1, ?_, ?_, by rw [h2], derives_stmts prog.stmts toks h1.symm⟩
    · rw [h1, List.map_map]
      rfl
    · intro hw
      rw [h1]
      exact List.map_congr_left (fun t ht => spelling_eq_kind t (hw t ht))
  refine ⟨key, ?_⟩
  intro src srcName toks fuel prog p' ht hp
  obtain ⟨_, _, k3, _, k5⟩ := key fuel srcName toks prog p' hp
  exact ⟨k3 (fun t hm => well_formed_no_payload t (tokenize_well_formed src srcName toks ht t hm)),
    k5⟩

/-- C33 at the tokens of `let x = 5;` and at the text `x=1;`. -/
theorem C33_parser_loses_no_tokens_witness :
    Parser.parse_prog 18 ⟨"m.l", toks_let_x_5, 0⟩
        = .ok (⟨[.let_ (tok_ident "x") (e_int "5")]⟩, ⟨"m.l", toks_let_x_5, 5⟩)
    ∧ (prog_toks ⟨[.let_ (tok_ident "x") (e_int "5")]⟩ = toks_let_x_5.map Token.spelling
      ∧ (prog_toks ⟨[.let_ (tok_ident "x") (e_int "5")]⟩).map Prod.fst
          = toks_let_x_5.map Token.type
      ∧ ((∀ t ∈ toks_let_x_5, t.type ≠ .ident → t.type ≠ .int_lit → t.value = none) →
          prog_toks ⟨[.let_ (tok_ident "x") (e_int "5")]⟩ = toks_let_x_5.map Token.kind)
      ∧ (⟨"m.l", toks_let_x_5, 5⟩ : Parser).m_index = toks_let_x_5.length
      ∧ Derives .stmts toks_let_x_5)
    ∧ tokenize "x=1;" "m.l"
        = .ok [⟨.ident, 1, 1, some "x"⟩, ⟨.eq, 1, 2, none⟩, ⟨.int_lit, 1, 3, some "1"⟩,
            ⟨.semi, 1, 4, none⟩]
    ∧ Parser.parse_prog 15 ⟨"m.l", [⟨.ident, 1, 1, some "x"⟩, ⟨.eq, 1, 2, none⟩,
          ⟨.int_lit, 1, 3, some "1"⟩, ⟨.semi, 1, 4, none⟩], 0⟩
        = .ok (⟨[.set (.set_expr ⟨.ident, 1, 1, some "x"⟩
              (.term (.int_lit ⟨.int_lit, 1, 3, some "1"⟩)))]⟩,
            ⟨"m.l", [⟨.ident, 1, 1, some "x"⟩, ⟨.eq, 1, 2, none⟩, ⟨.int_lit, 1, 3, some "1"⟩,
              ⟨.semi, 1, 4, none⟩], 4⟩)
    ∧ (prog_toks ⟨[.set (.set_expr ⟨.ident, 1, 1, some "x"⟩
            (.term (.int_lit ⟨.int_lit, 1, 3, some "1"⟩)))]⟩
        = List.map Token.kind [⟨.ident, 1, 1, some "x"⟩, ⟨.eq, 1, 2, none⟩,
            ⟨.int_lit, 1, 3, some "1"⟩, ⟨.semi, 1, 4, none⟩]
      ∧ Derives .stmts [⟨.ident, 1, 1, some "x"⟩, ⟨.eq, 1, 2, none⟩,
            ⟨.int_lit, 1, 3, some "1"⟩, ⟨.semi, 1, 4, none⟩]) :=
  ⟨rfl, C33_parser_loses_no_tokens.1 18 "m.l" toks_let_x_5 _ _ rfl, rfl, rfl,
    C33_parser_loses_no_tokens.2 "x=1;" "m.l" _ 15 _ _ rfl rfl⟩

/-! ## More fuel does not change a result -/

theorem error_ne_cast {α β : Type} (e : Halt)
    (h : (Except.error e : Except Halt α) ≠ .error .out_of_fuel) :
    (Except.error e : Except Halt β) ≠ .error .out_of_fuel :=
  fun he => h (by rw [Except.error.inj he])

/-- For `parse_term`, `parse_expr` and the operator loop: a result other than the model
running out of fuel is the result with one more unit of fuel. -/
theorem parse_expr_mono : ∀ f : Nat,
    (∀ p : Parser, Parser.parse_term f p ≠ .error .out_of_fuel →
      Parser.parse_term (f + 1) p = Parser.parse_term f p)
    ∧ (∀ (mp : Int) (p : Parser), Parser.parse_expr f mp p ≠ .error .out_of_fuel →
      Parser.parse_expr (f + 1) mp p = Parser.parse_expr f mp p)
    ∧ (∀ (mp : Int) (lhs : NodeExpr) (p : Parser),
      Parser.parse_expr_loop f mp lhs p ≠ .error .out_of_fuel →
      Parser.parse_expr_loop (f + 1) mp lhs p = Parser.parse_expr_loop f mp lhs p) := by
  intro f
  induction f with
  | zero =>
    refine ⟨?_, ?_, ?_⟩
    · intro p h; simp [Parser.parse_term] at h
    · intro mp p h; simp [Parser.parse_expr] at h
    · intro mp lhs p h; simp [Parser.parse_expr_loop] at h
  | succ f ih =>
    obtain ⟨ih1, ih2, ih3⟩ := ih
    refine ⟨?_, ?_, ?_⟩
    · intro p
      rw [parse_term_succ (f + 1) p, parse_term_succ f p]
      cases h1 : p.try_consume .int_lit with
      | error e => exact fun _ => rfl
      | ok x1 =>
        obtain ⟨r1, p1⟩ := x1
        cases r1 with
        | some t => exact fun _ => rfl
        | none =>
          simp only []
          cases h2 : p1.try_consume .ident with
          | error e => exact fun _ => rfl
          | ok x2 =>
            obtain ⟨r2, p2⟩ := x2
            cases r2 with
            | some t => exact fun _ => rfl
            | none =>
              simp only []
              cases h3 : p2.try_consume .open_paren with
              | error e => exact fun _ => rfl
              | ok x3 =>
                obtain ⟨r3, p3⟩ := x3
                cases r3 with
                | none => exact fun _ => rfl
                | some o =>
                  simp only []
                  cases h4 : Parser.parse_expr f 0 p3 with
                  | error e =>
                    intro hne
                    simp only [] at hne
                    rw [ih2 0 p3 (by rw [h4]; exact error_ne_cast e hne), h4]
                  | ok x4 =>
                    intro _
                    rw [ih2 0 p3 (by rw [h4]; simp), h4]
    · intro mp p
      rw [parse_expr_succ (f + 1) mp p, parse_expr_succ f mp p]
      cases h1 : Parser.parse_term f p with
      | error e =>
        intro hne
        simp only [] at hne
        rw [ih1 p (by rw [h1]; exact error_ne_cast e hne), h1]
      | ok x1 =>
        rw [ih1 p (by rw [h1]; simp), h1]
        obtain ⟨r1, p1⟩ := x1
        cases r1 with
        | none => exact fun _ => rfl
        | some t =>
          simp only []
          exact ih3 mp _ p1
    · intro mp lhs p
      rw [parse_expr_loop_succ (f + 1) mp lhs p, parse_expr_loop_succ f mp lhs p]
      cases hp : p.peek 0 with
      | none => exact fun _ => rfl
      | some t =>
        simp only []
        cases hb : bin_prec t.type with
        | none => exact fun _ => rfl
        | some prec =>
          simp only []
          by_cases hlt : prec < mp
          · simp only [if_pos hlt]
            exact fun _ => trivial
          · simp only [if_neg hlt]
            cases hc : p.consume with
            | error e => exact fun _ => rfl
            | ok x1 =>
              obtain ⟨op, p1⟩ := x1
              simp only []
              cases h2 : Parser.parse_expr f (prec + 1) p1 with
              | error e =>
                intro hne
                simp only [] at hne
                rw [ih2 _ p1 (by rw [h2]; exact error_ne_cast e hne), h2]
              | ok x2 =>
                rw [ih2 _ p1 (by rw [h2]; simp), h2]
                obtain ⟨r2, p2⟩ := x2
                cases r2 with
                | none => exact fun _ => rfl
                | some rhs =>
                  simp only []
                  cases hm : mk_bin_expr op.type lhs rhs with
                  | none => exact fun _ => rfl
                  | some e =>
                    simp only []
                    exact ih3 mp e p2

theorem parse_stmt_set_mono (f : Nat) (p : Parser)
    (h : Parser.parse_stmt_set f p ≠ .error .out_of_fuel) :
    Parser.parse_stmt_set (f + 1) p = Parser.parse_stmt_set f p := by
  revert h
  unfold Parser.parse_stmt_set
  cases hc : p.consume with
  | error e => exact fun _ => rfl
  | ok x1 =>
    obtain ⟨ident, p1⟩ := x1
    simp only []
    cases hp : p1.peek 0 with
    | none => exact fun _ => rfl
    | some t =>
      simp only []
      by_cases hop : t.type = .eq ∨ t.type = .pluseq ∨ t.type = .stareq ∨ t.type = .minuseq
          ∨ t.type = .fslasheq
      · simp only [if_pos hop]
        cases hc2 : p1.consume with
        | error e => exact fun _ => rfl
        | ok x2 =>
          obtain ⟨t', p2⟩ := x2
          simp only []
          cases h3 : Parser.parse_expr f 0 p2 with
          | error e =>
            intro hne
            simp only [] at hne
            rw [(parse_expr_mono f).2.1 0 p2 (by rw [h3]; exact error_ne_cast e hne), h3]
          | ok x3 =>
            intro _
            rw [(parse_expr_mono f).2.1 0 p2 (by rw [h3]; simp), h3]
      · simp only [if_neg hop]
        exact fun _ => trivial

/-- For `parse_scope`, its statement loop, `parse_if_pred` and `parse_stmt`: a result other
than the model running out of fuel is the result with one more unit of fuel. -/
theorem parse_stmt_mono : ∀ f : Nat,
    (∀ p : Parser, Parser.parse_scope f p ≠ .error .out_of_fuel →
      Parser.parse_scope (f + 1) p = Parser.parse_scope f p)
    ∧ (∀ (stmts : List NodeStmt) (p : Parser),
      Parser.parse_scope_loop f stmts p ≠ .error .out_of_fuel →
      Parser.parse_scope_loop (f + 1) stmts p = Parser.parse_scope_loop f stmts p)
    ∧ (∀ p : Parser, Parser.parse_if_pred f p ≠ .error .out_of_fuel →
      Parser.parse_if_pred (f + 1) p = Parser.parse_if_pred f p)
    ∧ (∀ p : Parser, Parser.parse_stmt f p ≠ .error .out_of_fuel →
      Parser.parse_stmt (f + 1) p = Parser.parse_stmt f p) := by
  intro f
  induction f with
  | zero =>
    refine ⟨?_, ?_, ?_, ?_⟩
    · intro p h; simp [Parser.parse_scope] at h
    · intro stmts p h; simp [Parser.parse_scope_loop] at h
    · intro p h; simp [Parser.parse_if_pred] at h
    · intro p h; simp [Parser.parse_stmt] at h
  | succ f ih =>
    obtain ⟨ih_scope, ih_loop, ih_pred, ih_stmt⟩ := ih
    have ih_expr := (parse_expr_mono f).2.1
    refine ⟨?_, ?_, ?_, ?_⟩
    · -- parse_scope
      intro p
      rw [Parser.parse_scope, Parser.parse_scope]
      cases h1 : p.try_consume .open_curly with
      | error e => exact fun _ => rfl
      | ok x1 =>
        obtain ⟨r1, p1⟩ := x1
        cases r1 with
        | none => exact fun _ => rfl
        | some o =>
          simp only []
          cases h2 : Parser.parse_scope_loop f [] p1 with
          | error e =>
            intro hne
            simp only [] at hne
            rw [ih_loop [] p1 (by rw [h2]; exact error_ne_cast e hne), h2]
          | ok x2 =>
            intro _
            rw [ih_loop [] p1 (by rw [h2]; simp), h2]
    · -- parse_scope_loop
      intro stmts p
      rw [Parser.parse_scope_loop, Parser.parse_scope_loop]
      cases h1 : Parser.parse_stmt f p with
      | error e =>
        intro hne
        simp only [] at hne
        rw [ih_stmt p (by rw [h1]; exact error_ne_cast e hne), h1]
      | ok x1 =>
        rw [ih_stmt p (by rw [h1]; simp), h1]
        obtain ⟨r1, p1⟩ := x1
        cases r1 with
        | none => exact fun _ => rfl
        | some s =>
          simp only []
          exact ih_loop _ p1
    · -- parse_if_pred
      intro p
      rw [Parser.parse_if_pred, Parser.parse_if_pred]
      cases h1 : p.try_consume .else_ with
      | error e => exact fun _ => rfl
      | ok x1 =>
        obtain ⟨r1, p1⟩ := x1
        cases r1 with
        | none => exact fun _ => rfl
        | some el =>
          simp only []
          cases h2 : p1.try_consume .if_ with
          | error e => exact fun _ => rfl
          | ok x2 =>
            obtain ⟨r2, p2⟩ := x2
            cases r2 with
            | some k =>
              simp only []
              cases h3 : p2.try_consume_err .open_paren "Expected '('" (-1) (-1) with
              | error e => exact fun _ => rfl
              | ok x3 =>
                obtain ⟨o, p3⟩ := x3
                simp only []
                cases h4 : Parser.parse_expr f 0 p3 with
                | error e =>
                  intro hne
                  simp only [] at hne
                  rw [ih_expr 0 p3 (by rw [h4]; exact error_ne_cast e hne), h4]
                | ok x4 =>
                  rw [ih_expr 0 p3 (by rw [h4]; simp), h4]
                  obtain ⟨r4, p4⟩ := x4
                  cases r4 with
                  | none => exact fun _ => rfl
                  | some expr =>
                    simp only []
                    cases h5 : p4.try_consume_err .close_paren "Expected ')'" (-1) (-1) with
                    | error e => exact fun _ => rfl
                    | ok x5 =>
                      obtain ⟨c, p5⟩ := x5
                      simp only []
                      cases h6 : Parser.parse_scope f p5 with
                      | error e =>
                        intro hne
                        simp only [] at hne
                        rw [ih_scope p5 (by rw [h6]; exact error_ne_cast e hne), h6]
                      | ok x6 =>
                        rw [ih_scope p5 (by rw [h6]; simp), h6]
                        obtain ⟨r6, p6⟩ := x6
                        cases r6 with
                        | none => exact fun _ => rfl
                        | some scope =>
                          simp only []
                          cases h7 : Parser.parse_if_pred f p6 with
                          | error e =>
                            intro hne
                            simp only [] at hne
                            rw [ih_pred p6 (by rw [h7]; exact error_ne_cast e hne), h7]
                          | ok x7 =>
                            intro _
                            rw [ih_pred p6 (by rw [h7]; simp), h7]
            | none =>
              simp only []
              cases h3 : Parser.parse_scope f p2 with
              | error e =>
                intro hne
                simp only [] at hne
                rw [ih_scope p2 (by rw [h3]; exact error_ne_cast e hne), h3]
              | ok x3 =>
                intro _
                rw [ih_scope p2 (by rw [h3]; simp), h3]
    · -- parse_stmt
      intro p
      rw [Parser.parse_stmt, Parser.parse_stmt]
      cases hp : p.peek 0 with
      | none => exact fun _ => rfl
      | some t0 =>
        simp only []
        by_cases hexit : t0.type = ._exit ∧ (p.peek 1).map (fun t => t.type) = some .open_paren
        · simp only [if_pos hexit]
          cases h1 : p.consume with
          | error e => exact fun _ => rfl
          | ok x1 =>
            obtain ⟨k, p1⟩ := x1
            simp only []
            cases h2 : p1.consume with
            | error e => exact fun _ => rfl
            | ok x2 =>
              obtain ⟨o, p2⟩ := x2
              simp only []
              cases h3 : Parser.parse_expr f 0 p2 with
              | error e =>
                intro hne
                simp only [] at hne
                rw [ih_expr 0 p2 (by rw [h3]; exact error_ne_cast e hne), h3]
              | ok x3 =>
                intro _
                rw [ih_expr 0 p2 (by rw [h3]; simp), h3]
        · simp only [if_neg hexit]
          by_cases hlet : t0.type = .let_ ∧ (p.peek 1).map (fun t => t.type) = some .ident
              ∧ (p.peek 2).map (fun t => t.type) = some .eq
          · simp only [if_pos hlet]
            cases h1 : p.consume with
            | error e => exact fun _ => rfl
            | ok x1 =>
              obtain ⟨k, p1⟩ := x1
              simp only []
              cases h2 : p1.consume with
              | error e => exact fun _ => rfl
              | ok x2 =>
                obtain ⟨ident, p2⟩ := x2
                simp only []
                cases h3 : p2.consume with
                | error e => exact fun _ => rfl
                | ok x3 =>
                  obtain ⟨q, p3⟩ := x3
                  simp only []
                  cases h4 : Parser.parse_expr f 0 p3 with
                  | error e =>
                    intro hne
                    simp only [] at hne
                    rw [ih_expr 0 p3 (by rw [h4]; exact error_ne_cast e hne), h4]
                  | ok x4 =>
                    intro _
                    rw [ih_expr 0 p3 (by rw [h4]; simp), h4]
          · simp only [if_neg hlet]
            by_cases hset : t0.type = .ident ∧ (p.peek 1).isSome
            · simp only [if_pos hset]
              cases h1 : Parser.parse_stmt_set f p with
              | error e =>
                intro hne
                simp only [] at hne
                rw [parse_stmt_set_mono f p (by rw [h1]; exact error_ne_cast e hne), h1]
              | ok x1 =>
                intro _
                rw [parse_stmt_set_mono f p (by rw [h1]; simp), h1]
            · simp only [if_neg hset]
              by_cases hcurly : t0.type = .open_curly
              · simp only [if_pos hcurly]
                cases h1 : Parser.parse_scope f p with
                | error e =>
                  intro hne
                  simp only [] at hne
                  rw [ih_scope p (by rw [h1]; exact error_ne_cast e hne), h1]
                | ok x1 =>
                  intro _
                  rw [ih_scope p (by rw [h1]; simp), h1]
              · simp only [if_neg hcurly]
                cases h1 : p.try_consume .if_ with
                | error e => exact fun _ => rfl
                | ok x1 =>
                  obtain ⟨r1, p1⟩ := x1
                  cases r1 with
                  | none => exact fun _ => rfl
                  | some k =>
                    simp only []
                    cases h2 : p1.try_consume_err .open_paren "Expected '('" k.line (-1) with
                    | error e => exact fun _ => rfl
                    | ok x2 =>
                      obtain ⟨o, p2⟩ := x2
                      simp only []
                      cases h3 : Parser.parse_expr f 0 p2 with
                      | error e =>
                        intro hne
                        simp only [] at hne
                        rw [ih_expr 0 p2 (by rw [h3]; exact error_ne_cast e hne), h3]
                      | ok x3 =>
                        rw [ih_expr 0 p2 (by rw [h3]; simp), h3]
                        obtain ⟨r3, p3⟩ := x3
                        cases r3 with
                        | none => exact fun _ => rfl
                        | some expr =>
                          simp only []
                          cases h4 : p3.try_consume_err .close_paren "Expected ')'" k.line
                              (-1) with
                          | error e => exact fun _ => rfl
                          | ok x4 =>
                            obtain ⟨c, p4⟩ := x4
                            simp only []
                            cases h5 : Parser.parse_scope f p4 with
                            | error e =>
                              intro hne
                              simp only [] at hne
                              rw [ih_scope p4 (by rw [h5]; exact error_ne_cast e hne), h5]
                            | ok x5 =>
                              rw [ih_scope p4 (by rw [h5]; simp), h5]
                              obtain ⟨r5, p5⟩ := x5
                              cases r5 with
                              | none => exact fun _ => rfl
                              | some scope =>
                                simp only []
                                cases h6 : Parser.parse_if_pred f p5 with
                                | error e =>
                                  intro hne
                                  simp only [] at hne
                                  rw [ih_pred p5 (by rw [h6]; exact error_ne_cast e hne), h6]
                                | ok x6 =>
                                  intro _
                                  rw [ih_pred p5 (by rw [h6]; simp), h6]

theorem parse_prog_loop_mono : ∀ (f : Nat) (stmts : List NodeStmt) (p : Parser),
    Parser.parse_prog_loop f stmts p ≠ .error .out_of_fuel →
    Parser.parse_prog_loop (f + 1) stmts p = Parser.parse_prog_loop f stmts p := by
  intro f
  induction f with
  | zero => intro stmts p h; simp [Parser.parse_prog_loop] at h
  | succ f ih =>
    intro stmts p
    rw [Parser.parse_prog_loop, Parser.parse_prog_loop]
    cases hp : p.peek 0 with
    | none => exact fun _ => rfl
    | some t0 =>
      simp only []
      cases h1 : Parser.parse_stmt f p with
      | error e =>
        intro hne
        simp only [] at hne
        rw [(parse_stmt_mono f).2.2.2 p (by rw [h1]; exact error_ne_cast e hne), h1]
      | ok x1 =>
        rw [(parse_stmt_mono f).2.2.2 p (by rw [h1]; simp), h1]
        obtain ⟨r1, p1⟩ := x1
        cases r1 with
        | none => exact fun _ => rfl
        | some s =>
          simp only []
          exact ih _ p1

/-- With fuel of three times the number of tokens left, and three more, `parse_prog` gives
the result it gives with any larger amount of fuel. -/
theorem parse_prog_fuel (p : Parser) : ∀ fuel, 3 * p.rest.length + 3 ≤ fuel →
    Parser.parse_prog fuel p = Parser.parse_prog (3 * p.rest.length + 3) p := by
  intro fuel hb
  induction fuel with
  | zero => omega
  | succ g ih =>
    by_cases hg : 3 * p.rest.length + 3 ≤ g
    · have h1 := ih hg
      have h2 : Parser.parse_prog g p ≠ .error .out_of_fuel := fun he =>
        (parse_prog_loop_good g [] p).1 _ he hg rfl
      unfold Parser.parse_prog at h1 h2 ⊢
      rw [parse_prog_loop_mono g [] p h2, h1]
    · have : g + 1 = 3 * p.rest.length + 3 := by omega
      rw [this]

/-! ## The number of calls of the parser -/

theorem Parser.consume_rest (p p' : Parser) (t : Token) (h : p.consume = .ok (t, p')) :
    p'.rest.length + 1 = p.rest.length := by
  obtain ⟨_, _, c⟩ := Parser.consume_consumed p p' t h
  simpa using (Parser.consumed_length _ _ _ c).1

theorem Parser.try_consume_rest (p p' : Parser) (type : TokenType) (t : Token)
    (h : p.try_consume type = .ok (some t, p')) : p'.rest.length + 1 = p.rest.length := by
  obtain ⟨_, _, _, c⟩ := Parser.try_consume_some p p' type t h
  simpa using (Parser.consumed_length _ _ _ c).1

theorem Parser.try_consume_err_rest (p p' : Parser) (type : TokenType) (msg : String)
    (line col : Int) (t : Token) (h : p.try_consume_err type msg line col = .ok (t, p')) :
    p'.rest.length + 1 = p.rest.length := by
  obtain ⟨_, _, _, c⟩ := Parser.try_consume_err_ok p p' type msg line col t h
  simpa using (Parser.consumed_length _ _ _ c).1

/-- The calls made for a term, an expression and the turns of the operator loop are paid for
by the tokens consumed, two calls a token. -/
theorem calls_expr_within : ∀ f : Nat,
    (∀ p : Parser, CallsWithin (calls_term f p) 1 1 1 p (Parser.parse_term f p))
    ∧ (∀ (mp : Int) (p : Parser),
        CallsWithin (calls_expr f mp p) 0 2 2 p (Parser.parse_expr f mp p))
    ∧ (∀ (mp : Int) (lhs : NodeExpr) (p : Parser),
        CallsWithin (calls_expr_loop f mp lhs p) 0 0 0 p
          (Parser.parse_expr_loop f mp lhs p)) := by
  intro f
  induction f with
  | zero =>
    refine ⟨?_, ?_, ?_⟩
    · intro p
      simp only [Parser.parse_term, calls_term, CallsWithin]
      omega
    · intro mp p
      simp only [Parser.parse_expr, calls_expr, CallsWithin]
      omega
    · intro mp lhs p
      simp only [Parser.parse_expr_loop, calls_expr_loop, CallsWithin]
      omega
  | succ f ih =>
    obtain ⟨ih1, ih2, ih3⟩ := ih
    refine ⟨?_, ?_, ?_⟩
    · intro p
      rw [parse_term_succ, calls_term]
      cases h1 : p.try_consume .int_lit with
      | error e =>
        simp only [CallsWithin]
        omega
      | ok x1 =>
        obtain ⟨r1, p1⟩ := x1
        cases r1 with
        | some t =>
          have l1 := Parser.try_consume_rest p p1 _ t h1
          simp only [CallsWithin]
          omega
        | none =>
          obtain ⟨e1, _⟩ := Parser.try_consume_none p p1 _ h1
          subst e1
          simp only []
          cases h2 : p1.try_consume .ident with
          | error e =>
            simp only [CallsWithin]
            omega
          | ok x2 =>
            obtain ⟨r2, p2⟩ := x2
            cases r2 with
            | some t =>
              have l2 := Parser.try_consume_rest p1 p2 _ t h2
              simp only [CallsWithin]
              omega
            | none =>
              obtain ⟨e2, _⟩ := Parser.try_consume_none p1 p2 _ h2
              subst e2
              simp only []
              cases h3 : p2.try_consume .open_paren with
              | error e =>
                simp only [CallsWithin]
                omega
              | ok x3 =>
                obtain ⟨r3, p3⟩ := x3
                cases r3 with
                | none =>
                  simp only [CallsWithin]
                  omega
                | some o =>
                  have l3 := Parser.try_consume_rest p2 p3 _ o h3
                  simp only []
                  have g4 := ih2 0 p3
                  cases h4 : Parser.parse_expr f 0 p3 with
                  | error e =>
                    rw [h4] at g4
                    simp only [CallsWithin] at g4 ⊢
                    omega
                  | ok x4 =>
                    obtain ⟨r4, p4⟩ := x4
                    rw [h4] at g4
                    cases r4 with
                    | none =>
                      simp only [CallsWithin] at g4 ⊢
                      omega
                    | some e =>
                      simp only [CallsWithin] at g4
                      simp only []
                      cases h5 : p4.try_consume_err .close_paren "Expected ')'" o.line (-1) with
                      | error e' =>
                        simp only [CallsWithin]
                        omega
                      | ok x5 =>
                        obtain ⟨t5, p5⟩ := x5
                        have l5 := Parser.try_consume_err_rest p4 p5 _ _ _ _ t5 h5
                        simp only [CallsWithin]
                        omega
    · intro mp p
      rw [parse_expr_succ, calls_expr]
      have g1 := ih1 p
      cases h1 : Parser.parse_term f p with
      | error e =>
        rw [h1] at g1
        simp only [CallsWithin] at g1 ⊢
        omega
      | ok x1 =>
        obtain ⟨r1, p1⟩ := x1
        rw [h1] at g1
        cases r1 with
        | none =>
          simp only [CallsWithin] at g1 ⊢
          omega
        | some t =>
          simp only [CallsWithin] at g1
          simp only []
          have g2 := ih3 mp (.term t) p1
          have k2 := (parse_expr_good f).2.2 mp (.term t) p1
          cases h2 : Parser.parse_expr_loop f mp (.term t) p1 with
          | error e =>
            rw [h2] at g2
            simp only [CallsWithin] at g2 ⊢
            omega
          | ok x2 =>
            obtain ⟨r2, p2⟩ := x2
            rw [h2] at g2 k2
            cases r2 with
            | none => exact k2.elim
            | some e =>
              simp only [CallsWithin] at g2 ⊢
              omega
    · intro mp lhs p
      rw [parse_expr_loop_succ, calls_expr_loop]
      cases hp : p.peek 0 with
      | none =>
        simp only [CallsWithin]
        omega
      | some t =>
        simp only []
        cases hb : bin_prec t.type with
        | none =>
          simp only [CallsWithin]
          omega
        | some prec =>
          simp only []
          by_cases hlt : prec < mp
          · simp only [if_pos hlt, CallsWithin]
            omega
          · simp only [if_neg hlt]
            cases hc : p.consume with
            | error e =>
              simp only [CallsWithin]
              omega
            | ok x1 =>
              obtain ⟨op, p1⟩ := x1
              have l1 := Parser.consume_rest p p1 op hc
              simp only []
              have g2 := ih2 (prec + 1) p1
              cases h2 : Parser.parse_expr f (prec + 1) p1 with
              | error e =>
                rw [h2] at g2
                simp only [CallsWithin] at g2 ⊢
                omega
              | ok x2 =>
                obtain ⟨r2, p2⟩ := x2
                rw [h2] at g2
                cases r2 with
                | none =>
                  simp only [CallsWithin] at g2 ⊢
                  omega
                | some rhs =>
                  simp only [CallsWithin] at g2
                  simp only []
                  cases hm : mk_bin_expr op.type lhs rhs with
                  | none =>
                    simp only [CallsWithin]
                    omega
                  | some e =>
                    simp only []
                    have g3 := ih3 mp e p2
                    have k3 := (parse_expr_good f).2.2 mp e p2
                    cases h3 : Parser.parse_expr_loop f mp e p2 with
                    | error e' =>
                      rw [h3] at g3
                      simp only [CallsWithin] at g3 ⊢
                      omega
                    | ok x3 =>
                      obtain ⟨r3, p3⟩ := x3
                      rw [h3] at g3 k3
                      cases r3 with
                      | none => exact k3.elim
                      | some e3 =>
                        simp only [CallsWithin] at g3 ⊢
                        omega

theorem calls_stmt_set_within (f : Nat) (p : Parser) :
    CallsWithin (calls_stmt_set f p) 0 1 1 p (Parser.parse_stmt_set f p) := by
  unfold Parser.parse_stmt_set calls_stmt_set
  cases hc : p.consume with
  | error e =>
    simp only [CallsWithin, Nat.add_zero, ← Nat.add_assoc]
    omega
  | ok x1 =>
    obtain ⟨ident, p1⟩ := x1
    have l1 := Parser.consume_rest p p1 ident hc
    simp only []
    cases hp : p1.peek 0 with
    | none =>
      simp only [CallsWithin, Nat.add_zero, ← Nat.add_assoc]
      omega
    | some t =>
      simp only []
      by_cases hop : t.type = .eq ∨ t.type = .pluseq ∨ t.type = .stareq ∨ t.type = .minuseq
          ∨ t.type = .fslasheq
      · simp only [if_pos hop]
        cases hc2 : p1.consume with
        | error e =>
          simp only [CallsWithin, Nat.add_zero, ← Nat.add_assoc]
          omega
        | ok x2 =>
          obtain ⟨t', p2⟩ := x2
          have l2 := Parser.consume_rest p1 p2 t' hc2
          simp only []
          have g3 := (calls_expr_within f).2.1 0 p2
          cases h3 : Parser.parse_expr f 0 p2 with
          | error e =>
            rw [h3] at g3
            simp only [CallsWithin, Nat.add_zero, ← Nat.add_assoc] at g3 ⊢
            omega
          | ok x3 =>
            obtain ⟨r3, p3⟩ := x3
            rw [h3] at g3
            cases r3 with
            | none =>
              simp only [CallsWithin, Nat.add_zero, ← Nat.add_assoc] at g3 ⊢
              omega
            | some expr =>
              simp only [CallsWithin, Nat.add_zero, ← Nat.add_assoc] at g3
              simp only []
              split_ifs <;> simp only [CallsWithin, Nat.add_zero, ← Nat.add_assoc] <;> omega
      · simp only [if_neg hop, CallsWithin]
        omega

/-- The calls made for a scope, the turns of its statement loop, a trailing clause and a
statement are paid for by the tokens consumed, two calls a token. -/
theorem calls_stmt_within : ∀ f : Nat,
    (∀ p : Parser, CallsWithin (calls_scope f p) 1 1 1 p (Parser.parse_scope f p))
    ∧ (∀ (stmts : List NodeStmt) (p : Parser),
        CallsWithinLoop (calls_scope_loop f stmts p) 1 2 p (Parser.parse_scope_loop f stmts p))
    ∧ (∀ p : Parser, CallsWithin (calls_if_pred f p) 0 1 1 p (Parser.parse_if_pred f p))
    ∧ (∀ p : Parser, CallsWithin (calls_stmt f p) 0 1 2 p (Parser.parse_stmt f p)) := by
  intro f
  induction f with
  | zero =>
    refine ⟨?_, ?_, ?_, ?_⟩
    · intro p
      simp only [Parser.parse_scope, calls_scope, CallsWithin]
      omega
    · intro stmts p
      simp only [Parser.parse_scope_loop, calls_scope_loop, CallsWithinLoop]
      omega
    · intro p
      simp only [Parser.parse_if_pred, calls_if_pred, CallsWithin]
      omega
    · intro p
      simp only [Parser.parse_stmt, calls_stmt, CallsWithin]
      omega
  | succ f ih =>
    obtain ⟨ih_scope, ih_loop, ih_pred, ih_stmt⟩ := ih
    have ih_expr := (calls_expr_within f).2.1
    refine ⟨?_, ?_, ?_, ?_⟩
    · -- parse_scope
      intro p
      rw [Parser.parse_scope, calls_scope]
      cases h1 : p.try_consume .open_curly with
      | error e =>
        simp only [CallsWithin, Nat.add_zero, ← Nat.add_assoc]
        omega
      | ok x1 =>
        obtain ⟨r1, p1⟩ := x1
        cases r1 with
        | none =>
          simp only [CallsWithin, Nat.add_zero, ← Nat.add_assoc]
          omega
        | some o =>
          have l1 := Parser.try_consume_rest p p1 _ o h1
          simp only []
          have g2 := ih_loop [] p1
          cases h2 : Parser.parse_scope_loop f [] p1 with
          | error e =>
            rw [h2] at g2
            simp only [CallsWithin, CallsWithinLoop, Nat.add_zero, ← Nat.add_assoc] at g2 ⊢
            omega
          | ok x2 =>
            obtain ⟨stmts, p2⟩ := x2
            rw [h2] at g2
            simp only [CallsWithinLoop, Nat.add_zero, ← Nat.add_assoc] at g2
            simp only []
            cases h3 : p2.try_consume_err .close_curly "Expected '\x7d'" (-1) (-1) with
            | error e =>
              simp only [CallsWithin, Nat.add_zero, ← Nat.add_assoc]
              omega
            | ok x3 =>
              obtain ⟨t3, p3⟩ := x3
              have l3 := Parser.try_consume_err_rest p2 p3 _ _ _ _ t3 h3
              simp only [CallsWithin, Nat.add_zero, ← Nat.add_assoc]
              omega
    · -- parse_scope_loop
      intro stmts p
      rw [Parser.parse_scope_loop, calls_scope_loop]
      have g1 := ih_stmt p
      have k1 := (parse_stmt_good f).2.2.2 p
      cases h1 : Parser.parse_stmt f p with
      | error e =>
        rw [h1] at g1
        simp only [CallsWithin, CallsWithinLoop, Nat.add_zero, ← Nat.add_assoc] at g1 ⊢
        omega
      | ok x1 =>
        obtain ⟨r1, p1⟩ := x1
        rw [h1] at g1 k1
        cases r1 with
        | none =>
          have e1 : p1 = p := k1
          subst e1
          simp only [CallsWithin, CallsWithinLoop, Nat.add_zero, ← Nat.add_assoc] at g1 ⊢
          omega
        | some s =>
          simp only [CallsWithin, Nat.add_zero, ← Nat.add_assoc] at g1
          simp only []
          have g2 := ih_loop (stmts ++ [s]) p1
          cases h2 : Parser.parse_scope_loop f (stmts ++ [s]) p1 with
          | error e =>
            rw [h2] at g2
            simp only [CallsWithinLoop, Nat.add_zero, ← Nat.add_assoc] at g2 ⊢
            omega
          | ok x2 =>
            obtain ⟨r, p2⟩ := x2
            rw [h2] at g2
            simp only [CallsWithinLoop, Nat.add_zero, ← Nat.add_assoc] at g2 ⊢
            omega
    · -- parse_if_pred
      intro p
      rw [Parser.parse_if_pred, calls_if_pred]
      cases h1 : p.try_consume .else_ with
      | error e =>
        simp only [CallsWithin, Nat.add_zero, ← Nat.add_assoc]
        omega
      | ok x1 =>
        obtain ⟨r1, p1⟩ := x1
        cases r1 with
        | none =>
          simp only [CallsWithin, Nat.add_zero, ← Nat.add_assoc]
          omega
        | some el =>
          have l1 := Parser.try_consume_rest p p1 _ el h1
          simp only []
          cases h2 : p1.try_consume .if_ with
          | error e =>
            simp only [CallsWithin, Nat.add_zero, ← Nat.add_assoc]
            omega
          | ok x2 =>
            obtain ⟨r2, p2⟩ := x2
            cases r2 with
            | some k =>
              have l2 := Parser.try_consume_rest p1 p2 _ k h2
              simp only []
              cases h3 : p2.try_consume_err .open_paren "Expected '('" (-1) (-1) with
              | error e =>
                simp only [CallsWithin, Nat.add_zero, ← Nat.add_assoc]
                omega
              | ok x3 =>
                obtain ⟨o, p3⟩ := x3
                have l3 := Parser.try_consume_err_rest p2 p3 _ _ _ _ o h3
                simp only []
                have g4 := ih_expr 0 p3
                cases h4 : Parser.parse_expr f 0 p3 with
                | error e =>
                  rw [h4] at g4
                  simp only [CallsWithin, Nat.add_zero, ← Nat.add_assoc] at g4 ⊢
                  omega
                | ok x4 =>
                  obtain ⟨r4, p4⟩ := x4
                  rw [h4] at g4
                  cases r4 with
                  | none =>
                    simp only [CallsWithin, Nat.add_zero, ← Nat.add_assoc] at g4 ⊢
                    omega
                  | some expr =>
                    simp only [CallsWithin, Nat.add_zero, ← Nat.add_assoc] at g4
                    simp only []
                    cases h5 : p4.try_consume_err .close_paren "Expected ')'" (-1) (-1) with
                    | error e =>
                      simp only [CallsWithin, Nat.add_zero, ← Nat.add_assoc]
                      omega
                    | ok x5 =>
                      obtain ⟨c, p5⟩ := x5
                      have l5 := Parser.try_consume_err_rest p4 p5 _ _ _ _ c h5
                      simp only []
                      have g6 := ih_scope p5
                      cases h6 : Parser.parse_scope f p5 with
                      | error e =>
                        rw [h6] at g6
                        simp only [CallsWithin, Nat.add_zero, ← Nat.add_assoc] at g6 ⊢
                        omega
                      | ok x6 =>
                        obtain ⟨r6, p6⟩ := x6
                        rw [h6] at g6
                        cases r6 with
                        | none =>
                          simp only [CallsWithin, Nat.add_zero, ← Nat.add_assoc] at g6 ⊢
                          omega
                        | some scope =>
                          simp only [CallsWithin, Nat.add_zero, ← Nat.add_assoc] at g6
                          simp only []
                          have g7 := ih_pred p6
                          have k7 := (parse_stmt_good f).2.2.1 p6
                          cases h7 : Parser.parse_if_pred f p6 with
                          | error e =>
                            rw [h7] at g7
                            simp only [CallsWithin, Nat.add_zero, ← Nat.add_assoc] at g7 ⊢
                            omega
                          | ok x7 =>
                            obtain ⟨pred, p7⟩ := x7
                            rw [h7] at g7 k7
                            cases pred with
                            | none =>
                              have e7 : p7 = p6 := k7
                              subst e7
                              simp only [CallsWithin, Nat.add_zero, ← Nat.add_assoc] at g7 ⊢
                              omega
                            | some pr =>
                              simp only [CallsWithin, Nat.add_zero, ← Nat.add_assoc] at g7 ⊢
                              omega
            | none =>
              obtain ⟨e2, _⟩ := Parser.try_consume_none p1 p2 _ h2
              subst e2
              simp only []
              have g3 := ih_scope p2
              cases h3 : Parser.parse_scope f p2 with
              | error e =>
                rw [h3] at g3
                simp only [CallsWithin, Nat.add_zero, ← Nat.add_assoc] at g3 ⊢
                omega
              | ok x3 =>
                obtain ⟨r3, p3⟩ := x3
                rw [h3] at g3
                cases r3 with
                | none =>
                  simp only [CallsWithin, Nat.add_zero, ← Nat.add_assoc] at g3 ⊢
                  omega
                | some scope =>
                  simp only [CallsWithin, Nat.add_zero, ← Nat.add_assoc] at g3 ⊢
                  omega
    · -- parse_stmt
      intro p
      rw [Parser.parse_stmt, calls_stmt]
      cases hp : p.peek 0 with
      | none =>
        simp only [CallsWithin, Nat.add_zero, ← Nat.add_assoc]
        omega
      | some t0 =>
        simp only []
        by_cases hexit : t0.type = ._exit ∧ (p.peek 1).map (fun t => t.type) = some .open_paren
        · simp only [if_pos hexit]
          cases h1 : p.consume with
          | error e =>
            simp only [CallsWithin, Nat.add_zero, ← Nat.add_assoc]
            omega
          | ok x1 =>
            obtain ⟨k, p1⟩ := x1
            have l1 := Parser.consume_rest p p1 k h1
            simp only []
            cases h2 : p1.consume with
            | error e =>
              simp only [CallsWithin, Nat.add_zero, ← Nat.add_assoc]
              omega
            | ok x2 =>
              obtain ⟨o, p2⟩ := x2
              have l2 := Parser.consume_rest p1 p2 o h2
              simp only []
              have g3 := ih_expr 0 p2
              cases h3 : Parser.parse_expr f 0 p2 with
              | error e =>
                rw [h3] at g3
                simp only [CallsWithin, Nat.add_zero, ← Nat.add_assoc] at g3 ⊢
                omega
              | ok x3 =>
                obtain ⟨r3, p3⟩ := x3
                rw [h3] at g3
                cases r3 with
                | none =>
                  simp only [CallsWithin, Nat.add_zero, ← Nat.add_assoc] at g3 ⊢
                  omega
                | some expr =>
                  simp only [CallsWithin, Nat.add_zero, ← Nat.add_assoc] at g3
                  simp only []
                  cases h4 : p3.try_consume_err .close_paren "Expected ')'" (-1) (-1) with
                  | error e =>
                    simp only [CallsWithin, Nat.add_zero, ← Nat.add_assoc]
                    omega
                  | ok x4 =>
                    obtain ⟨c, p4⟩ := x4
                    have l4 := Parser.try_consume_err_rest p3 p4 _ _ _ _ c h4
                    simp only []
                    cases h5 : p4.try_consume_err .semi "Expected ';'" (-1) (-1) with
                    | error e =>
                      simp only [CallsWithin, Nat.add_zero, ← Nat.add_assoc]
                      omega
                    | ok x5 =>
                      obtain ⟨s, p5⟩ := x5
                      have l5 := Parser.try_consume_err_rest p4 p5 _ _ _ _ s h5
                      simp only [CallsWithin, Nat.add_zero, ← Nat.add_assoc]
                      omega
        · simp only [if_neg hexit]
          by_cases hlet : t0.type = .let_ ∧ (p.peek 1).map (fun t => t.type) = some .ident
              ∧ (p.peek 2).map (fun t => t.type) = some .eq
          · simp only [if_pos hlet]
            cases h1 : p.consume with
            | error e =>
              simp only [CallsWithin, Nat.add_zero, ← Nat.add_assoc]
              omega
            | ok x1 =>
              obtain ⟨k, p1⟩ := x1
              have l1 := Parser.consume_rest p p1 k h1
              simp only []
              cases h2 : p1.consume with
              | error e =>
                simp only [CallsWithin, Nat.add_zero, ← Nat.add_assoc]
                omega
              | ok x2 =>
                obtain ⟨ident, p2⟩ := x2
                have l2 := Parser.consume_rest p1 p2 ident h2
                simp only []
                cases h3 : p2.consume with
                | error e =>
                  simp only [CallsWithin, Nat.add_zero, ← Nat.add_assoc]
                  omega
                | ok x3 =>
                  obtain ⟨q, p3⟩ := x3
                  have l3 := Parser.consume_rest p2 p3 q h3
                  simp only []
                  have g4 := ih_expr 0 p3
                  cases h4 : Parser.parse_expr f 0 p3 with
                  | error e =>
                    rw [h4] at g4
                    simp only [CallsWithin, Nat.add_zero, ← Nat.add_assoc] at g4 ⊢
                    omega
                  | ok x4 =>
                    obtain ⟨r4, p4⟩ := x4
                    rw [h4] at g4
                    cases r4 with
                    | none =>
                      simp only [CallsWithin, Nat.add_zero, ← Nat.add_assoc] at g4 ⊢
                      omega
                    | some expr =>
                      simp only [CallsWithin, Nat.add_zero, ← Nat.add_assoc] at g4
                      simp only []
                      cases h5 : p4.try_consume_err .semi "Expected ';'" ident.line (-1) with
                      | error e =>
                        simp only [CallsWithin, Nat.add_zero, ← Nat.add_assoc]
                        omega
                      | ok x5 =>
                        obtain ⟨s, p5⟩ := x5
                        have l5 := Parser.try_consume_err_rest p4 p5 _ _ _ _ s h5
                        simp only [CallsWithin, Nat.add_zero, ← Nat.add_assoc]
                        omega
          · simp only [if_neg hlet]
            by_cases hset : t0.type = .ident ∧ (p.peek 1).isSome
            · simp only [if_pos hset]
              have g1 := calls_stmt_set_within f p
              cases h1 : Parser.parse_stmt_set f p with
              | error e =>
                rw [h1] at g1
                simp only [CallsWithin, Nat.add_zero, ← Nat.add_assoc] at g1 ⊢
                omega
              | ok x1 =>
                obtain ⟨r1, p1⟩ := x1
                rw [h1] at g1
                cases r1 with
                | none =>
                  simp only [CallsWithin, Nat.add_zero, ← Nat.add_assoc] at g1 ⊢
                  omega
                | some stmt_set =>
                  simp only [CallsWithin, Nat.add_zero, ← Nat.add_assoc] at g1
                  simp only []
                  cases h2 : p1.try_consume_err .semi "Expected ';'" (-1) (-1) with
                  | error e =>
                    simp only [CallsWithin, Nat.add_zero, ← Nat.add_assoc]
                    omega
                  | ok x2 =>
                    obtain ⟨s, p2⟩ := x2
                    have l2 := Parser.try_consume_err_rest p1 p2 _ _ _ _ s h2
                    simp only [CallsWithin, Nat.add_zero, ← Nat.add_assoc]
                    omega
            · simp only [if_neg hset]
              by_cases hcurly : t0.type = .open_curly
              · simp only [if_pos hcurly]
                have g1 := ih_scope p
                cases h1 : Parser.parse_scope f p with
                | error e =>
                  rw [h1] at g1
                  simp only [CallsWithin, Nat.add_zero, ← Nat.add_assoc] at g1 ⊢
                  omega
                | ok x1 =>
                  obtain ⟨r1, p1⟩ := x1
                  rw [h1] at g1
                  cases r1 with
                  | none =>
                    simp only [CallsWithin, Nat.add_zero, ← Nat.add_assoc] at g1 ⊢
                    omega
                  | some scope =>
                    simp only [CallsWithin, Nat.add_zero, ← Nat.add_assoc] at g1 ⊢
                    omega
              · simp only [if_neg hcurly]
                cases h1 : p.try_consume .if_ with
                | error e =>
                  simp only [CallsWithin, Nat.add_zero, ← Nat.add_assoc]
                  omega
                | ok x1 =>
                  obtain ⟨r1, p1⟩ := x1
                  cases r1 with
                  | none =>
                    simp only [CallsWithin, Nat.add_zero, ← Nat.add_assoc]
                    omega
                  | some k =>
                    have l1 := Parser.try_consume_rest p p1 _ k h1
                    simp only []
                    cases h2 : p1.try_consume_err .open_paren "Expected '('" k.line (-1) with
                    | error e =>
                      simp only [CallsWithin, Nat.add_zero, ← Nat.add_assoc]
                      omega
                    | ok x2 =>
                      obtain ⟨o, p2⟩ := x2
                      have l2 := Parser.try_consume_err_rest p1 p2 _ _ _ _ o h2
                      simp only []
                      have g3 := ih_expr 0 p2
                      cases h3 : Parser.parse_expr f 0 p2 with
                      | error e =>
                        rw [h3] at g3
                        simp only [CallsWithin, Nat.add_zero, ← Nat.add_assoc] at g3 ⊢
                        omega
                      | ok x3 =>
                        obtain ⟨r3, p3⟩ := x3
                        rw [h3] at g3
                        cases r3 with
                        | none =>
                          simp only [CallsWithin, Nat.add_zero, ← Nat.add_assoc] at g3 ⊢
                          omega
                        | some expr =>
                          simp only [CallsWithin, Nat.add_zero, ← Nat.add_assoc] at g3
                          simp only []
                          cases h4 : p3.try_consume_err .close_paren "Expected ')'" k.line
                              (-1) with
                          | error e =>
                            simp only [CallsWithin, Nat.add_zero, ← Nat.add_assoc]
                            omega
                          | ok x4 =>
                            obtain ⟨c, p4⟩ := x4
                            have l4 := Parser.try_consume_err_rest p3 p4 _ _ _ _ c h4
                            simp only []
                            have g5 := ih_scope p4
                            cases h5 : Parser.parse_scope f p4 with
                            | error e =>
                              rw [h5] at g5
                              simp only [CallsWithin, Nat.add_zero, ← Nat.add_assoc] at g5 ⊢
                              omega
                            | ok x5 =>
                              obtain ⟨r5, p5⟩ := x5
                              rw [h5] at g5
                              cases r5 with
                              | none =>
                                simp only [CallsWithin, Nat.add_zero, ← Nat.add_assoc] at g5 ⊢
                                omega
                              | some scope =>
                                simp only [CallsWithin, Nat.add_zero, ← Nat.add_assoc] at g5
                                simp only []
                                have g6 := ih_pred p5
                                have k6 := (parse_stmt_good f).2.2.1 p5
                                cases h6 : Parser.parse_if_pred f p5 with
                                | error e =>
                                  rw [h6] at g6
                                  simp only [CallsWithin, Nat.add_zero, ← Nat.add_assoc] at g6 ⊢
                                  omega
                                | ok x6 =>
                                  obtain ⟨pred, p6⟩ := x6
                                  rw [h6] at g6 k6
                                  cases pred with
                                  | none =>
                                    have e6 : p6 = p5 := k6
                                    subst e6
                                    simp only [CallsWithin, Nat.add_zero, ← Nat.add_assoc] at g6 ⊢
                                    omega
                                  | some pr =>
                                    simp only [CallsWithin, Nat.add_zero, ← Nat.add_assoc] at g6 ⊢
                                    omega

/-- The calls made in the turns of the statement loop of `parse_prog` are paid for by the
tokens consumed, two calls a token. -/
theorem calls_prog_loop_within : ∀ (f : Nat) (stmts : List NodeStmt) (p : Parser),
    CallsWithinLoop (calls_prog_loop f stmts p) 0 2 p (Parser.parse_prog_loop f stmts p) := by
  intro f
  induction f with
  | zero =>
    intro stmts p
    simp only [Parser.parse_prog_loop, calls_prog_loop, CallsWithinLoop]
    omega
  | succ f ih =>
    intro stmts p
    rw [Parser.parse_prog_loop, calls_prog_loop]
    cases hp : p.peek 0 with
    | none =>
      simp only [CallsWithinLoop, Nat.add_zero, ← Nat.add_assoc]
      omega
    | some t0 =>
      simp only []
      have g1 := (calls_stmt_within f).2.2.2 p
      cases h1 : Parser.parse_stmt f p with
      | error e =>
        rw [h1] at g1
        simp only [CallsWithin, CallsWithinLoop, Nat.add_zero, ← Nat.add_assoc] at g1 ⊢
        omega
      | ok x1 =>
        obtain ⟨r1, p1⟩ := x1
        rw [h1] at g1
        cases r1 with
        | none =>
          simp only [CallsWithin, CallsWithinLoop, Nat.add_zero, ← Nat.add_assoc] at g1 ⊢
          omega
        | some s =>
          simp only [CallsWithin, Nat.add_zero, ← Nat.add_assoc] at g1
          simp only []
          have g2 := ih (stmts ++ [s]) p1
          cases h2 : Parser.parse_prog_loop f (stmts ++ [s]) p1 with
          | error e =>
            rw [h2] at g2
            simp only [CallsWithinLoop, Nat.add_zero, ← Nat.add_assoc] at g2 ⊢
            omega
          | ok x2 =>
            obtain ⟨r, p2⟩ := x2
            rw [h2] at g2
            simp only [CallsWithinLoop, Nat.add_zero, ← Nat.add_assoc] at g2 ⊢
            omega

/-- A run of `parse_prog` makes at most two calls for each token, and three more. -/
theorem calls_prog_le (fuel : Nat) (p : Parser) :
    calls_prog fuel p ≤ 2 * p.rest.length + 3 := by
  have g := calls_prog_loop_within fuel [] p
  unfold calls_prog
  cases h : Parser.parse_prog_loop fuel [] p with
  | error e =>
    rw [h] at g
    simp only [CallsWithinLoop, Nat.add_zero, ← Nat.add_assoc] at g
    omega
  | ok x =>
    obtain ⟨r, p'⟩ := x
    rw [h] at g
    simp only [CallsWithinLoop, Nat.add_zero, ← Nat.add_assoc] at g
    omega

/-! ## C35: the parser terminates -/

theorem term_toks_pos (t : NodeTerm) : 0 < (term_toks t).length := by
  cases t <;> simp [term_toks]

theorem expr_toks_pos (e : NodeExpr) : 0 < (expr_toks e).length := by
  cases e with
  | term t => simpa [expr_toks] using term_toks_pos t
  | bin_expr b => cases b <;> simp [expr_toks, bin_expr_toks]

theorem scope_toks_pos (sc : NodeScope) : 0 < (scope_toks sc).length := by
  cases sc; simp [scope_toks]

theorem pred_toks_pos (pr : NodeIfPred) : 0 < (pred_toks pr).length := by
  cases pr <;> simp [pred_toks]

/-- With the bound reached, a result that is `Good` is not the model running out of fuel. -/
theorem good_ne {α : Type} (w : α → List (TokenType × Option String)) (bound : Nat)
    (p : Parser) (fuel : Nat) (res : Except Halt (Option α × Parser))
    (h : Good w bound p fuel res) (hb : bound ≤ fuel) : res ≠ .error .out_of_fuel := by
  intro he
  subst he
  exact h hb rfl

/-- A `Good` result leaves the index where it was when no node is returned, and beyond when
one is, in the same token list. -/
theorem good_index {α : Type} (w : α → List (TokenType × Option String)) (bound : Nat)
    (p p' : Parser) (fuel : Nat) (r : Option α) (hw : ∀ a, 0 < (w a).length)
    (h : Good w bound p fuel (.ok (r, p'))) :
    p.m_index ≤ p'.m_index ∧ (r.isSome = true → p.m_index < p'.m_index)
      ∧ p'.m_tokens = p.m_tokens := by
  cases r with
  | none =>
    have e : p' = p := h
    subst e
    exact ⟨le_refl _, fun h => by simp at h, rfl⟩
  | some a =>
    have c : p.Consumed p' (w a) := h
    obtain ⟨_, l2, l3, _⟩ := Parser.consumed_length _ _ _ c
    have := hw a
    exact ⟨by omega, fun _ => by omega, l3⟩

/-- C35: `parse_prog` terminates on every token list.  With fuel of three times the number
of tokens, and three more, the run never ends for lack of fuel, and its result is the one
for every larger amount of fuel; each parser function has such a bound (linear in the number
of tokens not yet consumed), which decreases from a call to every call and loop turn it
makes.  The index never decreases and stays in the same token
list: a call that returns a node has moved it forward, a call that returns none has left it
where it was, `consume` moves it by one.  So every turn of the loops of `parse_prog` and
`parse_scope` that continues (one for which `parse_stmt` returned a statement) and every turn
of the loop of `parse_expr` that continues (one that consumed an operator) has consumed a
token.  A run of `parse_prog` on `n` tokens makes at most `2 * n + 3` calls of the parser
functions in all, whether it returns or halts. -/
theorem C35_parse_prog_terminates :
    (∀ (p : Parser) (fuel : Nat), 3 * p.rest.length + 3 ≤ fuel →
      Parser.parse_prog fuel p ≠ .error .out_of_fuel
      ∧ Parser.parse_prog fuel p = Parser.parse_prog (3 * p.rest.length + 3) p)
    ∧ (∀ (p : Parser) (fuel : Nat),
      (2 * p.rest.length + 1 ≤ fuel → Parser.parse_term fuel p ≠ .error .out_of_fuel)
      ∧ (∀ mp, 2 * p.rest.length + 2 ≤ fuel →
          Parser.parse_expr fuel mp p ≠ .error .out_of_fuel)
      ∧ (∀ mp lhs, 2 * p.rest.length + 1 ≤ fuel →
          Parser.parse_expr_loop fuel mp lhs p ≠ .error .out_of_fuel)
      ∧ (3 * p.rest.length + 1 ≤ fuel → Parser.parse_scope fuel p ≠ .error .out_of_fuel)
      ∧ (∀ stmts, 3 * p.rest.length + 3 ≤ fuel →
          Parser.parse_scope_loop fuel stmts p ≠ .error .out_of_fuel)
      ∧ (3 * p.rest.length + 1 ≤ fuel → Parser.parse_if_pred fuel p ≠ .error .out_of_fuel)
      ∧ (3 * p.rest.length + 2 ≤ fuel → Parser.parse_stmt fuel p ≠ .error .out_of_fuel))
    ∧ (∀ (fuel : Nat) (p p' : Parser),
      (∀ r, Parser.parse_term fuel p = .ok (r, p') →
        p.m_index ≤ p'.m_index ∧ (r.isSome = true → p.m_index < p'.m_index)
          ∧ p'.m_tokens = p.m_tokens)
      ∧ (∀ mp r, Parser.parse_expr fuel mp p = .ok (r, p') →
        p.m_index ≤ p'.m_index ∧ (r.isSome = true → p.m_index < p'.m_index)
          ∧ p'.m_tokens = p.m_tokens)
      ∧ (∀ mp lhs r, Parser.parse_expr_loop fuel mp lhs p = .ok (r, p') →
        p.m_index ≤ p'.m_index ∧ p'.m_tokens = p.m_tokens)
      ∧ (∀ r, Parser.parse_scope fuel p = .ok (r, p') →
        p.m_index ≤ p'.m_index ∧ (r.isSome = true → p.m_index < p'.m_index)
          ∧ p'.m_tokens = p.m_tokens)
      ∧ (∀ stmts r, Parser.parse_scope_loop fuel stmts p = .ok (r, p') →
        p.m_index ≤ p'.m_index ∧ p'.m_tokens = p.m_tokens)
      ∧ (∀ r, Parser.parse_if_pred fuel p = .ok (r, p') →
        p.m_index ≤ p'.m_index ∧ (r.isSome = true → p.m_index < p'.m_index)
          ∧ p'.m_tokens = p.m_tokens)
      ∧ (∀ r, Parser.parse_stmt fuel p = .ok (r, p') →
        p.m_index ≤ p'.m_index ∧ (r.isSome = true → p.m_index < p'.m_index)
          ∧ p'.m_tokens = p.m_tokens)
      ∧ (∀ prog, Parser.parse_prog fuel p = .ok (prog, p') →
        p.m_index ≤ p'.m_index ∧ p'.m_tokens = p.m_tokens ∧ p'.rest = [])
      ∧ (∀ t, p.consume = .ok (t, p') → p'.m_index = p.m_index + 1
          ∧ p'.m_tokens = p.m_tokens))
    ∧ (∀ (fuel : Nat) (p : Parser), calls_prog fuel p ≤ 2 * p.rest.length + 3) := by
  refine ⟨?_, ?_, ?_, calls_prog_le⟩
  · intro p fuel hb
    exact ⟨fun he => (parse_prog_loop_good fuel [] p).1 _ he hb rfl, parse_prog_fuel p fuel hb⟩
  · intro p fuel
    obtain ⟨e1, e2, e3⟩ := parse_expr_good fuel
    obtain ⟨s1, s2, s3, s4⟩ := parse_stmt_good fuel
    refine ⟨good_ne _ _ _ _ _ (e1 p), fun mp => good_ne _ _ _ _ _ (e2 mp p), ?_,
      good_ne _ _ _ _ _ (s1 p), ?_, good_ne _ _ _ _ _ (s3 p), good_ne _ _ _ _ _ (s4 p)⟩
    · intro mp lhs hb he
      have := e3 mp lhs p
      rw [he] at this
      exact this hb rfl
    · intro stmts hb he
      have := s2 stmts p
      rw [he] at this
      exact this hb rfl
  · intro fuel p p'
    obtain ⟨e1, e2, e3⟩ := parse_expr_good fuel
    obtain ⟨s1, s2, s3, s4⟩ := parse_stmt_good fuel
    refine ⟨?_, ?_, ?_, ?_, ?_, ?_, ?_, ?_, ?_⟩
    · intro r h
      have := e1 p
      rw [h] at this
      exact good_index _ _ _ _ _ _ term_toks_pos this
    · intro mp r h
      have := e2 mp p
      rw [h] at this
      exact good_index _ _ _ _ _ _ expr_toks_pos this
    · intro mp lhs r h
      have := e3 mp lhs p
      rw [h] at this
      cases r with
      | none => exact this.elim
      | some e =>
        obtain ⟨w, c, _⟩ : ∃ w, p.Consumed p' w ∧ expr_toks e = expr_toks lhs ++ w := this
        obtain ⟨_, l2, l3, _⟩ := Parser.consumed_length _ _ _ c
        exact ⟨by omega, l3⟩
    · intro r h
      have := s1 p
      rw [h] at this
      exact good_index _ _ _ _ _ _ scope_toks_pos this
    · intro stmts r h
      have := s2 stmts p
      rw [h] at this
      obtain ⟨new, _, c⟩ : ∃ new, r = stmts ++ new ∧ p.Consumed p' (stmts_toks new) := this
      obtain ⟨_, l2, l3, _⟩ := Parser.consumed_length _ _ _ c
      exact ⟨by omega, l3⟩
    · intro r h
      have := s3 p
      rw [h] at this
      exact good_index _ _ _ _ _ _ pred_toks_pos this
    · intro r h
      have := s4 p
      rw [h] at this
      exact good_index _ _ _ _ _ _ stmt_toks_pos this
    · intro prog h
      obtain ⟨new, _, c, hr⟩ := (parse_prog_loop_good fuel [] p).2 prog p' h
      obtain ⟨_, l2, l3, _⟩ := Parser.consumed_length _ _ _ c
      exact ⟨by omega, l3, hr⟩
    · intro t h
      obtain ⟨_, h2, _⟩ := Parser.consume_consumed p p' t h
      rw [h2]
      exact ⟨rfl, rfl⟩

/-- C35 at the tokens of `let x = 5;`, and at the unclosed `(` of `exit((1 + 2;`, where the
run ends with a diagnostic. -/
theorem C35_parse_prog_terminates_witness :
    3 * (⟨"m.l", toks_let_x_5, 0⟩ : Parser).rest.length + 3 ≤ 20
    ∧ (Parser.parse_prog 20 ⟨"m.l", toks_let_x_5, 0⟩ ≠ .error .out_of_fuel
      ∧ Parser.parse_prog 20 ⟨"m.l", toks_let_x_5, 0⟩
        = Parser.parse_prog (3 * (⟨"m.l", toks_let_x_5, 0⟩ : Parser).rest.length + 3)
            ⟨"m.l", toks_let_x_5, 0⟩)
    ∧ 3 * (⟨"m.l", toks_unclosed_paren, 0⟩ : Parser).rest.length + 3 ≤ 24
    ∧ (Parser.parse_prog 24 ⟨"m.l", toks_unclosed_paren, 0⟩ ≠ .error .out_of_fuel
      ∧ Parser.parse_prog 24 ⟨"m.l", toks_unclosed_paren, 0⟩
        = Parser.parse_prog (3 * (⟨"m.l", toks_unclosed_paren, 0⟩ : Parser).rest.length + 3)
            ⟨"m.l", toks_unclosed_paren, 0⟩)
    ∧ Parser.parse_prog 18 ⟨"m.l", toks_let_x_5, 0⟩
        = .ok (⟨[.let_ (tok_ident "x") (e_int "5")]⟩, ⟨"m.l", toks_let_x_5, 5⟩)
    ∧ ((⟨"m.l", toks_let_x_5, 0⟩ : Parser).m_index
        ≤ (⟨"m.l", toks_let_x_5, 5⟩ : Parser).m_index
      ∧ (⟨"m.l", toks_let_x_5, 5⟩ : Parser).m_tokens
        = (⟨"m.l", toks_let_x_5, 0⟩ : Parser).m_tokens
      ∧ (⟨"m.l", toks_let_x_5, 5⟩ : Parser).rest = [])
    ∧ calls_prog 20 ⟨"m.l", toks_let_x_5, 0⟩ = 4
    ∧ calls_prog 24 ⟨"m.l", toks_unclosed_paren, 0⟩ = 8 :=
  ⟨by decide, C35_parse_prog_terminates.1 ⟨"m.l", toks_let_x_5, 0⟩ 20 (by decide), by decide,
    C35_parse_prog_terminates.1 ⟨"m.l", toks_unclosed_paren, 0⟩ 24 (by decide), rfl,
    (C35_parse_prog_terminates.2.2.1 18 ⟨"m.l", toks_let_x_5, 0⟩
      ⟨"m.l", toks_let_x_5, 5⟩).2.2.2.2.2.2.2.1 _ rfl, by decide, by decide⟩

end Lithium
